import Mathlib

/-! GPIB converter firmware (`sw/main.c`): a shallow embedding.

Bytes (`unsigned char`) are natural numbers below 256; every place where the C
arithmetic can leave that range carries an explicit `% 256`.  A C pointer into
a byte array is a function from (signed) offsets to bytes, so that `buf[len-1]`
with `len = 0` reads the byte in front of the pointer exactly as the C code does.
-/

namespace Gpib

/-! ## Hex codec (`main.c` lines 434-483) -/

/-- C library `toupper` in the "C" locale: `'a'..'z'` map to `'A'..'Z'`, every
other value is returned unchanged. -/
def toupper (c : Nat) : Nat :=
  if 97 ≤ c ∧ c ≤ 122 then c - 32 else c

/-- Macro `ishexdigit(x)`: `'0'..'9'` or `'A'..'F'`. -/
def ishexdigit (x : Nat) : Bool :=
  (decide (48 ≤ x) && decide (x ≤ 57)) || (decide (65 ≤ x) && decide (x ≤ 70))

/-- Function `hex2dec`: `x-'0'` for a decimal digit, `10+x-'A'` otherwise, the
result converted to `unsigned char`. -/
def hex2dec (x : Nat) : Nat :=
  if 48 ≤ x ∧ x ≤ 57 then x - 48 else (10 + x + 256 - 65) % 256

/-- Result of `CheckHexMsg`: the return value, the bytes stored through
`outputMsg` (in order, starting at `outputMsg[0]`), the value left in
`*outputLen` and the value left in `*eoi`.  When the function returns before
line 471, `outputMsg` and `*outputLen` are not written: the model then reports
no stored bytes and length 0, and the caller keeps its old values. -/
structure HexMsg where
  ret : Nat
  outputMsg : List Nat
  outputLen : Nat
  eoi : Nat
deriving DecidableEq

/-- The validation loop `for (i=2; i<len; i++) if (!ishexdigit(toupper(buf[i]))) return 0;`
(lines 465-469).  Returns `true` when the loop runs to its end.  `i` is an
`unsigned char`; `fuel` bounds the number of iterations. -/
def hexDigitsOk (buf : Int → Nat) (len : Nat) : Nat → Nat → Bool
  | 0, _ => true
  | fuel + 1, i =>
    if i < len then
      if ishexdigit (toupper (buf i)) then hexDigitsOk buf len fuel ((i + 1) % 256)
      else false
    else true

/-- The decoding loop of lines 473-480: for `i = 2, 4, ...` below `len` one byte
`(hex2dec(toupper(buf[i])) << 4) + hex2dec(toupper(buf[i+1]))` is stored, with
`unsigned char` truncation after the shift and after the addition. -/
def hexDecode (buf : Int → Nat) (len : Nat) : Nat → Nat → List Nat
  | 0, _ => []
  | fuel + 1, i =>
    if i < len then
      ((hex2dec (toupper (buf i)) * 16) % 256 + hex2dec (toupper (buf (i + 1)))) % 256
        :: hexDecode buf len fuel ((i + 2) % 256)
    else []

/-- The length in force after lines 453-457: one less (as `unsigned char`) when
the tag is `D`/`d` and the last character is `';'`. -/
def hexEffLen (buf : Int → Nat) (len : Nat) : Nat :=
  if toupper (buf 1) = 68 ∧ buf ((len : Int) - 1) = 59 then (len + 255) % 256 else len

/-- Function `CheckHexMsg(buf, len, outputMsg, outputLen, eoi)`. -/
def CheckHexMsg (buf : Int → Nat) (len : Nat) : HexMsg :=
  let eoi := if toupper (buf 1) = 68 ∧ buf ((len : Int) - 1) = 59 then 0 else 1
  let len := hexEffLen buf len
  if len % 2 = 1 ∨ len < 4 then ⟨0, [], 0, eoi⟩
  else if buf 0 ≠ 48 ∨ (toupper (buf 1) ≠ 67 ∧ toupper (buf 1) ≠ 68) then ⟨0, [], 0, eoi⟩
  else if hexDigitsOk buf len len 2 = false then ⟨0, [], 0, eoi⟩
  else
    let msg := hexDecode buf len len 2
    ⟨1, msg, msg.length % 256, eoi⟩

/-- A byte string seen through a pointer to its first byte; offsets outside the
string read as 0. -/
def ptr (s : List Nat) : Int → Nat :=
  fun i => if i < 0 then 0 else s.getD i.toNat 0

/-- The bytes of a string literal. -/
def bytes (s : String) : List Nat := s.toList.map Char.toNat



/-! ## Byte arrays -/

/-- Read `a[i]` on a C array; the arrays of the program are lists of fixed length. -/
def rd (a : List Nat) (i : Nat) : Nat := a.getD i 0

/-- Assignment `a[i] = v`. -/
def wr (a : List Nat) (i v : Nat) : List Nat := a.set i v

/-- C library `memmove(&dst[d], &src[s], n)`: the `n` bytes are read from the old contents
(`src` may be `dst` itself, overlapping regions included). -/
def memmove (dst : List Nat) (d : Nat) (src : List Nat) (s n : Nat) : List Nat :=
  (List.range dst.length).map
    (fun j => if d ≤ j ∧ j < d + n then src.getD (s + (j - d)) 0 else dst.getD j 0)

/-- The C string that starts at `&a[start]`: the bytes before the first NUL. -/
def cstr (a : List Nat) (start : Nat) : List Nat :=
  (a.drop start).takeWhile (fun b => b != 0)

/-- C library `strlen(&a[start])`, converted to `unsigned char` by its callers. -/
def strlen (a : List Nat) (start : Nat) : Nat := (cstr a start).length

/-- Test `strcmp(&a[i], &b[j]) == 0`. -/
def strcmpEq (a : List Nat) (i : Nat) (b : List Nat) (j : Nat) : Bool :=
  cstr a i == cstr b j

/-! ## Ports and pins (`main.c` lines 64-82, 146-163) -/

def EOI : Nat := 128
def DAV : Nat := 64
def NRFD : Nat := 32
def NDAC : Nat := 16
def IFC : Nat := 8
def SRQ : Nat := 4
def ATN : Nat := 2
def REN : Nat := 1

def GPIB_MAX_RECEIVE_TIMEOUT : Nat := 50000
def GPIB_MAX_TRANSMIT_TIMEOUT : Nat := 50000
def MAX_COMMANDS : Nat := 15
def BUF_SIZE : Nat := 64
def GPIB_BUF_SIZE : Nat := 128
def EMPTY_LINE : Nat := 1

/-- Output registers written by the program. -/
inductive Reg where
  | DDRA | PORTA | DDRC | PORTC | PORTD
deriving DecidableEq

/-- Levels of the input pins: `pinc k` and `pina k` are the values a read of
`PINC` or `PINA` returns when it is the `k`-th pin read of the run.  Every
behaviour of the bus is some choice of these two functions. -/
structure Pins where
  pinc : Nat → Nat
  pina : Nat → Nat

/-- Hardware state: the output registers, the number of pin reads made so far
and the chronological list of register writes. -/
structure Hw where
  DDRA : Nat
  PORTA : Nat
  DDRC : Nat
  PORTC : Nat
  PORTD : Nat
  reads : Nat
  writes : List (Reg × Nat)

/-- Assignment `PORTC = v`. -/
def setPORTC (h : Hw) (v : Nat) : Hw :=
  { h with PORTC := v, writes := h.writes ++ [(Reg.PORTC, v)] }

/-- Assignment `PORTA = v`. -/
def setPORTA (h : Hw) (v : Nat) : Hw :=
  { h with PORTA := v, writes := h.writes ++ [(Reg.PORTA, v)] }

/-- Assignment `PORTD = v`. -/
def setPORTD (h : Hw) (v : Nat) : Hw :=
  { h with PORTD := v, writes := h.writes ++ [(Reg.PORTD, v)] }

/-- Assignment `DDRA = v`. -/
def setDDRA (h : Hw) (v : Nat) : Hw :=
  { h with DDRA := v, writes := h.writes ++ [(Reg.DDRA, v)] }

/-- Assignment `DDRC = v`. -/
def setDDRC (h : Hw) (v : Nat) : Hw :=
  { h with DDRC := v, writes := h.writes ++ [(Reg.DDRC, v)] }

/-- The macros `SetEOI(x)` ... `SetREN(x)`:
`PORTC = x ? (PORTC | bit) : (PORTC & ~bit)`. -/
def setBitC (bit : Nat) (x : Nat) (h : Hw) : Hw :=
  setPORTC h (if x ≠ 0 then h.PORTC ||| bit else h.PORTC &&& (255 - bit))

/-- Macro `SetLed(x)`: `PORTD = (x==0) ? (PORTD | _BV(PD2)) : (PORTD & ~_BV(PD2))`. -/
def SetLed (x : Nat) (h : Hw) : Hw :=
  setPORTD h (if x = 0 then h.PORTD ||| 4 else h.PORTD &&& (255 - 4))

/-- Function `ReconfigureGPIO_GPIBReceiveMode`. -/
def ReconfigureGPIO_GPIBReceiveMode (remoteState : Nat) (h : Hw) : Hw :=
  let h := setDDRA h 0
  let h := setPORTA h 255
  let h := setDDRC h (IFC ||| ATN ||| REN ||| NRFD ||| NDAC)
  setPORTC h (IFC ||| ATN ||| (if remoteState ≠ 0 then 0 else REN) ||| EOI ||| DAV ||| SRQ)

/-- Function `ReconfigureGPIO_GPIBNormalMode`. -/
def ReconfigureGPIO_GPIBNormalMode (remoteState : Nat) (h : Hw) : Hw :=
  let h := setDDRA h 255
  let h := setPORTA h 0
  let h := setDDRC h (IFC ||| ATN ||| REN ||| EOI ||| DAV)
  setPORTC h
    (IFC ||| ATN ||| (if remoteState ≠ 0 then 0 else REN) ||| EOI ||| DAV ||| SRQ ||| NRFD ||| NDAC)

/-! ## Bus transport (`main.c` lines 166-390) -/

/-- One timeout-bounded wait loop,
`while (<PINC & mask is not at the wanted level>) { timeout++; if (timeout > bound) <give up> }`.
The loop ends when `(PINC & mask) != 0` equals `wantHigh`.  Result: whether the
level was seen (`false`: the bound was exceeded), the read counter and the value
of `timeout`.  At most `bound + 1 - timeout` polls fail before the loop gives
up, so a `fuel` of `bound + 1` is never used up. -/
def waitPin (pins : Pins) (mask : Nat) (wantHigh : Bool) (bound : Nat) :
    Nat → Nat → Nat → Bool × Nat × Nat
  | 0, reads, timeout => (false, reads, timeout)
  | fuel + 1, reads, timeout =>
    if (decide (pins.pinc reads &&& mask ≠ 0)) = wantHigh then (true, reads + 1, timeout)
    else if timeout + 1 > bound then (false, reads + 1, timeout + 1)
    else waitPin pins mask wantHigh bound fuel (reads + 1) (timeout + 1)

/-- Result of the receive functions: return value, buffer, `*receivedLength`
and hardware state. -/
structure RecvResult where
  ret : Nat
  buf : List Nat
  receivedLength : Nat
  hw : Hw

/-- The `do ... while (index < bufLength)` loop of `GPIB_Receive`. -/
def GPIB_Receive_loop (pins : Pins) (bufLength : Nat) :
    Nat → Hw → List Nat → Nat → RecvResult
  | 0, hw, buf, index => ⟨0, buf, index, hw⟩
  | fuel + 1, hw, buf, index =>
    let hw := setBitC NRFD 1 hw
    let w1 := waitPin pins DAV false GPIB_MAX_RECEIVE_TIMEOUT
      (GPIB_MAX_RECEIVE_TIMEOUT + 1) hw.reads 0
    let hw := { hw with reads := w1.2.1 }
    if w1.1 = false then ⟨0, buf, index, setBitC NRFD 0 hw⟩
    else
      let hw := setBitC NRFD 0 hw
      let c := 255 - pins.pina hw.reads % 256
      let hw := { hw with reads := hw.reads + 1 }
      let buf := wr buf index c
      let index := (index + 1) % 256
      let hw := setBitC NDAC 1 hw
      let w2 := waitPin pins DAV true GPIB_MAX_RECEIVE_TIMEOUT
        (GPIB_MAX_RECEIVE_TIMEOUT + 1) hw.reads w1.2.2
      let hw := { hw with reads := w2.2.1 }
      if w2.1 = false then ⟨0, buf, index, setBitC NDAC 0 hw⟩
      else
        let hw := setBitC NDAC 0 hw
        if index < bufLength then GPIB_Receive_loop pins bufLength fuel hw buf index
        else ⟨255, buf, index, hw⟩

/-- Function `GPIB_Receive(buf, bufLength, receivedLength)`. -/
def GPIB_Receive (pins : Pins) (hw : Hw) (buf : List Nat) (bufLength : Nat) : RecvResult :=
  GPIB_Receive_loop pins bufLength (bufLength + 1) hw buf 0

/-- The `do ... while ((index < bufLength) && (eoi == 0))` loop of
`GPIB_Receive_till_eoi`. -/
def GPIB_Receive_till_eoi_loop (pins : Pins) (bufLength : Nat) :
    Nat → Hw → List Nat → Nat → Nat → RecvResult
  | 0, hw, buf, index, _ => ⟨0, buf, index, hw⟩
  | fuel + 1, hw, buf, index, eoi =>
    let hw := setBitC NRFD 1 hw
    let w1 := waitPin pins DAV false GPIB_MAX_RECEIVE_TIMEOUT
      (GPIB_MAX_RECEIVE_TIMEOUT + 1) hw.reads 0
    let hw := { hw with reads := w1.2.1 }
    if w1.1 = false then ⟨0, buf, index, setBitC NRFD 0 hw⟩
    else
      let eoi := if pins.pinc hw.reads &&& EOI = 0 then 1 else eoi
      let hw := { hw with reads := hw.reads + 1 }
      let hw := setBitC NRFD 0 hw
      let c := 255 - pins.pina hw.reads % 256
      let hw := { hw with reads := hw.reads + 1 }
      let buf := wr buf index c
      let index := (index + 1) % 256
      let hw := setBitC NDAC 1 hw
      let w2 := waitPin pins DAV true GPIB_MAX_RECEIVE_TIMEOUT
        (GPIB_MAX_RECEIVE_TIMEOUT + 1) hw.reads w1.2.2
      let hw := { hw with reads := w2.2.1 }
      if w2.1 = false then ⟨0, buf, index, setBitC NDAC 0 hw⟩
      else
        let hw := setBitC NDAC 0 hw
        if index < bufLength ∧ eoi = 0 then
          GPIB_Receive_till_eoi_loop pins bufLength fuel hw buf index eoi
        else ⟨255, buf, index, hw⟩

/-- Function `GPIB_Receive_till_eoi(buf, bufLength, receivedLength)`. -/
def GPIB_Receive_till_eoi (pins : Pins) (hw : Hw) (buf : List Nat) (bufLength : Nat) :
    RecvResult :=
  GPIB_Receive_till_eoi_loop pins bufLength (bufLength + 1) hw buf 0 0

/-- The `do ... while ((index < bufLength) && (c != 10))` loop of
`GPIB_Receive_till_lf`. -/
def GPIB_Receive_till_lf_loop (pins : Pins) (bufLength : Nat) :
    Nat → Hw → List Nat → Nat → RecvResult
  | 0, hw, buf, index => ⟨0, buf, index, hw⟩
  | fuel + 1, hw, buf, index =>
    let hw := setBitC NRFD 1 hw
    let w1 := waitPin pins DAV false GPIB_MAX_RECEIVE_TIMEOUT
      (GPIB_MAX_RECEIVE_TIMEOUT + 1) hw.reads 0
    let hw := { hw with reads := w1.2.1 }
    if w1.1 = false then ⟨0, buf, index, setBitC NRFD 0 hw⟩
    else
      let hw := setBitC NRFD 0 hw
      let c := 255 - pins.pina hw.reads % 256
      let hw := { hw with reads := hw.reads + 1 }
      let buf := wr buf index c
      let index := (index + 1) % 256
      let hw := setBitC NDAC 1 hw
      let w2 := waitPin pins DAV true GPIB_MAX_RECEIVE_TIMEOUT
        (GPIB_MAX_RECEIVE_TIMEOUT + 1) hw.reads w1.2.2
      let hw := { hw with reads := w2.2.1 }
      if w2.1 = false then ⟨0, buf, index, setBitC NDAC 0 hw⟩
      else
        let hw := setBitC NDAC 0 hw
        if index < bufLength ∧ c ≠ 10 then
          GPIB_Receive_till_lf_loop pins bufLength fuel hw buf index
        else ⟨255, buf, index, hw⟩

/-- Function `GPIB_Receive_till_lf(buf, bufLength, receivedLength)`. -/
def GPIB_Receive_till_lf (pins : Pins) (hw : Hw) (buf : List Nat) (bufLength : Nat) :
    RecvResult :=
  GPIB_Receive_till_lf_loop pins bufLength (bufLength + 1) hw buf 0

/-- The `do ... while (index < bufLength)` loop of `GPIB_Transmit`; the bytes
sent are `buf[off]`, `buf[off+1]`, ... -/
def GPIB_Transmit_loop (pins : Pins) (buf : List Nat) (off bufLength eoi : Nat) :
    Nat → Hw → Nat → Nat × Hw
  | 0, hw, _ => (0, hw)
  | fuel + 1, hw, index =>
    let hw := if index + 1 = bufLength ∧ eoi ≠ 0 then setBitC EOI 0 hw else hw
    let hw := setPORTA hw (255 - rd buf (off + index) % 256)
    let index := (index + 1) % 256
    let w1 := waitPin pins NRFD true GPIB_MAX_TRANSMIT_TIMEOUT
      (GPIB_MAX_TRANSMIT_TIMEOUT + 1) hw.reads 0
    let hw := { hw with reads := w1.2.1 }
    if w1.1 = false then (0, setBitC EOI 1 hw)
    else
      let hw := setBitC DAV 0 hw
      let w2 := waitPin pins NDAC true GPIB_MAX_TRANSMIT_TIMEOUT
        (GPIB_MAX_TRANSMIT_TIMEOUT + 1) hw.reads w1.2.2
      let hw := { hw with reads := w2.2.1 }
      if w2.1 = false then (0, setBitC DAV 1 (setBitC EOI 1 hw))
      else
        let hw := setBitC DAV 1 (setBitC EOI 1 hw)
        if index < bufLength then GPIB_Transmit_loop pins buf off bufLength eoi fuel hw index
        else (255, hw)

/-- Function `GPIB_Transmit(buf + off, bufLength, eoi)`.  The entry test reads
`PINC` once for `NRFD` and, when that bit is set, once more for `NDAC`. -/
def GPIB_Transmit (pins : Pins) (hw : Hw) (buf : List Nat) (off bufLength eoi : Nat) :
    Nat × Hw :=
  if bufLength = 0 then (0, hw)
  else if pins.pinc hw.reads &&& NRFD ≠ 0 then
    if pins.pinc (hw.reads + 1) &&& NDAC ≠ 0 then (0, { hw with reads := hw.reads + 2 })
    else GPIB_Transmit_loop pins buf off bufLength eoi bufLength
      { hw with reads := hw.reads + 2 } 0
  else GPIB_Transmit_loop pins buf off bufLength eoi bufLength
    { hw with reads := hw.reads + 1 } 0

/-! ### One pass of a transfer loop

The bodies of the `do ... while` loops above, as functions of their own: the
loops are these passes repeated (`GPIB_Transmit_loop_succ` and the like). -/

/-- Outcome of one pass of the loop of `GPIB_Transmit`: `phase` is 0 when the
wait for `NRFD` gave up, 1 when the wait for `NDAC` gave up, 2 when the pass ran
to its end; `timeout` is the last value of the local counter `timeout`. -/
structure TxPass where
  phase : Nat
  timeout : Nat
  hw : Hw

/-- One pass of the loop of `GPIB_Transmit` (lines 347-385) for byte `index`. -/
def txPass (pins : Pins) (buf : List Nat) (off bufLength eoi : Nat) (hw : Hw) (index : Nat) :
    TxPass :=
  let hw := if index + 1 = bufLength ∧ eoi ≠ 0 then setBitC EOI 0 hw else hw
  let hw := setPORTA hw (255 - rd buf (off + index) % 256)
  let w1 := waitPin pins NRFD true GPIB_MAX_TRANSMIT_TIMEOUT
    (GPIB_MAX_TRANSMIT_TIMEOUT + 1) hw.reads 0
  let hw := { hw with reads := w1.2.1 }
  if w1.1 = false then ⟨0, w1.2.2, setBitC EOI 1 hw⟩
  else
    let hw := setBitC DAV 0 hw
    let w2 := waitPin pins NDAC true GPIB_MAX_TRANSMIT_TIMEOUT
      (GPIB_MAX_TRANSMIT_TIMEOUT + 1) hw.reads w1.2.2
    let hw := { hw with reads := w2.2.1 }
    if w2.1 = false then ⟨1, w2.2.2, setBitC DAV 1 (setBitC EOI 1 hw)⟩
    else ⟨2, w2.2.2, setBitC DAV 1 (setBitC EOI 1 hw)⟩

/-- Outcome of one pass of a receive loop: `phase` is 0 when the wait for `DAV`
low gave up (no byte taken), 1 when the wait for `DAV` high gave up (byte `c`
taken), 2 when the pass ran to its end; `timeout` is the last value of the local
counter; `eoiLow` is the `EOI` sample of `GPIB_Receive_till_eoi`. -/
structure RxPass where
  phase : Nat
  timeout : Nat
  c : Nat
  eoiLow : Bool
  hw : Hw

/-- One pass of a receive loop (lines 174-214, 231-272, 291-329); `withEoi`
selects the pass of `GPIB_Receive_till_eoi`, which samples `EOI` once `DAV` is
low. -/
def rxPass (pins : Pins) (withEoi : Bool) (hw : Hw) : RxPass :=
  let hw := setBitC NRFD 1 hw
  let w1 := waitPin pins DAV false GPIB_MAX_RECEIVE_TIMEOUT
    (GPIB_MAX_RECEIVE_TIMEOUT + 1) hw.reads 0
  let hw := { hw with reads := w1.2.1 }
  if w1.1 = false then ⟨0, w1.2.2, 0, false, setBitC NRFD 0 hw⟩
  else
    let eoiLow := withEoi && decide (pins.pinc hw.reads &&& EOI = 0)
    let hw := if withEoi then { hw with reads := hw.reads + 1 } else hw
    let hw := setBitC NRFD 0 hw
    let c := 255 - pins.pina hw.reads % 256
    let hw := { hw with reads := hw.reads + 1 }
    let hw := setBitC NDAC 1 hw
    let w2 := waitPin pins DAV true GPIB_MAX_RECEIVE_TIMEOUT
      (GPIB_MAX_RECEIVE_TIMEOUT + 1) hw.reads w1.2.2
    let hw := { hw with reads := w2.2.1 }
    if w2.1 = false then ⟨1, w2.2.2, c, eoiLow, setBitC NDAC 0 hw⟩
    else ⟨2, w2.2.2, c, eoiLow, setBitC NDAC 0 hw⟩

/-! ## Serial output helpers -/

/-- Output of `printf("%d", n)` for a non-negative `n`. -/
def fmtD (n : Nat) : List Nat := (Nat.toDigits 10 n).map Char.toNat

/-- Output of `printf("%02d", n)` for a non-negative `n`. -/
def fmt02d (n : Nat) : List Nat := if n < 10 then 48 :: fmtD n else fmtD n

/-- Output of `printf("%02x", n)`: lower-case hex, zero-padded to two digits. -/
def fmt02x (n : Nat) : List Nat :=
  if n < 16 then 48 :: (Nat.toDigits 16 n).map Char.toNat
  else (Nat.toDigits 16 n).map Char.toNat

/-- The table `helpStrings`. -/
def helpStrings : List String :=
  ["GPIB to USB converter v4\r\n\r\n",
   "Transmit commands, OK/TIMEOUT/ERROR\r\n",
   "  <D> Data (ATN false), <M> Data without EOI\r\n",
   "  <C> Command (ATN true)\r\n",
   "  <T> Hex transmit (0C - command, 0D - data)\r\n",
   "Receive commands (receives until EOI,max 127 bytes)\r\n",
   "  <X> ASCII, <payload> or TIMEOUT\r\n",
   "  <Y> BINARY, <length><payload>\r\n",
   "  <Z> HEX, <length><payload>\r\n",
   "  <P> Continous read (plotter mode)\r\n",
   "General commands\r\n",
   "  <A> Set/get converter talk address\r\n",
   "  <S> Get REQ/SRQ/LISTEN state (1 if true)\r\n",
   "  <R> Set REMOTE mode (REN true)\r\n",
   "  <L> Set LOCAL mode (REN false)\r\n",
   "  <I> Generate IFC pulse\r\n",
   "  <E> Get/set echo on(E1)/off(E0)\r\n",
   "  <H> Commands history\r\n"]

/-- C library `isdigit`. -/
def isdigit (c : Nat) : Bool := decide (48 ≤ c) && decide (c ≤ 57)

/-- The digit loop of `atoi`: the accumulator is a 16-bit register (avr-libc),
so it wraps modulo `2^16`. -/
def atoiDigits : List Nat → Nat → Nat
  | [], acc => acc
  | c :: rest, acc =>
    if isdigit c then atoiDigits rest ((acc * 10 + (c - 48)) % 65536) else acc

/-- Leading white space skipped by `atoi`. -/
def atoiSkip : List Nat → List Nat
  | [] => []
  | c :: rest => if c = 32 ∨ (9 ≤ c ∧ c ≤ 13) then atoiSkip rest else c :: rest

/-- C library `atoi(&a[start])` with a 16-bit `int`: white space, an optional
sign, then decimal digits up to the first other byte. -/
def atoi (a : List Nat) (start : Nat) : Int :=
  let toInt16 : Nat → Int := fun v => if v < 32768 then (v : Int) else (v : Int) - 65536
  match atoiSkip (a.drop start) with
  | [] => 0
  | c :: rest =>
    if c = 45 then toInt16 ((65536 - atoiDigits rest 0) % 65536)
    else if c = 43 then toInt16 (atoiDigits rest 0)
    else toInt16 (atoiDigits (c :: rest) 0)

/-! ## The command loop (`main.c` lines 496-1122)

The endless loop of `main` is a machine that consumes the serial link.  It
waits at four program points: for the next byte of a line (`edit`), for the
second and third byte of an escape sequence inside `UART_RcvEscapeSeq` (`esc1`,
`esc2`), and, inside the `P` handler, it polls the link between two bus
receptions (`plotter`).  An event is either a received byte or, for the
`plotter` poll, the observation that no byte is available. -/

/-- Program point at which `main` waits for the serial link. -/
inductive Mode where
  | edit | esc1 | esc2 | plotter
deriving DecidableEq

/-- What the serial link delivers at a poll. -/
inductive Event where
  | byte (c : Nat)
  | idle
deriving DecidableEq

/-- The globals of `main.c` and the locals of `main` that live across loop
iterations, the hardware state and the bytes sent to the serial link.
`ledBlinking` is 0 (`OFF`), 1 (`SLOW`) or 2 (`FAST`); the timer interrupt that
reads it is outside the model. -/
structure State where
  mode : Mode
  ledBlinking : Nat
  listenAddress : Nat
  msgEndSeq : Nat
  remoteState : Nat
  commandsHistory : List Nat
  savedCommands : Nat
  selectedCommand : Nat
  listenMode : Nat
  listenMode_prev : Nat
  buf : List Nat
  msgBuf : List Nat
  gpibBuf : List Nat
  bufPos : Nat
  cursorPos : Nat
  localEcho : Nat
  gpibIndex : Nat
  command : Nat
  msgLen : Nat
  msgEOI : Nat
  hw : Hw
  out : List Nat

/-- Call `UART_transmit(c)`. -/
def State.put (s : State) (c : Nat) : State := { s with out := s.out ++ [c] }

/-- A run of `UART_transmit` calls, or `printf` of already formatted bytes. -/
def State.puts (s : State) (l : List Nat) : State := { s with out := s.out ++ l }

/-- Call of `printf` with a string literal only. -/
def State.print (s : State) (l : String) : State := s.puts (bytes l)

/-- Function `ShowHelp`: every table row is shorter than 64 bytes, so `"%s"`
prints it whole. -/
def ShowHelp (s : State) : State :=
  s.puts (helpStrings.flatMap bytes)

/-- The echo sequence shared by the history-recall branches (lines 604-614):
blanks up to the end of the line, then `bufPos` times backspace-blank-backspace.
The two loops leave `cursorPos` and `bufPos` modified, but every caller
overwrites both right after. -/
def eraseLineEcho (s : State) : State :=
  (s.puts (List.replicate (s.bufPos - s.cursorPos) 32)).puts
    ((List.replicate s.bufPos [8, 32, 8]).flatten)

/-- Byte `0x08` (lines 560-587). -/
def backspace (s : State) : State :=
  if s.bufPos > 0 ∧ s.cursorPos = s.bufPos then
    let s := { s with bufPos := (s.bufPos + 255) % 256, cursorPos := (s.cursorPos + 255) % 256 }
    if s.localEcho ≠ 0 then s.puts [8, 32, 8] else s
  else if s.bufPos > 0 ∧ s.cursorPos > 0 then
    let s := { s with bufPos := (s.bufPos + 255) % 256, cursorPos := (s.cursorPos + 255) % 256 }
    let s := { s with buf := memmove s.buf s.cursorPos s.buf (s.cursorPos + 1)
                                (s.bufPos - s.cursorPos) }
    if s.localEcho ≠ 0 then
      let s := s.put 8
      let s := { s with buf := wr s.buf s.bufPos 0 }
      let s := s.puts (cstr s.buf s.cursorPos ++ [32])
      s.puts (List.replicate (s.bufPos + 1 - s.cursorPos) 8)
    else s
  else s

/-- Any byte other than backspace, LF, ESC and CR (lines 709-735). -/
def insertChar (s : State) (c : Nat) : State :=
  if s.bufPos < BUF_SIZE - 1 then
    if s.cursorPos = s.bufPos then
      let s := { s with buf := wr s.buf s.bufPos c, bufPos := (s.bufPos + 1) % 256,
                        cursorPos := (s.cursorPos + 1) % 256 }
      if s.localEcho ≠ 0 then s.put c else s
    else
      let s := { s with buf := memmove s.buf (s.cursorPos + 1) s.buf s.cursorPos
                                  (s.bufPos - s.cursorPos) }
      let s := { s with buf := wr s.buf s.cursorPos c, cursorPos := (s.cursorPos + 1) % 256 }
      let s := { s with bufPos := (s.bufPos + 1) % 256 }
      let s := { s with buf := wr s.buf s.bufPos 0 }
      if s.localEcho ≠ 0 then
        let s := s.put c
        let s := s.puts (cstr s.buf s.cursorPos)
        s.puts (List.replicate (s.bufPos - s.cursorPos) 8)
      else s
  else s

/-- Copy history entry `selectedCommand` into the line (lines 601-618 and
645-662). -/
def recallEntry (s : State) : State :=
  let s := { s with buf := memmove s.buf 0 s.commandsHistory (s.selectedCommand * BUF_SIZE)
                              BUF_SIZE }
  let s := if s.localEcho ≠ 0 then (eraseLineEcho s).puts (cstr s.buf 0) else s
  let n := strlen s.buf 0 % 256
  { s with bufPos := n, cursorPos := n }

/-- The `switch` on the last byte of an escape sequence (lines 597-694). -/
def escapeKey (s : State) (k : Nat) : State :=
  if k = 0x41 then
    recallEntry { s with selectedCommand := if s.selectedCommand ≠ 0 then s.selectedCommand - 1 else 0 }
  else if k = 0x42 then
    if s.selectedCommand + 1 = s.savedCommands then
      let s := { s with selectedCommand := s.savedCommands }
      let s := if s.localEcho ≠ 0 then eraseLineEcho s else s
      { s with bufPos := 0, cursorPos := 0 }
    else if s.selectedCommand + 1 < s.savedCommands then
      recallEntry { s with selectedCommand := s.selectedCommand + 1 }
    else s
  else if k = 0x44 then
    if s.cursorPos ≠ 0 then
      let s := { s with cursorPos := (s.cursorPos + 255) % 256 }
      if s.localEcho ≠ 0 then s.puts [0x1B, 0x5B, 68] else s
    else s
  else if k = 0x43 then
    if s.cursorPos < s.bufPos then
      let s := { s with cursorPos := (s.cursorPos + 1) % 256 }
      if s.localEcho ≠ 0 then s.puts [0x1B, 0x5B, 67] else s
    else s
  else s

/-- The end-of-message bytes appended before a transmission (lines 743-751,
771-779 and 812-820). -/
def appendEndSeq (s : State) : State :=
  if s.msgEndSeq = 1 then
    { s with buf := wr s.buf s.bufPos 13, bufPos := (s.bufPos + 1) % 256 }
  else if s.msgEndSeq = 2 then
    { s with buf := wr s.buf s.bufPos 10, bufPos := (s.bufPos + 1) % 256 }
  else if s.msgEndSeq = 3 then
    let s := { s with buf := wr s.buf s.bufPos 13, bufPos := (s.bufPos + 1) % 256 }
    { s with buf := wr s.buf s.bufPos 10, bufPos := (s.bufPos + 1) % 256 }
  else s

/-- The length correction after a transmission (lines 759-762, 787-790 and
835-838). -/
def trimEndSeq (s : State) : State :=
  if s.msgEndSeq = 1 ∨ s.msgEndSeq = 2 then { s with bufPos := (s.bufPos + 255) % 256 }
  else if s.msgEndSeq = 3 then { s with bufPos := (s.bufPos + 254) % 256 }
  else s

/-- The report `if (result == 255) printf("OK\r\n"); else printf("TIMEOUT\r\n");`. -/
def reportTransmit (s : State) (result : Nat) : State :=
  if result = 255 then s.print "OK\r\n" else s.print "TIMEOUT\r\n"

/-- The handlers of `D` (`eoi = 1`, lines 739-766) and `M` (`eoi = 0`, lines
767-794), which differ in the last argument of `GPIB_Transmit` only. -/
def handleData (pins : Pins) (s : State) (eoi : Nat) : State :=
  if s.listenMode = 0 then
    let s := appendEndSeq s
    let r := GPIB_Transmit pins s.hw s.buf 1 ((s.bufPos + 255) % 256) eoi
    let s := reportTransmit { s with hw := r.2 } r.1
    trimEndSeq s
  else s.print "ERROR\r\n"

/-- One step of the token scan of the `C` handler (lines 799-809) on byte `b`. -/
def scanToken (s : State) (unl lis : Nat) : State :=
  if unl = 63 ∨ unl = 64 + s.listenAddress then
    { s with listenMode := 0, ledBlinking := 0, hw := SetLed 1 s.hw }
  else if lis = 32 + s.listenAddress then
    { s with listenMode := 1, ledBlinking := 2 }
  else s

/-- The attention-framed transmission shared by `C` and the command branch of
`T` (lines 822-833 and 1062-1073): `buf[off..off+len)` is sent with `ATN` low. -/
def transmitCommand (pins : Pins) (s : State) (buf : List Nat) (off len : Nat) : State :=
  let s := { s with hw := ReconfigureGPIO_GPIBNormalMode s.remoteState s.hw }
  let s := { s with hw := setBitC ATN 0 s.hw }
  let r := GPIB_Transmit pins s.hw buf off len 1
  let s := reportTransmit { s with hw := r.2 } r.1
  { s with hw := setBitC ATN 1 s.hw }

/-- The role switch that ends `C` and the command branch of `T` (lines 840-845
and 1075-1080). -/
def roleByListenMode (s : State) : State :=
  let s := if s.listenMode ≠ 0 then
      { s with hw := ReconfigureGPIO_GPIBReceiveMode s.remoteState s.hw }
    else { s with hw := ReconfigureGPIO_GPIBNormalMode s.remoteState s.hw }
  { s with listenMode_prev := s.listenMode }

/-- Handler of `C` (lines 795-846). -/
def handleC (pins : Pins) (s : State) : State :=
  let s := (List.range' 1 (s.bufPos - 1)).foldl
    (fun s i => scanToken s (rd s.buf i) (rd s.buf i)) s
  let s := appendEndSeq s
  let s := transmitCommand pins s s.buf 1 ((s.bufPos + 255) % 256)
  let s := trimEndSeq s
  roleByListenMode s

/-- Handler of `R` (lines 847-852). -/
def handleR (s : State) : State :=
  ({ s with hw := setBitC REN 0 s.hw, remoteState := 1 }).print "OK\r\n"

/-- Handler of `L` (lines 853-858). -/
def handleL (s : State) : State :=
  ({ s with hw := setBitC REN 1 s.hw, remoteState := 0 }).print "OK\r\n"

/-- Handler of `I` (lines 859-872). -/
def handleI (s : State) : State :=
  let s := { s with hw := setBitC IFC 1 (setBitC IFC 0 s.hw) }
  let s := if s.listenMode ≠ 0 then
      { s with listenMode := 0, ledBlinking := 0,
               hw := ReconfigureGPIO_GPIBNormalMode s.remoteState (SetLed 1 s.hw) }
    else s
  s.print "OK\r\n"

/-- Handler of `S` (lines 873-880); `PINC` is read once. -/
def handleS (pins : Pins) (s : State) : State :=
  let s := s.put (if s.remoteState ≠ 0 then 49 else 48)
  let s := s.put (if pins.pinc s.hw.reads &&& SRQ = 0 then 49 else 48)
  let s := { s with hw := { s.hw with reads := s.hw.reads + 1 } }
  let s := s.put (if s.listenMode ≠ 0 then 49 else 48)
  s.puts [13, 10]

/-- Entry of the `P` handler (lines 883-890), up to its polling loop. -/
def plotterEnter (s : State) : State :=
  let s := { s with listenMode_prev := 0, listenMode := 0, ledBlinking := 1 }
  { s with hw := ReconfigureGPIO_GPIBReceiveMode s.remoteState s.hw, mode := Mode.plotter }

/-- One pass of the body of the polling loop of `P` after the serial poll
(lines 896-905). -/
def plotterPoll (pins : Pins) (s : State) : State :=
  let r := GPIB_Receive pins s.hw s.gpibBuf (GPIB_BUF_SIZE - 2)
  let s := { s with gpibBuf := r.buf, gpibIndex := r.receivedLength, hw := r.hw }
  if s.gpibIndex ≠ 0 then s.puts ((List.range s.gpibIndex).map (rd s.gpibBuf)) else s

/-- Exit of the `P` handler (lines 907-910). -/
def plotterExit (s : State) : State :=
  let s := { s with hw := ReconfigureGPIO_GPIBNormalMode s.remoteState s.hw }
  { s with ledBlinking := 0, hw := SetLed 1 s.hw }

/-- The reception shared by `X`, `Y` and `Z` (lines 914-919, 934-940, 952-957). -/
def receiveMessage (pins : Pins) (s : State) : State :=
  let s := if s.listenMode = 0 then
      { s with hw := ReconfigureGPIO_GPIBReceiveMode s.remoteState s.hw }
    else s
  let r := GPIB_Receive_till_eoi pins s.hw s.gpibBuf (GPIB_BUF_SIZE - 2)
  { s with gpibBuf := r.buf, gpibIndex := r.receivedLength, hw := r.hw }

/-- The role restoration that ends `X`, `Y` and `Z`. -/
def restoreNormal (s : State) : State :=
  if s.listenMode = 0 then
    { s with hw := ReconfigureGPIO_GPIBNormalMode s.remoteState s.hw }
  else s

/-- Handler of `X` (lines 912-931). -/
def handleX (pins : Pins) (s : State) : State :=
  let s := receiveMessage pins s
  let s := if s.gpibIndex ≠ 0 then
      let s := { s with gpibBuf := wr s.gpibBuf s.gpibIndex 0 }
      s.puts (cstr s.gpibBuf 0)
    else s.print "TIMEOUT\r\n"
  restoreNormal s

/-- Handler of `Y` (lines 932-949). -/
def handleY (pins : Pins) (s : State) : State :=
  let s := receiveMessage pins s
  let s := s.put s.gpibIndex
  let s := s.puts ((List.range s.gpibIndex).map (rd s.gpibBuf))
  restoreNormal s

/-- Handler of `Z` (lines 950-966). -/
def handleZ (pins : Pins) (s : State) : State :=
  let s := receiveMessage pins s
  let s := s.puts (fmt02x s.gpibIndex)
  let s := s.puts ((List.range s.gpibIndex).flatMap (fun i => fmt02x (rd s.gpibBuf i)))
  let s := s.print "\r\n"
  restoreNormal s

/-- Handler of `E` (lines 971-987). -/
def handleE (s : State) : State :=
  if s.bufPos = 1 then (s.puts (fmtD s.localEcho)).print "\r\n"
  else if s.bufPos = 2 ∧ rd s.buf 1 = 48 then ({ s with localEcho := 0 }).print "OK\r\n"
  else if s.bufPos = 2 ∧ rd s.buf 1 = 49 then ({ s with localEcho := 1 }).print "OK\r\n"
  else s.print "ERROR\r\n"

/-- Handler of `H` (lines 988-994). -/
def handleH (s : State) : State :=
  let s := s.puts ((List.range s.savedCommands).flatMap (fun i =>
    fmtD i ++ bytes ": " ++ cstr s.commandsHistory (i * BUF_SIZE) ++ bytes "\r\n"))
  { s with command := 0 }

/-- Handler of `A` (lines 995-1012). -/
def handleA (s : State) : State :=
  if s.bufPos = 1 then (s.puts (fmt02d s.listenAddress)).print "\r\n"
  else if s.bufPos = 3 ∧ isdigit (rd s.buf 1) = true ∧ isdigit (rd s.buf 2) = true then
    let i := atoi s.buf 1
    if 0 ≤ i ∧ i ≤ 30 then ({ s with listenAddress := i.toNat }).print "OK\r\n"
    else s.print "ERROR\r\n"
  else s.print "ERROR\r\n"

/-- Handler of `Q` (lines 1013-1032). -/
def handleQ (s : State) : State :=
  if s.bufPos = 1 then (s.puts (fmtD s.msgEndSeq)).print "\r\n"
  else if s.bufPos = 2 ∧
      (rd s.buf 1 = 48 ∨ rd s.buf 1 = 49 ∨ rd s.buf 1 = 50 ∨ rd s.buf 1 = 51) then
    let s := if rd s.buf 1 = 48 then { s with msgEndSeq := 0 }
      else if rd s.buf 1 = 49 then { s with msgEndSeq := 1 }
      else if rd s.buf 1 = 50 then { s with msgEndSeq := 2 }
      else if rd s.buf 1 = 51 then { s with msgEndSeq := 3 }
      else s
    s.print "OK\r\n"
  else s.print "ERROR\r\n"

/-- Handler of `T` (lines 1033-1085).  `CheckHexMsg` gets the pointer `&buf[1]`;
in the command branch the unlisten test reads `msgBuf[i]` and the listen test
reads `buf[i]`, as the source does. -/
def handleT (pins : Pins) (s : State) : State :=
  let r := CheckHexMsg (fun i => rd s.buf (1 + i).toNat) ((s.bufPos + 255) % 256)
  let s := { s with msgEOI := r.eoi }
  if r.ret ≠ 0 then
    let s := { s with msgBuf := memmove s.msgBuf 0 r.outputMsg 0 r.outputMsg.length,
                      msgLen := r.outputLen }
    if toupper (rd s.buf 2) = 68 then
      let t := GPIB_Transmit pins s.hw s.msgBuf 0 s.msgLen s.msgEOI
      reportTransmit { s with hw := t.2 } t.1
    else
      let s := (List.range s.msgLen).foldl
        (fun s i => scanToken s (rd s.msgBuf i) (rd s.buf i)) s
      let s := transmitCommand pins s s.msgBuf 0 s.msgLen
      roleByListenMode s
  else s.print "ERROR\r\n"

/-- The history save of lines 1093-1115. -/
def saveHistory (s : State) : State :=
  if s.command ≠ 0 ∧ s.bufPos ≠ 0 then
    let s := { s with buf := wr s.buf s.bufPos 0 }
    if s.savedCommands > 0 ∧
        strcmpEq s.commandsHistory ((s.savedCommands - 1) * BUF_SIZE) s.buf 0 = true then
      { s with command := 0 }
    else if s.savedCommands < MAX_COMMANDS then
      { s with commandsHistory :=
                 memmove s.commandsHistory (s.savedCommands * BUF_SIZE) s.buf 0 BUF_SIZE,
               savedCommands := s.savedCommands + 1 }
    else
      let h := memmove s.commandsHistory 0 s.commandsHistory BUF_SIZE
        (BUF_SIZE * (s.savedCommands - 1))
      { s with commandsHistory := memmove h ((s.savedCommands - 1) * BUF_SIZE) s.buf 0 BUF_SIZE }
  else s

/-- The per-command reset of lines 1117-1120. -/
def resetLine (s : State) : State :=
  { s with command := 0, bufPos := 0, cursorPos := 0, buf := wr s.buf 0 0 }

/-- The head of the endless loop (lines 550-553). -/
def prompt (s : State) : State :=
  let s := { s with selectedCommand := s.savedCommands }
  if s.localEcho ≠ 0 ∧ s.bufPos = 0 then s.print "<GPIB> " else s

/-- What follows every handler: history save, reset, and the head of the next
loop iteration, where `main` waits for a line byte again. -/
def finish (s : State) : State :=
  prompt (resetLine (saveHistory { s with mode := Mode.edit }))

/-- The `if`/`else if` chain on `command` (lines 739-1091) followed by the end
of the loop body.  The `P` handler stops at its polling loop instead. -/
def dispatch (pins : Pins) (s : State) : State :=
  if s.command = 68 then finish (handleData pins s 1)
  else if s.command = 77 then finish (handleData pins s 0)
  else if s.command = 67 then finish (handleC pins s)
  else if s.command = 82 then finish (handleR s)
  else if s.command = 76 then finish (handleL s)
  else if s.command = 73 then finish (handleI s)
  else if s.command = 83 then finish (handleS pins s)
  else if s.command = 80 then plotterEnter s
  else if s.command = 88 then finish (handleX pins s)
  else if s.command = 89 then finish (handleY pins s)
  else if s.command = 90 then finish (handleZ pins s)
  else if s.command = 63 then finish (ShowHelp s)
  else if s.command = 69 then finish (handleE s)
  else if s.command = 72 then finish (handleH s)
  else if s.command = 65 then finish (handleA s)
  else if s.command = 81 then finish (handleQ s)
  else if s.command = 84 then finish (handleT pins s)
  else
    let s := if s.bufPos ≠ 0 then s.print "WRONG COMMAND\r\n" else s
    finish { s with command := 0 }

/-- Byte 13 (lines 696-708) and the exit test `while (!command)`. -/
def carriageReturn (pins : Pins) (s : State) : State :=
  let s := if s.localEcho ≠ 0 then s.puts [13, 10] else s
  let s := { s with command := if s.bufPos ≠ 0 then toupper (rd s.buf 0) else EMPTY_LINE }
  if s.command ≠ 0 then dispatch pins s else s

/-- One event of the serial link. -/
def step (pins : Pins) (s : State) : Event → State
  | Event.idle =>
    match s.mode with
    | Mode.plotter => plotterPoll pins s
    | _ => s
  | Event.byte c =>
    match s.mode with
    | Mode.edit =>
      if c = 0x08 then backspace s
      else if c = 10 then s
      else if c = 0x1b then { s with mode := Mode.esc1 }
      else if c = 13 then carriageReturn pins s
      else insertChar s c
    | Mode.esc1 =>
      if c ≠ 0x5B then { s with mode := Mode.edit } else { s with mode := Mode.esc2 }
    | Mode.esc2 => escapeKey { s with mode := Mode.edit } c
    | Mode.plotter =>
      let s := plotterPoll pins s
      if c = 27 then finish (plotterExit s) else s

/-- The machine run over a sequence of events. -/
def run (pins : Pins) (s : State) (evs : List Event) : State :=
  evs.foldl (step pins) s

/-- The events of a typed text: one byte event per character. -/
def typed (l : String) : List Event := (bytes l).map Event.byte

/-- State in which `main` first waits for a line byte, in interactive mode:
after `GPIO_init`, `ReconfigureGPIO_GPIBNormalMode`, `SetLed(1)` and the first
prompt.  `echoPin` is the level of `PB7` sampled at line 543. -/
def init (echoPin : Bool) : State :=
  prompt
    { mode := Mode.edit, ledBlinking := 0, listenAddress := 21, msgEndSeq := 0,
      remoteState := 0, commandsHistory := List.replicate (BUF_SIZE * MAX_COMMANDS) 0,
      savedCommands := 0, selectedCommand := 0, listenMode := 0, listenMode_prev := 0,
      buf := List.replicate (BUF_SIZE + 4) 0, msgBuf := List.replicate (BUF_SIZE + 4) 0,
      gpibBuf := List.replicate GPIB_BUF_SIZE 0, bufPos := 0, cursorPos := 0,
      localEcho := if echoPin then 1 else 0, gpibIndex := 0, command := 0, msgLen := 0,
      msgEOI := 1,
      hw := SetLed 1 (ReconfigureGPIO_GPIBNormalMode 0
        { DDRA := 0, PORTA := 0, DDRC := 0, PORTC := 0, PORTD := 4, reads := 0,
          writes := [(Reg.PORTD, 4)] }),
      out := [] }

/-! ### Reference notions of the codec's contract -/

/-- Valid hex character of the contract: `'0'..'9'`, `'A'..'F'` or `'a'..'f'`. -/
def isHexChar (c : Nat) : Prop :=
  (48 ≤ c ∧ c ≤ 57) ∨ (65 ≤ c ∧ c ≤ 70) ∨ (97 ≤ c ∧ c ≤ 102)

instance (c : Nat) : Decidable (isHexChar c) := by unfold isHexChar; infer_instance

/-- Value of a hex character: `'0'..'9'` are 0..9, `'A'..'F'` and `'a'..'f'`
are 10..15. -/
def hexValue (c : Nat) : Nat :=
  if 48 ≤ c ∧ c ≤ 57 then c - 48
  else if 65 ≤ c ∧ c ≤ 70 then c - 55
  else if 97 ≤ c ∧ c ≤ 102 then c - 87
  else 0

/-- Upper-case hex digit character of a nibble. -/
def hexChar (n : Nat) : Nat := if n < 10 then 48 + n else 55 + n

/-- Fixed-width re-encoding: every byte becomes two hex digit characters, high
nibble first. -/
def encodeHex (bs : List Nat) : List Nat :=
  bs.flatMap (fun b => [hexChar (b / 16), hexChar (b % 16)])

/-- The digit stream of an input: the characters after the 2-character prefix,
up to the effective length. -/
def digitStream (buf : Int → Nat) (len : Nat) : List Nat :=
  (List.range (hexEffLen buf len - 2)).map (fun k => buf ((2 + k : Nat) : Int))

/-- The rejection condition in the words of the codec's contract, with the
digit count taken past the tag: odd, or fewer than two pairs, or a leading byte
other than `'0'`, or a tag other than `C`/`D`, or a digit position that is not
a hex character. -/
def rejectedAsStated (buf : Int → Nat) (len : Nat) : Prop :=
  (hexEffLen buf len - 2) % 2 = 1 ∨ hexEffLen buf len - 2 < 2 * 2 ∨ buf 0 ≠ 48 ∨
    (toupper (buf 1) ≠ 67 ∧ toupper (buf 1) ≠ 68) ∨
    ∃ k, k < hexEffLen buf len - 2 ∧ ¬ isHexChar (buf ((2 + k : Nat) : Int))

/-- The byte sequence that big-nibble-first decoding of the digit region gives:
byte `k` is `16 * value(digit 2k) + value(digit 2k+1)`. -/
def decodedBytes (buf : Int → Nat) (len : Nat) : List Nat :=
  (List.range ((hexEffLen buf len - 2) / 2)).map (fun k =>
    16 * hexValue (buf ((2 + 2 * k : Nat) : Int))
      + hexValue (buf ((2 + 2 * k + 1 : Nat) : Int)))

/-- Sample inputs of the codec. -/
def hexUpperAB : Int → Nat := ptr (bytes "0DAB")

/-- Same payload as `hexUpperAB`, in lower-case digits. -/
def hexLowerAB : Int → Nat := ptr (bytes "0Dab")

/-- One pair of digits past the tag. -/
def hexOnePair : Int → Nat := ptr (bytes "0D41")

/-- Data payload of two bytes with mixed-case digits and the trailing `;`. -/
def hexMixed : Int → Nat := ptr (bytes "0dAb10;")

/-- Each of the 15 slots of a history array holds a NUL among its 64 bytes. -/
def HistNul (h : List Nat) : Prop :=
  ∀ e, e < 15 → ∃ j, j < 64 ∧ rd h (e * 64 + j) = 0

/-- Reachability invariant of the command loop: the cursor is inside the line,
the line is shorter than `BUF_SIZE`, the arrays have their declared sizes, at
most `MAX_COMMANDS` entries are saved, the selected entry is not past the saved
ones, and each of the 15 history slots holds a NUL among its 64 bytes. -/
def Inv (s : State) : Prop :=
  s.cursorPos ≤ s.bufPos ∧ s.bufPos ≤ 63 ∧ s.buf.length = 68 ∧
  s.commandsHistory.length = 960 ∧ s.savedCommands ≤ 15 ∧
  s.selectedCommand ≤ s.savedCommands ∧ HistNul s.commandsHistory

/-- The line editor fields and the history are the same in both states, up to
the contents of `buf`. -/
def SameLine (s t : State) : Prop :=
  t.buf.length = s.buf.length ∧ t.bufPos = s.bufPos ∧ t.cursorPos = s.cursorPos ∧
  t.commandsHistory = s.commandsHistory ∧ t.savedCommands = s.savedCommands ∧
  t.selectedCommand = s.selectedCommand

/-- Number of end-of-message bytes of the current policy: 1 for CR or LF, 2 for
CR LF, none otherwise. -/
def endSeqLen (s : State) : Nat :=
  if s.msgEndSeq = 1 ∨ s.msgEndSeq = 2 then 1 else if s.msgEndSeq = 3 then 2 else 0

/-- Same as `SameLine`, with the contents of `buf` and the end-of-message
policy unchanged as well. -/
def SameText (s t : State) : Prop :=
  SameLine s t ∧ t.buf = s.buf ∧ t.msgEndSeq = s.msgEndSeq

/-! ### Edit operations of the line-editor contract -/

/-- The edit operations: insert an ordinary byte, backspace, cursor left,
cursor right. -/
inductive EditOp where
  | ins (c : Nat)
  | bs
  | left
  | right
deriving DecidableEq

/-- The serial bytes of an edit operation; the cursor keys are the escape
sequences `ESC [ D` and `ESC [ C`. -/
def EditOp.events : EditOp → List Event
  | EditOp.ins c => [Event.byte c]
  | EditOp.bs => [Event.byte 0x08]
  | EditOp.left => [Event.byte 0x1b, Event.byte 0x5B, Event.byte 0x44]
  | EditOp.right => [Event.byte 0x1b, Event.byte 0x5B, Event.byte 0x43]

/-- An inserted byte is ordinary: not backspace, LF, ESC or CR. -/
def EditOp.ordinary : EditOp → Prop
  | EditOp.ins c => c ≠ 0x08 ∧ c ≠ 10 ∧ c ≠ 0x1b ∧ c ≠ 13
  | _ => True

/-- The machine run over the bytes of one edit operation. -/
def applyOp (pins : Pins) (s : State) (op : EditOp) : State := run pins s op.events

/-- The machine run over a sequence of edit operations. -/
def applyOps (pins : Pins) (s : State) (ops : List EditOp) : State :=
  ops.foldl (applyOp pins) s

/-- Number of inserts of the sequence that arrive while the line is shorter
than 63. -/
def acceptedInserts (pins : Pins) : State → List EditOp → Nat
  | _, [] => 0
  | s, op :: ops =>
    (match op with
      | EditOp.ins _ => if s.bufPos < 63 then 1 else 0
      | _ => 0) + acceptedInserts pins (applyOp pins s op) ops

/-- Number of backspaces of the sequence that arrive while the cursor is past
the start of the line. -/
def deletingBackspaces (pins : Pins) : State → List EditOp → Nat
  | _, [] => 0
  | s, op :: ops =>
    (match op with
      | EditOp.bs => if s.cursorPos > 0 then 1 else 0
      | _ => 0) + deletingBackspaces pins (applyOp pins s op) ops

instance (op : EditOp) : Decidable op.ordinary := by
  cases op <;> unfold EditOp.ordinary <;> infer_instance

/-- A bus on which every pin always reads 0. -/
def idlePins : Pins := ⟨fun _ => 0, fun _ => 0⟩

/-- A sample edit sequence: `A`, `B`, left, backspace, backspace, right, `C`,
backspace. -/
def sampleOps : List EditOp :=
  [EditOp.ins 65, EditOp.ins 66, EditOp.left, EditOp.bs, EditOp.bs, EditOp.right,
   EditOp.ins 67, EditOp.bs]

/-! ### History contract -/

/-- The line held in the editor: the first `bufPos` bytes of `buf`. -/
def lineOf (s : State) : List Nat := s.buf.take s.bufPos

/-- A state in which the save block is entered: everything is taken from `u`
except the history, which is the one left by the previous save (no other code
writes `commandsHistory` or `savedCommands`). -/
def enterSave (s u : State) : State :=
  { u with commandsHistory := s.commandsHistory, savedCommands := s.savedCommands }

/-- The save block run once for each state of `us`, in order. -/
def saveAll (s : State) (us : List State) : State :=
  us.foldl (fun s u => saveHistory (enterSave s u)) s

/-- A state that reaches the save block with a line to save: a command was
recognised (`command` is non-zero), the line is non-empty, shorter than
`BUF_SIZE`, and has no NUL byte. -/
def Saveable (u : State) : Prop :=
  u.command ≠ 0 ∧ 1 ≤ u.bufPos ∧ u.bufPos ≤ 63 ∧ u.buf.length = 68 ∧ 0 ∉ lineOf u

/-- History slot `i` holds line `l`: its bytes are those of `l`, then a NUL. -/
def HoldsLine (h : List Nat) (i : Nat) (l : List Nat) : Prop :=
  l.length ≤ 63 ∧ (∀ k, k < l.length → rd h (i * 64 + k) = l.getD k 0) ∧
    rd h (i * 64 + l.length) = 0

/-- The history of `s` is the last `min n 15` of the `n` lines `all`, in order. -/
def HistoryIs (s : State) (all : List (List Nat)) : Prop :=
  s.commandsHistory.length = 960 ∧ s.savedCommands = min all.length 15 ∧
  ∀ i, i < min all.length 15 →
    HoldsLine s.commandsHistory i (all.getD (all.length - min all.length 15 + i) [])

instance (u : State) : Decidable (Saveable u) := by
  unfold Saveable; infer_instance

/-- The state at the save block after the line `A07` was typed and handled. -/
def sampleSaveA : State :=
  { run idlePins (init false) (typed "A07") with command := 65 }

/-- The state at the save block after the line `Q1` was typed and handled. -/
def sampleSaveQ : State :=
  { run idlePins (init false) (typed "Q1") with command := 81 }

/-- The state at the save block when `A07` is entered a second time in a row. -/
def sampleSaveTwice : State :=
  { run idlePins (init false) (typed "A07\rA07") with command := 65 }

/-- The state in which the line `h` waits for its carriage return, after one
saved command. -/
def sampleShowHistory : State := run idlePins (init false) (typed "A07\rh")

/-- The state in which the `D` handler runs for the line `D12` under the
CR LF policy. -/
def sampleDataLine : State :=
  { run idlePins (init false) (typed "D12") with command := 68, msgEndSeq := 3 }

/-- The line `D12` waiting for its carriage return while the listen-mode flag
is set. -/
def sampleListening : State :=
  { run idlePins (init false) (typed "D12") with listenMode := 1 }

/-! ### Transmit command contracts -/

/-- The end-of-message bytes of a policy: nothing, CR, LF or CR LF for 0, 1, 2
or 3. -/
def endSeqBytes (policy : Nat) : List Nat :=
  if policy = 1 then [13] else if policy = 2 then [10] else if policy = 3 then [13, 10] else []

/-- The argument bytes of the line: everything after the command letter. -/
def argsOf (s : State) : List Nat := (lineOf s).drop 1

/-- The payload of a data transmission: the argument bytes followed by the
end-of-message bytes of the current policy. -/
def dataPayload (s : State) : List Nat := argsOf s ++ endSeqBytes s.msgEndSeq

/-- The listen-mode flag as the last token among the argument bytes decides it:
cleared by `'?'` or address+64, set by address+32, the old flag when no byte is
a token. -/
def listenAfter (a flag : Nat) (args : List Nat) : Nat :=
  match args.reverse.find? (fun b => decide (b = 63 ∨ b = a + 64 ∨ b = a + 32)) with
  | none => flag
  | some b => if b = 63 ∨ b = a + 64 then 0 else 1

/-- The bus role of a hardware state is Receive (listener): data lines are
inputs with pull-ups, `NRFD` and `NDAC` are outputs. -/
def RoleReceive (remoteState : Nat) (h : Hw) : Prop :=
  h.DDRA = 0 ∧ h.PORTA = 255 ∧ h.DDRC = (IFC ||| ATN ||| REN ||| NRFD ||| NDAC) ∧
  h.PORTC = (IFC ||| ATN ||| (if remoteState ≠ 0 then 0 else REN) ||| EOI ||| DAV ||| SRQ)

/-- The bus role of a hardware state is Normal (talker/controller): data lines
are outputs, `EOI` and `DAV` are outputs, `NRFD` and `NDAC` are inputs. -/
def RoleNormal (remoteState : Nat) (h : Hw) : Prop :=
  h.DDRA = 255 ∧ h.PORTA = 0 ∧ h.DDRC = (IFC ||| ATN ||| REN ||| EOI ||| DAV) ∧
  h.PORTC = (IFC ||| ATN ||| (if remoteState ≠ 0 then 0 else REN) ||| EOI ||| DAV ||| SRQ
    ||| NRFD ||| NDAC)

/-- The line `C5` (the listen token of address 21) in the `C` handler. -/
def sampleCommandLine : State :=
  { run idlePins (init false) (typed "C5") with command := 67 }

/-! ### Bus transport contracts -/

/-- A bus on which every pin reads high at every read. -/
def highPins : Pins := ⟨fun _ => 255, fun _ => 255⟩

/-- What a register write shows on the bus: a data byte on `PORTA`, or the
levels of the `EOI` and `DAV` lines in `PORTC`. -/
inductive Signal where
  | data (v : Nat)
  | lines (eoiHigh davHigh : Bool)
  | other
deriving DecidableEq

/-- The signal of one register write. -/
def signalOf : Reg × Nat → Signal
  | (Reg.PORTA, v) => Signal.data v
  | (Reg.PORTC, v) => Signal.lines (decide (v &&& EOI ≠ 0)) (decide (v &&& DAV ≠ 0))
  | _ => Signal.other

/-- Signals of one byte sent: `EOI` is driven low first when `mark` is set, the
complement `v` of the byte is put on the data port, `DAV` is pulsed low, and
`EOI` is high again before `DAV` rises. -/
def byteSignals (mark : Bool) (v : Nat) : List Signal :=
  (if mark then [Signal.lines false true] else []) ++
    [Signal.data v, Signal.lines (!mark) false, Signal.lines true false, Signal.lines true true]

/-- A listener that takes each byte in time.  From pin read `r` on, `sched` lists
for each byte the number `a` of polls that read `NRFD` low before it reads high
and the number `b` of polls that read `NDAC` low before it reads high; both
waits of a byte share one counter, so `a + b` stays within the bound. -/
def Cooperates (pins : Pins) : Nat → List (Nat × Nat) → Prop
  | _, [] => True
  | r, (a, b) :: rest =>
    a + b ≤ GPIB_MAX_TRANSMIT_TIMEOUT ∧
    (∀ j, j < a → pins.pinc (r + j) &&& NRFD = 0) ∧
    pins.pinc (r + a) &&& NRFD ≠ 0 ∧
    (∀ j, j < b → pins.pinc (r + a + 1 + j) &&& NDAC = 0) ∧
    pins.pinc (r + a + 1 + b) &&& NDAC ≠ 0 ∧
    Cooperates pins (r + a + b + 2) rest

/-- Signals of a whole transmission of `bytes`: byte after byte, with `EOI`
marking the last byte when `eoi` is non-zero. -/
def sendSignals (eoi : Nat) : List Nat → List Signal
  | [] => []
  | b :: rest =>
    byteSignals (decide (rest = [] ∧ eoi ≠ 0)) (255 - b % 256) ++ sendSignals eoi rest

/-- The pin read at which the loop of `GPIB_Transmit` starts polling, after the
one or two reads of the entry test. -/
def entryReads (pins : Pins) (hw : Hw) : Nat :=
  if pins.pinc hw.reads &&& NRFD ≠ 0 then hw.reads + 2 else hw.reads + 1

/-- The values the data port takes, in order. -/
def dataWrites (w : List (Reg × Nat)) : List Nat :=
  w.filterMap (fun x => if x.1 = Reg.PORTA then some x.2 else none)

/-- A listener for two bytes: `PINC` reads, in order, `NRFD` low (entry test),
`NRFD` low, `NRFD` high, `NDAC` high, then `NRFD` high, `NDAC` low twice and
`NDAC` high. -/
def samplePins : Pins := ⟨fun k => [0, 0, 32, 16, 32, 0, 0, 16].getD k 0, fun _ => 0⟩

/-- What `GPIB_Transmit` does to the bus: it puts a value on the data port or
drives `EOI` or `DAV` (`SetEOI(x)`, `SetDAV(x)`). -/
inductive BusAct where
  | data (v : Nat)
  | eoi (x : Nat)
  | dav (x : Nat)
deriving DecidableEq

/-- The data value of a bus action, if it is one. -/
def dataOf : BusAct → Option Nat
  | BusAct.data v => some v
  | _ => none

/-- One bus action carried out on the registers. -/
def playAct (h : Hw) : BusAct → Hw
  | BusAct.data v => setPORTA h v
  | BusAct.eoi x => setBitC EOI x h
  | BusAct.dav x => setBitC DAV x h

/-- A sequence of bus actions carried out in order. -/
def play (h : Hw) (acts : List BusAct) : Hw := acts.foldl playAct h

/-- Actions for one byte: with `mark` set `EOI` is driven low first; the
complement `v` of the byte goes on the data port, `DAV` is driven low, and
`EOI` is driven high before `DAV` is. -/
def byteActs (mark : Bool) (v : Nat) : List BusAct :=
  (if mark then [BusAct.eoi 0] else []) ++
    [BusAct.data v, BusAct.dav 0, BusAct.eoi 1, BusAct.dav 1]

/-- Actions for a whole transmission of `bytes`, the last byte marked with
`EOI` when `eoi` is non-zero. -/
def sendActs (eoi : Nat) : List Nat → List BusAct
  | [] => []
  | b :: rest => byteActs (decide (rest = [] ∧ eoi ≠ 0)) (255 - b % 256) ++ sendActs eoi rest

/-- Pin reads a listener's schedule takes: the failing polls and the two
successful ones of each byte. -/
def schedReads : List (Nat × Nat) → Nat
  | [] => 0
  | (a, b) :: rest => a + b + 2 + schedReads rest

/-- The idle state of the handshake lines the converter drives as talker: `PORTC`
is a byte with `EOI` and `DAV` high. -/
def LinesIdle (h : Hw) : Prop :=
  h.PORTC < 256 ∧ h.PORTC &&& EOI ≠ 0 ∧ h.PORTC &&& DAV ≠ 0

/-- A talker that hands over `sched.length` bytes in time and marks the last of
them.  From pin read `r` on, `sched` lists for each byte the number `a` of polls
that read `DAV` high before it reads low and the number `b` of polls that read
`DAV` low before it reads high again (both waits share one counter); between
the two waits `GPIB_Receive_till_eoi` samples `EOI` and then the data port, and
`EOI` reads low on the last byte only. -/
def Talks (pins : Pins) : Nat → List (Nat × Nat) → Prop
  | _, [] => True
  | r, (a, b) :: rest =>
    a + b ≤ GPIB_MAX_RECEIVE_TIMEOUT ∧
    (∀ j, j < a → pins.pinc (r + j) &&& DAV ≠ 0) ∧
    pins.pinc (r + a) &&& DAV = 0 ∧
    (pins.pinc (r + a + 1) &&& EOI = 0 ↔ rest = []) ∧
    (∀ j, j < b → pins.pinc (r + a + 3 + j) &&& DAV = 0) ∧
    pins.pinc (r + a + 3 + b) &&& DAV ≠ 0 ∧
    Talks pins (r + a + b + 4) rest

/-- The pin reads at which `GPIB_Receive_till_eoi` samples the data port while
it follows the schedule `sched` from read `r` on. -/
def sampleReads : Nat → List (Nat × Nat) → List Nat
  | _, [] => []
  | r, (a, b) :: rest => (r + a + 2) :: sampleReads (r + a + b + 4) rest

/-- The predicate `Talks` can be checked by evaluation. -/
def decTalks (pins : Pins) : (r : Nat) → (s : List (Nat × Nat)) → Decidable (Talks pins r s)
  | _, [] => isTrue trivial
  | r, (a, b) :: rest =>
    have : Decidable (Talks pins (r + a + b + 4) rest) := decTalks pins (r + a + b + 4) rest
    inferInstanceAs (Decidable
      (a + b ≤ GPIB_MAX_RECEIVE_TIMEOUT ∧
      (∀ j, j < a → pins.pinc (r + j) &&& DAV ≠ 0) ∧
      pins.pinc (r + a) &&& DAV = 0 ∧
      (pins.pinc (r + a + 1) &&& EOI = 0 ↔ rest = []) ∧
      (∀ j, j < b → pins.pinc (r + a + 3 + j) &&& DAV = 0) ∧
      pins.pinc (r + a + 3 + b) &&& DAV ≠ 0 ∧
      Talks pins (r + a + b + 4) rest))

instance (pins : Pins) (r : Nat) (s : List (Nat × Nat)) : Decidable (Talks pins r s) :=
  decTalks pins r s

/-- An endless talker with an immediate handshake, four pin reads per byte:
`DAV` low, the `EOI` sample, the data sample (the read count itself) and `DAV`
high; `EOI` reads low at read 17 only, the `EOI` sample of the 5th byte. -/
def streamPins : Pins :=
  ⟨fun k => if k % 4 = 3 then 192 else if k = 17 then 0 else 128, fun k => k⟩

/-- The passes a receive loop makes from `hw` on, in order: a pass is followed by
another one when it ran to its end and `again` holds of the new index and the
pass (the `while` condition of the loop). -/
def rxTrace (pins : Pins) (withEoi : Bool) (again : Nat → RxPass → Prop)
    [∀ i p, Decidable (again i p)] : Nat → Hw → Nat → List RxPass
  | 0, _, _ => []
  | fuel + 1, hw, index =>
    if (rxPass pins withEoi hw).phase = 2 ∧ again ((index + 1) % 256) (rxPass pins withEoi hw) then
      rxPass pins withEoi hw ::
        rxTrace pins withEoi again fuel (rxPass pins withEoi hw).hw ((index + 1) % 256)
    else [rxPass pins withEoi hw]

/-- The bytes the passes `T` store: every pass that got past its first wait
stores the byte it sampled. -/
def rxStored (T : List RxPass) : List Nat :=
  (T.filter (fun p => decide (p.phase ≠ 0))).map (fun p => p.c)

/-- Bytes `cs` stored at `buf[index]`, `buf[index+1]`, ... -/
def storeFrom (buf : List Nat) (index : Nat) : List Nat → List Nat
  | [] => buf
  | c :: cs => storeFrom (wr buf index c) (index + 1) cs

/-- What a receive function reports about the passes `T` it made on the buffer
`buf`: the return value is 0 or 255, and 0 exactly when the counter of some pass
went past the bound; the count is the number of bytes stored and the buffer
holds them from `buf[0]` on; every pass but the last ran to its end, so when the
last pass gave up waiting for `DAV` to fall the bytes stored are those of the
passes before it. -/
def TimeoutReport (T : List RxPass) (buf : List Nat) (R : RecvResult) : Prop :=
  (R.ret = 0 ∨ R.ret = 255) ∧
  (R.ret = 0 ↔ ∃ p, p ∈ T ∧ GPIB_MAX_RECEIVE_TIMEOUT < p.timeout) ∧
  R.receivedLength = (rxStored T).length ∧
  R.buf = storeFrom buf 0 (rxStored T) ∧
  (∀ p, p ∈ T.dropLast → p.phase = 2) ∧
  (∀ p, T.getLast? = some p → p.phase = 0 →
    R.ret = 0 ∧ rxStored T = T.dropLast.map (fun q => q.c))

/-! ### Control-line, role and termination contracts -/

/-- A bus that is busy during the first transmission (both ready lines high at
pin reads 0 and 1) and then has a listener that takes one byte: `NRFD` low at
read 2, `NRFD` high at read 3, `NDAC` high at read 4. -/
def listenerLatePins : Pins := ⟨fun k => [255, 255, 0, 32, 16].getD k 0, fun _ => 0⟩

/-- The second hardware state has the port directions of the first and the same
level of the `REN` bit in `PORTC`. -/
def SameCtl (h1 h2 : Hw) : Prop :=
  h2.DDRA = h1.DDRA ∧ h2.DDRC = h1.DDRC ∧ (h2.PORTC &&& REN = 0 ↔ h1.PORTC &&& REN = 0)

/-- The `REN` bit of `PORTC` is low exactly when the Remote/Local flag is set. -/
def RenMirrors (s : State) : Prop :=
  s.hw.PORTC &&& REN = 0 ↔ s.remoteState ≠ 0

/-- The port directions are those of the Receive role when the listen-mode flag
is set and those of the Normal role when it is clear. -/
def RoleTracks (s : State) : Prop :=
  (s.listenMode ≠ 0 →
    s.hw.DDRA = 0 ∧ s.hw.DDRC = (IFC ||| ATN ||| REN ||| NRFD ||| NDAC)) ∧
  (s.listenMode = 0 →
    s.hw.DDRA = 255 ∧ s.hw.DDRC = (IFC ||| ATN ||| REN ||| EOI ||| DAV))

/-- Both control invariants of a state at once. -/
def CtlOk (s : State) : Prop := RenMirrors s ∧ RoleTracks s

/-- The control invariant of the command loop: `REN` mirrors the Remote/Local
flag; while the `P` handler polls, the listen-mode flag is clear; at the
prompt the port directions follow the listen-mode flag. -/
def CtlInv (s : State) : Prop :=
  RenMirrors s ∧ (s.mode = Mode.plotter → s.listenMode = 0) ∧
  (s.mode ≠ Mode.plotter → RoleTracks s)

/-- The second state has the hardware state, the two flags and the program
point of the first. -/
def Frame (s t : State) : Prop :=
  t.hw = s.hw ∧ t.remoteState = s.remoteState ∧ t.listenMode = s.listenMode ∧ t.mode = s.mode

/-- The passes the loop of `GPIB_Transmit` makes from `hw` on, in order. -/
def txTrace (pins : Pins) (buf : List Nat) (off n eoi : Nat) : Nat → Hw → Nat → List TxPass
  | 0, _, _ => []
  | fuel + 1, hw, index =>
    if (txPass pins buf off n eoi hw index).phase = 2 ∧ (index + 1) % 256 < n then
      txPass pins buf off n eoi hw index ::
        txTrace pins buf off n eoi fuel (txPass pins buf off n eoi hw index).hw ((index + 1) % 256)
    else [txPass pins buf off n eoi hw index]

/-- The bound on the polling of one transfer: it made at most `cap` passes (one
per byte), `timeouts` lists for each pass its failing polls over both wait
loops, none above `bound + 1`, and the pin reads went from `reads0` to at most
`reads0 + cap * (bound + extra)`, where `extra` counts the successful polls and
the samples of a pass. -/
def PollBound (bound extra cap reads0 reads1 : Nat) (timeouts : List Nat) : Prop :=
  timeouts.length ≤ cap ∧ (∀ t, t ∈ timeouts → t ≤ bound + 1) ∧
  reads0 ≤ reads1 ∧ reads1 ≤ reads0 + cap * (bound + extra)

/-! ### Array accesses (`main.c` lines 485-494 and every use of the four arrays) -/

/-- The four global arrays of `main.c` (lines 485 and 492-494). -/
inductive Arr where
  | buf | msgBuf | gpibBuf | commandsHistory
deriving DecidableEq

/-- Declared number of elements of each array. -/
def Arr.size : Arr → Nat
  | Arr.buf => BUF_SIZE + 4
  | Arr.msgBuf => BUF_SIZE + 4
  | Arr.gpibBuf => GPIB_BUF_SIZE
  | Arr.commandsHistory => BUF_SIZE * MAX_COMMANDS

/-- The element `a[i]` as an access: the array and the index. -/
def cell (a : Arr) (i : Nat) : Arr × Int := (a, (i : Int))

/-- The elements `a[lo]`, ..., `a[lo+n-1]`. -/
def span (a : Arr) (lo n : Nat) : List (Arr × Int) :=
  (List.range n).map (fun j => cell a (lo + j))

/-- An access is in bounds when its index is one of the array. -/
def InBounds (x : Arr × Int) : Prop := 0 ≤ x.2 ∧ x.2 < (x.1.size : Int)

/-- Every access of the list is in bounds. -/
def AllIn (l : List (Arr × Int)) : Prop := ∀ x, x ∈ l → InBounds x

/-- Elements read by a `"%s"` conversion or by `strlen` on `&a[start]`, where
`l` is the contents of `a`: the bytes of the string and its NUL.  When `l`
holds no NUL from `start` on, the scan runs off the array and the last element
listed is `a[l.length]` or beyond. -/
def strAcc (a : Arr) (l : List Nat) (start : Nat) : List (Arr × Int) :=
  span a start (strlen l start + 1)

/-- Elements touched by `memmove(&dst[d], &src[s], n)`. -/
def memmoveAcc (dst : Arr) (d : Nat) (src : Arr) (s n : Nat) : List (Arr × Int) :=
  span src s n ++ span dst d n

/-- Number of byte pairs `strcmp` compares: up to and including the first pair
that differs or is NUL.  A list that ends stands for an array that ends: the
pair past it is still read. -/
def strcmpReads : List Nat → List Nat → Nat
  | a :: as, b :: bs => if a = b ∧ a ≠ 0 then strcmpReads as bs + 1 else 1
  | _, _ => 1

/-- Elements read by `strcmp(&a[i], &b[j])`, where `la` and `lb` are the
contents of `a` and `b`. -/
def strcmpAcc (a : Arr) (la : List Nat) (i : Nat) (b : Arr) (lb : List Nat) (j : Nat) :
    List (Arr × Int) :=
  span a i (strcmpReads (la.drop i) (lb.drop j)) ++
    span b j (strcmpReads (la.drop i) (lb.drop j))

/-- Length of the run of decimal digits at the head of the list. -/
def digitRun : List Nat → Nat
  | [] => 0
  | c :: rest => if isdigit c then digitRun rest + 1 else 0

/-- Number of bytes `atoi` examines: the white space, the sign, the digits and
the byte that ends them. -/
def atoiReads : List Nat → Nat
  | [] => 1
  | c :: rest =>
    if c = 32 ∨ (9 ≤ c ∧ c ≤ 13) then atoiReads rest + 1
    else if c = 45 ∨ c = 43 then digitRun rest + 2
    else digitRun (c :: rest) + 1

/-- Elements read by `atoi(&a[start])`, where `l` is the contents of `a`. -/
def atoiAcc (a : Arr) (l : List Nat) (start : Nat) : List (Arr × Int) :=
  span a start (atoiReads (l.drop start))

/-- Offsets from the pointer `buf` read by the validation loop of `CheckHexMsg`
(lines 465-469): `buf[2]`, `buf[3]`, ... up to the first byte that is no hex
digit, or up to `buf[len-1]`. -/
def hexDigitsAcc (buf : Int → Nat) (len : Nat) : Nat → Nat → List Int
  | 0, _ => []
  | fuel + 1, i =>
    if i < len then
      (i : Int) ::
        (if ishexdigit (toupper (buf i)) then hexDigitsAcc buf len fuel ((i + 1) % 256)
         else [])
    else []

/-- Accesses of the decoding loop of `CheckHexMsg` (lines 473-480) when the
pointer `buf` is `&src[base]` and `outputMsg` is `&dst[0]`: pass `k` reads
`buf[i]` and `buf[i+1]` and writes `outputMsg[k]`. -/
def hexDecodeAcc (src : Arr) (base : Int) (dst : Arr) (len : Nat) :
    Nat → Nat → Nat → List (Arr × Int)
  | 0, _, _ => []
  | fuel + 1, i, k =>
    if i < len then
      (src, base + (i : Int)) :: (src, base + ((i : Int) + 1)) :: cell dst k ::
        hexDecodeAcc src base dst len fuel ((i + 2) % 256) (k + 1)
    else []

/-- Accesses of `CheckHexMsg(&src[base], len, &dst[0], ...)`, in program order:
the tag `buf[1]` and, when it is `D`, the last byte `buf[len-1]` (line 453);
after the length test `buf[0]` and, when it is `'0'`, `buf[1]` (line 462); the
validation loop; the decoding loop. -/
def CheckHexMsgAcc (src : Arr) (base : Int) (dst : Arr) (buf : Int → Nat) (len : Nat) :
    List (Arr × Int) :=
  let r0 := (src, base + 1) ::
    (if toupper (buf 1) = 68 then [(src, base + ((len : Int) - 1))] else [])
  let len := hexEffLen buf len
  if len % 2 = 1 ∨ len < 4 then r0
  else
    let r1 := r0 ++ (src, base + 0) :: (if buf 0 = 48 then [(src, base + 1)] else [])
    if buf 0 ≠ 48 ∨ (toupper (buf 1) ≠ 67 ∧ toupper (buf 1) ≠ 68) then r1
    else
      let r2 := r1 ++ (hexDigitsAcc buf len len 2).map (fun i => (src, base + i))
      if hexDigitsOk buf len len 2 = false then r2
      else r2 ++ hexDecodeAcc src base dst len len 2 0

/-- Elements read by `GPIB_Transmit(&a[off], bufLength, eoi)`, where `buf` is
the contents of `a`: one byte per pass of its loop, `a[off]`, `a[off+1]`, ... -/
def GPIB_TransmitAcc (pins : Pins) (hw : Hw) (a : Arr) (buf : List Nat)
    (off bufLength eoi : Nat) : List (Arr × Int) :=
  if bufLength = 0 then []
  else if pins.pinc hw.reads &&& NRFD ≠ 0 then
    if pins.pinc (hw.reads + 1) &&& NDAC ≠ 0 then []
    else span a off (txTrace pins buf off bufLength eoi bufLength
      { hw with reads := hw.reads + 2 } 0).length
  else span a off (txTrace pins buf off bufLength eoi bufLength
    { hw with reads := hw.reads + 1 } 0).length

/-- Accesses of the backspace branch (lines 560-587). -/
def backspaceAcc (s : State) : List (Arr × Int) :=
  if s.bufPos > 0 ∧ s.cursorPos = s.bufPos then []
  else if s.bufPos > 0 ∧ s.cursorPos > 0 then
    let s := { s with bufPos := (s.bufPos + 255) % 256, cursorPos := (s.cursorPos + 255) % 256 }
    let m := memmoveAcc Arr.buf s.cursorPos Arr.buf (s.cursorPos + 1) (s.bufPos - s.cursorPos)
    let s := { s with buf := memmove s.buf s.cursorPos s.buf (s.cursorPos + 1)
                                (s.bufPos - s.cursorPos) }
    if s.localEcho ≠ 0 then
      m ++ cell Arr.buf s.bufPos :: strAcc Arr.buf (wr s.buf s.bufPos 0) s.cursorPos
    else m
  else []

/-- Accesses of the insertion branch (lines 709-735). -/
def insertCharAcc (s : State) (c : Nat) : List (Arr × Int) :=
  if s.bufPos < BUF_SIZE - 1 then
    if s.cursorPos = s.bufPos then [cell Arr.buf s.bufPos]
    else
      let m := memmoveAcc Arr.buf (s.cursorPos + 1) Arr.buf s.cursorPos (s.bufPos - s.cursorPos)
      let s := { s with buf := memmove s.buf (s.cursorPos + 1) s.buf s.cursorPos
                                  (s.bufPos - s.cursorPos) }
      let w := [cell Arr.buf s.cursorPos, cell Arr.buf ((s.bufPos + 1) % 256)]
      let s := { s with buf := wr s.buf s.cursorPos c, cursorPos := (s.cursorPos + 1) % 256 }
      let s := { s with bufPos := (s.bufPos + 1) % 256 }
      let s := { s with buf := wr s.buf s.bufPos 0 }
      if s.localEcho ≠ 0 then m ++ w ++ strAcc Arr.buf s.buf s.cursorPos else m ++ w
  else []

/-- Accesses of a history recall (lines 601-618 and 645-662): the copy, the
`printf` of the line when the echo is on, and `strlen`. -/
def recallEntryAcc (s : State) : List (Arr × Int) :=
  let m := memmoveAcc Arr.buf 0 Arr.commandsHistory (s.selectedCommand * BUF_SIZE) BUF_SIZE
  let s := { s with buf := memmove s.buf 0 s.commandsHistory (s.selectedCommand * BUF_SIZE)
                              BUF_SIZE }
  m ++ (if s.localEcho ≠ 0 then strAcc Arr.buf s.buf 0 else []) ++ strAcc Arr.buf s.buf 0

/-- Accesses of the `switch` on the escape sequence (lines 597-694). -/
def escapeKeyAcc (s : State) (k : Nat) : List (Arr × Int) :=
  if k = 0x41 then
    recallEntryAcc
      { s with selectedCommand := if s.selectedCommand ≠ 0 then s.selectedCommand - 1 else 0 }
  else if k = 0x42 then
    if s.selectedCommand + 1 = s.savedCommands then []
    else if s.selectedCommand + 1 < s.savedCommands then
      recallEntryAcc { s with selectedCommand := s.selectedCommand + 1 }
    else []
  else []

/-- Accesses of the end-of-message append (lines 743-751, 771-779, 812-820). -/
def appendEndSeqAcc (s : State) : List (Arr × Int) :=
  if s.msgEndSeq = 1 then [cell Arr.buf s.bufPos]
  else if s.msgEndSeq = 2 then [cell Arr.buf s.bufPos]
  else if s.msgEndSeq = 3 then [cell Arr.buf s.bufPos, cell Arr.buf ((s.bufPos + 1) % 256)]
  else []

/-- Accesses of the handlers of `D` and `M` (lines 739-794). -/
def handleDataAcc (pins : Pins) (s : State) (eoi : Nat) : List (Arr × Int) :=
  if s.listenMode = 0 then
    appendEndSeqAcc s ++
      GPIB_TransmitAcc pins (appendEndSeq s).hw Arr.buf (appendEndSeq s).buf 1
        (((appendEndSeq s).bufPos + 255) % 256) eoi
  else []

/-- Accesses of the handler of `C` (lines 795-846): the token scan reads
`buf[1]`, ..., `buf[bufPos-1]`. -/
def handleCAcc (pins : Pins) (s : State) : List (Arr × Int) :=
  let scan := (List.range' 1 (s.bufPos - 1)).map (fun i => cell Arr.buf i)
  let s := (List.range' 1 (s.bufPos - 1)).foldl
    (fun s i => scanToken s (rd s.buf i) (rd s.buf i)) s
  let app := appendEndSeqAcc s
  let s := appendEndSeq s
  let s := { s with hw := ReconfigureGPIO_GPIBNormalMode s.remoteState s.hw }
  let s := { s with hw := setBitC ATN 0 s.hw }
  scan ++ app ++ GPIB_TransmitAcc pins s.hw Arr.buf s.buf 1 ((s.bufPos + 255) % 256) 1

/-- Accesses of one step of the token scan of `T` (lines 1048-1058): `msgBuf[i]`
and, when the unlisten test fails, `buf[i]`. -/
def scanTokenTAcc (s : State) (i : Nat) : List (Arr × Int) :=
  if rd s.msgBuf i = 63 ∨ rd s.msgBuf i = 64 + s.listenAddress then [cell Arr.msgBuf i]
  else [cell Arr.msgBuf i, cell Arr.buf i]

/-- Accesses of the handler of `T` (lines 1033-1085). -/
def handleTAcc (pins : Pins) (s : State) : List (Arr × Int) :=
  let r := CheckHexMsg (fun i => rd s.buf (1 + i).toNat) ((s.bufPos + 255) % 256)
  let chk := CheckHexMsgAcc Arr.buf 1 Arr.msgBuf (fun i => rd s.buf (1 + i).toNat)
    ((s.bufPos + 255) % 256)
  let s := { s with msgEOI := r.eoi }
  if r.ret ≠ 0 then
    let s := { s with msgBuf := memmove s.msgBuf 0 r.outputMsg 0 r.outputMsg.length,
                      msgLen := r.outputLen }
    if toupper (rd s.buf 2) = 68 then
      chk ++ cell Arr.buf 2 :: GPIB_TransmitAcc pins s.hw Arr.msgBuf s.msgBuf 0 s.msgLen s.msgEOI
    else
      let scan := (List.range s.msgLen).flatMap (scanTokenTAcc s)
      let s := (List.range s.msgLen).foldl
        (fun s i => scanToken s (rd s.msgBuf i) (rd s.buf i)) s
      let s := { s with hw := ReconfigureGPIO_GPIBNormalMode s.remoteState s.hw }
      let s := { s with hw := setBitC ATN 0 s.hw }
      chk ++ cell Arr.buf 2 :: scan ++ GPIB_TransmitAcc pins s.hw Arr.msgBuf s.msgBuf 0 s.msgLen 1
  else chk

/-- Accesses of one pass of the polling loop of `P` (lines 896-905), which is
also the pass of the printer loop of lines 528-540: the bytes received are
stored at `gpibBuf[0]`, ..., `gpibBuf[gpibIndex-1]` and read back from there. -/
def plotterPollAcc (pins : Pins) (s : State) : List (Arr × Int) :=
  let r := GPIB_Receive pins s.hw s.gpibBuf (GPIB_BUF_SIZE - 2)
  span Arr.gpibBuf 0 r.receivedLength ++
    (if r.receivedLength ≠ 0 then span Arr.gpibBuf 0 r.receivedLength else [])

/-- Accesses of the reception shared by `X`, `Y` and `Z`: the bytes received are
stored at `gpibBuf[0]`, ..., `gpibBuf[gpibIndex-1]`. -/
def receiveMessageAcc (pins : Pins) (s : State) : List (Arr × Int) :=
  span Arr.gpibBuf 0 (receiveMessage pins s).gpibIndex

/-- Accesses of the handler of `X` (lines 912-931): the reception, the NUL
stored at `gpibBuf[gpibIndex]` and the `printf` of the string. -/
def handleXAcc (pins : Pins) (s : State) : List (Arr × Int) :=
  let s1 := receiveMessage pins s
  receiveMessageAcc pins s ++
    (if s1.gpibIndex ≠ 0 then
      cell Arr.gpibBuf s1.gpibIndex :: strAcc Arr.gpibBuf (wr s1.gpibBuf s1.gpibIndex 0) 0
    else [])

/-- Accesses of the handlers of `Y` and `Z` (lines 932-966): the reception and
the loop over the bytes received. -/
def handleYZAcc (pins : Pins) (s : State) : List (Arr × Int) :=
  receiveMessageAcc pins s ++ span Arr.gpibBuf 0 (receiveMessage pins s).gpibIndex

/-- Accesses of the handlers of `E` and `Q` (lines 971-987 and 1013-1032):
`buf[1]` is read when `bufPos` is 2. -/
def handleEQAcc (s : State) : List (Arr × Int) :=
  if s.bufPos = 2 then [cell Arr.buf 1] else []

/-- Accesses of the handler of `H` (lines 988-994). -/
def handleHAcc (s : State) : List (Arr × Int) :=
  (List.range s.savedCommands).flatMap (fun i =>
    strAcc Arr.commandsHistory s.commandsHistory (i * BUF_SIZE))

/-- Accesses of the handler of `A` (lines 995-1012). -/
def handleAAcc (s : State) : List (Arr × Int) :=
  if s.bufPos = 3 then
    cell Arr.buf 1 ::
      (if isdigit (rd s.buf 1) = true then
        cell Arr.buf 2 ::
          (if isdigit (rd s.buf 2) = true then atoiAcc Arr.buf s.buf 1 else [])
       else [])
  else []

/-- Accesses of the history save (lines 1093-1115). -/
def saveHistoryAcc (s : State) : List (Arr × Int) :=
  if s.command ≠ 0 ∧ s.bufPos ≠ 0 then
    let w := cell Arr.buf s.bufPos
    let s := { s with buf := wr s.buf s.bufPos 0 }
    let cmp := if s.savedCommands > 0 then
        strcmpAcc Arr.commandsHistory s.commandsHistory ((s.savedCommands - 1) * BUF_SIZE)
          Arr.buf s.buf 0
      else []
    if s.savedCommands > 0 ∧
        strcmpEq s.commandsHistory ((s.savedCommands - 1) * BUF_SIZE) s.buf 0 = true then
      w :: cmp
    else if s.savedCommands < MAX_COMMANDS then
      w :: cmp ++ memmoveAcc Arr.commandsHistory (s.savedCommands * BUF_SIZE) Arr.buf 0 BUF_SIZE
    else
      w :: cmp ++
        memmoveAcc Arr.commandsHistory 0 Arr.commandsHistory BUF_SIZE
          (BUF_SIZE * (s.savedCommands - 1)) ++
        memmoveAcc Arr.commandsHistory ((s.savedCommands - 1) * BUF_SIZE) Arr.buf 0 BUF_SIZE
  else []

/-- Accesses of the end of the loop body (lines 1093-1120): the history save
and `buf[0] = 0`. -/
def finishAcc (s : State) : List (Arr × Int) :=
  saveHistoryAcc { s with mode := Mode.edit } ++ [cell Arr.buf 0]

/-- Accesses of the `if`/`else if` chain on `command` and of the end of the
loop body. -/
def dispatchAcc (pins : Pins) (s : State) : List (Arr × Int) :=
  if s.command = 68 then handleDataAcc pins s 1 ++ finishAcc (handleData pins s 1)
  else if s.command = 77 then handleDataAcc pins s 0 ++ finishAcc (handleData pins s 0)
  else if s.command = 67 then handleCAcc pins s ++ finishAcc (handleC pins s)
  else if s.command = 82 then finishAcc (handleR s)
  else if s.command = 76 then finishAcc (handleL s)
  else if s.command = 73 then finishAcc (handleI s)
  else if s.command = 83 then finishAcc (handleS pins s)
  else if s.command = 80 then []
  else if s.command = 88 then handleXAcc pins s ++ finishAcc (handleX pins s)
  else if s.command = 89 then handleYZAcc pins s ++ finishAcc (handleY pins s)
  else if s.command = 90 then handleYZAcc pins s ++ finishAcc (handleZ pins s)
  else if s.command = 63 then finishAcc (ShowHelp s)
  else if s.command = 69 then handleEQAcc s ++ finishAcc (handleE s)
  else if s.command = 72 then handleHAcc s ++ finishAcc (handleH s)
  else if s.command = 65 then handleAAcc s ++ finishAcc (handleA s)
  else if s.command = 81 then handleEQAcc s ++ finishAcc (handleQ s)
  else if s.command = 84 then handleTAcc pins s ++ finishAcc (handleT pins s)
  else
    finishAcc { (if s.bufPos ≠ 0 then s.print "WRONG COMMAND\r\n" else s) with command := 0 }

/-- Accesses of the carriage-return branch (lines 696-708) and of what the loop
exit leads to. -/
def carriageReturnAcc (pins : Pins) (s : State) : List (Arr × Int) :=
  let s := if s.localEcho ≠ 0 then s.puts [13, 10] else s
  let hd := if s.bufPos ≠ 0 then [cell Arr.buf 0] else []
  let s := { s with command := if s.bufPos ≠ 0 then toupper (rd s.buf 0) else EMPTY_LINE }
  if s.command ≠ 0 then hd ++ dispatchAcc pins s else hd

/-- The accesses to the four arrays that `main` makes while it handles one
event of the serial link in state `s`, in program order. -/
def stepAcc (pins : Pins) (s : State) : Event → List (Arr × Int)
  | Event.idle =>
    match s.mode with
    | Mode.plotter => plotterPollAcc pins s
    | _ => []
  | Event.byte c =>
    match s.mode with
    | Mode.edit =>
      if c = 0x08 then backspaceAcc s
      else if c = 10 then []
      else if c = 0x1b then []
      else if c = 13 then carriageReturnAcc pins s
      else insertCharAcc s c
    | Mode.esc1 => []
    | Mode.esc2 => escapeKeyAcc { s with mode := Mode.edit } c
    | Mode.plotter =>
      plotterPollAcc pins s ++
        (if c = 27 then finishAcc (plotterExit (plotterPoll pins s)) else [])

/-- The part of the reachability invariant that the array accesses need beyond
`Inv`: `buf[65]`, which no statement writes, still holds its initial 0, and
`gpibBuf` has its declared size. -/
def Tail (s : State) : Prop := rd s.buf 65 = 0 ∧ s.gpibBuf.length = 128

/-- The second state has the line buffer and the bus buffer of the first. -/
def SameBufs (s t : State) : Prop := t.buf = s.buf ∧ t.gpibBuf = s.gpibBuf

/-- The CR LF policy set by `Q3`, then a full line of 63 bytes that starts with
`D`, before its carriage return. -/
def sampleFullLine : List Event :=
  typed "Q3\rD012345678901234567890123456789012345678901234567890123456789ab"

/-! # Theorems -/

/-! ## Hex codec -/

theorem toupper_lt {c : Nat} (h : c < 256) : toupper c < 256 := by
  unfold toupper; split <;> omega

theorem ishexdigit_toupper_iff (c : Nat) :
    ishexdigit (toupper c) = true ↔ isHexChar c := by
  unfold ishexdigit toupper isHexChar
  simp only [Bool.or_eq_true, Bool.and_eq_true, decide_eq_true_eq]
  split <;> omega

theorem hex2dec_toupper {c : Nat} (h : isHexChar c) :
    hex2dec (toupper c) = hexValue c := by
  unfold isHexChar at h
  unfold hex2dec toupper hexValue
  split_ifs <;> omega

theorem hexValue_le (c : Nat) : hexValue c ≤ 15 := by
  unfold hexValue; split_ifs <;> omega

theorem hexChar_hexValue {c : Nat} (h : isHexChar c) :
    hexChar (hexValue c) = toupper c := by
  unfold isHexChar at h
  unfold hexChar toupper hexValue
  split_ifs <;> omega

theorem hexDigitsOk_iff (buf : Int → Nat) (len : Nat) (hlen : len < 256) :
    ∀ fuel i, i ≤ len → len - i ≤ fuel →
      (hexDigitsOk buf len fuel i = true ↔
        ∀ j : Nat, i ≤ j → j < len → isHexChar (buf (j : Int))) := by
  intro fuel
  induction fuel with
  | zero =>
    intro i hi hf
    simp only [hexDigitsOk, true_iff]
    intro j h1 h2; omega
  | succ n ih =>
    intro i hi hf
    unfold hexDigitsOk
    by_cases hlt : i < len
    · have hmod : (i + 1) % 256 = i + 1 := by omega
      by_cases hd : ishexdigit (toupper (buf (i : Int))) = true
      · simp only [hlt, hd, if_true, hmod]
        rw [ih (i + 1) (by omega) (by omega)]
        constructor
        · intro h j h1 h2
          by_cases hj : j = i
          · subst hj; exact (ishexdigit_toupper_iff _).1 hd
          · exact h j (by omega) h2
        · intro h j h1 h2
          exact h j (by omega) h2
      · simp only [hlt, hd, if_true]
        constructor
        · intro h; exact absurd h (by simp)
        · intro h
          exact absurd ((ishexdigit_toupper_iff _).2 (h i (le_refl _) hlt)) hd
    · simp only [hlt, if_false, true_iff]
      intro j h1 h2; omega

/-- Closed form of the decoding loop on a validated digit region of `n` pairs
starting at `i`. -/
theorem hexDecode_eq (buf : Int → Nat) :
    ∀ (n fuel i : Nat), i + 2 * n < 256 → n ≤ fuel →
      (∀ j : Nat, i ≤ j → j < i + 2 * n → isHexChar (buf (j : Int))) →
      hexDecode buf (i + 2 * n) fuel i =
        (List.range n).map (fun k =>
          16 * hexValue (buf ((i + 2 * k : Nat) : Int))
            + hexValue (buf ((i + 2 * k + 1 : Nat) : Int))) := by
  intro n
  induction n with
  | zero =>
    intro fuel i _ _ _
    cases fuel <;> simp [hexDecode]
  | succ m ih =>
    intro fuel i hb hf hx
    obtain ⟨f, rfl⟩ : ∃ f, fuel = f + 1 := ⟨fuel - 1, by omega⟩
    unfold hexDecode
    have hlt : i < i + 2 * (m + 1) := by omega
    have hmod : (i + 2) % 256 = i + 2 := by omega
    have e : i + 2 * (m + 1) = (i + 2) + 2 * m := by omega
    have h0 := hx i (le_refl _) (by omega)
    have h1 := hx (i + 1) (by omega) (by omega)
    have c1 : ((i : Int) + 1) = ((i + 1 : Nat) : Int) := by push_cast; rfl
    simp only [hlt, if_true, hmod]
    rw [c1, hex2dec_toupper h0, hex2dec_toupper h1, List.range_succ_eq_map, List.map_cons,
      List.map_map]
    have b0 := hexValue_le (buf (i : Int))
    have b1 := hexValue_le (buf ((i + 1 : Nat) : Int))
    congr 1
    · simp only [Nat.mul_zero, Nat.add_zero]; omega
    · rw [e, ih f (i + 2) (by omega) (by omega) (fun j hj1 hj2 => hx j (by omega) (by omega))]
      apply List.map_congr_left
      intro k _
      simp only [Function.comp, Nat.succ_eq_add_one]
      have e1 : i + 2 + 2 * k = i + 2 * (k + 1) := by omega
      rw [e1]

theorem hexEffLen_lt (buf : Int → Nat) {len : Nat} (hlen : len < 256) :
    hexEffLen buf len < 256 := by
  unfold hexEffLen; split <;> omega

/-- The two outcomes of `CheckHexMsg`: either one of the guards of lines
459-469 fires and 0 is returned, or none does and 1 is returned with the
decoded bytes. -/
theorem CheckHexMsg_cases (buf : Int → Nat) (len : Nat) (hlen : len < 256) :
    ((hexEffLen buf len % 2 = 1 ∨ hexEffLen buf len < 4 ∨ buf 0 ≠ 48 ∨
        (toupper (buf 1) ≠ 67 ∧ toupper (buf 1) ≠ 68) ∨
        ∃ j : Nat, 2 ≤ j ∧ j < hexEffLen buf len ∧ ¬ isHexChar (buf (j : Int))) ∧
      (CheckHexMsg buf len).ret = 0) ∨
    ((hexEffLen buf len % 2 = 0 ∧ 4 ≤ hexEffLen buf len ∧ buf 0 = 48 ∧
        (toupper (buf 1) = 67 ∨ toupper (buf 1) = 68) ∧
        ∀ j : Nat, 2 ≤ j → j < hexEffLen buf len → isHexChar (buf (j : Int))) ∧
      (CheckHexMsg buf len).ret = 1 ∧
      (CheckHexMsg buf len).outputMsg = decodedBytes buf len ∧
      (CheckHexMsg buf len).outputLen = (hexEffLen buf len - 2) / 2) := by
  have hL := hexEffLen_lt buf hlen
  generalize hLdef : hexEffLen buf len = L at hL
  by_cases h1 : L % 2 = 1 ∨ L < 4
  · left
    refine ⟨by omega, ?_⟩
    simp only [CheckHexMsg, hLdef, h1, if_true]
  by_cases h2 : buf 0 ≠ 48 ∨ (toupper (buf 1) ≠ 67 ∧ toupper (buf 1) ≠ 68)
  · left
    refine ⟨by tauto, ?_⟩
    simp only [CheckHexMsg, hLdef, h1, h2, if_true, if_false]
  have hok := hexDigitsOk_iff buf L hL L 2 (by omega) (by omega)
  by_cases h3 : hexDigitsOk buf L L 2 = true
  · right
    have hall := hok.1 h3
    obtain ⟨n, hn⟩ : ∃ n, L = 2 + 2 * n := ⟨(L - 2) / 2, by omega⟩
    have hdec := hexDecode_eq buf n L 2 (by omega) (by omega)
      (fun j hj1 hj2 => hall j hj1 (by omega))
    rw [← hn] at hdec
    have hn2 : (L - 2) / 2 = n := by omega
    refine ⟨⟨by omega, by omega, by tauto, by tauto, hall⟩, ?_, ?_, ?_⟩
    · simp only [CheckHexMsg, hLdef, h1, h2, h3, Bool.true_eq_false, if_false]
    · simp only [CheckHexMsg, hLdef, h1, h2, h3, Bool.true_eq_false, if_false, decodedBytes, hdec, hn2]
    · simp only [CheckHexMsg, hLdef, h1, h2, h3, Bool.true_eq_false, if_false, hdec, hn2, List.length_map,
        List.length_range]
      omega
  · left
    have h3f : hexDigitsOk buf L L 2 = false := by simpa using h3
    refine ⟨?_, ?_⟩
    · right; right; right; right
      by_contra hne
      apply h3
      apply hok.2
      intro j hj1 hj2
      by_contra hj
      exact hne ⟨j, hj1, hj2, hj⟩
    · simp only [CheckHexMsg, hLdef, h1, h2, h3f, if_true, if_false]

/-- C1 (as stated, refuted): no re-encoding of the decoded bytes whatsoever can
reproduce the digit stream of every accepted input, because `0DAB` and `0Dab`
are both accepted and decode to the same byte. -/
theorem hex_roundtrip_exact_fails :
    ¬ ∃ enc : List Nat → List Nat, ∀ (buf : Int → Nat) (len : Nat), len < 256 →
        (CheckHexMsg buf len).ret = 1 →
        enc (CheckHexMsg buf len).outputMsg = digitStream buf len := by
  rintro ⟨enc, h⟩
  have h1 := h hexUpperAB 4 (by decide) (by decide)
  have h2 := h hexLowerAB 4 (by decide) (by decide)
  have e1 : (CheckHexMsg hexUpperAB 4).outputMsg = [171] := by decide
  have e2 : (CheckHexMsg hexLowerAB 4).outputMsg = [171] := by decide
  have d1 : digitStream hexUpperAB 4 = [65, 66] := by decide
  have d2 : digitStream hexLowerAB 4 = [97, 98] := by decide
  rw [e1, d1] at h1
  rw [e2, d2, h1] at h2
  exact absurd h2 (by decide)

/-- C1 (amended): for every accepted input, re-encoding each decoded byte as two
upper-case hex digits, high nibble first, reproduces the digit stream with its
letters upper-cased; it reproduces the digit stream itself when that stream has
no lower-case letter. -/
theorem hex_roundtrip_upper (buf : Int → Nat) (len : Nat) (hlen : len < 256)
    (hacc : (CheckHexMsg buf len).ret = 1) :
    encodeHex (CheckHexMsg buf len).outputMsg = (digitStream buf len).map toupper ∧
    ((∀ c ∈ digitStream buf len, ¬ (97 ≤ c ∧ c ≤ 122)) →
      encodeHex (CheckHexMsg buf len).outputMsg = digitStream buf len) := by
  have key : encodeHex (CheckHexMsg buf len).outputMsg = (digitStream buf len).map toupper := by
    rcases CheckHexMsg_cases buf len hlen with ⟨_, h0⟩ | ⟨⟨hev, h4, _, _, hall⟩, _, hout, _⟩
    · rw [h0] at hacc; exact absurd hacc (by decide)
    · rw [hout]
      unfold decodedBytes digitStream encodeHex
      obtain ⟨n, hn⟩ : ∃ n, hexEffLen buf len - 2 = 2 * n :=
        ⟨(hexEffLen buf len - 2) / 2, by omega⟩
      have hall2 : ∀ j : Nat, 2 ≤ j → j < 2 + 2 * n → isHexChar (buf (j : Int)) :=
        fun j h1 h2 => hall j h1 (by omega)
      have hn2 : (hexEffLen buf len - 2) / 2 = n := by omega
      rw [hn2, hn]
      clear hn hn2 hall hev h4 hacc hout
      induction n with
      | zero => simp
      | succ m ih =>
        have r1 : List.range (2 * (m + 1)) = List.range (2 * m) ++ [2 * m, 2 * m + 1] := by
          have e : 2 * (m + 1) = 2 * m + 1 + 1 := by omega
          rw [e, List.range_succ, List.range_succ, List.append_assoc]
          rfl
        have r2 : List.range (m + 1) = List.range m ++ [m] := List.range_succ m
        rw [r1, r2]
        simp only [List.map_append, List.flatMap_append, List.map_cons, List.map_nil,
          List.flatMap_cons, List.flatMap_nil, List.append_nil, List.append_assoc]
        rw [ih (fun j h1 h2 => hall2 j h1 (by omega))]
        have ha := hall2 (2 + 2 * m) (by omega) (by omega)
        have hb := hall2 (2 + 2 * m + 1) (by omega) (by omega)
        have va := hexValue_le (buf ((2 + 2 * m : Nat) : Int))
        have vb := hexValue_le (buf ((2 + 2 * m + 1 : Nat) : Int))
        have q1 : (16 * hexValue (buf ((2 + 2 * m : Nat) : Int))
            + hexValue (buf ((2 + 2 * m + 1 : Nat) : Int))) / 16
            = hexValue (buf ((2 + 2 * m : Nat) : Int)) := by omega
        have q2 : (16 * hexValue (buf ((2 + 2 * m : Nat) : Int))
            + hexValue (buf ((2 + 2 * m + 1 : Nat) : Int))) % 16
            = hexValue (buf ((2 + 2 * m + 1 : Nat) : Int)) := by omega
        rw [q1, q2, hexChar_hexValue ha, hexChar_hexValue hb]
        have e3 : 2 + (2 * m + 1) = 2 + 2 * m + 1 := by omega
        rw [e3]
  refine ⟨key, fun hno => ?_⟩
  rw [key]
  conv_rhs => rw [← List.map_id (digitStream buf len)]
  apply List.map_congr_left
  intro c hc
  have := hno c hc
  unfold toupper
  simp [this]

/-- Witness for C1 (amended): the accepted input `0dAb10;`. -/
theorem hex_roundtrip_upper_witness :
    (7 < 256 ∧ (CheckHexMsg hexMixed 7).ret = 1) ∧
    (encodeHex (CheckHexMsg hexMixed 7).outputMsg = (digitStream hexMixed 7).map toupper ∧
    ((∀ c ∈ digitStream hexMixed 7, ¬ (97 ≤ c ∧ c ≤ 122)) →
      encodeHex (CheckHexMsg hexMixed 7).outputMsg = digitStream hexMixed 7)) :=
  ⟨⟨by decide, by decide⟩, hex_roundtrip_upper hexMixed 7 (by decide) (by decide)⟩

/-- C2 (as stated, refuted): the input `0D41` has one pair of digits past the
tag, which the stated condition counts as "fewer than two pairs", yet
`CheckHexMsg` returns 1 on it. -/
theorem hex_reject_two_pairs_fails :
    ¬ ((CheckHexMsg hexOnePair 4).ret = 0 ↔ rejectedAsStated hexOnePair 4) := by
  intro h
  have hr : rejectedAsStated hexOnePair 4 := Or.inr (Or.inl (by decide))
  exact absurd (h.2 hr) (by decide)

/-- C2 (amended): `CheckHexMsg` returns 0 exactly when the digit count past the
tag is odd or fewer than one pair (no digit at all), or the leading byte is not
`'0'`, or the tag is neither `C` nor `D` in either case, or some digit position
holds no hex character; on every other input it returns 1. -/
theorem hex_reject_iff (buf : Int → Nat) (len : Nat) (hlen : len < 256) :
    ((CheckHexMsg buf len).ret = 0 ↔
      ((hexEffLen buf len - 2) % 2 = 1 ∨ hexEffLen buf len - 2 < 2 * 1 ∨ buf 0 ≠ 48 ∨
        (toupper (buf 1) ≠ 67 ∧ toupper (buf 1) ≠ 68) ∨
        ∃ k, k < hexEffLen buf len - 2 ∧ ¬ isHexChar (buf ((2 + k : Nat) : Int)))) ∧
    ((CheckHexMsg buf len).ret ≠ 0 → (CheckHexMsg buf len).ret = 1) := by
  rcases CheckHexMsg_cases buf len hlen with ⟨hc, h0⟩ | ⟨⟨hev, h4, hz, htag, hall⟩, h1, _, _⟩
  · refine ⟨⟨fun _ => ?_, fun _ => h0⟩, fun h => absurd h0 h⟩
    rcases hc with h | h | h | h | ⟨j, hj1, hj2, hj3⟩
    · by_cases h2 : hexEffLen buf len < 2
      · right; left; omega
      · left; omega
    · right; left; omega
    · right; right; left; exact h
    · right; right; right; left; exact h
    · right; right; right; right
      refine ⟨j - 2, by omega, ?_⟩
      have e : 2 + (j - 2) = j := by omega
      rw [e]; exact hj3
  · refine ⟨⟨fun h => ?_, fun h => ?_⟩, fun _ => h1⟩
    · rw [h1] at h; exact absurd h (by decide)
    · exfalso
      rcases h with h | h | h | h | ⟨k, hk1, hk2⟩
      · omega
      · omega
      · exact h hz
      · rcases htag with t | t
        · exact h.1 t
        · exact h.2 t
      · exact hk2 (hall (2 + k) (by omega) (by omega))

/-- Witness for C2 (amended): on `0D41` no rejection condition holds and the
function returns 1. -/
theorem hex_reject_iff_witness :
    (4 < 256) ∧
    (((CheckHexMsg hexOnePair 4).ret = 0 ↔
      ((hexEffLen hexOnePair 4 - 2) % 2 = 1 ∨ hexEffLen hexOnePair 4 - 2 < 2 * 1 ∨
        hexOnePair 0 ≠ 48 ∨
        (toupper (hexOnePair 1) ≠ 67 ∧ toupper (hexOnePair 1) ≠ 68) ∨
        ∃ k, k < hexEffLen hexOnePair 4 - 2 ∧ ¬ isHexChar (hexOnePair ((2 + k : Nat) : Int)))) ∧
    ((CheckHexMsg hexOnePair 4).ret ≠ 0 → (CheckHexMsg hexOnePair 4).ret = 1)) :=
  ⟨by decide, hex_reject_iff hexOnePair 4 (by decide)⟩

/-- C3: for every accepted input of effective length `L`, the reported output
length is `(L-2)/2`, that many bytes are stored, and byte `k` is
`16 * value(digit 2k) + value(digit 2k+1)`, both digits being hex characters. -/
theorem hex_decode_value (buf : Int → Nat) (len : Nat) (hlen : len < 256)
    (hacc : (CheckHexMsg buf len).ret = 1) :
    (CheckHexMsg buf len).outputLen = (hexEffLen buf len - 2) / 2 ∧
    (CheckHexMsg buf len).outputMsg.length = (hexEffLen buf len - 2) / 2 ∧
    ∀ k, k < (hexEffLen buf len - 2) / 2 →
      isHexChar (buf ((2 + 2 * k : Nat) : Int)) ∧
      isHexChar (buf ((2 + 2 * k + 1 : Nat) : Int)) ∧
      (CheckHexMsg buf len).outputMsg.getD k 0 =
        16 * hexValue (buf ((2 + 2 * k : Nat) : Int))
          + hexValue (buf ((2 + 2 * k + 1 : Nat) : Int)) := by
  rcases CheckHexMsg_cases buf len hlen with ⟨_, h0⟩ | ⟨⟨hev, h4, _, _, hall⟩, _, hout, hlen2⟩
  · rw [h0] at hacc; exact absurd hacc (by decide)
  · refine ⟨hlen2, ?_, fun k hk => ⟨hall _ (by omega) (by omega), hall _ (by omega) (by omega), ?_⟩⟩
    · rw [hout]; simp [decodedBytes]
    · rw [hout]
      unfold decodedBytes
      rw [List.getD_eq_getElem?_getD, List.getElem?_map, List.getElem?_range hk]
      rfl

/-- Witness for C3: the accepted input `0dAb10;` decodes to two bytes. -/
theorem hex_decode_value_witness :
    (7 < 256 ∧ (CheckHexMsg hexMixed 7).ret = 1) ∧
    ((CheckHexMsg hexMixed 7).outputLen = (hexEffLen hexMixed 7 - 2) / 2 ∧
    (CheckHexMsg hexMixed 7).outputMsg.length = (hexEffLen hexMixed 7 - 2) / 2 ∧
    ∀ k, k < (hexEffLen hexMixed 7 - 2) / 2 →
      isHexChar (hexMixed ((2 + 2 * k : Nat) : Int)) ∧
      isHexChar (hexMixed ((2 + 2 * k + 1 : Nat) : Int)) ∧
      (CheckHexMsg hexMixed 7).outputMsg.getD k 0 =
        16 * hexValue (hexMixed ((2 + 2 * k : Nat) : Int))
          + hexValue (hexMixed ((2 + 2 * k + 1 : Nat) : Int))) :=
  ⟨⟨by decide, by decide⟩, hex_decode_value hexMixed 7 (by decide) (by decide)⟩

/-- C4: for every accepted input the `eoi` output is 0 if and only if the tag is
`D` or `d` and the last input character is `';'`, and it is 1 otherwise; an
input with tag `C` or `c` whose last character is `';'` is never accepted. -/
theorem hex_eoi_flag (buf : Int → Nat) (len : Nat) (hlen : len < 256) :
    ((CheckHexMsg buf len).ret = 1 →
      (((CheckHexMsg buf len).eoi = 0 ↔
          ((buf 1 = 68 ∨ buf 1 = 100) ∧ buf ((len : Int) - 1) = 59)) ∧
        (¬ ((buf 1 = 68 ∨ buf 1 = 100) ∧ buf ((len : Int) - 1) = 59) →
          (CheckHexMsg buf len).eoi = 1))) ∧
    ((buf 1 = 67 ∨ buf 1 = 99) → buf ((len : Int) - 1) = 59 →
      (CheckHexMsg buf len).ret = 0) := by
  have htagD : toupper (buf 1) = 68 ↔ (buf 1 = 68 ∨ buf 1 = 100) := by
    unfold toupper; split <;> omega
  have heoi : (CheckHexMsg buf len).eoi =
      if toupper (buf 1) = 68 ∧ buf ((len : Int) - 1) = 59 then 0 else 1 := by
    unfold CheckHexMsg
    simp only []
    split_ifs <;> rfl
  refine ⟨fun _ => ?_, fun hC hs => ?_⟩
  · rw [heoi]
    by_cases hc : (buf 1 = 68 ∨ buf 1 = 100) ∧ buf ((len : Int) - 1) = 59
    · have hc2 : toupper (buf 1) = 68 ∧ buf ((len : Int) - 1) = 59 := ⟨htagD.2 hc.1, hc.2⟩
      simp [hc, hc2]
    · have hc2 : ¬ (toupper (buf 1) = 68 ∧ buf ((len : Int) - 1) = 59) :=
        fun h => hc ⟨htagD.1 h.1, h.2⟩
      simp [hc, hc2]
  · rcases CheckHexMsg_cases buf len hlen with ⟨_, h0⟩ | ⟨⟨hev, h4, _, _, hall⟩, _, _, _⟩
    · exact h0
    · exfalso
      have hnD : ¬ (toupper (buf 1) = 68 ∧ buf ((len : Int) - 1) = 59) := by
        rw [htagD]; omega
      have hL : hexEffLen buf len = len := by unfold hexEffLen; rw [if_neg hnD]
      rw [hL] at h4 hall
      have hx := hall (len - 1) (by omega) (by omega)
      have e : ((len - 1 : Nat) : Int) = (len : Int) - 1 := by omega
      rw [e, hs] at hx
      revert hx; decide

/-- Witness for C4: `0dAb10;` is accepted with `eoi = 0`. -/
theorem hex_eoi_flag_witness :
    (7 < 256) ∧
    (((CheckHexMsg hexMixed 7).ret = 1 →
      (((CheckHexMsg hexMixed 7).eoi = 0 ↔
          ((hexMixed 1 = 68 ∨ hexMixed 1 = 100) ∧ hexMixed (((7 : Nat) : Int) - 1) = 59)) ∧
        (¬ ((hexMixed 1 = 68 ∨ hexMixed 1 = 100) ∧ hexMixed (((7 : Nat) : Int) - 1) = 59) →
          (CheckHexMsg hexMixed 7).eoi = 1))) ∧
    ((hexMixed 1 = 67 ∨ hexMixed 1 = 99) → hexMixed (((7 : Nat) : Int) - 1) = 59 →
      (CheckHexMsg hexMixed 7).ret = 0)) :=
  ⟨by decide, hex_eoi_flag hexMixed 7 (by decide)⟩

/-! ## Byte arrays -/

theorem length_wr (a : List Nat) (i v : Nat) : (wr a i v).length = a.length := by
  simp [wr]

theorem length_memmove (dst : List Nat) (d : Nat) (src : List Nat) (s n : Nat) :
    (memmove dst d src s n).length = dst.length := by
  simp [memmove]

theorem rd_wr (a : List Nat) (i v j : Nat) :
    rd (wr a i v) j = if i = j ∧ i < a.length then v else rd a j := by
  unfold rd wr
  rw [List.getD_eq_getElem?_getD, List.getD_eq_getElem?_getD, List.getElem?_set]
  by_cases h : i = j
  · subst h
    by_cases h2 : i < a.length
    · simp [h2]
    · simp [h2, List.getElem?_eq_none (Nat.le_of_not_lt h2)]
  · simp [h]

theorem rd_memmove (dst : List Nat) (d : Nat) (src : List Nat) (s n j : Nat)
    (hj : j < dst.length) :
    rd (memmove dst d src s n) j =
      if d ≤ j ∧ j < d + n then rd src (s + (j - d)) else rd dst j := by
  unfold rd memmove
  rw [List.getD_eq_getElem?_getD, List.getElem?_map, List.getElem?_range hj]
  rfl

theorem rd_of_length_le (a : List Nat) (j : Nat) (h : a.length ≤ j) : rd a j = 0 := by
  unfold rd
  rw [List.getD_eq_getElem?_getD, List.getElem?_eq_none h]
  rfl

/-- A NUL at offset `j` bounds the length of the C string. -/
theorem strlen_le_of_rd_zero (a : List Nat) :
    ∀ (j start : Nat), rd a (start + j) = 0 → strlen a start ≤ j := by
  intro j
  induction j with
  | zero =>
    intro start h
    unfold strlen cstr
    by_cases hs : start < a.length
    · rw [List.drop_eq_getElem_cons hs]
      have : a[start] = 0 := by
        unfold rd at h
        rw [Nat.add_zero, List.getD_eq_getElem?_getD, List.getElem?_eq_getElem hs] at h
        simpa using h
      simp [this]
    · rw [List.drop_eq_nil_of_le (Nat.le_of_not_lt hs)]
      simp
  | succ k ih =>
    intro start h
    unfold strlen cstr
    by_cases hs : start < a.length
    · rw [List.drop_eq_getElem_cons hs, List.takeWhile_cons]
      split
      · have e : start + (k + 1) = (start + 1) + k := by omega
        rw [e] at h
        have := ih (start + 1) h
        unfold strlen cstr at this
        simp only [List.length_cons]
        omega
      · simp
    · rw [List.drop_eq_nil_of_le (Nat.le_of_not_lt hs)]
      simp

/-! ## The command loop: frame and invariant lemmas -/

theorem sameLine_refl (s : State) : SameLine s s := ⟨rfl, rfl, rfl, rfl, rfl, rfl⟩

theorem sameLine_trans {s t u : State} (h1 : SameLine s t) (h2 : SameLine t u) :
    SameLine s u :=
  ⟨h2.1.trans h1.1, h2.2.1.trans h1.2.1, h2.2.2.1.trans h1.2.2.1,
    h2.2.2.2.1.trans h1.2.2.2.1, h2.2.2.2.2.1.trans h1.2.2.2.2.1,
    h2.2.2.2.2.2.trans h1.2.2.2.2.2⟩

theorem Inv_of_sameLine {s t : State} (h : Inv s) (hst : SameLine s t) : Inv t := by
  unfold Inv at *
  rw [hst.1, hst.2.1, hst.2.2.1, hst.2.2.2.1, hst.2.2.2.2.1, hst.2.2.2.2.2]
  exact h

theorem sameLine_puts (s : State) (l : List Nat) : SameLine s (s.puts l) := by
  simp [SameLine, State.puts]

theorem sameLine_put (s : State) (c : Nat) : SameLine s (s.put c) := by
  simp [SameLine, State.put]

theorem sameLine_print (s : State) (l : String) : SameLine s (s.print l) := by
  simp [SameLine, State.puts, State.print]

theorem sameLine_reportTransmit (s : State) (r : Nat) : SameLine s (reportTransmit s r) := by
  unfold reportTransmit
  split
  · exact sameLine_print _ _
  · exact sameLine_print _ _

theorem sameLine_handleR (s : State) : SameLine s (handleR s) := by
  simp [SameLine, handleR, State.puts, State.print]

theorem sameLine_handleL (s : State) : SameLine s (handleL s) := by
  simp [SameLine, handleL, State.puts, State.print]

theorem sameLine_handleI (s : State) : SameLine s (handleI s) := by
  unfold handleI SameLine State.print State.puts
  simp only []
  split <;> simp

theorem sameLine_handleS (pins : Pins) (s : State) : SameLine s (handleS pins s) := by
  simp [SameLine, handleS, State.puts, State.put]

theorem sameLine_plotterEnter (s : State) : SameLine s (plotterEnter s) := by
  simp [SameLine, plotterEnter]

theorem sameLine_plotterPoll (pins : Pins) (s : State) : SameLine s (plotterPoll pins s) := by
  unfold plotterPoll SameLine State.puts
  simp only []
  split <;> simp

theorem sameLine_plotterExit (s : State) : SameLine s (plotterExit s) := by
  simp [SameLine, plotterExit]

theorem sameLine_receiveMessage (pins : Pins) (s : State) :
    SameLine s (receiveMessage pins s) := by
  unfold receiveMessage SameLine
  simp only []
  split <;> simp

theorem sameLine_restoreNormal (s : State) : SameLine s (restoreNormal s) := by
  unfold restoreNormal SameLine
  split <;> simp

theorem sameLine_handleX (pins : Pins) (s : State) : SameLine s (handleX pins s) := by
  unfold handleX
  simp only []
  refine sameLine_trans (sameLine_trans (sameLine_receiveMessage pins s) ?_)
    (sameLine_restoreNormal _)
  unfold SameLine State.print State.puts
  split <;> simp

theorem sameLine_handleY (pins : Pins) (s : State) : SameLine s (handleY pins s) := by
  unfold handleY
  simp only []
  refine sameLine_trans (sameLine_trans (sameLine_receiveMessage pins s) ?_)
    (sameLine_restoreNormal _)
  simp [SameLine, State.puts, State.put]

theorem sameLine_handleZ (pins : Pins) (s : State) : SameLine s (handleZ pins s) := by
  unfold handleZ
  simp only []
  refine sameLine_trans (sameLine_trans (sameLine_receiveMessage pins s) ?_)
    (sameLine_restoreNormal _)
  simp [SameLine, State.puts, State.print]

theorem sameLine_ShowHelp (s : State) : SameLine s (ShowHelp s) := by
  simp [SameLine, ShowHelp, State.puts]

theorem sameLine_handleE (s : State) : SameLine s (handleE s) := by
  unfold handleE SameLine State.print State.puts
  split_ifs <;> simp

theorem sameLine_handleH (s : State) : SameLine s (handleH s) := by
  simp [SameLine, handleH, State.puts]

theorem sameLine_handleA (s : State) : SameLine s (handleA s) := by
  unfold handleA SameLine State.print State.puts
  simp only []
  split_ifs <;> simp

theorem sameLine_handleQ (s : State) : SameLine s (handleQ s) := by
  unfold handleQ SameLine State.print State.puts
  simp only []
  split_ifs <;> simp

theorem sameLine_scanToken (s : State) (a b : Nat) : SameLine s (scanToken s a b) := by
  unfold scanToken SameLine
  split_ifs <;> simp

theorem scanToken_buf (s : State) (a b : Nat) : (scanToken s a b).buf = s.buf := by
  unfold scanToken
  split_ifs <;> rfl

theorem sameLine_foldl (f : State → Nat → State) (hf : ∀ s i, SameLine s (f s i)) :
    ∀ (l : List Nat) (s : State), SameLine s (l.foldl f s) := by
  intro l
  induction l with
  | nil => intro s; exact sameLine_refl s
  | cons a l ih => intro s; exact sameLine_trans (hf s a) (ih (f s a))

theorem sameLine_transmitCommand (pins : Pins) (s : State) (b : List Nat) (off len : Nat) :
    SameLine s (transmitCommand pins s b off len) := by
  unfold transmitCommand
  simp only []
  have h := sameLine_reportTransmit
    { s with hw := (GPIB_Transmit pins
        (setBitC ATN 0 (ReconfigureGPIO_GPIBNormalMode s.remoteState s.hw)) b off len 1).2 }
    (GPIB_Transmit pins
        (setBitC ATN 0 (ReconfigureGPIO_GPIBNormalMode s.remoteState s.hw)) b off len 1).1
  unfold SameLine at *
  simpa using h

theorem sameLine_roleByListenMode (s : State) : SameLine s (roleByListenMode s) := by
  unfold roleByListenMode SameLine
  simp only []
  split <;> simp

theorem sameLine_handleT (pins : Pins) (s : State) : SameLine s (handleT pins s) := by
  unfold handleT
  simp only []
  split_ifs
  · refine sameLine_trans ?_ (sameLine_reportTransmit _ _)
    simp [SameLine]
  · refine sameLine_trans ?_ (sameLine_roleByListenMode _)
    refine sameLine_trans ?_ (sameLine_transmitCommand _ _ _ _ _)
    refine sameLine_trans ?_ (sameLine_foldl _ (fun s i => sameLine_scanToken _ _ _) _ _)
    simp [SameLine]
  · exact sameLine_print _ _

theorem appendEndSeq_fields (s : State) (h : s.bufPos ≤ 63) :
    (appendEndSeq s).bufPos = s.bufPos + endSeqLen s ∧
    (appendEndSeq s).buf.length = s.buf.length ∧
    (appendEndSeq s).cursorPos = s.cursorPos ∧
    (appendEndSeq s).commandsHistory = s.commandsHistory ∧
    (appendEndSeq s).savedCommands = s.savedCommands ∧
    (appendEndSeq s).selectedCommand = s.selectedCommand ∧
    (appendEndSeq s).msgEndSeq = s.msgEndSeq := by
  unfold appendEndSeq endSeqLen
  split_ifs <;> refine ⟨?_, ?_, ?_, ?_, ?_, ?_, ?_⟩ <;> (try dsimp only) <;>
    first | omega | rfl | simp only [length_wr]

theorem trimEndSeq_fields (s : State) (h : endSeqLen s ≤ s.bufPos) (h2 : s.bufPos < 256) :
    (trimEndSeq s).bufPos = s.bufPos - endSeqLen s ∧
    (trimEndSeq s).buf = s.buf ∧
    (trimEndSeq s).cursorPos = s.cursorPos ∧
    (trimEndSeq s).commandsHistory = s.commandsHistory ∧
    (trimEndSeq s).savedCommands = s.savedCommands ∧
    (trimEndSeq s).selectedCommand = s.selectedCommand := by
  unfold trimEndSeq endSeqLen at *
  split_ifs at * <;> refine ⟨?_, ?_, ?_, ?_, ?_, ?_⟩ <;> (try dsimp only) <;> omega

theorem reportTransmit_eq (s : State) (r : Nat) :
    reportTransmit s r =
      { s with out := s.out ++ (if r = 255 then bytes "OK\r\n" else bytes "TIMEOUT\r\n") } := by
  unfold reportTransmit State.print State.puts
  split <;> rfl

theorem endSeqLen_le (s : State) : endSeqLen s ≤ 2 := by
  unfold endSeqLen; split_ifs <;> omega

theorem sameLine_handleData (pins : Pins) (s : State) (eoi : Nat) (h : s.bufPos ≤ 63) :
    SameLine s (handleData pins s eoi) := by
  unfold handleData
  split
  · simp only [reportTransmit_eq]
    obtain ⟨a1, a2, a3, a4, a5, a6, a7⟩ := appendEndSeq_fields s h
    have hl := endSeqLen_le s
    generalize appendEndSeq s = t at *
    generalize (GPIB_Transmit pins t.hw t.buf 1 ((t.bufPos + 255) % 256) eoi) = r
    have e : endSeqLen { t with hw := r.2, out := t.out ++
        (if r.1 = 255 then bytes "OK\r\n" else bytes "TIMEOUT\r\n") } = endSeqLen s := by
      unfold endSeqLen; dsimp only; rw [a7]
    obtain ⟨b1, b2, b3, b4, b5, b6⟩ := trimEndSeq_fields { t with hw := r.2, out := t.out ++
        (if r.1 = 255 then bytes "OK\r\n" else bytes "TIMEOUT\r\n") }
        (by rw [e]; dsimp only; omega) (by dsimp only; omega)
    rw [e] at b1
    dsimp only at b1 b2 b3 b4 b5 b6
    refine ⟨?_, ?_, ?_, ?_, ?_, ?_⟩
    · rw [b2, a2]
    · rw [b1, a1]; omega
    · rw [b3, a3]
    · rw [b4, a4]
    · rw [b5, a5]
    · rw [b6, a6]
  · exact sameLine_print _ _

theorem sameText_trans {s t u : State} (h1 : SameText s t) (h2 : SameText t u) :
    SameText s u :=
  ⟨sameLine_trans h1.1 h2.1, h2.2.1.trans h1.2.1, h2.2.2.trans h1.2.2⟩

theorem sameText_scanToken (s : State) (a b : Nat) : SameText s (scanToken s a b) := by
  refine ⟨sameLine_scanToken s a b, ?_, ?_⟩ <;> unfold scanToken <;> split_ifs <;> rfl

theorem sameText_foldl (f : State → Nat → State) (hf : ∀ s i, SameText s (f s i)) :
    ∀ (l : List Nat) (s : State), SameText s (l.foldl f s) := by
  intro l
  induction l with
  | nil => intro s; exact ⟨sameLine_refl s, rfl, rfl⟩
  | cons a l ih => intro s; exact sameText_trans (hf s a) (ih (f s a))

theorem sameText_transmitCommand (pins : Pins) (s : State) (b : List Nat) (off len : Nat) :
    SameText s (transmitCommand pins s b off len) := by
  refine ⟨sameLine_transmitCommand pins s b off len, ?_, ?_⟩ <;>
    simp only [transmitCommand, reportTransmit_eq]

theorem sameText_roleByListenMode (s : State) : SameText s (roleByListenMode s) := by
  refine ⟨sameLine_roleByListenMode s, ?_, ?_⟩ <;> unfold roleByListenMode <;>
    simp only [] <;> split <;> rfl

theorem sameLine_handleC (pins : Pins) (s : State) (h : s.bufPos ≤ 63) :
    SameLine s (handleC pins s) := by
  unfold handleC
  simp only []
  have h1 := sameText_foldl (fun s i => scanToken s (rd s.buf i) (rd s.buf i))
    (fun s i => sameText_scanToken s _ _) (List.range' 1 (s.bufPos - 1)) s
  generalize (List.foldl (fun s i => scanToken s (rd s.buf i) (rd s.buf i)) s
    (List.range' 1 (s.bufPos - 1))) = s1 at *
  obtain ⟨⟨c1, c2, c3, c4, c5, c6⟩, c7, c8⟩ := h1
  obtain ⟨a1, a2, a3, a4, a5, a6, a7⟩ := appendEndSeq_fields s1 (by omega)
  have hl := endSeqLen_le s1
  generalize appendEndSeq s1 = t at *
  have h2 := sameText_transmitCommand pins t t.buf 1 ((t.bufPos + 255) % 256)
  generalize transmitCommand pins t t.buf 1 ((t.bufPos + 255) % 256) = u at *
  obtain ⟨⟨d1, d2, d3, d4, d5, d6⟩, d7, d8⟩ := h2
  have e : endSeqLen u = endSeqLen s1 := by
    unfold endSeqLen; rw [d8, a7]
  obtain ⟨b1, b2, b3, b4, b5, b6⟩ := trimEndSeq_fields u (by rw [e]; omega) (by omega)
  rw [e] at b1
  refine sameLine_trans ?_ (sameLine_roleByListenMode _)
  refine ⟨?_, ?_, ?_, ?_, ?_, ?_⟩
  · rw [b2, d1, a2, c1]
  · rw [b1, d2, a1, c2]; omega
  · rw [b3, d3, a3, c3]
  · rw [b4, d4, a4, c4]
  · rw [b5, d5, a5, c5]
  · rw [b6, d6, a6, c6]

theorem saveHistory_inv (s : State) (hb : s.bufPos ≤ 63) (hl : s.buf.length = 68)
    (hh : s.commandsHistory.length = 960) (hs : s.savedCommands ≤ 15)
    (hn : HistNul s.commandsHistory) :
    (saveHistory s).buf.length = 68 ∧ (saveHistory s).commandsHistory.length = 960 ∧
    (saveHistory s).savedCommands ≤ 15 ∧ HistNul (saveHistory s).commandsHistory ∧
    (saveHistory s).localEcho = s.localEcho := by
  unfold saveHistory
  simp only [BUF_SIZE, MAX_COMMANDS]
  have hz : rd (wr s.buf s.bufPos 0) s.bufPos = 0 := by
    rw [rd_wr, if_pos ⟨rfl, by omega⟩]
  split_ifs with c1 c2 c3
  · exact ⟨by simp [length_wr, hl], hh, hs, hn, rfl⟩
  · refine ⟨by simp [length_wr, hl], by simp [length_memmove, hh], by dsimp only; omega, ?_, rfl⟩
    intro e he
    try dsimp only
    by_cases hes : e = s.savedCommands
    · refine ⟨s.bufPos, by omega, ?_⟩
      rw [rd_memmove _ _ _ _ _ _ (by omega), if_pos (by omega)]
      have e2 : 0 + (e * 64 + s.bufPos - s.savedCommands * 64) = s.bufPos := by omega
      rw [e2]; exact hz
    · obtain ⟨j, hj, hz2⟩ := hn e he
      refine ⟨j, hj, ?_⟩
      rw [rd_memmove _ _ _ _ _ _ (by omega), if_neg (by omega)]
      exact hz2
  · have h15 : s.savedCommands = 15 := by omega
    refine ⟨by simp [length_wr, hl], by simp [length_memmove, hh], hs, ?_, rfl⟩
    intro e he
    try dsimp only
    rw [h15]
    by_cases hes : e = 14
    · refine ⟨s.bufPos, by omega, ?_⟩
      rw [rd_memmove _ _ _ _ _ _ (by rw [length_memmove]; omega), if_pos (by omega)]
      have e2 : 0 + (e * 64 + s.bufPos - (15 - 1) * 64) = s.bufPos := by omega
      rw [e2]; exact hz
    · obtain ⟨j, hj, hz2⟩ := hn (e + 1) (by omega)
      refine ⟨j, hj, ?_⟩
      rw [rd_memmove _ _ _ _ _ _ (by rw [length_memmove]; omega), if_neg (by omega),
        rd_memmove _ _ _ _ _ _ (by omega), if_pos (by omega)]
      have e2 : 64 + (e * 64 + j - 0) = (e + 1) * 64 + j := by omega
      rw [e2]; exact hz2
  · exact ⟨hl, hh, hs, hn, rfl⟩

theorem Inv_finish (s : State) (h : Inv s) : Inv (finish s) := by
  obtain ⟨_, h2, h3, h4, h5, _, h7⟩ := h
  obtain ⟨a1, a2, a3, a4, _⟩ := saveHistory_inv { s with mode := Mode.edit } h2 h3 h4 h5 h7
  unfold finish
  generalize saveHistory { s with mode := Mode.edit } = t at *
  unfold prompt resetLine State.print State.puts Inv
  simp only []
  split <;> exact ⟨le_refl _, Nat.zero_le _, by simp [length_wr, a1], a2, a3, le_refl _, a4⟩

theorem Inv_backspace (s : State) (h : Inv s) : Inv (backspace s) := by
  obtain ⟨h1, h2, h3, h4, h5, h6, h7⟩ := h
  unfold backspace State.puts State.put Inv
  simp only []
  split_ifs <;> refine ⟨?_, ?_, ?_, ?_, ?_, ?_, ?_⟩ <;> (try dsimp only) <;>
    first | assumption | omega | simp only [length_wr, length_memmove, h3]

theorem Inv_insertChar (s : State) (c : Nat) (h : Inv s) : Inv (insertChar s c) := by
  obtain ⟨h1, h2, h3, h4, h5, h6, h7⟩ := h
  unfold insertChar State.puts State.put Inv
  simp only [BUF_SIZE]
  split_ifs <;> refine ⟨?_, ?_, ?_, ?_, ?_, ?_, ?_⟩ <;> (try dsimp only) <;>
    first | assumption | omega | simp only [length_wr, length_memmove, h3]

theorem Inv_recallEntry (s : State) (h3 : s.buf.length = 68)
    (h4 : s.commandsHistory.length = 960) (h5 : s.savedCommands ≤ 15)
    (h6 : s.selectedCommand ≤ s.savedCommands) (h6b : s.selectedCommand < 15)
    (h7 : HistNul s.commandsHistory) : Inv (recallEntry s) := by
  obtain ⟨j, hj, hz⟩ := h7 s.selectedCommand h6b
  have hlen : strlen (memmove s.buf 0 s.commandsHistory (s.selectedCommand * BUF_SIZE) BUF_SIZE) 0
      ≤ j := by
    apply strlen_le_of_rd_zero
    rw [rd_memmove _ _ _ _ _ _ (by omega), if_pos (by simp only [BUF_SIZE]; omega)]
    simp only [BUF_SIZE]
    have e : s.selectedCommand * 64 + (0 + j - 0) = s.selectedCommand * 64 + j := by omega
    rw [e]; exact hz
  unfold recallEntry eraseLineEcho State.puts Inv
  simp only []
  split_ifs <;> refine ⟨?_, ?_, ?_, ?_, ?_, ?_, ?_⟩ <;> (try dsimp only) <;>
    first | assumption | omega | simp only [length_wr, length_memmove, h3]

theorem Inv_escapeKey (s : State) (k : Nat) (h : Inv s) : Inv (escapeKey s k) := by
  have h' := h
  obtain ⟨h1, h2, h3, h4, h5, h6, h7⟩ := h
  unfold escapeKey
  by_cases k1 : k = 0x41
  · rw [if_pos k1]
    exact Inv_recallEntry _ h3 h4 h5 (by dsimp only; split <;> omega)
      (by dsimp only; split <;> omega) h7
  rw [if_neg k1]
  by_cases k2 : k = 0x42
  · rw [if_pos k2]
    by_cases c1 : s.selectedCommand + 1 = s.savedCommands
    · rw [if_pos c1]
      unfold eraseLineEcho State.puts Inv
      simp only []
      split_ifs <;> refine ⟨?_, ?_, ?_, ?_, ?_, ?_, ?_⟩ <;> (try dsimp only) <;>
        first | assumption | omega
    · rw [if_neg c1]
      by_cases c2 : s.selectedCommand + 1 < s.savedCommands
      · rw [if_pos c2]
        exact Inv_recallEntry _ h3 h4 h5 (by dsimp only; omega) (by dsimp only; omega) h7
      · rw [if_neg c2]; exact h'
  rw [if_neg k2]
  by_cases k3 : k = 0x44
  · rw [if_pos k3]
    unfold State.puts Inv
    simp only []
    split_ifs <;> refine ⟨?_, ?_, ?_, ?_, ?_, ?_, ?_⟩ <;> (try dsimp only) <;>
      first | assumption | omega
  rw [if_neg k3]
  by_cases k4 : k = 0x43
  · rw [if_pos k4]
    unfold State.puts Inv
    simp only []
    split_ifs <;> refine ⟨?_, ?_, ?_, ?_, ?_, ?_, ?_⟩ <;> (try dsimp only) <;>
      first | assumption | omega
  rw [if_neg k4]
  exact h'

/-- Every branch of `dispatch` other than `P` is a handler that leaves the line
and the history alone, followed by `finish`. -/
theorem dispatch_cases (pins : Pins) (s : State) (hb : s.bufPos ≤ 63) :
    (∃ t, SameLine s t ∧ dispatch pins s = finish t) ∨
      (s.command = 80 ∧ dispatch pins s = plotterEnter s) := by
  unfold dispatch
  by_cases c1 : s.command = 68
  · rw [if_pos c1]; exact Or.inl ⟨_, sameLine_handleData pins s 1 hb, rfl⟩
  rw [if_neg c1]
  by_cases c2 : s.command = 77
  · rw [if_pos c2]; exact Or.inl ⟨_, sameLine_handleData pins s 0 hb, rfl⟩
  rw [if_neg c2]
  by_cases c3 : s.command = 67
  · rw [if_pos c3]; exact Or.inl ⟨_, sameLine_handleC pins s hb, rfl⟩
  rw [if_neg c3]
  by_cases c4 : s.command = 82
  · rw [if_pos c4]; exact Or.inl ⟨_, sameLine_handleR s, rfl⟩
  rw [if_neg c4]
  by_cases c5 : s.command = 76
  · rw [if_pos c5]; exact Or.inl ⟨_, sameLine_handleL s, rfl⟩
  rw [if_neg c5]
  by_cases c6 : s.command = 73
  · rw [if_pos c6]; exact Or.inl ⟨_, sameLine_handleI s, rfl⟩
  rw [if_neg c6]
  by_cases c7 : s.command = 83
  · rw [if_pos c7]; exact Or.inl ⟨_, sameLine_handleS pins s, rfl⟩
  rw [if_neg c7]
  by_cases c8 : s.command = 80
  · rw [if_pos c8]; exact Or.inr ⟨c8, rfl⟩
  rw [if_neg c8]
  by_cases c9 : s.command = 88
  · rw [if_pos c9]; exact Or.inl ⟨_, sameLine_handleX pins s, rfl⟩
  rw [if_neg c9]
  by_cases c10 : s.command = 89
  · rw [if_pos c10]; exact Or.inl ⟨_, sameLine_handleY pins s, rfl⟩
  rw [if_neg c10]
  by_cases c11 : s.command = 90
  · rw [if_pos c11]; exact Or.inl ⟨_, sameLine_handleZ pins s, rfl⟩
  rw [if_neg c11]
  by_cases c12 : s.command = 63
  · rw [if_pos c12]; exact Or.inl ⟨_, sameLine_ShowHelp s, rfl⟩
  rw [if_neg c12]
  by_cases c13 : s.command = 69
  · rw [if_pos c13]; exact Or.inl ⟨_, sameLine_handleE s, rfl⟩
  rw [if_neg c13]
  by_cases c14 : s.command = 72
  · rw [if_pos c14]; exact Or.inl ⟨_, sameLine_handleH s, rfl⟩
  rw [if_neg c14]
  by_cases c15 : s.command = 65
  · rw [if_pos c15]; exact Or.inl ⟨_, sameLine_handleA s, rfl⟩
  rw [if_neg c15]
  by_cases c16 : s.command = 81
  · rw [if_pos c16]; exact Or.inl ⟨_, sameLine_handleQ s, rfl⟩
  rw [if_neg c16]
  by_cases c17 : s.command = 84
  · rw [if_pos c17]; exact Or.inl ⟨_, sameLine_handleT pins s, rfl⟩
  rw [if_neg c17]
  refine Or.inl ⟨_, ?_, rfl⟩
  unfold SameLine State.print State.puts
  simp only []
  split <;> simp

theorem Inv_dispatch (pins : Pins) (s : State) (h : Inv s) : Inv (dispatch pins s) := by
  rcases dispatch_cases pins s h.2.1 with ⟨t, ht, e⟩ | ⟨_, e⟩
  · rw [e]; exact Inv_finish _ (Inv_of_sameLine h ht)
  · rw [e]; exact Inv_of_sameLine h (sameLine_plotterEnter s)

theorem Inv_carriageReturn (pins : Pins) (s : State) (h : Inv s) :
    Inv (carriageReturn pins s) := by
  unfold carriageReturn
  have hsl : SameLine s (if s.localEcho ≠ 0 then s.puts [13, 10] else s) := by
    split
    · exact sameLine_puts _ _
    · exact sameLine_refl s
  generalize (if s.localEcho ≠ 0 then s.puts [13, 10] else s) = s1 at *
  dsimp only
  generalize (if s1.bufPos ≠ 0 then toupper (rd s1.buf 0) else EMPTY_LINE) = cmd
  have h2 : Inv { s1 with command := cmd } :=
    Inv_of_sameLine (Inv_of_sameLine h hsl) (by simp [SameLine])
  split
  · exact Inv_dispatch pins _ h2
  · exact h2

theorem Inv_step (pins : Pins) (s : State) (ev : Event) (h : Inv s) : Inv (step pins s ev) := by
  have hm : ∀ m, Inv { s with mode := m } := fun m =>
    Inv_of_sameLine h (by simp [SameLine])
  unfold step
  cases ev with
  | idle =>
    dsimp only
    split
    · exact Inv_of_sameLine h (sameLine_plotterPoll pins s)
    · exact h
  | byte c =>
    dsimp only
    split
    · split_ifs
      · exact Inv_backspace s h
      · exact h
      · exact hm _
      · exact Inv_carriageReturn pins s h
      · exact Inv_insertChar s c h
    · split_ifs
      · exact hm _
      · exact hm _
    · exact Inv_escapeKey _ c (hm _)
    · split_ifs
      · exact Inv_finish _ (Inv_of_sameLine h
          (sameLine_trans (sameLine_plotterPoll pins s) (sameLine_plotterExit _)))
      · exact Inv_of_sameLine h (sameLine_plotterPoll pins s)

theorem Inv_run (pins : Pins) (evs : List Event) :
    ∀ s : State, Inv s → Inv (run pins s evs) := by
  induction evs with
  | nil => intro s h; exact h
  | cons ev evs ih => intro s h; exact ih _ (Inv_step pins s ev h)

theorem rd_replicate_zero (n k : Nat) : rd (List.replicate n 0) k = 0 := by
  unfold rd
  rw [List.getD_eq_getElem?_getD, List.getElem?_replicate]
  split <;> rfl

theorem histNul_zero (n : Nat) : HistNul (List.replicate n 0) := by
  intro e _
  exact ⟨0, by omega, rd_replicate_zero _ _⟩

theorem Inv_prompt (s : State) (h : Inv s) : Inv (prompt s) := by
  obtain ⟨h1, h2, h3, h4, h5, h6, h7⟩ := h
  unfold prompt State.print State.puts Inv
  simp only []
  split <;> exact ⟨h1, h2, h3, h4, h5, le_refl _, h7⟩

theorem Inv_init (echoPin : Bool) : Inv (init echoPin) := by
  unfold init
  apply Inv_prompt
  refine ⟨?_, ?_, ?_, ?_, ?_, ?_, ?_⟩ <;> dsimp only <;>
    first
    | exact histNul_zero _
    | omega
    | simp only [List.length_replicate, BUF_SIZE, MAX_COMMANDS]

/-- C5: after every event sequence fed to the command loop from its initial
state (any bus behaviour, either echo setting, line bytes, backspaces, line
feeds, escape sequences with history recall, carriage returns with their
dispatches, plotter-mode polls), the editor state satisfies
`cursorPos ≤ bufPos ≤ 63`. -/
theorem editor_cursor_within_line (pins : Pins) (echoPin : Bool) (evs : List Event) :
    (run pins (init echoPin) evs).cursorPos ≤ (run pins (init echoPin) evs).bufPos ∧
    (run pins (init echoPin) evs).bufPos ≤ 63 := by
  have h := Inv_run pins evs (init echoPin) (Inv_init echoPin)
  exact ⟨h.1, h.2.1⟩

/-! ## Line-editor length accounting -/

/-- Effect of one edit operation on a state waiting for a line byte. -/
theorem applyOp_spec (pins : Pins) (s : State) (op : EditOp) (hm : s.mode = Mode.edit)
    (h1 : s.cursorPos ≤ s.bufPos) (h2 : s.bufPos ≤ 63) (ho : op.ordinary) :
    (applyOp pins s op).mode = Mode.edit ∧
    (applyOp pins s op).cursorPos ≤ (applyOp pins s op).bufPos ∧
    (applyOp pins s op).bufPos ≤ 63 ∧
    (match op with
      | EditOp.ins _ => (applyOp pins s op).bufPos = s.bufPos + (if s.bufPos < 63 then 1 else 0) ∧
          (s.bufPos = 63 → (applyOp pins s op).buf = s.buf)
      | EditOp.bs => (applyOp pins s op).bufPos + (if s.cursorPos > 0 then 1 else 0) = s.bufPos ∧
          (s.cursorPos = 0 → (applyOp pins s op).buf = s.buf)
      | _ => (applyOp pins s op).bufPos = s.bufPos ∧ (applyOp pins s op).buf = s.buf) := by
  cases op with
  | ins c =>
    obtain ⟨c1, c2, c3, c4⟩ := ho
    simp only [applyOp, EditOp.events, run, List.foldl, step, hm, if_neg c1, if_neg c2, if_neg c3,
      if_neg c4]
    unfold insertChar State.put State.puts
    simp only [BUF_SIZE]
    split_ifs <;> refine ⟨?_, ?_, ?_, ?_, ?_⟩ <;> (try dsimp only) <;>
      first | assumption | omega | (intro; rfl)
  | bs =>
    simp only [applyOp, EditOp.events, run, List.foldl, step, hm, if_true]
    unfold backspace State.put State.puts
    simp only []
    split_ifs <;> refine ⟨?_, ?_, ?_, ?_, ?_⟩ <;> (try dsimp only) <;>
      first | assumption | omega | (intro; rfl)
  | left =>
    simp only [applyOp, EditOp.events, run, List.foldl, step, hm]
    simp only [escapeKey, State.puts]
    norm_num
    split_ifs <;> refine ⟨?_, ?_, ?_, ?_, ?_⟩ <;> (try dsimp only) <;>
      first | assumption | omega
  | right =>
    simp only [applyOp, EditOp.events, run, List.foldl, step, hm]
    simp only [escapeKey, State.puts]
    norm_num
    split_ifs <;> refine ⟨?_, ?_, ?_, ?_, ?_⟩ <;> (try dsimp only) <;>
      first | assumption | omega

theorem applyOps_account (pins : Pins) (ops : List EditOp) :
    ∀ s : State, s.mode = Mode.edit → s.cursorPos ≤ s.bufPos → s.bufPos ≤ 63 →
      (∀ op ∈ ops, op.ordinary) →
      (applyOps pins s ops).bufPos + deletingBackspaces pins s ops =
        s.bufPos + acceptedInserts pins s ops := by
  induction ops with
  | nil => intro s _ _ _ _; simp [applyOps, deletingBackspaces, acceptedInserts]
  | cons op ops ih =>
    intro s hm h1 h2 ho
    obtain ⟨a1, a2, a3, a4⟩ := applyOp_spec pins s op hm h1 h2 (ho op (List.mem_cons_self _ _))
    have hr := ih (applyOp pins s op) a1 a2 a3 (fun o h => ho o (List.mem_cons_of_mem _ h))
    have e : applyOps pins s (op :: ops) = applyOps pins (applyOp pins s op) ops := rfl
    rw [e]
    unfold deletingBackspaces acceptedInserts
    cases op with
    | ins c => dsimp only at a4 ⊢; omega
    | bs => dsimp only at a4 ⊢; omega
    | left => dsimp only at a4 ⊢; omega
    | right => dsimp only at a4 ⊢; omega

/-- C6: on an empty line, after any sequence of ordinary-byte inserts,
backspaces and cursor moves, the line length is the number of accepted inserts
(arriving at length below 63) minus the number of deleting backspaces (arriving
at a cursor past 0); a backspace at cursor 0 and an insert at length 63 change
neither the length nor the buffer, and cursor moves never do. -/
theorem editor_length_accounting (pins : Pins) (s : State) (ops : List EditOp)
    (hm : s.mode = Mode.edit) (hb : s.bufPos = 0) (hc : s.cursorPos = 0)
    (ho : ∀ op ∈ ops, op.ordinary) :
    ((applyOps pins s ops).bufPos =
        acceptedInserts pins s ops - deletingBackspaces pins s ops ∧
      deletingBackspaces pins s ops ≤ acceptedInserts pins s ops) ∧
    (∀ t : State, t.mode = Mode.edit → t.cursorPos ≤ t.bufPos → t.bufPos ≤ 63 →
      (t.cursorPos = 0 →
        (applyOp pins t EditOp.bs).bufPos = t.bufPos ∧ (applyOp pins t EditOp.bs).buf = t.buf) ∧
      (∀ c, (EditOp.ins c).ordinary → t.bufPos = 63 →
        (applyOp pins t (EditOp.ins c)).bufPos = t.bufPos ∧
        (applyOp pins t (EditOp.ins c)).buf = t.buf) ∧
      ((applyOp pins t EditOp.left).bufPos = t.bufPos ∧
        (applyOp pins t EditOp.left).buf = t.buf) ∧
      ((applyOp pins t EditOp.right).bufPos = t.bufPos ∧
        (applyOp pins t EditOp.right).buf = t.buf)) := by
  refine ⟨?_, ?_⟩
  · have h := applyOps_account pins ops s hm (by omega) (by omega) ho
    omega
  · intro t tm t1 t2
    refine ⟨fun t0 => ?_, fun c hc2 t63 => ?_, ?_, ?_⟩
    · obtain ⟨_, _, _, a4⟩ := applyOp_spec pins t EditOp.bs tm t1 t2 trivial
      dsimp only at a4
      refine ⟨?_, a4.2 t0⟩
      have := a4.1
      rw [if_neg (by omega)] at this
      omega
    · obtain ⟨_, _, _, a4⟩ := applyOp_spec pins t (EditOp.ins c) tm t1 t2 hc2
      dsimp only at a4
      refine ⟨?_, a4.2 t63⟩
      have := a4.1
      rw [if_neg (by omega)] at this
      omega
    · obtain ⟨_, _, _, a4⟩ := applyOp_spec pins t EditOp.left tm t1 t2 trivial
      exact a4
    · obtain ⟨_, _, _, a4⟩ := applyOp_spec pins t EditOp.right tm t1 t2 trivial
      exact a4

/-- Witness for C6: the sample edit sequence typed at the first prompt. -/
theorem editor_length_accounting_witness :
    ((init true).mode = Mode.edit ∧ (init true).bufPos = 0 ∧ (init true).cursorPos = 0 ∧
      (∀ op ∈ sampleOps, op.ordinary)) ∧
    (((applyOps idlePins (init true) sampleOps).bufPos =
        acceptedInserts idlePins (init true) sampleOps
          - deletingBackspaces idlePins (init true) sampleOps ∧
      deletingBackspaces idlePins (init true) sampleOps
        ≤ acceptedInserts idlePins (init true) sampleOps) ∧
    (∀ t : State, t.mode = Mode.edit → t.cursorPos ≤ t.bufPos → t.bufPos ≤ 63 →
      (t.cursorPos = 0 →
        (applyOp idlePins t EditOp.bs).bufPos = t.bufPos ∧
        (applyOp idlePins t EditOp.bs).buf = t.buf) ∧
      (∀ c, (EditOp.ins c).ordinary → t.bufPos = 63 →
        (applyOp idlePins t (EditOp.ins c)).bufPos = t.bufPos ∧
        (applyOp idlePins t (EditOp.ins c)).buf = t.buf) ∧
      ((applyOp idlePins t EditOp.left).bufPos = t.bufPos ∧
        (applyOp idlePins t EditOp.left).buf = t.buf) ∧
      ((applyOp idlePins t EditOp.right).bufPos = t.bufPos ∧
        (applyOp idlePins t EditOp.right).buf = t.buf))) :=
  ⟨⟨by decide, by decide, by decide, by decide⟩,
    editor_length_accounting idlePins (init true) sampleOps (by decide) (by decide) (by decide)
      (by decide)⟩

/-! ## Command history -/

/-- A region that holds the bytes of `l` followed by a NUL is the C string `l`. -/
theorem cstr_eq_of_rd (a : List Nat) :
    ∀ (l : List Nat) (start : Nat), (∀ k, k < l.length → rd a (start + k) = l.getD k 0) →
      (∀ x ∈ l, x ≠ 0) → rd a (start + l.length) = 0 → cstr a start = l := by
  intro l
  induction l with
  | nil =>
    intro start _ _ hz
    have := strlen_le_of_rd_zero a 0 start hz
    unfold strlen at this
    exact List.length_eq_zero.1 (by omega)
  | cons x xs ih =>
    intro start h1 h0 hz
    have hx : rd a start = x := by
      have := h1 0 (by simp)
      simpa using this
    have hx0 : x ≠ 0 := h0 x (List.mem_cons_self _ _)
    have hs : start < a.length := by
      by_contra hc
      rw [rd_of_length_le a start (by omega)] at hx
      exact hx0 hx.symm
    have hget : a[start] = x := by
      unfold rd at hx
      rw [List.getD_eq_getElem?_getD, List.getElem?_eq_getElem hs] at hx
      simpa using hx
    unfold cstr
    rw [List.drop_eq_getElem_cons hs, hget, List.takeWhile_cons_of_pos (by simpa using hx0)]
    congr 1
    apply ih (start + 1)
    · intro k hk
      have := h1 (k + 1) (by simp; omega)
      have e : start + (k + 1) = start + 1 + k := by omega
      rw [e] at this
      simpa using this
    · intro y hy; exact h0 y (List.mem_cons_of_mem _ hy)
    · have e : start + (x :: xs).length = start + 1 + xs.length := by simp; omega
      rw [← e]; exact hz

theorem rd_take (a : List Nat) (n k : Nat) (h : k < n) : (a.take n).getD k 0 = rd a k := by
  unfold rd
  rw [List.getD_eq_getElem?_getD, List.getD_eq_getElem?_getD, List.getElem?_take_of_lt h]

theorem holdsLine_cstr {h : List Nat} {i : Nat} {l : List Nat} (hl : HoldsLine h i l)
    (h0 : 0 ∉ l) : cstr h (i * 64) = l :=
  cstr_eq_of_rd h l (i * 64) hl.2.1 (fun _ hx e => h0 (e ▸ hx)) hl.2.2

/-- The line of a saveable state, NUL-terminated in place, is held by `buf`. -/
theorem saveable_buf (u : State) (hu : Saveable u) :
    (∀ k, k < (lineOf u).length → rd (wr u.buf u.bufPos 0) (0 + k) = (lineOf u).getD k 0) ∧
    rd (wr u.buf u.bufPos 0) (0 + (lineOf u).length) = 0 ∧ (lineOf u).length = u.bufPos := by
  obtain ⟨_, h1, h2, h3, _⟩ := hu
  have hlen : (lineOf u).length = u.bufPos := by
    unfold lineOf; rw [List.length_take]; omega
  refine ⟨fun k hk => ?_, ?_, hlen⟩
  · rw [hlen] at hk
    rw [Nat.zero_add, rd_wr, if_neg (by omega)]
    unfold lineOf
    rw [rd_take _ _ _ hk]
  · rw [hlen, Nat.zero_add, rd_wr, if_pos ⟨rfl, by omega⟩]

theorem saveable_cstr (u : State) (hu : Saveable u) :
    cstr (wr u.buf u.bufPos 0) 0 = lineOf u := by
  obtain ⟨a, b, _⟩ := saveable_buf u hu
  exact cstr_eq_of_rd _ _ 0 a (fun x hx e => hu.2.2.2.2 (e ▸ hx)) b

theorem getD_append_init (a : List (List Nat)) (x : List Nat) (i : Nat) (h : i < a.length) :
    (a ++ [x]).getD i [] = a.getD i [] := by
  rw [List.getD_eq_getElem?_getD, List.getD_eq_getElem?_getD, List.getElem?_append_left h]

theorem getD_append_last (a : List (List Nat)) (x : List Nat) :
    (a ++ [x]).getD a.length [] = x := by
  rw [List.getD_eq_getElem?_getD, List.getElem?_append_right (le_refl _)]
  simp

/-- One save of a new line appends it to the history window. -/
theorem historyIs_save (s u : State) (all : List (List Nat)) (hs : HistoryIs s all)
    (hu : Saveable u) (hall : ∀ l ∈ all, 0 ∉ l)
    (hne : all ≠ [] → all.getD (all.length - 1) [] ≠ lineOf u) :
    HistoryIs (saveHistory (enterSave s u)) (all ++ [lineOf u]) := by
  obtain ⟨h960, hsaved, hold⟩ := hs
  obtain ⟨hb1, hb2, hlen⟩ := saveable_buf u hu
  have hcs := saveable_cstr u hu
  obtain ⟨hc, hp1, hp63, hl68, hnz⟩ := hu
  have hlen' : (all ++ [lineOf u]).length = all.length + 1 := by simp
  unfold saveHistory enterSave
  simp only [BUF_SIZE, MAX_COMMANDS]
  rw [if_pos ⟨hc, by omega⟩]
  have hdup : ¬ (s.savedCommands > 0 ∧
      strcmpEq s.commandsHistory ((s.savedCommands - 1) * 64) (wr u.buf u.bufPos 0) 0 = true) := by
    rintro ⟨hpos, heq⟩
    have hne0 : all ≠ [] := by
      intro e; rw [e] at hsaved; simp at hsaved; omega
    have hl0 : 0 < all.length := List.length_pos.2 hne0
    have hidx := hold (s.savedCommands - 1) (by omega)
    have e1 : all.length - min all.length 15 + (s.savedCommands - 1) = all.length - 1 := by omega
    rw [e1] at hidx
    have hmem : all.getD (all.length - 1) [] ∈ all := by
      rw [List.getD_eq_getElem?_getD, List.getElem?_eq_getElem (by omega)]
      simp
    have hc1 := holdsLine_cstr hidx (hall _ hmem)
    unfold strcmpEq at heq
    rw [hc1, hcs] at heq
    exact hne hne0 (by simpa using heq)
  rw [if_neg hdup]
  by_cases h15 : s.savedCommands < 15
  · rw [if_pos h15]
    have hal : all.length < 15 := by omega
    have hsv : s.savedCommands = all.length := by omega
    refine ⟨by simp [length_memmove, h960], by dsimp only; rw [hlen']; omega, ?_⟩
    intro i hi
    rw [hlen'] at hi ⊢
    dsimp only
    have eidx : all.length + 1 - min (all.length + 1) 15 + i = i := by omega
    rw [eidx, hsv]
    by_cases hil : i < all.length
    · rw [getD_append_init _ _ _ hil]
      have ho := hold i (by omega)
      have e2 : all.length - min all.length 15 + i = i := by omega
      rw [e2] at ho
      obtain ⟨o1, o2, o3⟩ := ho
      refine ⟨o1, fun k hk => ?_, ?_⟩
      · rw [rd_memmove _ _ _ _ _ _ (by omega), if_neg (by omega)]; exact o2 k hk
      · rw [rd_memmove _ _ _ _ _ _ (by omega), if_neg (by omega)]; exact o3
    · have hie : i = all.length := by omega
      rw [hie, getD_append_last]
      refine ⟨by omega, fun k hk => ?_, ?_⟩
      · rw [rd_memmove _ _ _ _ _ _ (by omega), if_pos (by omega)]
        have e3 : 0 + (all.length * 64 + k - all.length * 64) = 0 + k := by omega
        rw [e3]; exact hb1 k hk
      · rw [rd_memmove _ _ _ _ _ _ (by omega), if_pos (by omega)]
        have e3 : 0 + (all.length * 64 + (lineOf u).length - all.length * 64)
            = 0 + (lineOf u).length := by omega
        rw [e3]; exact hb2
  · rw [if_neg h15]
    have hal : 15 ≤ all.length := by omega
    have hsv : s.savedCommands = 15 := by omega
    refine ⟨by simp [length_memmove, h960], by dsimp only; rw [hlen']; omega, ?_⟩
    intro i hi
    rw [hlen'] at hi ⊢
    dsimp only
    rw [hsv]
    have hi15 : i < 15 := by omega
    by_cases hil : i < 14
    · have eidx : all.length + 1 - min (all.length + 1) 15 + i < all.length := by omega
      rw [getD_append_init _ _ _ eidx]
      have ho := hold (i + 1) (by omega)
      have e2 : all.length - min all.length 15 + (i + 1)
          = all.length + 1 - min (all.length + 1) 15 + i := by omega
      rw [e2] at ho
      obtain ⟨o1, o2, o3⟩ := ho
      refine ⟨o1, fun k hk => ?_, ?_⟩
      · rw [rd_memmove _ _ _ _ _ _ (by rw [length_memmove]; omega), if_neg (by omega),
          rd_memmove _ _ _ _ _ _ (by omega), if_pos (by omega)]
        have e3 : 64 + (i * 64 + k - 0) = (i + 1) * 64 + k := by omega
        rw [e3]; exact o2 k hk
      · rw [rd_memmove _ _ _ _ _ _ (by rw [length_memmove]; omega), if_neg (by omega),
          rd_memmove _ _ _ _ _ _ (by omega), if_pos (by omega)]
        have e3 : 64 + (i * 64 + (all.getD (all.length + 1 - min (all.length + 1) 15 + i) []).length
            - 0) = (i + 1) * 64
              + (all.getD (all.length + 1 - min (all.length + 1) 15 + i) []).length := by omega
        rw [e3]; exact o3
    · have hie : i = 14 := by omega
      have eidx : all.length + 1 - min (all.length + 1) 15 + i = all.length := by omega
      rw [eidx, getD_append_last, hie]
      refine ⟨by omega, fun k hk => ?_, ?_⟩
      · rw [rd_memmove _ _ _ _ _ _ (by rw [length_memmove]; omega), if_pos (by omega)]
        have e3 : 0 + (14 * 64 + k - (15 - 1) * 64) = 0 + k := by omega
        rw [e3]; exact hb1 k hk
      · rw [rd_memmove _ _ _ _ _ _ (by rw [length_memmove]; omega), if_pos (by omega)]
        have e3 : 0 + (14 * 64 + (lineOf u).length - (15 - 1) * 64)
            = 0 + (lineOf u).length := by omega
        rw [e3]; exact hb2

theorem historyIs_saveAll (us : List State) :
    ∀ (s : State) (all : List (List Nat)), HistoryIs s all → (∀ l ∈ all, 0 ∉ l) →
      (∀ u ∈ us, Saveable u) →
      List.Chain' (fun a b => a ≠ b) (all ++ us.map lineOf) →
      HistoryIs (saveAll s us) (all ++ us.map lineOf) := by
  induction us with
  | nil => intro s all hs _ _ _; simpa [saveAll] using hs
  | cons u us ih =>
    intro s all hs hall hu hch
    have hu1 : Saveable u := hu u (List.mem_cons_self _ _)
    rw [List.map_cons] at hch ⊢
    have hsplit := List.chain'_split.1 hch
    have hne : all ≠ [] → all.getD (all.length - 1) [] ≠ lineOf u := by
      intro hne0
      have hl0 : 0 < all.length := List.length_pos.2 hne0
      have h3 := (List.chain'_append.1 hsplit.1).2.2
      apply h3
      · rw [List.getLast?_eq_getElem?, List.getD_eq_getElem?_getD,
          List.getElem?_eq_getElem (by omega)]
        simp
      · simp
    have h1 := historyIs_save s u all hs hu1 hall hne
    have e : all ++ lineOf u :: List.map lineOf us = (all ++ [lineOf u]) ++ List.map lineOf us := by
      simp
    rw [e] at hch ⊢
    have hall2 : ∀ l ∈ all ++ [lineOf u], 0 ∉ l := by
      intro l hl
      rcases List.mem_append.1 hl with h | h
      · exact hall l h
      · rw [List.mem_singleton.1 h]; exact hu1.2.2.2.2
    exact ih _ _ h1 hall2 (fun v hv => hu v (List.mem_cons_of_mem _ hv)) hch

/-- C7: starting from an empty history, after the save block has run for `n`
saveable lines, each different from the one before it, `savedCommands` is
`min n 15` (so never above 15) and history slot `i` holds, as a C string, line
number `n - min n 15 + i`; after 16 such lines slot 0 holds the second line. -/
theorem history_last_fifteen (s : State) (us : List State)
    (hempty : s.savedCommands = 0) (hsize : s.commandsHistory.length = 960)
    (hu : ∀ u ∈ us, Saveable u)
    (hdiff : List.Chain' (fun a b => a ≠ b) (us.map lineOf)) :
    (saveAll s us).savedCommands = min us.length 15 ∧
    (saveAll s us).savedCommands ≤ 15 ∧
    (∀ i, i < min us.length 15 →
      cstr (saveAll s us).commandsHistory (i * 64) =
        (us.map lineOf).getD (us.length - min us.length 15 + i) []) ∧
    (us.length = 16 →
      cstr (saveAll s us).commandsHistory 0 = (us.map lineOf).getD 1 []) := by
  have h0 : HistoryIs s [] := ⟨hsize, by simpa using hempty, fun i hi => by simp at hi⟩
  have h := historyIs_saveAll us s [] h0 (by simp) hu (by simpa using hdiff)
  rw [List.nil_append] at h
  obtain ⟨_, hsv, hold⟩ := h
  rw [List.length_map] at hsv hold
  have hmem : ∀ j, j < us.length → 0 ∉ (us.map lineOf).getD j [] := by
    intro j hj
    rw [List.getD_eq_getElem?_getD, List.getElem?_eq_getElem (by simpa using hj)]
    simp only [List.getElem_map, Option.getD_some]
    exact (hu _ (List.getElem_mem _)).2.2.2.2
  have hall : ∀ i, i < min us.length 15 →
      cstr (saveAll s us).commandsHistory (i * 64) =
        (us.map lineOf).getD (us.length - min us.length 15 + i) [] :=
    fun i hi => holdsLine_cstr (hold i hi) (hmem _ (by omega))
  refine ⟨hsv, by omega, hall, fun h16 => ?_⟩
  have := hall 0 (by omega)
  rw [h16] at this
  simpa using this

set_option maxRecDepth 100000 in
/-- Witness for C7: two different lines saved into the empty history. -/
theorem history_last_fifteen_witness :
    ((init false).savedCommands = 0 ∧ (init false).commandsHistory.length = 960 ∧
      (∀ u ∈ [sampleSaveA, sampleSaveQ], Saveable u) ∧
      List.Chain' (fun a b => a ≠ b) ([sampleSaveA, sampleSaveQ].map lineOf)) ∧
    ((saveAll (init false) [sampleSaveA, sampleSaveQ]).savedCommands
        = min [sampleSaveA, sampleSaveQ].length 15 ∧
    (saveAll (init false) [sampleSaveA, sampleSaveQ]).savedCommands ≤ 15 ∧
    (∀ i, i < min [sampleSaveA, sampleSaveQ].length 15 →
      cstr (saveAll (init false) [sampleSaveA, sampleSaveQ]).commandsHistory (i * 64) =
        ([sampleSaveA, sampleSaveQ].map lineOf).getD
          ([sampleSaveA, sampleSaveQ].length - min [sampleSaveA, sampleSaveQ].length 15 + i) []) ∧
    ([sampleSaveA, sampleSaveQ].length = 16 →
      cstr (saveAll (init false) [sampleSaveA, sampleSaveQ]).commandsHistory 0 =
        ([sampleSaveA, sampleSaveQ].map lineOf).getD 1 [])) :=
  ⟨⟨by decide, by decide, by decide,
      List.chain'_cons.2 ⟨by decide, List.chain'_singleton _⟩⟩,
    history_last_fifteen (init false) [sampleSaveA, sampleSaveQ] (by decide) (by decide)
      (by decide) (List.chain'_cons.2 ⟨by decide, List.chain'_singleton _⟩)⟩

/-- The line, NUL-terminated in place, read back as a C string. -/
theorem cstr_wr_line (s : State) (h : s.bufPos < s.buf.length) (hnz : 0 ∉ lineOf s) :
    cstr (wr s.buf s.bufPos 0) 0 = lineOf s := by
  have hlen : (lineOf s).length = s.bufPos := by
    unfold lineOf; rw [List.length_take]; omega
  apply cstr_eq_of_rd
  · intro k hk
    rw [hlen] at hk
    rw [Nat.zero_add, rd_wr, if_neg (by omega)]
    unfold lineOf
    rw [rd_take _ _ _ hk]
  · exact fun x hx e => hnz (e ▸ hx)
  · rw [hlen, Nat.zero_add, rd_wr, if_pos ⟨rfl, h⟩]

/-- C8: when the history is not empty and the line is identical to the most
recently saved entry, the save block changes neither `savedCommands` nor any
byte of the history. -/
theorem history_dedup (s : State) (hsaved : 0 < s.savedCommands)
    (hfit : s.bufPos < s.buf.length) (hnz : 0 ∉ lineOf s)
    (hsame : cstr s.commandsHistory ((s.savedCommands - 1) * 64) = lineOf s) :
    (saveHistory s).savedCommands = s.savedCommands ∧
    (saveHistory s).commandsHistory = s.commandsHistory := by
  have hdup : s.savedCommands > 0 ∧
      strcmpEq s.commandsHistory ((s.savedCommands - 1) * BUF_SIZE) (wr s.buf s.bufPos 0) 0
        = true := by
    refine ⟨hsaved, ?_⟩
    unfold strcmpEq
    simp only [BUF_SIZE]
    rw [hsame, cstr_wr_line s hfit hnz]
    simp
  unfold saveHistory
  split
  · simp only []
    rw [if_pos hdup]
    exact ⟨rfl, rfl⟩
  · exact ⟨rfl, rfl⟩

set_option maxRecDepth 100000 in
/-- Witness for C8: `A07` entered twice in a row. -/
theorem history_dedup_witness :
    (0 < sampleSaveTwice.savedCommands ∧ sampleSaveTwice.bufPos < sampleSaveTwice.buf.length ∧
      0 ∉ lineOf sampleSaveTwice ∧
      cstr sampleSaveTwice.commandsHistory ((sampleSaveTwice.savedCommands - 1) * 64)
        = lineOf sampleSaveTwice) ∧
    ((saveHistory sampleSaveTwice).savedCommands = sampleSaveTwice.savedCommands ∧
      (saveHistory sampleSaveTwice).commandsHistory = sampleSaveTwice.commandsHistory) :=
  ⟨⟨by decide, by decide, by decide, by decide⟩,
    history_dedup sampleSaveTwice (by decide) (by decide) (by decide) (by decide)⟩

theorem finish_history_of_command_zero (s : State) (h : s.command = 0) :
    (finish s).savedCommands = s.savedCommands ∧
    (finish s).commandsHistory = s.commandsHistory := by
  have hs : saveHistory { s with mode := Mode.edit } = { s with mode := Mode.edit } := by
    unfold saveHistory
    rw [if_neg (by simp [h])]
  unfold finish
  rw [hs]
  unfold prompt resetLine State.print State.puts
  simp only []
  split <;> exact ⟨rfl, rfl⟩

theorem dispatch_H (pins : Pins) (t : State) (h : t.command = 72) :
    dispatch pins t = finish (handleH t) := by
  simp [dispatch, h]

/-- C9: dispatching a line whose first character is `H` or `h` leaves
`savedCommands` and every byte of the history unchanged. -/
theorem show_history_not_saved (pins : Pins) (s : State) (hm : s.mode = Mode.edit)
    (hline : s.bufPos ≠ 0) (hH : rd s.buf 0 = 72 ∨ rd s.buf 0 = 104) :
    (step pins s (Event.byte 13)).savedCommands = s.savedCommands ∧
    (step pins s (Event.byte 13)).commandsHistory = s.commandsHistory := by
  have hup : toupper (rd s.buf 0) = 72 := by
    rcases hH with h | h <;> rw [h] <;> decide
  have hs : step pins s (Event.byte 13) = carriageReturn pins s := by
    simp [step, hm]
  rw [hs]
  unfold carriageReturn
  have hsl : SameLine s (if s.localEcho ≠ 0 then s.puts [13, 10] else s) := by
    split
    · exact sameLine_puts _ _
    · exact sameLine_refl s
  have hb : (if s.localEcho ≠ 0 then s.puts [13, 10] else s).buf = s.buf := by
    split <;> rfl
  generalize (if s.localEcho ≠ 0 then s.puts [13, 10] else s) = s1 at *
  obtain ⟨_, e2, _, e4, e5, _⟩ := hsl
  dsimp only
  rw [e2, hb, if_pos hline, hup, if_pos (by decide)]
  rw [dispatch_H pins _ rfl]
  refine ⟨?_, ?_⟩
  · rw [(finish_history_of_command_zero _ rfl).1]; exact e5
  · rw [(finish_history_of_command_zero _ rfl).2]; exact e4

set_option maxRecDepth 100000 in
/-- Witness for C9: the line `h` entered after one saved command. -/
theorem show_history_not_saved_witness :
    (sampleShowHistory.mode = Mode.edit ∧ sampleShowHistory.bufPos ≠ 0 ∧
      (rd sampleShowHistory.buf 0 = 72 ∨ rd sampleShowHistory.buf 0 = 104)) ∧
    ((step idlePins sampleShowHistory (Event.byte 13)).savedCommands
        = sampleShowHistory.savedCommands ∧
      (step idlePins sampleShowHistory (Event.byte 13)).commandsHistory
        = sampleShowHistory.commandsHistory) :=
  ⟨⟨by decide, by decide, by decide⟩,
    show_history_not_saved idlePins sampleShowHistory (by decide) (by decide) (by decide)⟩

/-- C10 (failing input): after the rejected line `55555`, the line `A07` is
answered with `ERROR` and the address stays 21, because `atoi` reads on into the
stale digits behind the three typed bytes; the same line at the first prompt
sets address 7 and answers `OK`. -/
theorem address_stale_digits :
    (run idlePins (init false) (typed "55555\rA07\r")).listenAddress = 21 ∧
    (run idlePins (init false) (typed "55555\rA07\r")).out
      = bytes "WRONG COMMAND\r\nERROR\r\n" ∧
    lineOf (run idlePins (init false) (typed "55555\rA07")) = bytes "A07" ∧
    atoi (run idlePins (init false) (typed "55555\rA07")).buf 1 = 755 ∧
    (run idlePins (init false) (typed "A07\r")).listenAddress = 7 ∧
    (run idlePins (init false) (typed "A07\r")).out = bytes "OK\r\n" := by
  decide

/-! ## End-of-message bytes and listen-mode refusal -/

theorem take_wr_of_le (a : List Nat) (n i v : Nat) (h : n ≤ i) :
    (wr a i v).take n = a.take n := by
  unfold wr
  rw [List.set_take, List.set_eq_of_length_le (by rw [List.length_take]; omega)]

theorem appendEndSeq_take (s : State) (h : s.bufPos ≤ 63) :
    (appendEndSeq s).buf.take s.bufPos = s.buf.take s.bufPos := by
  unfold appendEndSeq
  split_ifs <;> dsimp only <;>
    first
    | rfl
    | rw [take_wr_of_le _ _ _ _ (by omega), take_wr_of_le _ _ _ _ (by omega)]
    | rw [take_wr_of_le _ _ _ _ (by omega)]

theorem handleData_line (pins : Pins) (s : State) (eoi : Nat) (h : s.bufPos ≤ 63) :
    (handleData pins s eoi).bufPos = s.bufPos ∧ lineOf (handleData pins s eoi) = lineOf s ∧
    (handleData pins s eoi).buf.length = s.buf.length := by
  have hsl := sameLine_handleData pins s eoi h
  refine ⟨hsl.2.1, ?_, hsl.1⟩
  unfold lineOf
  rw [hsl.2.1]
  unfold handleData
  split
  · simp only [reportTransmit_eq]
    have hb : ∀ t : State, (trimEndSeq t).buf = t.buf := by
      intro t; unfold trimEndSeq; split_ifs <;> rfl
    rw [hb]
    exact appendEndSeq_take s h
  · rfl

theorem handleC_line (pins : Pins) (s : State) (h : s.bufPos ≤ 63) :
    (handleC pins s).bufPos = s.bufPos ∧ lineOf (handleC pins s) = lineOf s ∧
    (handleC pins s).buf.length = s.buf.length := by
  have hsl := sameLine_handleC pins s h
  refine ⟨hsl.2.1, ?_, hsl.1⟩
  unfold lineOf
  rw [hsl.2.1]
  unfold handleC
  simp only []
  have h1 := sameText_foldl (fun s i => scanToken s (rd s.buf i) (rd s.buf i))
    (fun s i => sameText_scanToken s _ _) (List.range' 1 (s.bufPos - 1)) s
  generalize (List.foldl (fun s i => scanToken s (rd s.buf i) (rd s.buf i)) s
    (List.range' 1 (s.bufPos - 1))) = s1 at *
  have hb : ∀ t : State, (trimEndSeq t).buf = t.buf := by
    intro t; unfold trimEndSeq; split_ifs <;> rfl
  rw [(sameText_roleByListenMode _).2.1, hb, (sameText_transmitCommand _ _ _ _ _).2.1]
  have e := appendEndSeq_take s1 (by rw [h1.1.2.1]; exact h)
  rw [h1.1.2.1, h1.2.1] at e
  exact e

/-- C11: for every end-of-message policy and every bus behaviour, after the
`D`, `M` or `C` handler the line length `bufPos` and the bytes `0..bufPos-1` of
the line are what they were before it, and the string that the history save
terminates and copies is the typed line without CR/LF bytes. -/
theorem end_bytes_trimmed (pins : Pins) (s : State) (hlen : s.bufPos ≤ 63) :
    ((handleData pins s 1).bufPos = s.bufPos ∧ lineOf (handleData pins s 1) = lineOf s) ∧
    ((handleData pins s 0).bufPos = s.bufPos ∧ lineOf (handleData pins s 0) = lineOf s) ∧
    ((handleC pins s).bufPos = s.bufPos ∧ lineOf (handleC pins s) = lineOf s) ∧
    (s.buf.length = 68 → 0 ∉ lineOf s →
      cstr (wr (handleData pins s 1).buf (handleData pins s 1).bufPos 0) 0 = lineOf s ∧
      cstr (wr (handleData pins s 0).buf (handleData pins s 0).bufPos 0) 0 = lineOf s ∧
      cstr (wr (handleC pins s).buf (handleC pins s).bufPos 0) 0 = lineOf s) := by
  obtain ⟨d1, d2, d3⟩ := handleData_line pins s 1 hlen
  obtain ⟨m1, m2, m3⟩ := handleData_line pins s 0 hlen
  obtain ⟨c1, c2, c3⟩ := handleC_line pins s hlen
  refine ⟨⟨d1, d2⟩, ⟨m1, m2⟩, ⟨c1, c2⟩, fun h68 hnz => ⟨?_, ?_, ?_⟩⟩
  · rw [cstr_wr_line _ (by rw [d1, d3]; omega) (by rw [d2]; exact hnz), d2]
  · rw [cstr_wr_line _ (by rw [m1, m3]; omega) (by rw [m2]; exact hnz), m2]
  · rw [cstr_wr_line _ (by rw [c1, c3]; omega) (by rw [c2]; exact hnz), c2]

/-- Witness for C11: the line `D12` under the CR LF policy. -/
theorem end_bytes_trimmed_witness :
    (sampleDataLine.bufPos ≤ 63) ∧
    (((handleData idlePins sampleDataLine 1).bufPos = sampleDataLine.bufPos ∧
      lineOf (handleData idlePins sampleDataLine 1) = lineOf sampleDataLine) ∧
    ((handleData idlePins sampleDataLine 0).bufPos = sampleDataLine.bufPos ∧
      lineOf (handleData idlePins sampleDataLine 0) = lineOf sampleDataLine) ∧
    ((handleC idlePins sampleDataLine).bufPos = sampleDataLine.bufPos ∧
      lineOf (handleC idlePins sampleDataLine) = lineOf sampleDataLine) ∧
    (sampleDataLine.buf.length = 68 → 0 ∉ lineOf sampleDataLine →
      cstr (wr (handleData idlePins sampleDataLine 1).buf
        (handleData idlePins sampleDataLine 1).bufPos 0) 0 = lineOf sampleDataLine ∧
      cstr (wr (handleData idlePins sampleDataLine 0).buf
        (handleData idlePins sampleDataLine 0).bufPos 0) 0 = lineOf sampleDataLine ∧
      cstr (wr (handleC idlePins sampleDataLine).buf
        (handleC idlePins sampleDataLine).bufPos 0) 0 = lineOf sampleDataLine)) :=
  ⟨by decide, end_bytes_trimmed idlePins sampleDataLine (by decide)⟩

/-- What `finish` leaves alone: the hardware and the device flags; it sends the
prompt when echo is on. -/
theorem finish_frame (t : State) :
    (finish t).hw = t.hw ∧ (finish t).listenMode = t.listenMode ∧
    (finish t).listenMode_prev = t.listenMode_prev ∧
    (finish t).remoteState = t.remoteState ∧ (finish t).listenAddress = t.listenAddress ∧
    (finish t).msgEndSeq = t.msgEndSeq ∧ (finish t).localEcho = t.localEcho ∧
    (finish t).ledBlinking = t.ledBlinking ∧
    (finish t).out = t.out ++ (if t.localEcho ≠ 0 then bytes "<GPIB> " else []) ∧
    (finish t).mode = Mode.edit := by
  unfold finish prompt resetLine saveHistory State.print State.puts
  simp only []
  split_ifs <;> simp_all

theorem handleData_listen (pins : Pins) (s : State) (eoi : Nat) (hl : s.listenMode ≠ 0) :
    handleData pins s eoi = s.print "ERROR\r\n" := by
  unfold handleData
  rw [if_neg hl]

theorem dispatch_D (pins : Pins) (t : State) (h : t.command = 68) :
    dispatch pins t = finish (handleData pins t 1) := by
  simp [dispatch, h]

theorem dispatch_M (pins : Pins) (t : State) (h : t.command = 77) :
    dispatch pins t = finish (handleData pins t 0) := by
  simp [dispatch, h]

/-- The carriage return on a non-empty line whose first byte upper-cases to a
non-zero `cmd`: the echo, then the dispatch with `command = cmd`. -/
theorem step_cr (pins : Pins) (s : State) (cmd : Nat) (hm : s.mode = Mode.edit)
    (hb : s.bufPos ≠ 0) (hc : toupper (rd s.buf 0) = cmd) (h0 : cmd ≠ 0) :
    step pins s (Event.byte 13) =
      dispatch pins { (if s.localEcho ≠ 0 then s.puts [13, 10] else s) with command := cmd } := by
  have hs : step pins s (Event.byte 13) = carriageReturn pins s := by
    simp [step, hm]
  rw [hs]
  unfold carriageReturn
  by_cases he : s.localEcho ≠ 0
  · simp only [if_pos he, State.puts]
    rw [if_pos hb, hc, if_pos h0]
  · simp only [if_neg he]
    rw [if_pos hb, hc, if_pos h0]

/-- C13: a line starting with `D`, `d`, `M` or `m` dispatched while the
listen-mode flag is set is answered with `ERROR`; the handler changes nothing but
the serial output (no port register, no pin read, no line length, no flag), and
after the dispatch the hardware state and every device flag are unchanged. -/
theorem data_refused_when_listening (pins : Pins) (s : State) (hl : s.listenMode ≠ 0)
    (hm : s.mode = Mode.edit) (hb : s.bufPos ≠ 0)
    (hc : rd s.buf 0 = 68 ∨ rd s.buf 0 = 100 ∨ rd s.buf 0 = 77 ∨ rd s.buf 0 = 109) :
    (handleData pins s 1 = s.print "ERROR\r\n" ∧ handleData pins s 0 = s.print "ERROR\r\n") ∧
    (step pins s (Event.byte 13)).out =
      s.out ++ (if s.localEcho ≠ 0 then [13, 10] else []) ++ bytes "ERROR\r\n"
        ++ (if s.localEcho ≠ 0 then bytes "<GPIB> " else []) ∧
    (step pins s (Event.byte 13)).hw = s.hw ∧
    (step pins s (Event.byte 13)).listenMode = s.listenMode ∧
    (step pins s (Event.byte 13)).remoteState = s.remoteState ∧
    (step pins s (Event.byte 13)).listenAddress = s.listenAddress ∧
    (step pins s (Event.byte 13)).msgEndSeq = s.msgEndSeq ∧
    (step pins s (Event.byte 13)).localEcho = s.localEcho ∧
    (step pins s (Event.byte 13)).ledBlinking = s.ledBlinking := by
  refine ⟨⟨handleData_listen pins s 1 hl, handleData_listen pins s 0 hl⟩, ?_⟩
  have key : ∃ eoi, step pins s (Event.byte 13) = finish (handleData pins
      { (if s.localEcho ≠ 0 then s.puts [13, 10] else s) with
          command := toupper (rd s.buf 0) } eoi) := by
    have hup : toupper (rd s.buf 0) = 68 ∨ toupper (rd s.buf 0) = 77 := by
      rcases hc with h | h | h | h <;> rw [h] <;> decide
    rcases hup with h | h
    · exact ⟨1, by rw [step_cr pins s _ hm hb rfl (by rw [h]; decide), dispatch_D pins _ h]⟩
    · exact ⟨0, by rw [step_cr pins s _ hm hb rfl (by rw [h]; decide), dispatch_M pins _ h]⟩
  obtain ⟨eoi, e⟩ := key
  rw [e, handleData_listen _ _ _ (by dsimp only; split <;> exact hl)]
  obtain ⟨f1, f2, _, f4, f5, f6, f7, f8, f9, _⟩ := finish_frame (State.print
      { (if s.localEcho ≠ 0 then s.puts [13, 10] else s) with
          command := toupper (rd s.buf 0) } "ERROR\r\n")
  rw [f1, f2, f4, f5, f6, f7, f8, f9]
  by_cases he : s.localEcho ≠ 0
  · simp [he, State.print, State.puts]
  · simp [he, State.print, State.puts]

/-- Witness for C13: the line `D12` with the listen-mode flag set. -/
theorem data_refused_when_listening_witness :
    (sampleListening.listenMode ≠ 0 ∧ sampleListening.mode = Mode.edit ∧
      sampleListening.bufPos ≠ 0 ∧
      (rd sampleListening.buf 0 = 68 ∨ rd sampleListening.buf 0 = 100 ∨
        rd sampleListening.buf 0 = 77 ∨ rd sampleListening.buf 0 = 109)) ∧
    ((handleData idlePins sampleListening 1 = sampleListening.print "ERROR\r\n" ∧
      handleData idlePins sampleListening 0 = sampleListening.print "ERROR\r\n") ∧
    (step idlePins sampleListening (Event.byte 13)).out =
      sampleListening.out ++ (if sampleListening.localEcho ≠ 0 then [13, 10] else [])
        ++ bytes "ERROR\r\n"
        ++ (if sampleListening.localEcho ≠ 0 then bytes "<GPIB> " else []) ∧
    (step idlePins sampleListening (Event.byte 13)).hw = sampleListening.hw ∧
    (step idlePins sampleListening (Event.byte 13)).listenMode = sampleListening.listenMode ∧
    (step idlePins sampleListening (Event.byte 13)).remoteState = sampleListening.remoteState ∧
    (step idlePins sampleListening (Event.byte 13)).listenAddress
      = sampleListening.listenAddress ∧
    (step idlePins sampleListening (Event.byte 13)).msgEndSeq = sampleListening.msgEndSeq ∧
    (step idlePins sampleListening (Event.byte 13)).localEcho = sampleListening.localEcho ∧
    (step idlePins sampleListening (Event.byte 13)).ledBlinking
      = sampleListening.ledBlinking) :=
  ⟨⟨by decide, by decide, by decide, by decide⟩,
    data_refused_when_listening idlePins sampleListening (by decide) (by decide) (by decide)
      (by decide)⟩

/-! ## Bus transport: passes and wait loops -/

theorem GPIB_Transmit_loop_succ (pins : Pins) (buf : List Nat) (off n eoi fuel : Nat) (hw : Hw)
    (index : Nat) :
    GPIB_Transmit_loop pins buf off n eoi (fuel + 1) hw index =
      if (txPass pins buf off n eoi hw index).phase = 2 then
        if (index + 1) % 256 < n then
          GPIB_Transmit_loop pins buf off n eoi fuel (txPass pins buf off n eoi hw index).hw
            ((index + 1) % 256)
        else (255, (txPass pins buf off n eoi hw index).hw)
      else (0, (txPass pins buf off n eoi hw index).hw) := by
  rw [GPIB_Transmit_loop]
  unfold txPass
  simp only []
  split_ifs <;> first | rfl | simp_all

theorem GPIB_Receive_loop_succ (pins : Pins) (n fuel : Nat) (hw : Hw) (buf : List Nat)
    (index : Nat) :
    GPIB_Receive_loop pins n (fuel + 1) hw buf index =
      if (rxPass pins false hw).phase = 0 then ⟨0, buf, index, (rxPass pins false hw).hw⟩
      else if (rxPass pins false hw).phase = 1 then
        ⟨0, wr buf index (rxPass pins false hw).c, (index + 1) % 256, (rxPass pins false hw).hw⟩
      else if (index + 1) % 256 < n then
        GPIB_Receive_loop pins n fuel (rxPass pins false hw).hw
          (wr buf index (rxPass pins false hw).c) ((index + 1) % 256)
      else
        ⟨255, wr buf index (rxPass pins false hw).c, (index + 1) % 256,
          (rxPass pins false hw).hw⟩ := by
  rw [GPIB_Receive_loop]
  unfold rxPass
  simp only []
  split_ifs <;> first | rfl | simp_all

theorem GPIB_Receive_till_lf_loop_succ (pins : Pins) (n fuel : Nat) (hw : Hw) (buf : List Nat)
    (index : Nat) :
    GPIB_Receive_till_lf_loop pins n (fuel + 1) hw buf index =
      if (rxPass pins false hw).phase = 0 then ⟨0, buf, index, (rxPass pins false hw).hw⟩
      else if (rxPass pins false hw).phase = 1 then
        ⟨0, wr buf index (rxPass pins false hw).c, (index + 1) % 256, (rxPass pins false hw).hw⟩
      else if (index + 1) % 256 < n ∧ (rxPass pins false hw).c ≠ 10 then
        GPIB_Receive_till_lf_loop pins n fuel (rxPass pins false hw).hw
          (wr buf index (rxPass pins false hw).c) ((index + 1) % 256)
      else
        ⟨255, wr buf index (rxPass pins false hw).c, (index + 1) % 256,
          (rxPass pins false hw).hw⟩ := by
  rw [GPIB_Receive_till_lf_loop]
  unfold rxPass
  simp only []
  split_ifs <;> first | rfl | simp_all

theorem GPIB_Receive_till_eoi_loop_succ (pins : Pins) (n fuel : Nat) (hw : Hw) (buf : List Nat)
    (index : Nat) :
    GPIB_Receive_till_eoi_loop pins n (fuel + 1) hw buf index 0 =
      if (rxPass pins true hw).phase = 0 then ⟨0, buf, index, (rxPass pins true hw).hw⟩
      else if (rxPass pins true hw).phase = 1 then
        ⟨0, wr buf index (rxPass pins true hw).c, (index + 1) % 256, (rxPass pins true hw).hw⟩
      else if (index + 1) % 256 < n ∧ (rxPass pins true hw).eoiLow = false then
        GPIB_Receive_till_eoi_loop pins n fuel (rxPass pins true hw).hw
          (wr buf index (rxPass pins true hw).c) ((index + 1) % 256) 0
      else
        ⟨255, wr buf index (rxPass pins true hw).c, (index + 1) % 256,
          (rxPass pins true hw).hw⟩ := by
  rw [GPIB_Receive_till_eoi_loop]
  unfold rxPass
  simp only []
  split_ifs <;> first | rfl | simp_all

/-- The two ways a wait loop ends: the wanted level shows after `a` failing
polls, with the counter still within the bound, or `bound + 1 - timeout` polls
fail in a row and the counter passes the bound. -/
theorem waitPin_cases (pins : Pins) (mask : Nat) (want : Bool) (bound : Nat) :
    ∀ (fuel reads timeout : Nat), timeout ≤ bound → bound - timeout < fuel →
      (∃ a, timeout + a ≤ bound ∧
        (∀ j, j < a → decide (pins.pinc (reads + j) &&& mask ≠ 0) ≠ want) ∧
        decide (pins.pinc (reads + a) &&& mask ≠ 0) = want ∧
        waitPin pins mask want bound fuel reads timeout = (true, reads + a + 1, timeout + a)) ∨
      ((∀ j, j ≤ bound - timeout → decide (pins.pinc (reads + j) &&& mask ≠ 0) ≠ want) ∧
        waitPin pins mask want bound fuel reads timeout
          = (false, reads + (bound - timeout) + 1, bound + 1)) := by
  intro fuel
  induction fuel with
  | zero => intro reads timeout _ h; omega
  | succ f ih =>
    intro reads timeout ht hf
    rw [waitPin]
    by_cases hp : decide (pins.pinc reads &&& mask ≠ 0) = want
    · left
      refine ⟨0, by omega, fun j hj => by omega, by simpa using hp, ?_⟩
      rw [if_pos hp]
      rfl
    · rw [if_neg hp]
      by_cases hb : timeout + 1 > bound
      · right
        rw [if_pos hb]
        have e : bound - timeout = 0 := by omega
        have e2 : timeout + 1 = bound + 1 := by omega
        refine ⟨fun j hj => ?_, by rw [e, e2]⟩
        have : j = 0 := by omega
        subst this
        simpa using hp
      · rw [if_neg hb]
        rcases ih (reads + 1) (timeout + 1) (by omega) (by omega) with
          ⟨a, h1, h2, h3, h4⟩ | ⟨h1, h2⟩
        · left
          refine ⟨a + 1, by omega, fun j hj => ?_, ?_, ?_⟩
          · rcases Nat.eq_zero_or_pos j with h0 | h0
            · subst h0; simpa using hp
            · have := h2 (j - 1) (by omega)
              have e : reads + 1 + (j - 1) = reads + j := by omega
              rw [e] at this; exact this
          · have e : reads + (a + 1) = reads + 1 + a := by omega
            rw [e]; exact h3
          · rw [h4]
            have e1 : reads + 1 + a + 1 = reads + (a + 1) + 1 := by omega
            have e2 : timeout + 1 + a = timeout + (a + 1) := by omega
            rw [e1, e2]
        · right
          refine ⟨fun j hj => ?_, ?_⟩
          · rcases Nat.eq_zero_or_pos j with h0 | h0
            · subst h0; simpa using hp
            · have := h1 (j - 1) (by omega)
              have e : reads + 1 + (j - 1) = reads + j := by omega
              rw [e] at this; exact this
          · rw [h2]
            have e1 : reads + 1 + (bound - (timeout + 1)) + 1 = reads + (bound - timeout) + 1 := by
              omega
            rw [e1]

/-- The level shows after exactly `a` failing polls. -/
theorem waitPin_found (pins : Pins) (mask : Nat) (want : Bool) (bound fuel reads timeout a : Nat)
    (ht : timeout + a ≤ bound) (hf : bound - timeout < fuel)
    (hfail : ∀ j, j < a → decide (pins.pinc (reads + j) &&& mask ≠ 0) ≠ want)
    (hok : decide (pins.pinc (reads + a) &&& mask ≠ 0) = want) :
    waitPin pins mask want bound fuel reads timeout = (true, reads + a + 1, timeout + a) := by
  rcases waitPin_cases pins mask want bound fuel reads timeout (by omega) hf with
    ⟨a', h1, h2, h3, h4⟩ | ⟨h1, _⟩
  · have e : a' = a := by
      rcases Nat.lt_trichotomy a' a with h | h | h
      · exact absurd h3 (hfail a' h)
      · exact h
      · exact absurd hok (h2 a h)
    rw [h4, e]
  · exact absurd hok (h1 a (by omega))

/-- The level never shows within the budget. -/
theorem waitPin_giveup (pins : Pins) (mask : Nat) (want : Bool) (bound fuel reads timeout : Nat)
    (ht : timeout ≤ bound) (hf : bound - timeout < fuel)
    (hfail : ∀ j, j ≤ bound - timeout → decide (pins.pinc (reads + j) &&& mask ≠ 0) ≠ want) :
    waitPin pins mask want bound fuel reads timeout
      = (false, reads + (bound - timeout) + 1, bound + 1) := by
  rcases waitPin_cases pins mask want bound fuel reads timeout ht hf with
    ⟨a, h1, _, h3, _⟩ | ⟨_, h2⟩
  · exact absurd h3 (hfail a (by omega))
  · exact h2

/-! ## Transmitted payload -/

theorem txPass_congr (pins : Pins) (b1 : List Nat) (o1 : Nat) (b2 : List Nat)
    (o2 n eoi : Nat) (hw : Hw) (index : Nat) (h : rd b1 (o1 + index) = rd b2 (o2 + index)) :
    txPass pins b1 o1 n eoi hw index = txPass pins b2 o2 n eoi hw index := by
  unfold txPass
  rw [h]

/-- The transmit loop only looks at the `bufLength` bytes behind the pointer. -/
theorem GPIB_Transmit_loop_congr (pins : Pins) (b1 : List Nat) (o1 : Nat) (b2 : List Nat)
    (o2 n eoi : Nat) (h : ∀ k, k < n → rd b1 (o1 + k) = rd b2 (o2 + k)) :
    ∀ (fuel : Nat) (hw : Hw) (index : Nat), index < n →
      GPIB_Transmit_loop pins b1 o1 n eoi fuel hw index =
        GPIB_Transmit_loop pins b2 o2 n eoi fuel hw index := by
  intro fuel
  induction fuel with
  | zero => intro hw index _; rfl
  | succ f ih =>
    intro hw index hi
    rw [GPIB_Transmit_loop_succ, GPIB_Transmit_loop_succ,
      txPass_congr pins b1 o1 b2 o2 n eoi hw index (h index hi)]
    split_ifs with c1 c2
    · exact ih _ _ c2
    · rfl
    · rfl

theorem GPIB_Transmit_congr (pins : Pins) (hw : Hw) (b1 : List Nat) (o1 : Nat) (b2 : List Nat)
    (o2 n eoi : Nat) (h : ∀ k, k < n → rd b1 (o1 + k) = rd b2 (o2 + k)) :
    GPIB_Transmit pins hw b1 o1 n eoi = GPIB_Transmit pins hw b2 o2 n eoi := by
  unfold GPIB_Transmit
  by_cases h0 : n = 0
  · simp [h0]
  · have hpos : 0 < n := Nat.pos_of_ne_zero h0
    simp only [if_neg h0, GPIB_Transmit_loop_congr pins b1 o1 b2 o2 n eoi h _ _ 0 hpos]

theorem rd_append_left (a b : List Nat) (k : Nat) (h : k < a.length) :
    rd (a ++ b) k = rd a k := by
  unfold rd
  rw [List.getD_eq_getElem?_getD, List.getD_eq_getElem?_getD, List.getElem?_append_left h]

theorem rd_append_right (a b : List Nat) (k : Nat) (h : a.length ≤ k) :
    rd (a ++ b) k = rd b (k - a.length) := by
  unfold rd
  rw [List.getD_eq_getElem?_getD, List.getD_eq_getElem?_getD, List.getElem?_append_right h]

theorem rd_argsOf (s : State) (k : Nat) (h : 1 + k < s.bufPos) :
    rd (argsOf s) k = rd s.buf (1 + k) := by
  unfold argsOf lineOf rd
  rw [List.getD_eq_getElem?_getD, List.getD_eq_getElem?_getD, List.getElem?_drop,
    List.getElem?_take_of_lt h]

theorem length_argsOf (s : State) (h : s.bufPos ≤ s.buf.length) :
    (argsOf s).length = s.bufPos - 1 := by
  unfold argsOf lineOf
  rw [List.length_drop, List.length_take]
  omega

theorem length_endSeqBytes (s : State) : (endSeqBytes s.msgEndSeq).length = endSeqLen s := by
  unfold endSeqBytes endSeqLen
  split_ifs <;> first | rfl | omega

/-- The bytes behind `buf + 1` after the end-of-message bytes were appended. -/
theorem appendEndSeq_payload (s : State) (h1 : 1 ≤ s.bufPos) (h63 : s.bufPos ≤ 63)
    (h68 : s.buf.length = 68) :
    ((appendEndSeq s).bufPos + 255) % 256 = (dataPayload s).length ∧
    ∀ k, k < (dataPayload s).length →
      rd (appendEndSeq s).buf (1 + k) = rd (dataPayload s) (0 + k) := by
  have hla := length_argsOf s (by omega)
  have hle := length_endSeqBytes s
  have hlp : (dataPayload s).length = s.bufPos - 1 + endSeqLen s := by
    unfold dataPayload; rw [List.length_append, hla, hle]
  have hf := (appendEndSeq_fields s h63).1
  have hl2 := endSeqLen_le s
  refine ⟨by rw [hf, hlp]; omega, fun k hk => ?_⟩
  rw [hlp] at hk
  rw [Nat.zero_add]
  unfold dataPayload
  by_cases hka : k < s.bufPos - 1
  · rw [rd_append_left _ _ _ (by omega), rd_argsOf s k (by omega)]
    unfold appendEndSeq
    split_ifs <;> dsimp only <;> simp only [rd_wr] <;>
      first
      | rfl
      | rw [if_neg (by omega), if_neg (by omega)]
      | rw [if_neg (by omega)]
  · rw [rd_append_right _ _ _ (by omega), hla]
    unfold appendEndSeq endSeqBytes endSeqLen at *
    split_ifs at * <;> (try dsimp only) <;> (try simp only [rd_wr, length_wr]) <;>
      first
      | omega
      | (have e : k = s.bufPos - 1 := by omega
         subst e
         rw [if_pos ⟨by omega, by omega⟩]
         have e2 : s.bufPos - 1 - (s.bufPos - 1) = 0 := by omega
         rw [e2]; rfl)
      | (rcases (show k = s.bufPos - 1 ∨ k = s.bufPos from by omega) with e | e
         · subst e
           rw [if_neg (by omega), if_pos ⟨by omega, by omega⟩]
           have e2 : s.bufPos - 1 - (s.bufPos - 1) = 0 := by omega
           rw [e2]; rfl
         · subst e
           rw [if_pos ⟨by omega, by omega⟩]
           have e2 : s.bufPos - (s.bufPos - 1) = 1 := by omega
           rw [e2]; rfl)

theorem appendEndSeq_hw (s : State) :
    (appendEndSeq s).hw = s.hw ∧ (appendEndSeq s).out = s.out ∧
    (appendEndSeq s).listenMode = s.listenMode ∧
    (appendEndSeq s).remoteState = s.remoteState ∧
    (appendEndSeq s).listenAddress = s.listenAddress := by
  unfold appendEndSeq
  split_ifs <;> exact ⟨rfl, rfl, rfl, rfl, rfl⟩

theorem trimEndSeq_hw (s : State) :
    (trimEndSeq s).hw = s.hw ∧ (trimEndSeq s).out = s.out ∧
    (trimEndSeq s).listenMode = s.listenMode ∧
    (trimEndSeq s).remoteState = s.remoteState ∧
    (trimEndSeq s).listenAddress = s.listenAddress := by
  unfold trimEndSeq
  split_ifs <;> exact ⟨rfl, rfl, rfl, rfl, rfl⟩

/-- The data handler outside listen mode, in terms of the payload. -/
theorem handleData_payload (pins : Pins) (s : State) (eoi : Nat) (hl : s.listenMode = 0)
    (h1 : 1 ≤ s.bufPos) (h63 : s.bufPos ≤ 63) (h68 : s.buf.length = 68) :
    (handleData pins s eoi).hw
      = (GPIB_Transmit pins s.hw (dataPayload s) 0 (dataPayload s).length eoi).2 ∧
    (handleData pins s eoi).out = s.out ++
      (if (GPIB_Transmit pins s.hw (dataPayload s) 0 (dataPayload s).length eoi).1 = 255
        then bytes "OK\r\n" else bytes "TIMEOUT\r\n") := by
  obtain ⟨p1, p2⟩ := appendEndSeq_payload s h1 h63 h68
  have hc := GPIB_Transmit_congr pins s.hw (appendEndSeq s).buf 1 (dataPayload s) 0
    (dataPayload s).length eoi p2
  obtain ⟨a1, a2, _⟩ := appendEndSeq_hw s
  unfold handleData
  rw [if_pos hl]
  simp only [reportTransmit_eq, (trimEndSeq_hw _).1, (trimEndSeq_hw _).2.1]
  rw [a1, a2, p1, hc]
  exact ⟨rfl, rfl⟩

/-- C12: outside listen mode the `D` handler hands `GPIB_Transmit` the argument
bytes followed by nothing, CR, LF or CR LF for policy 0, 1, 2 or 3, with the
end-marker argument 1; the `M` handler hands over the same bytes with the
end-marker argument 0; the `Q` command with digit `p` sets policy `p`. -/
theorem data_payload_transmitted (pins : Pins) (s : State) (hl : s.listenMode = 0)
    (h1 : 1 ≤ s.bufPos) (h63 : s.bufPos ≤ 63) (h68 : s.buf.length = 68) :
    ((s.command = 68 → dispatch pins s = finish (handleData pins s 1)) ∧
      (handleData pins s 1).hw
        = (GPIB_Transmit pins s.hw (dataPayload s) 0 (dataPayload s).length 1).2 ∧
      (handleData pins s 1).out = s.out ++
        (if (GPIB_Transmit pins s.hw (dataPayload s) 0 (dataPayload s).length 1).1 = 255
          then bytes "OK\r\n" else bytes "TIMEOUT\r\n")) ∧
    ((s.command = 77 → dispatch pins s = finish (handleData pins s 0)) ∧
      (handleData pins s 0).hw
        = (GPIB_Transmit pins s.hw (dataPayload s) 0 (dataPayload s).length 0).2 ∧
      (handleData pins s 0).out = s.out ++
        (if (GPIB_Transmit pins s.hw (dataPayload s) 0 (dataPayload s).length 0).1 = 255
          then bytes "OK\r\n" else bytes "TIMEOUT\r\n")) ∧
    ((s.msgEndSeq = 0 → dataPayload s = argsOf s) ∧
      (s.msgEndSeq = 1 → dataPayload s = argsOf s ++ [13]) ∧
      (s.msgEndSeq = 2 → dataPayload s = argsOf s ++ [10]) ∧
      (s.msgEndSeq = 3 → dataPayload s = argsOf s ++ [13, 10])) ∧
    (∀ (t : State) (p : Nat), p ≤ 3 → t.bufPos = 2 → rd t.buf 1 = 48 + p →
      (handleQ t).msgEndSeq = p) := by
  obtain ⟨d1, d2⟩ := handleData_payload pins s 1 hl h1 h63 h68
  obtain ⟨m1, m2⟩ := handleData_payload pins s 0 hl h1 h63 h68
  refine ⟨⟨dispatch_D pins s, d1, d2⟩, ⟨dispatch_M pins s, m1, m2⟩, ⟨?_, ?_, ?_, ?_⟩, ?_⟩
  · intro h; unfold dataPayload endSeqBytes; rw [h]; simp
  · intro h; unfold dataPayload endSeqBytes; rw [h]; simp
  · intro h; unfold dataPayload endSeqBytes; rw [h]; simp
  · intro h; unfold dataPayload endSeqBytes; rw [h]; simp
  · intro t p hp hb hd
    unfold handleQ State.print State.puts
    rw [if_neg (by omega), if_pos ⟨hb, by omega⟩]
    dsimp only
    split_ifs <;> (try dsimp only) <;> omega

/-- Witness for C12: the line `D12` under the CR LF policy. -/
theorem data_payload_transmitted_witness :
    (sampleDataLine.listenMode = 0 ∧ 1 ≤ sampleDataLine.bufPos ∧ sampleDataLine.bufPos ≤ 63 ∧
      sampleDataLine.buf.length = 68) ∧
    (((sampleDataLine.command = 68 →
        dispatch idlePins sampleDataLine = finish (handleData idlePins sampleDataLine 1)) ∧
      (handleData idlePins sampleDataLine 1).hw
        = (GPIB_Transmit idlePins sampleDataLine.hw (dataPayload sampleDataLine) 0
            (dataPayload sampleDataLine).length 1).2 ∧
      (handleData idlePins sampleDataLine 1).out = sampleDataLine.out ++
        (if (GPIB_Transmit idlePins sampleDataLine.hw (dataPayload sampleDataLine) 0
            (dataPayload sampleDataLine).length 1).1 = 255
          then bytes "OK\r\n" else bytes "TIMEOUT\r\n")) ∧
    ((sampleDataLine.command = 77 →
        dispatch idlePins sampleDataLine = finish (handleData idlePins sampleDataLine 0)) ∧
      (handleData idlePins sampleDataLine 0).hw
        = (GPIB_Transmit idlePins sampleDataLine.hw (dataPayload sampleDataLine) 0
            (dataPayload sampleDataLine).length 0).2 ∧
      (handleData idlePins sampleDataLine 0).out = sampleDataLine.out ++
        (if (GPIB_Transmit idlePins sampleDataLine.hw (dataPayload sampleDataLine) 0
            (dataPayload sampleDataLine).length 0).1 = 255
          then bytes "OK\r\n" else bytes "TIMEOUT\r\n")) ∧
    ((sampleDataLine.msgEndSeq = 0 → dataPayload sampleDataLine = argsOf sampleDataLine) ∧
      (sampleDataLine.msgEndSeq = 1 →
        dataPayload sampleDataLine = argsOf sampleDataLine ++ [13]) ∧
      (sampleDataLine.msgEndSeq = 2 →
        dataPayload sampleDataLine = argsOf sampleDataLine ++ [10]) ∧
      (sampleDataLine.msgEndSeq = 3 →
        dataPayload sampleDataLine = argsOf sampleDataLine ++ [13, 10])) ∧
    (∀ (t : State) (p : Nat), p ≤ 3 → t.bufPos = 2 → rd t.buf 1 = 48 + p →
      (handleQ t).msgEndSeq = p)) :=
  ⟨⟨by decide, by decide, by decide, by decide⟩,
    data_payload_transmitted idlePins sampleDataLine (by decide) (by decide) (by decide)
      (by decide)⟩

/-! ## Listen-mode update of the `C` command -/

theorem scanToken_fields (s : State) (a b : Nat) :
    (scanToken s a b).listenAddress = s.listenAddress ∧
    (scanToken s a b).remoteState = s.remoteState ∧
    (scanToken s a b).msgBuf = s.msgBuf ∧ (scanToken s a b).buf = s.buf ∧
    (scanToken s a b).msgLen = s.msgLen := by
  unfold scanToken
  split_ifs <;> exact ⟨rfl, rfl, rfl, rfl, rfl⟩

/-- The scan over positions of `buf` is the scan over the bytes found there. -/
theorem scan_positions (idx : List Nat) :
    ∀ s : State, idx.foldl (fun s i => scanToken s (rd s.buf i) (rd s.buf i)) s =
      (idx.map (rd s.buf)).foldl (fun s b => scanToken s b b) s := by
  induction idx with
  | nil => intro s; rfl
  | cons i idx ih =>
    intro s
    rw [List.foldl_cons, List.map_cons, List.foldl_cons, ih,
      (scanToken_fields s (rd s.buf i) (rd s.buf i)).2.2.2.1]

theorem listenAfter_cons (a flag b : Nat) (l : List Nat) :
    listenAfter a flag (b :: l) =
      listenAfter a (if b = 63 ∨ b = 64 + a then 0 else if b = 32 + a then 1 else flag) l := by
  unfold listenAfter
  rw [List.reverse_cons, List.find?_append]
  cases h : List.find? (fun b => decide (b = 63 ∨ b = a + 64 ∨ b = a + 32)) l.reverse with
  | some x => simp
  | none =>
    simp only [Option.or_none, Option.none_or, List.find?_cons, List.find?_nil]
    by_cases h1 : b = 63 ∨ b = 64 + a
    · have h3 : b = 63 ∨ b = a + 64 := by omega
      have hd : decide (b = 63 ∨ b = a + 64 ∨ b = a + 32) = true := by
        rw [decide_eq_true_eq]; omega
      rw [hd]
      dsimp only
      rw [if_pos h3, if_pos h1]
    · by_cases h4 : b = 32 + a
      · have h3 : ¬ (b = 63 ∨ b = a + 64) := by omega
        have hd : decide (b = 63 ∨ b = a + 64 ∨ b = a + 32) = true := by
          rw [decide_eq_true_eq]; omega
        rw [hd]
        dsimp only
        rw [if_neg h3, if_neg h1, if_pos h4]
      · have hd : decide (b = 63 ∨ b = a + 64 ∨ b = a + 32) = false := by
          rw [decide_eq_false_iff_not]; omega
        rw [hd]
        dsimp only
        rw [if_neg h1, if_neg h4]

/-- The flag after scanning a byte sequence is decided by its last token. -/
theorem scan_listenMode (l : List Nat) :
    ∀ s : State, (l.foldl (fun s b => scanToken s b b) s).listenMode
        = listenAfter s.listenAddress s.listenMode l ∧
      (l.foldl (fun s b => scanToken s b b) s).remoteState = s.remoteState := by
  induction l with
  | nil => intro s; exact ⟨by simp [listenAfter], rfl⟩
  | cons b l ih =>
    intro s
    rw [List.foldl_cons, listenAfter_cons]
    obtain ⟨i1, i2⟩ := ih (scanToken s b b)
    rw [i1, i2, (scanToken_fields s b b).1, (scanToken_fields s b b).2.1]
    refine ⟨?_, rfl⟩
    congr 1
    unfold scanToken
    split_ifs <;> rfl

theorem argsOf_eq_map (s : State) (h : s.bufPos ≤ s.buf.length) :
    argsOf s = (List.range' 1 (s.bufPos - 1)).map (rd s.buf) := by
  apply List.ext_getElem?
  intro k
  by_cases hk : 1 + k < s.bufPos
  · have h1 : rd (argsOf s) k = rd s.buf (1 + k) := rd_argsOf s k hk
    have hl : k < (argsOf s).length := by rw [length_argsOf s h]; omega
    have hr : k < (List.range' 1 (s.bufPos - 1)).length := by rw [List.length_range']; omega
    rw [List.getElem?_eq_getElem hl, List.getElem?_map, List.getElem?_eq_getElem hr]
    unfold rd at h1
    rw [List.getD_eq_getElem?_getD, List.getElem?_eq_getElem hl] at h1
    simp only [Option.getD_some] at h1
    rw [h1]
    simp only [List.getElem_range', Nat.one_mul, Option.map_some']
    unfold rd
    rfl
  · rw [List.getElem?_eq_none (by rw [length_argsOf s h]; omega),
      List.getElem?_eq_none (by rw [List.length_map, List.length_range']; omega)]

theorem roleReceive_reconfigure (r : Nat) (h : Hw) :
    RoleReceive r (ReconfigureGPIO_GPIBReceiveMode r h) :=
  ⟨rfl, rfl, rfl, rfl⟩

theorem roleNormal_reconfigure (r : Nat) (h : Hw) :
    RoleNormal r (ReconfigureGPIO_GPIBNormalMode r h) :=
  ⟨rfl, rfl, rfl, rfl⟩

/-- The role switch that ends `C` and `T`: the role follows the flag. -/
theorem roleByListenMode_spec (t : State) :
    (roleByListenMode t).listenMode = t.listenMode ∧
    (roleByListenMode t).remoteState = t.remoteState ∧
    (t.listenMode ≠ 0 → RoleReceive t.remoteState (roleByListenMode t).hw) ∧
    (t.listenMode = 0 → RoleNormal t.remoteState (roleByListenMode t).hw) := by
  unfold roleByListenMode
  simp only []
  by_cases h : t.listenMode ≠ 0
  · rw [if_pos h]
    exact ⟨rfl, rfl, fun _ => roleReceive_reconfigure _ _, fun h0 => absurd h0 h⟩
  · rw [if_neg h]
    exact ⟨rfl, rfl, fun h0 => absurd h0 h, fun _ => roleNormal_reconfigure _ _⟩

theorem transmitCommand_flags (pins : Pins) (s : State) (b : List Nat) (off len : Nat) :
    (transmitCommand pins s b off len).listenMode = s.listenMode ∧
    (transmitCommand pins s b off len).remoteState = s.remoteState ∧
    (transmitCommand pins s b off len).listenAddress = s.listenAddress := by
  simp only [transmitCommand, reportTransmit_eq, and_self]

/-- C14: after the `C` handler the listen-mode flag is what the last token among
the argument bytes says (cleared by `'?'` or address+64, set by address+32, kept
when there is no token), and the bus role is Receive when the flag is set and
Normal otherwise. -/
theorem command_listen_update (pins : Pins) (s : State) (hfit : s.bufPos ≤ s.buf.length) :
    (handleC pins s).listenMode = listenAfter s.listenAddress s.listenMode (argsOf s) ∧
    ((handleC pins s).listenMode ≠ 0 → RoleReceive s.remoteState (handleC pins s).hw) ∧
    ((handleC pins s).listenMode = 0 → RoleNormal s.remoteState (handleC pins s).hw) := by
  have hscan := scan_listenMode ((List.range' 1 (s.bufPos - 1)).map (rd s.buf)) s
  rw [← scan_positions, ← argsOf_eq_map s hfit] at hscan
  unfold handleC
  simp only []
  generalize (List.foldl (fun s i => scanToken s (rd s.buf i) (rd s.buf i)) s
    (List.range' 1 (s.bufPos - 1))) = s1 at *
  obtain ⟨a1, a2⟩ := hscan
  have hl : (trimEndSeq (transmitCommand pins (appendEndSeq s1) (appendEndSeq s1).buf 1
      (((appendEndSeq s1).bufPos + 255) % 256))).listenMode = s1.listenMode := by
    rw [(trimEndSeq_hw _).2.2.1, (transmitCommand_flags _ _ _ _ _).1, (appendEndSeq_hw _).2.2.1]
  have hr : (trimEndSeq (transmitCommand pins (appendEndSeq s1) (appendEndSeq s1).buf 1
      (((appendEndSeq s1).bufPos + 255) % 256))).remoteState = s1.remoteState := by
    rw [(trimEndSeq_hw _).2.2.2.1, (transmitCommand_flags _ _ _ _ _).2.1,
      (appendEndSeq_hw _).2.2.2.1]
  obtain ⟨r1, _, r3, r4⟩ := roleByListenMode_spec (trimEndSeq (transmitCommand pins
    (appendEndSeq s1) (appendEndSeq s1).buf 1 (((appendEndSeq s1).bufPos + 255) % 256)))
  rw [hr, a2] at r3 r4
  rw [r1, hl, a1] at *
  exact ⟨rfl, r3, r4⟩

/-- Witness for C14: the line `C5` at address 21 sets the flag. -/
theorem command_listen_update_witness :
    (sampleCommandLine.bufPos ≤ sampleCommandLine.buf.length) ∧
    ((handleC idlePins sampleCommandLine).listenMode
        = listenAfter sampleCommandLine.listenAddress sampleCommandLine.listenMode
            (argsOf sampleCommandLine) ∧
    ((handleC idlePins sampleCommandLine).listenMode ≠ 0 →
      RoleReceive sampleCommandLine.remoteState (handleC idlePins sampleCommandLine).hw) ∧
    ((handleC idlePins sampleCommandLine).listenMode = 0 →
      RoleNormal sampleCommandLine.remoteState (handleC idlePins sampleCommandLine).hw)) :=
  ⟨by decide, command_listen_update idlePins sampleCommandLine (by decide)⟩

/-! ## The command branch of `T` and the entry test of `GPIB_Transmit` -/

set_option maxRecDepth 100000 in
/-- C15 fails on the code: at address 21 the line `T0C35` is a valid hex
command whose decoded byte is 53 = 32 + 21, the listen token.  The `C` handler
given that byte (line `C5`) sets the listen-mode flag and ends in the Receive
role (`DDRA = 0`); the `T` handler leaves the flag clear and ends in the Normal
role (`DDRA = 255`), because its listen test reads `buf[i]`, not `msgBuf[i]`. -/
theorem hex_command_listen_token_missed :
    (CheckHexMsg (ptr (bytes "0C35")) 4).ret = 1 ∧
    (CheckHexMsg (ptr (bytes "0C35")) 4).outputMsg = bytes "5" ∧
    (init false).listenAddress = 21 ∧
    (run highPins (init false) (typed "C5\r")).listenMode = 1 ∧
    (run highPins (init false) (typed "C5\r")).hw.DDRA = 0 ∧
    (run highPins (init false) (typed "T0C35\r")).listenMode = 0 ∧
    (run highPins (init false) (typed "T0C35\r")).hw.DDRA = 255 := by
  decide

/-- C16: with an empty buffer, or with `NRFD` and `NDAC` both read high by the
entry test, `GPIB_Transmit` returns 0 at once: no register is written (so
`PORTA` and `PORTC` keep their values) and no pin is read beyond the at most two
reads of the entry test, so no wait loop runs. -/
theorem transmit_entry_refusal (pins : Pins) (hw : Hw) (buf : List Nat) (off n eoi : Nat)
    (h : n = 0 ∨ (pins.pinc hw.reads &&& NRFD ≠ 0 ∧ pins.pinc (hw.reads + 1) &&& NDAC ≠ 0)) :
    (GPIB_Transmit pins hw buf off n eoi).1 = 0 ∧
    (GPIB_Transmit pins hw buf off n eoi).2.PORTA = hw.PORTA ∧
    (GPIB_Transmit pins hw buf off n eoi).2.PORTC = hw.PORTC ∧
    (GPIB_Transmit pins hw buf off n eoi).2.DDRA = hw.DDRA ∧
    (GPIB_Transmit pins hw buf off n eoi).2.DDRC = hw.DDRC ∧
    (GPIB_Transmit pins hw buf off n eoi).2.PORTD = hw.PORTD ∧
    (GPIB_Transmit pins hw buf off n eoi).2.writes = hw.writes ∧
    (GPIB_Transmit pins hw buf off n eoi).2.reads ≤ hw.reads + 2 := by
  unfold GPIB_Transmit
  by_cases h0 : n = 0
  · rw [if_pos h0]
    exact ⟨rfl, rfl, rfl, rfl, rfl, rfl, rfl, Nat.le_add_right _ _⟩
  · rw [if_neg h0]
    obtain ⟨h1, h2⟩ := h.resolve_left h0
    rw [if_pos h1, if_pos h2]
    exact ⟨rfl, rfl, rfl, rfl, rfl, rfl, rfl, Nat.le_refl _⟩

/-- Witness for C16: one byte offered while both lines read high. -/
theorem transmit_entry_refusal_witness :
    ((1 : Nat) = 0 ∨ (highPins.pinc (init false).hw.reads &&& NRFD ≠ 0 ∧
        highPins.pinc ((init false).hw.reads + 1) &&& NDAC ≠ 0)) ∧
    ((GPIB_Transmit highPins (init false).hw (bytes "A") 0 1 1).1 = 0 ∧
    (GPIB_Transmit highPins (init false).hw (bytes "A") 0 1 1).2.PORTA = (init false).hw.PORTA ∧
    (GPIB_Transmit highPins (init false).hw (bytes "A") 0 1 1).2.PORTC = (init false).hw.PORTC ∧
    (GPIB_Transmit highPins (init false).hw (bytes "A") 0 1 1).2.DDRA = (init false).hw.DDRA ∧
    (GPIB_Transmit highPins (init false).hw (bytes "A") 0 1 1).2.DDRC = (init false).hw.DDRC ∧
    (GPIB_Transmit highPins (init false).hw (bytes "A") 0 1 1).2.PORTD = (init false).hw.PORTD ∧
    (GPIB_Transmit highPins (init false).hw (bytes "A") 0 1 1).2.writes = (init false).hw.writes ∧
    (GPIB_Transmit highPins (init false).hw (bytes "A") 0 1 1).2.reads
      ≤ (init false).hw.reads + 2) :=
  ⟨by decide, transmit_entry_refusal highPins (init false).hw (bytes "A") 0 1 1 (by decide)⟩

/-! ## Transmission to a cooperating listener -/

set_option maxRecDepth 100000 in
theorem portc_idle_fin : ∀ p : Fin 256, p.val &&& 128 ≠ 0 → p.val &&& 64 ≠ 0 →
    ((p.val &&& 191 ||| 128) ||| 64 = p.val ∧ (p.val &&& 191) &&& 128 ≠ 0 ∧
     (p.val &&& 191) &&& 64 = 0 ∧
     (p.val &&& 191 ||| 128) &&& 128 ≠ 0 ∧ (p.val &&& 191 ||| 128) &&& 64 = 0) ∧
    (((p.val &&& 127) &&& 191 ||| 128) ||| 64 = p.val ∧ (p.val &&& 127) &&& 128 = 0 ∧
     (p.val &&& 127) &&& 64 ≠ 0 ∧ ((p.val &&& 127) &&& 191) &&& 128 = 0 ∧
     ((p.val &&& 127) &&& 191) &&& 64 = 0 ∧ ((p.val &&& 127) &&& 191 ||| 128) &&& 128 ≠ 0 ∧
     ((p.val &&& 127) &&& 191 ||| 128) &&& 64 = 0) := by
  decide

/-- Bit facts of one byte cycle on an idle `PORTC` value (`EOI` and `DAV` high). -/
theorem portc_idle_bits (p : Nat) (hp : p < 256) (hE : p &&& 128 ≠ 0) (hD : p &&& 64 ≠ 0) :
    ((p &&& 191 ||| 128) ||| 64 = p ∧ (p &&& 191) &&& 128 ≠ 0 ∧ (p &&& 191) &&& 64 = 0 ∧
     (p &&& 191 ||| 128) &&& 128 ≠ 0 ∧ (p &&& 191 ||| 128) &&& 64 = 0) ∧
    (((p &&& 127) &&& 191 ||| 128) ||| 64 = p ∧ (p &&& 127) &&& 128 = 0 ∧
     (p &&& 127) &&& 64 ≠ 0 ∧ ((p &&& 127) &&& 191) &&& 128 = 0 ∧
     ((p &&& 127) &&& 191) &&& 64 = 0 ∧ ((p &&& 127) &&& 191 ||| 128) &&& 128 ≠ 0 ∧
     ((p &&& 127) &&& 191 ||| 128) &&& 64 = 0) :=
  portc_idle_fin ⟨p, hp⟩ hE hD

theorem setBitC_high (bit : Nat) (h : Hw) :
    setBitC bit 1 h = setPORTC h (h.PORTC ||| bit) := by
  simp [setBitC]

theorem setBitC_low (bit : Nat) (h : Hw) :
    setBitC bit 0 h = setPORTC h (h.PORTC &&& (255 - bit)) := by
  simp [setBitC]

theorem txPass_cooperating (pins : Pins) (buf : List Nat) (off n eoi : Nat) (hw : Hw)
    (index a b : Nat)
    (hp : hw.PORTC < 256) (hE : hw.PORTC &&& EOI ≠ 0) (hD : hw.PORTC &&& DAV ≠ 0)
    (hab : a + b ≤ GPIB_MAX_TRANSMIT_TIMEOUT)
    (h1 : ∀ j, j < a → pins.pinc (hw.reads + j) &&& NRFD = 0)
    (h2 : pins.pinc (hw.reads + a) &&& NRFD ≠ 0)
    (h3 : ∀ j, j < b → pins.pinc (hw.reads + a + 1 + j) &&& NDAC = 0)
    (h4 : pins.pinc (hw.reads + a + 1 + b) &&& NDAC ≠ 0) :
    (txPass pins buf off n eoi hw index).phase = 2 ∧
    (txPass pins buf off n eoi hw index).hw.reads = hw.reads + a + b + 2 ∧
    (txPass pins buf off n eoi hw index).hw.PORTC = hw.PORTC ∧
    ∃ W, (txPass pins buf off n eoi hw index).hw.writes = hw.writes ++ W ∧
      W.map signalOf = byteSignals (decide (index + 1 = n ∧ eoi ≠ 0))
        (255 - rd buf (off + index) % 256) := by
  have w1 : waitPin pins NRFD true GPIB_MAX_TRANSMIT_TIMEOUT
      (GPIB_MAX_TRANSMIT_TIMEOUT + 1) hw.reads 0 = (true, hw.reads + a + 1, 0 + a) :=
    waitPin_found pins NRFD true _ _ hw.reads 0 a (by omega) (by omega)
      (fun j hj => by simp [h1 j hj]) (by simpa using h2)
  have w2 : waitPin pins NDAC true GPIB_MAX_TRANSMIT_TIMEOUT
      (GPIB_MAX_TRANSMIT_TIMEOUT + 1) (hw.reads + a + 1) (0 + a)
        = (true, hw.reads + a + 1 + b + 1, 0 + a + b) :=
    waitPin_found pins NDAC true _ _ (hw.reads + a + 1) (0 + a) b (by omega) (by omega)
      (fun j hj => by simp [h3 j hj]) (by simpa using h4)
  obtain ⟨⟨b1, b2, b3, b4, b5⟩, c1, c2, c3, c4, c5, c6, c7⟩ :=
    portc_idle_bits hw.PORTC hp hE hD
  unfold txPass
  by_cases hc : index + 1 = n ∧ eoi ≠ 0
  · simp only [if_pos hc, setBitC_high, setBitC_low, setPORTA, setPORTC, w1, w2, EOI, DAV,
      Nat.reduceSub]
    refine ⟨by simp, by simp; omega, by simpa using c1, _, by simp; rfl, ?_⟩
    have hE2 : ¬ hw.PORTC &&& 128 = 0 := hE
    have hD2 : ¬ hw.PORTC &&& 64 = 0 := hD
    simp [signalOf, byteSignals, hc, EOI, DAV, c1, c2, c3, c4, c5, c6, c7, hE2, hD2]
  · simp only [if_neg hc, setBitC_high, setBitC_low, setPORTA, setPORTC, w1, w2, EOI, DAV,
      Nat.reduceSub]
    refine ⟨by simp, by simp; omega, by simpa using b1, _, by simp; rfl, ?_⟩
    have hE2 : ¬ hw.PORTC &&& 128 = 0 := hE
    have hD2 : ¬ hw.PORTC &&& 64 = 0 := hD
    simp [signalOf, byteSignals, hc, EOI, DAV, b1, b2, b3, b4, b5, hE2, hD2]

theorem GPIB_Transmit_loop_cooperating (pins : Pins) (buf : List Nat) (off n eoi : Nat)
    (hn : n ≤ 255) :
    ∀ (sched : List (Nat × Nat)) (fuel : Nat) (hw : Hw) (index : Nat),
      sched ≠ [] → index + sched.length = n → sched.length ≤ fuel →
      hw.PORTC < 256 → hw.PORTC &&& EOI ≠ 0 → hw.PORTC &&& DAV ≠ 0 →
      Cooperates pins hw.reads sched →
      (GPIB_Transmit_loop pins buf off n eoi fuel hw index).1 = 255 ∧
      (GPIB_Transmit_loop pins buf off n eoi fuel hw index).2.PORTC = hw.PORTC ∧
      ∃ W, (GPIB_Transmit_loop pins buf off n eoi fuel hw index).2.writes = hw.writes ++ W ∧
        W.map signalOf = sendSignals eoi
          ((List.range' index sched.length).map (fun k => rd buf (off + k))) := by
  intro sched
  induction sched with
  | nil => intro _ _ _ h; exact absurd rfl h
  | cons ab rest ih =>
    intro fuel hw index _ hlen hfuel hp hE hD hco
    obtain ⟨a, b⟩ := ab
    obtain ⟨hab, h1, h2, h3, h4, hrest⟩ := hco
    obtain ⟨f, rfl⟩ : ∃ f, fuel = f + 1 := ⟨fuel - 1, by simp at hfuel; omega⟩
    obtain ⟨p1, p2, p3, W, p4, p5⟩ :=
      txPass_cooperating pins buf off n eoi hw index a b hp hE hD hab h1 h2 h3 h4
    rw [GPIB_Transmit_loop_succ, if_pos p1]
    simp only [List.length_cons] at hlen hfuel
    rw [List.length_cons, List.range'_succ, List.map_cons, sendSignals]
    by_cases hr : rest = []
    · subst hr
      simp only [List.length_nil] at hlen
      have hi : ¬ (index + 1) % 256 < n := by omega
      rw [if_neg hi]
      refine ⟨rfl, p3, W, p4, ?_⟩
      rw [p5]
      simp [sendSignals, hlen]
    · have hpos : 0 < rest.length := List.length_pos.2 hr
      have hi : (index + 1) % 256 < n := by omega
      have hi2 : (index + 1) % 256 = index + 1 := by omega
      rw [if_pos hi, hi2]
      obtain ⟨q1, q2, W2, q3, q4⟩ := ih f (txPass pins buf off n eoi hw index).hw (index + 1) hr
        (by omega) (by omega) (by rw [p3]; exact hp) (by rw [p3]; exact hE) (by rw [p3]; exact hD)
        (by rw [p2]; exact hrest)
      refine ⟨q1, by rw [q2, p3], W ++ W2, by rw [q3, p4, List.append_assoc], ?_⟩
      rw [List.map_append, p5, q4]
      have hne : ¬ index + 1 = n := by omega
      have hm : List.map (fun k => rd buf (off + k)) (List.range' (index + 1) rest.length) ≠ [] := by
        intro h0
        have h00 := congrArg List.length h0
        simp only [List.length_map, List.length_range', List.length_nil] at h00
        omega
      simp [hne, hm]

theorem dataWrites_append (a b : List (Reg × Nat)) :
    dataWrites (a ++ b) = dataWrites a ++ dataWrites b := by
  unfold dataWrites
  rw [List.filterMap_append]

/-- The data-port values can be read off the signals. -/
theorem dataWrites_signals (w : List (Reg × Nat)) :
    dataWrites w = (w.map signalOf).filterMap
      (fun s => match s with
        | Signal.data v => some v
        | _ => none) := by
  induction w with
  | nil => rfl
  | cons x rest ih =>
    obtain ⟨r, v⟩ := x
    rw [List.map_cons, ← List.singleton_append, dataWrites_append, ih]
    cases r <;> simp [dataWrites, signalOf]

theorem sendSignals_data (eoi : Nat) (bs : List Nat) :
    (sendSignals eoi bs).filterMap
      (fun s => match s with
        | Signal.data v => some v
        | _ => none) = bs.map (fun b => 255 - b % 256) := by
  induction bs with
  | nil => rfl
  | cons b rest ih =>
    rw [sendSignals, List.filterMap_append, ih]
    by_cases h : rest = [] ∧ eoi ≠ 0 <;> simp [byteSignals, h]

theorem play_append (h : Hw) (x y : List BusAct) : play h (x ++ y) = play (play h x) y := by
  unfold play
  rw [List.foldl_append]

theorem play_reads (acts : List BusAct) :
    ∀ (h : Hw) (r : Nat), play { h with reads := r } acts = { play h acts with reads := r } := by
  induction acts with
  | nil => intro h r; rfl
  | cons a rest ih =>
    intro h r
    have e : playAct { h with reads := r } a = { playAct h a with reads := r } := by
      cases a <;> rfl
    show play (playAct { h with reads := r } a) rest = { play (playAct h a) rest with reads := r }
    rw [e, ih]

theorem txPass_cooperating_acts (pins : Pins) (buf : List Nat) (off n eoi : Nat) (hw : Hw)
    (index a b : Nat) (hab : a + b ≤ GPIB_MAX_TRANSMIT_TIMEOUT)
    (h1 : ∀ j, j < a → pins.pinc (hw.reads + j) &&& NRFD = 0)
    (h2 : pins.pinc (hw.reads + a) &&& NRFD ≠ 0)
    (h3 : ∀ j, j < b → pins.pinc (hw.reads + a + 1 + j) &&& NDAC = 0)
    (h4 : pins.pinc (hw.reads + a + 1 + b) &&& NDAC ≠ 0) :
    (txPass pins buf off n eoi hw index).phase = 2 ∧
    (txPass pins buf off n eoi hw index).hw =
      { play hw (byteActs (decide (index + 1 = n ∧ eoi ≠ 0)) (255 - rd buf (off + index) % 256))
        with reads := hw.reads + (a + b + 2) } := by
  have w1 : waitPin pins NRFD true GPIB_MAX_TRANSMIT_TIMEOUT
      (GPIB_MAX_TRANSMIT_TIMEOUT + 1) hw.reads 0 = (true, hw.reads + a + 1, 0 + a) :=
    waitPin_found pins NRFD true _ _ hw.reads 0 a (by omega) (by omega)
      (fun j hj => by simp [h1 j hj]) (by simpa using h2)
  have w2 : waitPin pins NDAC true GPIB_MAX_TRANSMIT_TIMEOUT
      (GPIB_MAX_TRANSMIT_TIMEOUT + 1) (hw.reads + a + 1) (0 + a)
        = (true, hw.reads + a + 1 + b + 1, 0 + a + b) :=
    waitPin_found pins NDAC true _ _ (hw.reads + a + 1) (0 + a) b (by omega) (by omega)
      (fun j hj => by simp [h3 j hj]) (by simpa using h4)
  have er : hw.reads + a + 1 + b + 1 = hw.reads + (a + b + 2) := by omega
  unfold txPass
  by_cases hc : index + 1 = n ∧ eoi ≠ 0
  · simp only [if_pos hc, setBitC_high, setBitC_low, setPORTA, setPORTC, w1, w2, er]
    simp [play, playAct, byteActs, hc, setBitC_high, setBitC_low, setPORTA, setPORTC]
  · simp only [if_neg hc, setBitC_high, setBitC_low, setPORTA, setPORTC, w1, w2, er]
    simp [play, playAct, byteActs, hc, setBitC_high, setBitC_low, setPORTA, setPORTC]

theorem GPIB_Transmit_loop_acts (pins : Pins) (buf : List Nat) (off n eoi : Nat)
    (hn : n ≤ 255) :
    ∀ (sched : List (Nat × Nat)) (fuel : Nat) (hw : Hw) (index : Nat),
      sched ≠ [] → index + sched.length = n → sched.length ≤ fuel →
      Cooperates pins hw.reads sched →
      GPIB_Transmit_loop pins buf off n eoi fuel hw index =
        (255, { play hw (sendActs eoi
            ((List.range' index sched.length).map (fun k => rd buf (off + k))))
          with reads := hw.reads + schedReads sched }) := by
  intro sched
  induction sched with
  | nil => intro _ _ _ h; exact absurd rfl h
  | cons ab rest ih =>
    intro fuel hw index _ hlen hfuel hco
    obtain ⟨a, b⟩ := ab
    obtain ⟨hab, h1, h2, h3, h4, hrest⟩ := hco
    obtain ⟨f, rfl⟩ : ∃ f, fuel = f + 1 := ⟨fuel - 1, by simp at hfuel; omega⟩
    obtain ⟨p1, p2⟩ := txPass_cooperating_acts pins buf off n eoi hw index a b hab h1 h2 h3 h4
    rw [GPIB_Transmit_loop_succ, if_pos p1]
    simp only [List.length_cons] at hlen hfuel
    rw [List.length_cons, List.range'_succ, List.map_cons, sendActs, play_append, schedReads]
    by_cases hr : rest = []
    · subst hr
      simp only [List.length_nil] at hlen
      have hi : ¬ (index + 1) % 256 < n := by omega
      rw [if_neg hi, p2]
      simp [sendActs, schedReads, play, hlen]
    · have hpos : 0 < rest.length := List.length_pos.2 hr
      have hi : (index + 1) % 256 < n := by omega
      have hi2 : (index + 1) % 256 = index + 1 := by omega
      have hne : ¬ index + 1 = n := by omega
      have hm : List.map (fun k => rd buf (off + k)) (List.range' (index + 1) rest.length) ≠ [] := by
        intro h0
        have h00 := congrArg List.length h0
        simp only [List.length_map, List.length_range', List.length_nil] at h00
        omega
      rw [if_pos hi, hi2]
      rw [ih f (txPass pins buf off n eoi hw index).hw (index + 1) hr (by omega) (by omega)
        (by
          rw [p2]
          have e : hw.reads + (a + b + 2) = hw.reads + a + b + 2 := by omega
          show Cooperates pins (hw.reads + (a + b + 2)) rest
          rw [e]
          exact hrest),
        p2, play_reads]
      simp [hne, hm]
      omega

theorem play_data (acts : List BusAct) :
    ∀ h : Hw, ∃ W, (play h acts).writes = h.writes ++ W ∧ dataWrites W = acts.filterMap dataOf := by
  induction acts with
  | nil => intro h; exact ⟨[], by simp [play], rfl⟩
  | cons a rest ih =>
    intro h
    obtain ⟨W, e1, e2⟩ := ih (playAct h a)
    cases a with
    | data v =>
      refine ⟨(Reg.PORTA, v) :: W, ?_, ?_⟩
      · show (play (playAct h (BusAct.data v)) rest).writes = _
        rw [e1]
        simp [playAct, setPORTA]
      · rw [← List.singleton_append, dataWrites_append, e2]
        simp [dataWrites, dataOf]
    | eoi x =>
      refine ⟨(Reg.PORTC, (setBitC EOI x h).PORTC) :: W, ?_, ?_⟩
      · show (play (playAct h (BusAct.eoi x)) rest).writes = _
        rw [e1]
        simp [playAct, setBitC, setPORTC]
      · rw [← List.singleton_append, dataWrites_append, e2]
        simp [dataWrites, dataOf]
    | dav x =>
      refine ⟨(Reg.PORTC, (setBitC DAV x h).PORTC) :: W, ?_, ?_⟩
      · show (play (playAct h (BusAct.dav x)) rest).writes = _
        rw [e1]
        simp [playAct, setBitC, setPORTC]
      · rw [← List.singleton_append, dataWrites_append, e2]
        simp [dataWrites, dataOf]

theorem sendActs_data (eoi : Nat) (bs : List Nat) :
    (sendActs eoi bs).filterMap dataOf = bs.map (fun b => 255 - b % 256) := by
  induction bs with
  | nil => rfl
  | cons b rest ih =>
    rw [sendActs, List.filterMap_append, ih]
    by_cases h : rest = [] ∧ eoi ≠ 0 <;> simp [byteActs, h, dataOf]

/-- C17 (amended): when the entry test passes and the listener raises `NRFD` and
then `NDAC` for each of the `n` bytes within the bound, `GPIB_Transmit` returns
255 and what it did to the registers is, byte after byte: the complement of the
byte put on the data port, `DAV` driven low, `EOI` and then `DAV` driven high,
preceded by `EOI` driven low for the last byte only and only when `eoi` is
non-zero.  The data port takes exactly the complements of `buf[0..n-1]` in
order, and when `EOI` and `DAV` are high in `PORTC` at entry the levels written
show one low pulse of `DAV` per byte with `EOI` low around the last byte only. -/
theorem transmit_cooperating (pins : Pins) (hw : Hw) (buf : List Nat) (off n eoi : Nat)
    (sched : List (Nat × Nat)) (hn0 : 1 ≤ n) (hn : n ≤ 255) (hlen : sched.length = n)
    (hentry : ¬ (pins.pinc hw.reads &&& NRFD ≠ 0 ∧ pins.pinc (hw.reads + 1) &&& NDAC ≠ 0))
    (hco : Cooperates pins (entryReads pins hw) sched) :
    (GPIB_Transmit pins hw buf off n eoi).1 = 255 ∧
    (GPIB_Transmit pins hw buf off n eoi).2 =
      { play hw (sendActs eoi ((List.range n).map (fun k => rd buf (off + k))))
        with reads := entryReads pins hw + schedReads sched } ∧
    ∃ W, (GPIB_Transmit pins hw buf off n eoi).2.writes = hw.writes ++ W ∧
      dataWrites W = (List.range n).map (fun k => 255 - rd buf (off + k) % 256) ∧
      (hw.PORTC < 256 → hw.PORTC &&& EOI ≠ 0 → hw.PORTC &&& DAV ≠ 0 →
        W.map signalOf = sendSignals eoi ((List.range n).map (fun k => rd buf (off + k)))) := by
  have hs : sched ≠ [] := by
    intro h0
    rw [h0] at hlen
    simp at hlen
    omega
  have hloop : GPIB_Transmit pins hw buf off n eoi =
      GPIB_Transmit_loop pins buf off n eoi n { hw with reads := entryReads pins hw } 0 := by
    unfold GPIB_Transmit
    rw [if_neg (by omega)]
    by_cases h1 : pins.pinc hw.reads &&& NRFD ≠ 0
    · have h2 : ¬ pins.pinc (hw.reads + 1) &&& NDAC ≠ 0 := fun h => hentry ⟨h1, h⟩
      rw [if_pos h1, if_neg h2]
      simp [entryReads, h1]
    · rw [if_neg h1]
      simp [entryReads, h1]
  have hacts := GPIB_Transmit_loop_acts pins buf off n eoi hn sched n
    { hw with reads := entryReads pins hw } 0 hs (by omega) (by omega) hco
  rw [hlen, ← List.range_eq_range', play_reads] at hacts
  obtain ⟨W, w1, w2⟩ := play_data (sendActs eoi ((List.range n).map (fun k => rd buf (off + k)))) hw
  rw [hloop, hacts]
  refine ⟨rfl, rfl, W, w1, ?_, fun hp hE hD => ?_⟩
  · rw [w2, sendActs_data, List.map_map]
    rfl
  · obtain ⟨_, _, W2, q3, q4⟩ := GPIB_Transmit_loop_cooperating pins buf off n eoi hn sched n
      { hw with reads := entryReads pins hw } 0 hs (by omega) (by omega) hp hE hD hco
    rw [hlen, ← List.range_eq_range'] at q4
    rw [hacts] at q3
    have e : W = W2 := List.append_cancel_left (w1.symm.trans q3)
    rw [e]
    exact q4

/-- Witness for C17: two bytes sent to the sample listener. -/
theorem transmit_cooperating_witness :
    (1 ≤ 2 ∧ 2 ≤ 255 ∧ [((1 : Nat), (0 : Nat)), (0, 2)].length = 2 ∧
      ¬ (samplePins.pinc (init false).hw.reads &&& NRFD ≠ 0 ∧
          samplePins.pinc ((init false).hw.reads + 1) &&& NDAC ≠ 0) ∧
      Cooperates samplePins (entryReads samplePins (init false).hw) [(1, 0), (0, 2)]) ∧
    ((GPIB_Transmit samplePins (init false).hw (bytes "AB") 0 2 1).1 = 255 ∧
    (GPIB_Transmit samplePins (init false).hw (bytes "AB") 0 2 1).2 =
      { play (init false).hw
          (sendActs 1 ((List.range 2).map (fun k => rd (bytes "AB") (0 + k))))
        with reads := entryReads samplePins (init false).hw + schedReads [(1, 0), (0, 2)] } ∧
    ∃ W, (GPIB_Transmit samplePins (init false).hw (bytes "AB") 0 2 1).2.writes
        = (init false).hw.writes ++ W ∧
      dataWrites W = (List.range 2).map (fun k => 255 - rd (bytes "AB") (0 + k) % 256) ∧
      ((init false).hw.PORTC < 256 → (init false).hw.PORTC &&& EOI ≠ 0 →
        (init false).hw.PORTC &&& DAV ≠ 0 →
        W.map signalOf
          = sendSignals 1 ((List.range 2).map (fun k => rd (bytes "AB") (0 + k))))) :=
  have hco : Cooperates samplePins (entryReads samplePins (init false).hw) [(1, 0), (0, 2)] :=
    ⟨by decide, by decide, by decide, by decide, by decide,
      by decide, by decide, by decide, by decide, by decide, trivial⟩
  ⟨⟨by decide, by decide, by decide, by decide, hco⟩,
    transmit_cooperating samplePins (init false).hw (bytes "AB") 0 2 1 [(1, 0), (0, 2)]
      (by decide) (by decide) (by decide) (by decide) hco⟩

/-- C17 as stated fails: a listener whose ready lines always read high raises
both within the bound for every byte, from any pin read on, yet `GPIB_Transmit`
refuses at its entry test, returns 0 and writes no register. -/
theorem transmit_cooperating_refused :
    (∀ r, Cooperates highPins r [(0, 0)]) ∧
    (GPIB_Transmit highPins (init false).hw (bytes "A") 0 1 1).1 = 0 ∧
    (GPIB_Transmit highPins (init false).hw (bytes "A") 0 1 1).2.writes
      = (init false).hw.writes :=
  ⟨fun _ => ⟨by decide, fun j hj => absurd hj (Nat.not_lt_zero j),
      (by decide : (255 : Nat) &&& NRFD ≠ 0), fun j hj => absurd hj (Nat.not_lt_zero j),
      (by decide : (255 : Nat) &&& NDAC ≠ 0), trivial⟩,
    by decide, by decide⟩

/-! ## Transmit timeout and the idle handshake lines -/

set_option maxRecDepth 100000 in
theorem portc_after_fin : ∀ p : Fin 256,
    ((p.val ||| 128) &&& 128 ≠ 0 ∧ (p.val &&& 127 ||| 128) &&& 128 ≠ 0 ∧
      p.val ||| 128 < 256 ∧ (p.val &&& 127 ||| 128) < 256 ∧
      ((p.val &&& 191 ||| 128) ||| 64) &&& 128 ≠ 0 ∧
      ((p.val &&& 191 ||| 128) ||| 64) &&& 64 ≠ 0 ∧ ((p.val &&& 191 ||| 128) ||| 64) < 256 ∧
      (((p.val &&& 127) &&& 191 ||| 128) ||| 64) &&& 128 ≠ 0 ∧
      (((p.val &&& 127) &&& 191 ||| 128) ||| 64) &&& 64 ≠ 0 ∧
      (((p.val &&& 127) &&& 191 ||| 128) ||| 64) < 256) ∧
    (p.val &&& 64 ≠ 0 → (p.val ||| 128) &&& 64 ≠ 0 ∧ (p.val &&& 127 ||| 128) &&& 64 ≠ 0) := by
  decide

/-- After any pass of the transmit loop `EOI` is high in `PORTC`, and `DAV` is
high when it was high before the pass or the pass got as far as the `NDAC` wait. -/
theorem txPass_lines (pins : Pins) (buf : List Nat) (off n eoi : Nat) (hw : Hw) (index : Nat)
    (hp : hw.PORTC < 256) :
    (txPass pins buf off n eoi hw index).hw.PORTC < 256 ∧
    (txPass pins buf off n eoi hw index).hw.PORTC &&& EOI ≠ 0 ∧
    ((hw.PORTC &&& DAV ≠ 0 ∨ (txPass pins buf off n eoi hw index).phase ≠ 0) →
      (txPass pins buf off n eoi hw index).hw.PORTC &&& DAV ≠ 0) := by
  obtain ⟨⟨a1, a2, a3, a4, a5, a6, a7, a8, a9, a10⟩, a11⟩ := portc_after_fin ⟨hw.PORTC, hp⟩
  dsimp only at a1 a2 a3 a4 a5 a6 a7 a8 a9 a10 a11
  unfold txPass
  simp only [setBitC_high, setBitC_low, setPORTA, setPORTC, EOI, DAV, Nat.reduceSub]
  split_ifs <;> simp_all

theorem GPIB_Transmit_loop_lines (pins : Pins) (buf : List Nat) (off n eoi : Nat) :
    ∀ (fuel : Nat) (hw : Hw) (index : Nat),
      hw.PORTC < 256 → hw.PORTC &&& EOI ≠ 0 → hw.PORTC &&& DAV ≠ 0 →
      (GPIB_Transmit_loop pins buf off n eoi fuel hw index).2.PORTC < 256 ∧
      (GPIB_Transmit_loop pins buf off n eoi fuel hw index).2.PORTC &&& EOI ≠ 0 ∧
      (GPIB_Transmit_loop pins buf off n eoi fuel hw index).2.PORTC &&& DAV ≠ 0 := by
  intro fuel
  induction fuel with
  | zero => intro hw index h1 h2 h3; exact ⟨h1, h2, h3⟩
  | succ f ih =>
    intro hw index h1 h2 h3
    obtain ⟨q1, q2, q3⟩ := txPass_lines pins buf off n eoi hw index h1
    rw [GPIB_Transmit_loop_succ]
    split_ifs
    · exact ih _ _ q1 q2 (q3 (Or.inl h3))
    · exact ⟨q1, q2, q3 (Or.inl h3)⟩
    · exact ⟨q1, q2, q3 (Or.inl h3)⟩

/-- Bit `i` of `x`, as the C test `x & (1 << i)` sees it. -/
theorem and_two_pow_ne_zero (x i : Nat) : x &&& 2 ^ i ≠ 0 ↔ x.testBit i = true := by
  constructor
  · intro h
    by_contra hb
    apply h
    apply Nat.eq_of_testBit_eq
    intro j
    rw [Nat.testBit_and, Nat.testBit_two_pow, Nat.zero_testBit]
    by_cases hij : i = j
    · subst hij; simp [hb]
    · simp [hij]
  · intro hb h0
    have := congrArg (fun y => Nat.testBit y i) h0
    simp [Nat.testBit_and, Nat.testBit_two_pow, hb] at this

theorem eoi_high_iff (p : Nat) : p &&& EOI ≠ 0 ↔ p.testBit 7 = true :=
  and_two_pow_ne_zero p 7

theorem dav_high_iff (p : Nat) : p &&& DAV ≠ 0 ↔ p.testBit 6 = true :=
  and_two_pow_ne_zero p 6

/-- After any pass of the transmit loop `EOI` is high in `PORTC`, and `DAV` is
high when it was high before the pass or the pass got as far as the `NDAC` wait. -/
theorem txPass_levels (pins : Pins) (buf : List Nat) (off n eoi : Nat) (hw : Hw) (index : Nat) :
    (txPass pins buf off n eoi hw index).hw.PORTC &&& EOI ≠ 0 ∧
    ((hw.PORTC &&& DAV ≠ 0 ∨ (txPass pins buf off n eoi hw index).phase ≠ 0) →
      (txPass pins buf off n eoi hw index).hw.PORTC &&& DAV ≠ 0) := by
  have t1 : Nat.testBit 128 7 = true := by decide
  have t2 : Nat.testBit 128 6 = false := by decide
  have t3 : Nat.testBit 64 6 = true := by decide
  have t4 : Nat.testBit 127 6 = true := by decide
  rw [eoi_high_iff, dav_high_iff, dav_high_iff]
  unfold txPass
  simp only [setBitC_high, setBitC_low, setPORTA, setPORTC, EOI, DAV, Nat.reduceSub]
  split_ifs <;> simp_all [Nat.testBit_or, Nat.testBit_and]

theorem GPIB_Transmit_loop_levels (pins : Pins) (buf : List Nat) (off n eoi : Nat) :
    ∀ (fuel : Nat) (hw : Hw) (index : Nat),
      hw.PORTC &&& EOI ≠ 0 → hw.PORTC &&& DAV ≠ 0 →
      (GPIB_Transmit_loop pins buf off n eoi fuel hw index).2.PORTC &&& EOI ≠ 0 ∧
      (GPIB_Transmit_loop pins buf off n eoi fuel hw index).2.PORTC &&& DAV ≠ 0 := by
  intro fuel
  induction fuel with
  | zero => intro hw index h2 h3; exact ⟨h2, h3⟩
  | succ f ih =>
    intro hw index _ h3
    obtain ⟨q2, q3⟩ := txPass_levels pins buf off n eoi hw index
    rw [GPIB_Transmit_loop_succ]
    split_ifs
    · exact ih _ _ q2 (q3 (Or.inl h3))
    · exact ⟨q2, q3 (Or.inl h3)⟩
    · exact ⟨q2, q3 (Or.inl h3)⟩

/-- The first pass always runs once the entry test is passed, so `EOI` is high
on return whatever `PORTC` held; `DAV` is high on return when it was high at
entry. -/
theorem GPIB_Transmit_loop_first (pins : Pins) (buf : List Nat) (off n eoi f : Nat) (hw : Hw)
    (index : Nat) :
    (GPIB_Transmit_loop pins buf off n eoi (f + 1) hw index).2.PORTC &&& EOI ≠ 0 ∧
    (hw.PORTC &&& DAV ≠ 0 →
      (GPIB_Transmit_loop pins buf off n eoi (f + 1) hw index).2.PORTC &&& DAV ≠ 0) := by
  obtain ⟨q2, q3⟩ := txPass_levels pins buf off n eoi hw index
  rw [GPIB_Transmit_loop_succ]
  split_ifs with c1 c2
  · have hph : (txPass pins buf off n eoi hw index).phase ≠ 0 := by rw [c1]; decide
    obtain ⟨r2, r3⟩ := GPIB_Transmit_loop_levels pins buf off n eoi f _ ((index + 1) % 256)
      q2 (q3 (Or.inr hph))
    exact ⟨r2, fun _ => r3⟩
  · exact ⟨q2, fun h => q3 (Or.inl h)⟩
  · exact ⟨q2, fun h => q3 (Or.inl h)⟩

/-- A pass during which `NRFD` never reads high gives up in its first wait after
`GPIB_MAX_TRANSMIT_TIMEOUT + 1` polls, with only the data byte (and `EOI`)
driven. -/
theorem txPass_never_ready (pins : Pins) (buf : List Nat) (off n eoi : Nat) (hw : Hw)
    (index : Nat) (hlow : ∀ r, pins.pinc r &&& NRFD = 0) :
    (txPass pins buf off n eoi hw index).phase = 0 ∧
    (txPass pins buf off n eoi hw index).timeout = GPIB_MAX_TRANSMIT_TIMEOUT + 1 ∧
    (txPass pins buf off n eoi hw index).hw.reads = hw.reads + (GPIB_MAX_TRANSMIT_TIMEOUT + 1) ∧
    ∃ W, (txPass pins buf off n eoi hw index).hw.writes = hw.writes ++ W ∧
      dataWrites W = [255 - rd buf (off + index) % 256] := by
  have w1 : waitPin pins NRFD true GPIB_MAX_TRANSMIT_TIMEOUT
      (GPIB_MAX_TRANSMIT_TIMEOUT + 1) hw.reads 0
        = (false, hw.reads + (GPIB_MAX_TRANSMIT_TIMEOUT - 0) + 1, GPIB_MAX_TRANSMIT_TIMEOUT + 1) :=
    waitPin_giveup pins NRFD true _ _ hw.reads 0 (by omega) (by omega)
      (fun j _ => by simp [hlow (hw.reads + j)])
  unfold txPass
  by_cases hc : index + 1 = n ∧ eoi ≠ 0
  · simp only [if_pos hc, setBitC_high, setBitC_low, setPORTA, setPORTC, w1]
    refine ⟨by simp, by simp, by simp; omega, _, by simp; rfl, ?_⟩
    simp [dataWrites]
  · simp only [if_neg hc, setBitC_high, setBitC_low, setPORTA, setPORTC, w1]
    refine ⟨by simp, by simp, by simp; omega, _, by simp; rfl, ?_⟩
    simp [dataWrites]

theorem linesIdle_congr {h1 h2 : Hw} (e : h2.PORTC = h1.PORTC) (h : LinesIdle h1) :
    LinesIdle h2 := by
  unfold LinesIdle
  rw [e]
  exact h

set_option maxRecDepth 100000 in
theorem portc_other_bits_fin : ∀ p : Fin 256,
    p.val &&& 128 ≠ 0 → p.val &&& 64 ≠ 0 →
    ∀ b : Fin 6, 
      ((p.val ||| [1, 2, 8, 16, 32, 4].getD b.val 0) < 256 ∧
        (p.val ||| [1, 2, 8, 16, 32, 4].getD b.val 0) &&& 128 ≠ 0 ∧
        (p.val ||| [1, 2, 8, 16, 32, 4].getD b.val 0) &&& 64 ≠ 0) ∧
      ((p.val &&& (255 - [1, 2, 8, 16, 32, 4].getD b.val 0)) < 256 ∧
        (p.val &&& (255 - [1, 2, 8, 16, 32, 4].getD b.val 0)) &&& 128 ≠ 0 ∧
        (p.val &&& (255 - [1, 2, 8, 16, 32, 4].getD b.val 0)) &&& 64 ≠ 0) := by
  decide

/-- Driving a line other than `EOI` and `DAV` keeps those two idle. -/
theorem linesIdle_setBitC (bit x : Nat) (h : Hw)
    (hb : bit = REN ∨ bit = ATN ∨ bit = IFC ∨ bit = NDAC ∨ bit = NRFD ∨ bit = SRQ)
    (hi : LinesIdle h) : LinesIdle (setBitC bit x h) := by
  obtain ⟨h1, h2, h3⟩ := hi
  have key := portc_other_bits_fin ⟨h.PORTC, h1⟩ h2 h3
  unfold LinesIdle setBitC setPORTC
  rcases hb with e | e | e | e | e | e
  · have k := key ⟨0, by decide⟩
    rw [e]; split_ifs
    · exact k.1
    · exact k.2
  · have k := key ⟨1, by decide⟩
    rw [e]; split_ifs
    · exact k.1
    · exact k.2
  · have k := key ⟨2, by decide⟩
    rw [e]; split_ifs
    · exact k.1
    · exact k.2
  · have k := key ⟨3, by decide⟩
    rw [e]; split_ifs
    · exact k.1
    · exact k.2
  · have k := key ⟨4, by decide⟩
    rw [e]; split_ifs
    · exact k.1
    · exact k.2
  · have k := key ⟨5, by decide⟩
    rw [e]; split_ifs
    · exact k.1
    · exact k.2

theorem linesIdle_normal (r : Nat) (h : Hw) : LinesIdle (ReconfigureGPIO_GPIBNormalMode r h) := by
  unfold LinesIdle ReconfigureGPIO_GPIBNormalMode setPORTC setDDRC setPORTA setDDRA
  by_cases hr : r ≠ 0
  · simp only [if_pos hr]; decide
  · simp only [if_neg hr]; decide

theorem linesIdle_receive (r : Nat) (h : Hw) : LinesIdle (ReconfigureGPIO_GPIBReceiveMode r h) := by
  unfold LinesIdle ReconfigureGPIO_GPIBReceiveMode setPORTC setDDRC setPORTA setDDRA
  by_cases hr : r ≠ 0
  · simp only [if_pos hr]; decide
  · simp only [if_neg hr]; decide

theorem linesIdle_SetLed (x : Nat) (h : Hw) (hi : LinesIdle h) : LinesIdle (SetLed x h) :=
  linesIdle_congr rfl hi

/-- `GPIB_Transmit` leaves `EOI` and `DAV` idle when it found them idle. -/
theorem linesIdle_transmit (pins : Pins) (hw : Hw) (buf : List Nat) (off n eoi : Nat)
    (hi : LinesIdle hw) : LinesIdle (GPIB_Transmit pins hw buf off n eoi).2 := by
  have key : ∀ h0 : Hw, h0.PORTC = hw.PORTC →
      LinesIdle (GPIB_Transmit_loop pins buf off n eoi n h0 0).2 := by
    intro h0 e
    obtain ⟨i1, i2, i3⟩ := hi
    rw [← e] at i1 i2 i3
    exact GPIB_Transmit_loop_lines pins buf off n eoi n h0 0 i1 i2 i3
  unfold GPIB_Transmit
  by_cases h0 : n = 0
  · rw [if_pos h0]; exact hi
  · rw [if_neg h0]
    by_cases h1 : pins.pinc hw.reads &&& NRFD ≠ 0
    · rw [if_pos h1]
      by_cases h2 : pins.pinc (hw.reads + 1) &&& NDAC ≠ 0
      · rw [if_pos h2]; exact hi
      · rw [if_neg h2]; exact key _ rfl
    · rw [if_neg h1]; exact key _ rfl

set_option maxRecDepth 100000 in
theorem portc_receive_fin : ∀ p : Fin 256, p.val &&& 128 ≠ 0 → p.val &&& 64 ≠ 0 →
    ((p.val ||| 32) &&& 223 < 256 ∧ ((p.val ||| 32) &&& 223) &&& 128 ≠ 0 ∧
      ((p.val ||| 32) &&& 223) &&& 64 ≠ 0) ∧
    ((((p.val ||| 32) &&& 223) ||| 16) &&& 239 < 256 ∧
      ((((p.val ||| 32) &&& 223) ||| 16) &&& 239) &&& 128 ≠ 0 ∧
      ((((p.val ||| 32) &&& 223) ||| 16) &&& 239) &&& 64 ≠ 0) := by
  decide

theorem linesIdle_rxPass (pins : Pins) (withEoi : Bool) (hw : Hw) (hi : LinesIdle hw) :
    LinesIdle (rxPass pins withEoi hw).hw := by
  obtain ⟨i1, i2, i3⟩ := hi
  obtain ⟨⟨a1, a2, a3⟩, b1, b2, b3⟩ := portc_receive_fin ⟨hw.PORTC, i1⟩ i2 i3
  dsimp only at a1 a2 a3 b1 b2 b3
  unfold LinesIdle rxPass
  simp only [setBitC_high, setBitC_low, setPORTC, EOI, DAV, NRFD, NDAC, Nat.reduceSub]
  cases withEoi <;> split_ifs <;> simp_all

theorem rx_linesIdle (pins : Pins) (withEoi : Bool) (again : Nat → RxPass → Prop)
    [∀ i p, Decidable (again i p)]
    (L : Nat → Hw → List Nat → Nat → RecvResult)
    (h0 : ∀ hw buf index, (L 0 hw buf index).hw = hw)
    (hs : ∀ fuel hw buf index, L (fuel + 1) hw buf index =
      if (rxPass pins withEoi hw).phase = 0 then
        ⟨0, buf, index, (rxPass pins withEoi hw).hw⟩
      else if (rxPass pins withEoi hw).phase = 1 then
        ⟨0, wr buf index (rxPass pins withEoi hw).c, (index + 1) % 256,
          (rxPass pins withEoi hw).hw⟩
      else if again ((index + 1) % 256) (rxPass pins withEoi hw) then
        L fuel (rxPass pins withEoi hw).hw (wr buf index (rxPass pins withEoi hw).c)
          ((index + 1) % 256)
      else
        ⟨255, wr buf index (rxPass pins withEoi hw).c, (index + 1) % 256,
          (rxPass pins withEoi hw).hw⟩) :
    ∀ (fuel : Nat) (hw : Hw) (buf : List Nat) (index : Nat),
      LinesIdle hw → LinesIdle (L fuel hw buf index).hw := by
  intro fuel
  induction fuel with
  | zero => intro hw buf index hi; rw [h0]; exact hi
  | succ f ih =>
    intro hw buf index hi
    have hp := linesIdle_rxPass pins withEoi hw hi
    rw [hs]
    split_ifs
    · exact hp
    · exact hp
    · exact ih _ _ _ hp
    · exact hp

theorem linesIdle_GPIB_Receive (pins : Pins) (hw : Hw) (buf : List Nat) (n : Nat)
    (hi : LinesIdle hw) : LinesIdle (GPIB_Receive pins hw buf n).hw :=
  rx_linesIdle pins false (fun i _ => i < n)
    (fun fuel hw buf index => GPIB_Receive_loop pins n fuel hw buf index)
    (fun _ _ _ => rfl)
    (fun fuel hw buf index => GPIB_Receive_loop_succ pins n fuel hw buf index)
    (n + 1) hw buf 0 hi

theorem linesIdle_GPIB_Receive_till_eoi (pins : Pins) (hw : Hw) (buf : List Nat) (n : Nat)
    (hi : LinesIdle hw) : LinesIdle (GPIB_Receive_till_eoi pins hw buf n).hw :=
  rx_linesIdle pins true (fun i p => i < n ∧ p.eoiLow = false)
    (fun fuel hw buf index => GPIB_Receive_till_eoi_loop pins n fuel hw buf index 0)
    (fun _ _ _ => rfl)
    (fun fuel hw buf index => GPIB_Receive_till_eoi_loop_succ pins n fuel hw buf index)
    (n + 1) hw buf 0 hi

/-! Handlers of the command loop keep `EOI` and `DAV` idle. -/

theorem linesIdle_puts (s : State) (l : List Nat) (h : LinesIdle s.hw) :
    LinesIdle (s.puts l).hw := h

theorem linesIdle_reportTransmit (s : State) (r : Nat) (h : LinesIdle s.hw) :
    LinesIdle (reportTransmit s r).hw := by
  rw [reportTransmit_eq]; exact h

theorem linesIdle_handleData (pins : Pins) (s : State) (eoi : Nat) (h : LinesIdle s.hw) :
    LinesIdle (handleData pins s eoi).hw := by
  unfold handleData
  split_ifs
  · simp only []
    rw [(trimEndSeq_hw _).1]
    apply linesIdle_reportTransmit
    apply linesIdle_transmit
    rw [(appendEndSeq_hw _).1]
    exact h
  · exact h

theorem linesIdle_scanToken (s : State) (a b : Nat) (h : LinesIdle s.hw) :
    LinesIdle (scanToken s a b).hw := by
  unfold scanToken
  split_ifs
  · exact linesIdle_SetLed _ _ h
  · exact h
  · exact h

theorem linesIdle_foldl (f : State → Nat → State)
    (hf : ∀ s i, LinesIdle s.hw → LinesIdle (f s i).hw) :
    ∀ (l : List Nat) (s : State), LinesIdle s.hw → LinesIdle (l.foldl f s).hw := by
  intro l
  induction l with
  | nil => intro s h; exact h
  | cons x rest ih => intro s h; exact ih _ (hf s x h)

theorem linesIdle_transmitCommand (pins : Pins) (s : State) (b : List Nat) (off len : Nat) :
    LinesIdle (transmitCommand pins s b off len).hw := by
  unfold transmitCommand
  simp only []
  apply linesIdle_setBitC ATN 1 _ (by simp)
  apply linesIdle_reportTransmit
  apply linesIdle_transmit
  apply linesIdle_setBitC ATN 0 _ (by simp)
  exact linesIdle_normal _ _

theorem linesIdle_roleByListenMode (s : State) : LinesIdle (roleByListenMode s).hw := by
  unfold roleByListenMode
  simp only []
  split_ifs
  · exact linesIdle_receive _ _
  · exact linesIdle_normal _ _

theorem linesIdle_handleC (pins : Pins) (s : State) : LinesIdle (handleC pins s).hw :=
  linesIdle_roleByListenMode _

theorem linesIdle_handleT (pins : Pins) (s : State) (h : LinesIdle s.hw) :
    LinesIdle (handleT pins s).hw := by
  unfold handleT
  simp only []
  split_ifs
  · apply linesIdle_reportTransmit
    apply linesIdle_transmit
    exact h
  · exact linesIdle_roleByListenMode _
  · exact h

theorem linesIdle_handleR (s : State) (h : LinesIdle s.hw) : LinesIdle (handleR s).hw :=
  linesIdle_setBitC REN 0 _ (by simp) h

theorem linesIdle_handleL (s : State) (h : LinesIdle s.hw) : LinesIdle (handleL s).hw :=
  linesIdle_setBitC REN 1 _ (by simp) h

theorem linesIdle_handleI (s : State) (h : LinesIdle s.hw) : LinesIdle (handleI s).hw := by
  unfold handleI
  simp only []
  split_ifs
  · exact linesIdle_normal _ _
  · exact linesIdle_setBitC IFC 1 _ (by simp) (linesIdle_setBitC IFC 0 _ (by simp) h)

theorem linesIdle_handleS (pins : Pins) (s : State) (h : LinesIdle s.hw) :
    LinesIdle (handleS pins s).hw := h

theorem linesIdle_plotterEnter (s : State) : LinesIdle (plotterEnter s).hw :=
  linesIdle_receive _ _

theorem linesIdle_plotterPoll (pins : Pins) (s : State) (h : LinesIdle s.hw) :
    LinesIdle (plotterPoll pins s).hw := by
  unfold plotterPoll
  simp only []
  split_ifs
  · exact linesIdle_GPIB_Receive pins s.hw s.gpibBuf _ h
  · exact linesIdle_GPIB_Receive pins s.hw s.gpibBuf _ h

theorem linesIdle_plotterExit (s : State) : LinesIdle (plotterExit s).hw :=
  linesIdle_SetLed _ _ (linesIdle_normal _ _)

theorem linesIdle_receiveMessage (pins : Pins) (s : State) (h : LinesIdle s.hw) :
    LinesIdle (receiveMessage pins s).hw := by
  unfold receiveMessage
  simp only []
  split_ifs
  · exact linesIdle_GPIB_Receive_till_eoi pins _ _ _ (linesIdle_receive _ _)
  · exact linesIdle_GPIB_Receive_till_eoi pins _ _ _ h

theorem linesIdle_restoreNormal (s : State) (h : LinesIdle s.hw) :
    LinesIdle (restoreNormal s).hw := by
  unfold restoreNormal
  split_ifs
  · exact linesIdle_normal _ _
  · exact h

theorem linesIdle_handleX (pins : Pins) (s : State) (h : LinesIdle s.hw) :
    LinesIdle (handleX pins s).hw := by
  unfold handleX
  simp only []
  apply linesIdle_restoreNormal
  split_ifs
  · exact linesIdle_receiveMessage pins s h
  · exact linesIdle_receiveMessage pins s h

theorem linesIdle_handleY (pins : Pins) (s : State) (h : LinesIdle s.hw) :
    LinesIdle (handleY pins s).hw :=
  linesIdle_restoreNormal _ (linesIdle_receiveMessage pins s h)

theorem linesIdle_handleZ (pins : Pins) (s : State) (h : LinesIdle s.hw) :
    LinesIdle (handleZ pins s).hw :=
  linesIdle_restoreNormal _ (linesIdle_receiveMessage pins s h)

theorem linesIdle_handleE (s : State) (h : LinesIdle s.hw) : LinesIdle (handleE s).hw := by
  unfold handleE
  split_ifs <;> exact h

theorem linesIdle_handleA (s : State) (h : LinesIdle s.hw) : LinesIdle (handleA s).hw := by
  unfold handleA
  simp only []
  split_ifs <;> exact h

theorem linesIdle_handleQ (s : State) (h : LinesIdle s.hw) : LinesIdle (handleQ s).hw := by
  unfold handleQ
  simp only []
  split_ifs <;> exact h

theorem linesIdle_saveHistory (s : State) (h : LinesIdle s.hw) :
    LinesIdle (saveHistory s).hw := by
  unfold saveHistory
  simp only []
  split_ifs <;> exact h

theorem linesIdle_prompt (s : State) (h : LinesIdle s.hw) : LinesIdle (prompt s).hw := by
  unfold prompt
  simp only []
  split_ifs <;> exact h

theorem linesIdle_finish (s : State) (h : LinesIdle s.hw) : LinesIdle (finish s).hw :=
  linesIdle_prompt _ (linesIdle_saveHistory _ h)

theorem linesIdle_dispatch (pins : Pins) (s : State) (h : LinesIdle s.hw) :
    LinesIdle (dispatch pins s).hw := by
  unfold dispatch
  by_cases c68 : s.command = 68
  · rw [if_pos c68]; exact linesIdle_finish _ (linesIdle_handleData pins s 1 h)
  rw [if_neg c68]
  by_cases c77 : s.command = 77
  · rw [if_pos c77]; exact linesIdle_finish _ (linesIdle_handleData pins s 0 h)
  rw [if_neg c77]
  by_cases c67 : s.command = 67
  · rw [if_pos c67]; exact linesIdle_finish _ (linesIdle_handleC pins s)
  rw [if_neg c67]
  by_cases c82 : s.command = 82
  · rw [if_pos c82]; exact linesIdle_finish _ (linesIdle_handleR s h)
  rw [if_neg c82]
  by_cases c76 : s.command = 76
  · rw [if_pos c76]; exact linesIdle_finish _ (linesIdle_handleL s h)
  rw [if_neg c76]
  by_cases c73 : s.command = 73
  · rw [if_pos c73]; exact linesIdle_finish _ (linesIdle_handleI s h)
  rw [if_neg c73]
  by_cases c83 : s.command = 83
  · rw [if_pos c83]; exact linesIdle_finish _ (linesIdle_handleS pins s h)
  rw [if_neg c83]
  by_cases c80 : s.command = 80
  · rw [if_pos c80]; exact linesIdle_plotterEnter s
  rw [if_neg c80]
  by_cases c88 : s.command = 88
  · rw [if_pos c88]; exact linesIdle_finish _ (linesIdle_handleX pins s h)
  rw [if_neg c88]
  by_cases c89 : s.command = 89
  · rw [if_pos c89]; exact linesIdle_finish _ (linesIdle_handleY pins s h)
  rw [if_neg c89]
  by_cases c90 : s.command = 90
  · rw [if_pos c90]; exact linesIdle_finish _ (linesIdle_handleZ pins s h)
  rw [if_neg c90]
  by_cases c63 : s.command = 63
  · rw [if_pos c63]; exact linesIdle_finish _ h
  rw [if_neg c63]
  by_cases c69 : s.command = 69
  · rw [if_pos c69]; exact linesIdle_finish _ (linesIdle_handleE s h)
  rw [if_neg c69]
  by_cases c72 : s.command = 72
  · rw [if_pos c72]; exact linesIdle_finish _ h
  rw [if_neg c72]
  by_cases c65 : s.command = 65
  · rw [if_pos c65]; exact linesIdle_finish _ (linesIdle_handleA s h)
  rw [if_neg c65]
  by_cases c81 : s.command = 81
  · rw [if_pos c81]; exact linesIdle_finish _ (linesIdle_handleQ s h)
  rw [if_neg c81]
  by_cases c84 : s.command = 84
  · rw [if_pos c84]; exact linesIdle_finish _ (linesIdle_handleT pins s h)
  rw [if_neg c84]
  apply linesIdle_finish
  dsimp only
  split_ifs <;> exact h

theorem linesIdle_carriageReturn (pins : Pins) (s : State) (h : LinesIdle s.hw) :
    LinesIdle (carriageReturn pins s).hw := by
  unfold carriageReturn
  simp only []
  split_ifs
  all_goals first
    | exact h
    | exact linesIdle_dispatch pins _ h

theorem linesIdle_backspace (s : State) (h : LinesIdle s.hw) : LinesIdle (backspace s).hw := by
  unfold backspace
  simp only []
  split_ifs <;> exact h

theorem linesIdle_insertChar (s : State) (c : Nat) (h : LinesIdle s.hw) :
    LinesIdle (insertChar s c).hw := by
  unfold insertChar
  simp only []
  split_ifs <;> exact h

theorem linesIdle_recallEntry (s : State) (h : LinesIdle s.hw) :
    LinesIdle (recallEntry s).hw := by
  unfold recallEntry
  simp only []
  split_ifs <;> exact h

theorem linesIdle_escapeKey (s : State) (k : Nat) (h : LinesIdle s.hw) :
    LinesIdle (escapeKey s k).hw := by
  unfold escapeKey
  simp only []
  split_ifs
  all_goals first
    | exact h
    | exact linesIdle_recallEntry _ h

theorem linesIdle_step (pins : Pins) (s : State) (ev : Event) (h : LinesIdle s.hw) :
    LinesIdle (step pins s ev).hw := by
  unfold step
  cases ev with
  | idle =>
    dsimp only
    split
    · exact linesIdle_plotterPoll pins s h
    · exact h
  | byte c =>
    dsimp only
    split
    · split_ifs
      · exact linesIdle_backspace s h
      · exact h
      · exact h
      · exact linesIdle_carriageReturn pins s h
      · exact linesIdle_insertChar s c h
    · split_ifs <;> exact h
    · exact linesIdle_escapeKey _ c h
    · split_ifs
      · exact linesIdle_finish _ (linesIdle_plotterExit _)
      · exact linesIdle_plotterPoll pins s h

/-- In every state the command loop reaches, `PORTC` is a byte with `EOI` and
`DAV` high: every call of `GPIB_Transmit` finds the two lines idle. -/
theorem linesIdle_run (pins : Pins) (echoPin : Bool) (evs : List Event) :
    LinesIdle (run pins (init echoPin) evs).hw := by
  have hinit : LinesIdle (init echoPin).hw :=
    linesIdle_prompt _ (linesIdle_SetLed _ _ (linesIdle_normal _ _))
  have hrun : ∀ (l : List Event) (s : State), LinesIdle s.hw → LinesIdle (run pins s l).hw := by
    intro l
    induction l with
    | nil => intro s h; exact h
    | cons ev rest ih => intro s h; exact ih _ (linesIdle_step pins s ev h)
  exact hrun evs _ hinit

/-- C18: with a non-empty buffer and `NRFD` never reading high, `GPIB_Transmit`
returns 0 after the one read of its entry test and
`GPIB_MAX_TRANSMIT_TIMEOUT + 1 = 50001` polls, when the poll counter has passed
the bound of 50000; only the complement of the first byte was put on the data
port, and `EOI` is high in `PORTC`.  Whatever the pins do, once the entry test
is passed `EOI` is high in `PORTC` on return, and so is `DAV`, given that it was
high at entry: the return from the first wait of the first byte leaves `DAV` as
it found it.  `DAV` is high at every call the firmware makes (`linesIdle_run`,
`linesIdle_transmitCommand`). -/
theorem transmit_timeout (pins : Pins) (hw : Hw) (buf : List Nat) (off n eoi : Nat)
    (hn : n ≠ 0) (hD : hw.PORTC &&& DAV ≠ 0) :
    ((∀ r, pins.pinc r &&& NRFD = 0) →
      (GPIB_Transmit pins hw buf off n eoi).1 = 0 ∧
      (GPIB_Transmit pins hw buf off n eoi).2.reads
        = hw.reads + 1 + (GPIB_MAX_TRANSMIT_TIMEOUT + 1) ∧
      (∃ W, (GPIB_Transmit pins hw buf off n eoi).2.writes = hw.writes ++ W ∧
        dataWrites W = [255 - rd buf off % 256]) ∧
      (GPIB_Transmit pins hw buf off n eoi).2.PORTC &&& EOI ≠ 0) ∧
    (¬ (pins.pinc hw.reads &&& NRFD ≠ 0 ∧ pins.pinc (hw.reads + 1) &&& NDAC ≠ 0) →
      (GPIB_Transmit pins hw buf off n eoi).2.PORTC &&& EOI ≠ 0 ∧
      (GPIB_Transmit pins hw buf off n eoi).2.PORTC &&& DAV ≠ 0) := by
  obtain ⟨f, rfl⟩ : ∃ f, n = f + 1 := ⟨n - 1, by omega⟩
  have gen : ¬ (pins.pinc hw.reads &&& NRFD ≠ 0 ∧ pins.pinc (hw.reads + 1) &&& NDAC ≠ 0) →
      (GPIB_Transmit pins hw buf off (f + 1) eoi).2.PORTC &&& EOI ≠ 0 ∧
      (GPIB_Transmit pins hw buf off (f + 1) eoi).2.PORTC &&& DAV ≠ 0 := by
    intro hentry
    unfold GPIB_Transmit
    rw [if_neg hn]
    by_cases h1 : pins.pinc hw.reads &&& NRFD ≠ 0
    · have h2 : ¬ pins.pinc (hw.reads + 1) &&& NDAC ≠ 0 := fun h => hentry ⟨h1, h⟩
      rw [if_pos h1, if_neg h2]
      have k := GPIB_Transmit_loop_first pins buf off (f + 1) eoi f
        { hw with reads := hw.reads + 2 } 0
      exact ⟨k.1, k.2 hD⟩
    · rw [if_neg h1]
      have k := GPIB_Transmit_loop_first pins buf off (f + 1) eoi f
        { hw with reads := hw.reads + 1 } 0
      exact ⟨k.1, k.2 hD⟩
  refine ⟨fun hlow => ?_, gen⟩
  have h1 : ¬ pins.pinc hw.reads &&& NRFD ≠ 0 := fun h => h (hlow _)
  have hE := (gen (fun h => h1 h.1)).1
  obtain ⟨p1, _, p3, W, p4, p5⟩ := txPass_never_ready pins buf off (f + 1) eoi
    { hw with reads := hw.reads + 1 } 0 hlow
  have hph : ¬ (txPass pins buf off (f + 1) eoi { hw with reads := hw.reads + 1 } 0).phase = 2 := by
    rw [p1]; decide
  refine ⟨?_, ?_, ?_, hE⟩
  · unfold GPIB_Transmit
    rw [if_neg hn, if_neg h1, GPIB_Transmit_loop_succ, if_neg hph]
  · unfold GPIB_Transmit
    rw [if_neg hn, if_neg h1, GPIB_Transmit_loop_succ, if_neg hph]
    exact p3
  · unfold GPIB_Transmit
    rw [if_neg hn, if_neg h1, GPIB_Transmit_loop_succ, if_neg hph]
    exact ⟨W, p4, p5⟩

/-- Witness for C18: one byte offered on a bus whose lines all read low. -/
theorem transmit_timeout_witness :
    ((1 : Nat) ≠ 0 ∧ (init false).hw.PORTC &&& DAV ≠ 0 ∧
      (∀ r, idlePins.pinc r &&& NRFD = 0) ∧
      ¬ (idlePins.pinc (init false).hw.reads &&& NRFD ≠ 0 ∧
        idlePins.pinc ((init false).hw.reads + 1) &&& NDAC ≠ 0)) ∧
    (((∀ r, idlePins.pinc r &&& NRFD = 0) →
      (GPIB_Transmit idlePins (init false).hw (bytes "A") 0 1 1).1 = 0 ∧
      (GPIB_Transmit idlePins (init false).hw (bytes "A") 0 1 1).2.reads
        = (init false).hw.reads + 1 + (GPIB_MAX_TRANSMIT_TIMEOUT + 1) ∧
      (∃ W, (GPIB_Transmit idlePins (init false).hw (bytes "A") 0 1 1).2.writes
          = (init false).hw.writes ++ W ∧
        dataWrites W = [255 - rd (bytes "A") 0 % 256]) ∧
      (GPIB_Transmit idlePins (init false).hw (bytes "A") 0 1 1).2.PORTC &&& EOI ≠ 0) ∧
    (¬ (idlePins.pinc (init false).hw.reads &&& NRFD ≠ 0 ∧
        idlePins.pinc ((init false).hw.reads + 1) &&& NDAC ≠ 0) →
      (GPIB_Transmit idlePins (init false).hw (bytes "A") 0 1 1).2.PORTC &&& EOI ≠ 0 ∧
      (GPIB_Transmit idlePins (init false).hw (bytes "A") 0 1 1).2.PORTC &&& DAV ≠ 0)) :=
  ⟨⟨by decide, by decide, fun _ => (by decide : (0 : Nat) &&& NRFD = 0), by decide⟩,
    transmit_timeout idlePins (init false).hw (bytes "A") 0 1 1 (by decide) (by decide)⟩

/-! ## Reception until the end marker -/

theorem rxPass_talking (pins : Pins) (hw : Hw) (a b : Nat)
    (hab : a + b ≤ GPIB_MAX_RECEIVE_TIMEOUT)
    (h1 : ∀ j, j < a → pins.pinc (hw.reads + j) &&& DAV ≠ 0)
    (h2 : pins.pinc (hw.reads + a) &&& DAV = 0)
    (h3 : ∀ j, j < b → pins.pinc (hw.reads + a + 3 + j) &&& DAV = 0)
    (h4 : pins.pinc (hw.reads + a + 3 + b) &&& DAV ≠ 0) :
    (rxPass pins true hw).phase = 2 ∧
    (rxPass pins true hw).c = 255 - pins.pina (hw.reads + a + 2) % 256 ∧
    (rxPass pins true hw).eoiLow = decide (pins.pinc (hw.reads + a + 1) &&& EOI = 0) ∧
    (rxPass pins true hw).hw.reads = hw.reads + a + b + 4 := by
  have w1 : waitPin pins DAV false GPIB_MAX_RECEIVE_TIMEOUT
      (GPIB_MAX_RECEIVE_TIMEOUT + 1) hw.reads 0 = (true, hw.reads + a + 1, 0 + a) :=
    waitPin_found pins DAV false _ _ hw.reads 0 a (by omega) (by omega)
      (fun j hj => by simp [h1 j hj]) (by simp [h2])
  have w2 : waitPin pins DAV true GPIB_MAX_RECEIVE_TIMEOUT
      (GPIB_MAX_RECEIVE_TIMEOUT + 1) (hw.reads + a + 1 + 1 + 1) (0 + a)
        = (true, hw.reads + a + 1 + 1 + 1 + b + 1, 0 + a + b) :=
    waitPin_found pins DAV true _ _ (hw.reads + a + 1 + 1 + 1) (0 + a) b (by omega) (by omega)
      (fun j hj => by simp [h3 j hj]) (by simpa using h4)
  unfold rxPass
  simp only [setBitC_high, setBitC_low, setPORTC, w1, w2, if_true]
  refine ⟨by simp, by simp, by simp, by simp; omega⟩

theorem GPIB_Receive_till_eoi_loop_talking (pins : Pins) (n : Nat) (hn : n ≤ 255) :
    ∀ (sched : List (Nat × Nat)) (fuel : Nat) (hw : Hw) (buf : List Nat) (index : Nat),
      sched ≠ [] → index + sched.length ≤ n → sched.length ≤ fuel →
      index + sched.length ≤ buf.length → Talks pins hw.reads sched →
      (GPIB_Receive_till_eoi_loop pins n fuel hw buf index 0).ret = 255 ∧
      (GPIB_Receive_till_eoi_loop pins n fuel hw buf index 0).receivedLength
        = index + sched.length ∧
      (GPIB_Receive_till_eoi_loop pins n fuel hw buf index 0).buf.length = buf.length ∧
      (∀ j, j < index →
        rd (GPIB_Receive_till_eoi_loop pins n fuel hw buf index 0).buf j = rd buf j) ∧
      (∀ i, i < sched.length →
        rd (GPIB_Receive_till_eoi_loop pins n fuel hw buf index 0).buf (index + i)
          = 255 - pins.pina ((sampleReads hw.reads sched).getD i 0) % 256) := by
  intro sched
  induction sched with
  | nil => intro _ _ _ _ h; exact absurd rfl h
  | cons ab rest ih =>
    intro fuel hw buf index _ hlen hfuel hbuf htalk
    obtain ⟨a, b⟩ := ab
    obtain ⟨hab, h1, h2, he, h3, h4, hrest⟩ := htalk
    simp only [List.length_cons] at hlen hfuel hbuf ⊢
    obtain ⟨f, rfl⟩ : ∃ f, fuel = f + 1 := ⟨fuel - 1, by omega⟩
    obtain ⟨p1, p2, p3, p4⟩ := rxPass_talking pins hw a b hab h1 h2 h3 h4
    have n0 : ¬ (rxPass pins true hw).phase = 0 := by rw [p1]; decide
    have n1 : ¬ (rxPass pins true hw).phase = 1 := by rw [p1]; decide
    have hi2 : (index + 1) % 256 = index + 1 := by omega
    rw [GPIB_Receive_till_eoi_loop_succ, if_neg n0, if_neg n1, hi2, p2, p3]
    have hstore : rd (wr buf index (255 - pins.pina (hw.reads + a + 2) % 256)) index
        = 255 - pins.pina (hw.reads + a + 2) % 256 := by
      rw [rd_wr, if_pos ⟨rfl, by omega⟩]
    by_cases hr : rest = []
    · subst hr
      have hlow : pins.pinc (hw.reads + a + 1) &&& EOI = 0 := he.2 rfl
      have hstop : ¬ (index + 1 < n ∧ decide (pins.pinc (hw.reads + a + 1) &&& EOI = 0) = false) := by
        simp [hlow]
      rw [if_neg hstop]
      refine ⟨rfl, rfl, length_wr _ _ _, fun j hj => ?_, fun i hi => ?_⟩
      · dsimp only
        rw [rd_wr, if_neg (by omega)]
      · have : i = 0 := by simpa using hi
        subst this
        exact hstore
    · have hpos : 0 < rest.length := List.length_pos.2 hr
      have hhigh : ¬ pins.pinc (hw.reads + a + 1) &&& EOI = 0 := fun h => hr (he.1 h)
      have hgo : index + 1 < n ∧ decide (pins.pinc (hw.reads + a + 1) &&& EOI = 0) = false := by
        refine ⟨by omega, by simp [hhigh]⟩
      rw [if_pos hgo]
      obtain ⟨q1, q2, q3, q4, q5⟩ := ih f (rxPass pins true hw).hw
        (wr buf index (255 - pins.pina (hw.reads + a + 2) % 256)) (index + 1) hr
        (by omega) (by omega) (by rw [length_wr]; omega) (by rw [p4]; exact hrest)
      refine ⟨q1, by rw [q2]; omega, by rw [q3, length_wr], fun j hj => ?_, fun i hi => ?_⟩
      · rw [q4 j (by omega), rd_wr, if_neg (by omega)]
      · rcases Nat.eq_zero_or_pos i with h0 | h0
        · subst h0
          have e0 : index + 0 = index := rfl
          rw [e0, q4 index (by omega), hstore]
          rfl
        · obtain ⟨i2, rfl⟩ : ∃ i2, i = i2 + 1 := ⟨i - 1, by omega⟩
          have e1 : index + (i2 + 1) = index + 1 + i2 := by omega
          rw [e1, q5 i2 (by omega), p4]
          rfl

/-- C19: a talker that completes the handshake of each of its `k` bytes within
the bound and shows `EOI` low on the `k`-th byte only makes
`GPIB_Receive_till_eoi` with capacity `c ≥ k` return 255 with count `k`, and
`buf[i]` is the complement of the `i`-th sample of the data port. -/
theorem receive_till_eoi_count (pins : Pins) (hw : Hw) (buf : List Nat) (c : Nat)
    (sched : List (Nat × Nat)) (hk : 1 ≤ sched.length) (hkc : sched.length ≤ c) (hc : c ≤ 255)
    (hbuf : c ≤ buf.length) (htalk : Talks pins hw.reads sched) :
    (GPIB_Receive_till_eoi pins hw buf c).ret = 255 ∧
    (GPIB_Receive_till_eoi pins hw buf c).receivedLength = sched.length ∧
    ∀ i, i < sched.length →
      rd (GPIB_Receive_till_eoi pins hw buf c).buf i
        = 255 - pins.pina ((sampleReads hw.reads sched).getD i 0) % 256 := by
  have hs : sched ≠ [] := fun h0 => by rw [h0] at hk; simp at hk
  obtain ⟨q1, q2, _, _, q5⟩ := GPIB_Receive_till_eoi_loop_talking pins c hc sched (c + 1) hw buf 0
    hs (by omega) (by omega) (by omega) htalk
  unfold GPIB_Receive_till_eoi
  refine ⟨q1, by rw [q2, Nat.zero_add], fun i hi => ?_⟩
  have := q5 i hi
  rw [Nat.zero_add] at this
  exact this

/-- Witness for C19: the end marker on the 5th byte of an endless stream gives
exactly 5 bytes, with capacity 8. -/
theorem receive_till_eoi_count_witness :
    (1 ≤ (List.replicate 5 ((0 : Nat), (0 : Nat))).length ∧
      (List.replicate 5 ((0 : Nat), (0 : Nat))).length ≤ 8 ∧ 8 ≤ 255 ∧
      8 ≤ (List.replicate 8 0).length ∧
      Talks streamPins (init false).hw.reads (List.replicate 5 (0, 0))) ∧
    ((GPIB_Receive_till_eoi streamPins (init false).hw (List.replicate 8 0) 8).ret = 255 ∧
    (GPIB_Receive_till_eoi streamPins (init false).hw (List.replicate 8 0) 8).receivedLength
      = (List.replicate 5 ((0 : Nat), (0 : Nat))).length ∧
    ∀ i, i < (List.replicate 5 ((0 : Nat), (0 : Nat))).length →
      rd (GPIB_Receive_till_eoi streamPins (init false).hw (List.replicate 8 0) 8).buf i
        = 255 - streamPins.pina
            ((sampleReads (init false).hw.reads (List.replicate 5 (0, 0))).getD i 0) % 256) :=
  ⟨⟨by decide, by decide, by decide, by decide, by decide⟩,
    receive_till_eoi_count streamPins (init false).hw (List.replicate 8 0) 8
      (List.replicate 5 (0, 0)) (by decide) (by decide) (by decide) (by decide) (by decide)⟩

/-! ## Timeout reporting of the receive functions -/

theorem waitPin_timeout (pins : Pins) (mask : Nat) (want : Bool) (bound fuel reads timeout : Nat)
    (ht : timeout ≤ bound) (hf : bound - timeout < fuel) :
    ((waitPin pins mask want bound fuel reads timeout).1 = true →
      (waitPin pins mask want bound fuel reads timeout).2.2 ≤ bound) ∧
    ((waitPin pins mask want bound fuel reads timeout).1 = false →
      (waitPin pins mask want bound fuel reads timeout).2.2 = bound + 1) := by
  rcases waitPin_cases pins mask want bound fuel reads timeout ht hf with
    ⟨a, h1, _, _, h4⟩ | ⟨_, h2⟩
  · rw [h4]
    exact ⟨fun _ => h1, fun h => absurd h (by simp)⟩
  · rw [h2]
    exact ⟨fun h => absurd h (by simp), fun _ => rfl⟩

/-- A pass ran to its end exactly when its counter stayed within the bound. -/
theorem rxPass_timeout (pins : Pins) (withEoi : Bool) (hw : Hw) :
    ((rxPass pins withEoi hw).phase = 0 ∨ (rxPass pins withEoi hw).phase = 1 ∨
      (rxPass pins withEoi hw).phase = 2) ∧
    ((rxPass pins withEoi hw).phase = 2 →
      (rxPass pins withEoi hw).timeout ≤ GPIB_MAX_RECEIVE_TIMEOUT) ∧
    ((rxPass pins withEoi hw).phase ≠ 2 →
      (rxPass pins withEoi hw).timeout = GPIB_MAX_RECEIVE_TIMEOUT + 1) := by
  have W1 := waitPin_timeout pins DAV false GPIB_MAX_RECEIVE_TIMEOUT
    (GPIB_MAX_RECEIVE_TIMEOUT + 1) (setBitC NRFD 1 hw).reads 0 (Nat.zero_le _) (by omega)
  have W2 := fun (h : (waitPin pins DAV false GPIB_MAX_RECEIVE_TIMEOUT
      (GPIB_MAX_RECEIVE_TIMEOUT + 1) (setBitC NRFD 1 hw).reads 0).1 = true) (r : Nat) =>
    waitPin_timeout pins DAV true GPIB_MAX_RECEIVE_TIMEOUT (GPIB_MAX_RECEIVE_TIMEOUT + 1) r
      (waitPin pins DAV false GPIB_MAX_RECEIVE_TIMEOUT
        (GPIB_MAX_RECEIVE_TIMEOUT + 1) (setBitC NRFD 1 hw).reads 0).2.2
      (W1.1 h) (by have := W1.1 h; omega)
  cases withEoi <;>
  · unfold rxPass
    simp only [Bool.false_eq_true, if_false, if_true]
    split_ifs with c1 c2
    · exact ⟨Or.inl rfl, fun h => by simp at h, fun _ => W1.2 c1⟩
    · have c1t := Bool.eq_true_of_not_eq_false c1
      exact ⟨Or.inr (Or.inl rfl), fun h => by simp at h, fun _ => (W2 c1t _).2 c2⟩
    · have c1t := Bool.eq_true_of_not_eq_false c1
      have c2t := Bool.eq_true_of_not_eq_false c2
      exact ⟨Or.inr (Or.inr rfl), fun _ => (W2 c1t _).1 c2t, fun h => absurd rfl h⟩

theorem rxTrace_succ (pins : Pins) (withEoi : Bool) (again : Nat → RxPass → Prop)
    [∀ i p, Decidable (again i p)] (fuel : Nat) (hw : Hw) (index : Nat) :
    rxTrace pins withEoi again (fuel + 1) hw index =
      if (rxPass pins withEoi hw).phase = 2 ∧
          again ((index + 1) % 256) (rxPass pins withEoi hw) then
        rxPass pins withEoi hw ::
          rxTrace pins withEoi again fuel (rxPass pins withEoi hw).hw ((index + 1) % 256)
      else [rxPass pins withEoi hw] := by
  rw [rxTrace]

theorem rxTrace_ne_nil (pins : Pins) (withEoi : Bool) (again : Nat → RxPass → Prop)
    [∀ i p, Decidable (again i p)] (fuel : Nat) (hw : Hw) (index : Nat) (hf : 1 ≤ fuel) :
    rxTrace pins withEoi again fuel hw index ≠ [] := by
  obtain ⟨f, rfl⟩ : ∃ f, fuel = f + 1 := ⟨fuel - 1, by omega⟩
  rw [rxTrace_succ]
  split_ifs <;> simp

theorem rxStored_cons (p : RxPass) (T : List RxPass) :
    rxStored (p :: T) = if p.phase = 0 then rxStored T else p.c :: rxStored T := by
  unfold rxStored
  by_cases h : p.phase = 0 <;> simp [List.filter_cons, h]

/-- A loop made of receive passes reports its passes faithfully. -/
theorem rx_report (pins : Pins) (withEoi : Bool) (again : Nat → RxPass → Prop)
    [∀ i p, Decidable (again i p)] (n : Nat) (hn : n ≤ 255)
    (hag : ∀ i p, again i p → i < n)
    (L : Nat → Hw → List Nat → Nat → RecvResult)
    (hs : ∀ fuel hw buf index, L (fuel + 1) hw buf index =
      if (rxPass pins withEoi hw).phase = 0 then
        ⟨0, buf, index, (rxPass pins withEoi hw).hw⟩
      else if (rxPass pins withEoi hw).phase = 1 then
        ⟨0, wr buf index (rxPass pins withEoi hw).c, (index + 1) % 256,
          (rxPass pins withEoi hw).hw⟩
      else if again ((index + 1) % 256) (rxPass pins withEoi hw) then
        L fuel (rxPass pins withEoi hw).hw (wr buf index (rxPass pins withEoi hw).c)
          ((index + 1) % 256)
      else
        ⟨255, wr buf index (rxPass pins withEoi hw).c, (index + 1) % 256,
          (rxPass pins withEoi hw).hw⟩) :
    ∀ (fuel : Nat) (hw : Hw) (buf : List Nat) (index : Nat),
      index < 255 → n ≤ index + fuel → 1 ≤ fuel →
      ((L fuel hw buf index).ret = 0 ∨ (L fuel hw buf index).ret = 255) ∧
      ((L fuel hw buf index).ret = 0 ↔
        ∃ p, p ∈ rxTrace pins withEoi again fuel hw index ∧
          GPIB_MAX_RECEIVE_TIMEOUT < p.timeout) ∧
      (L fuel hw buf index).receivedLength
        = index + (rxStored (rxTrace pins withEoi again fuel hw index)).length ∧
      (L fuel hw buf index).buf
        = storeFrom buf index (rxStored (rxTrace pins withEoi again fuel hw index)) ∧
      (∀ p, p ∈ (rxTrace pins withEoi again fuel hw index).dropLast → p.phase = 2) ∧
      (∀ p, (rxTrace pins withEoi again fuel hw index).getLast? = some p → p.phase = 0 →
        (L fuel hw buf index).ret = 0 ∧
        rxStored (rxTrace pins withEoi again fuel hw index)
          = (rxTrace pins withEoi again fuel hw index).dropLast.map (fun q => q.c)) := by
  intro fuel
  induction fuel with
  | zero => intro _ _ _ _ _ h; omega
  | succ f ih =>
    intro hw buf index hi hfu _
    obtain ⟨t1, t2, t3⟩ := rxPass_timeout pins withEoi hw
    have hi2 : (index + 1) % 256 = index + 1 := by omega
    rw [hs, rxTrace_succ]
    by_cases h0 : (rxPass pins withEoi hw).phase = 0
    · have hne : ¬ ((rxPass pins withEoi hw).phase = 2 ∧
          again ((index + 1) % 256) (rxPass pins withEoi hw)) := by
        rw [h0]; simp
      have hto := t3 (by rw [h0]; decide)
      rw [if_pos h0, if_neg hne]
      refine ⟨Or.inl rfl, ⟨fun _ => ⟨_, List.mem_singleton.2 rfl, by rw [hto]; omega⟩,
        fun _ => rfl⟩, ?_, ?_, ?_, ?_⟩
      · simp [rxStored_cons, h0, rxStored]
      · simp [rxStored_cons, h0, rxStored, storeFrom]
      · simp
      · intro p _ _
        refine ⟨rfl, ?_⟩
        simp [rxStored_cons, h0, rxStored]
    · rw [if_neg h0]
      by_cases h1 : (rxPass pins withEoi hw).phase = 1
      · have hne : ¬ ((rxPass pins withEoi hw).phase = 2 ∧
            again ((index + 1) % 256) (rxPass pins withEoi hw)) := by
          rw [h1]; simp
        have hto := t3 (by rw [h1]; decide)
        rw [if_pos h1, if_neg hne]
        refine ⟨Or.inl rfl, ⟨fun _ => ⟨_, List.mem_singleton.2 rfl, by rw [hto]; omega⟩,
          fun _ => rfl⟩, ?_, ?_, ?_, ?_⟩
        · simp [rxStored_cons, h0, rxStored, hi2]
        · simp [rxStored_cons, h0, rxStored, storeFrom]
        · simp
        · intro p hp hp0
          simp only [List.getLast?_singleton, Option.some.injEq] at hp
          rw [← hp] at hp0
          exact absurd hp0 h0
      · rw [if_neg h1]
        have h2 : (rxPass pins withEoi hw).phase = 2 := by
          rcases t1 with h | h | h
          · exact absurd h h0
          · exact absurd h h1
          · exact h
        have hto := t2 h2
        by_cases hg : again ((index + 1) % 256) (rxPass pins withEoi hw)
        · have hlt := hag _ _ hg
          rw [if_pos hg, if_pos ⟨h2, hg⟩, hi2]
          rw [hi2] at hlt
          obtain ⟨q1, q2, q3, q4, q5, q6⟩ := ih (rxPass pins withEoi hw).hw
            (wr buf index (rxPass pins withEoi hw).c) (index + 1) (by omega) (by omega) (by omega)
          have hTne := rxTrace_ne_nil pins withEoi again f (rxPass pins withEoi hw).hw
            (index + 1) (by omega)
          refine ⟨q1, ?_, ?_, ?_, ?_, ?_⟩
          · rw [q2]
            constructor
            · rintro ⟨p, hp, hpt⟩
              exact ⟨p, List.mem_cons_of_mem _ hp, hpt⟩
            · rintro ⟨p, hp, hpt⟩
              rcases List.mem_cons.1 hp with h | h
              · rw [h] at hpt; omega
              · exact ⟨p, h, hpt⟩
          · rw [q3, rxStored_cons, if_neg h0, List.length_cons]
            omega
          · rw [q4, rxStored_cons, if_neg h0, storeFrom]
          · intro p hp
            rw [List.dropLast_cons_of_ne_nil hTne] at hp
            rcases List.mem_cons.1 hp with h | h
            · rw [h]; exact h2
            · exact q5 p h
          · intro p hp hp0
            have e : ∀ (x : RxPass) (l : List RxPass), l ≠ [] →
                (x :: l).getLast? = l.getLast? := by
              intro x l hl
              obtain ⟨t, ts, hT⟩ := List.exists_cons_of_ne_nil hl
              rw [hT, List.getLast?_cons_cons]
            rw [e _ _ hTne] at hp
            obtain ⟨r1, r2⟩ := q6 p hp hp0
            refine ⟨r1, ?_⟩
            rw [rxStored_cons, if_neg h0, r2, List.dropLast_cons_of_ne_nil hTne, List.map_cons]
        · have hne : ¬ ((rxPass pins withEoi hw).phase = 2 ∧
              again ((index + 1) % 256) (rxPass pins withEoi hw)) := fun h => hg h.2
          rw [if_neg hg, if_neg hne]
          refine ⟨Or.inr rfl, ⟨fun h => by simp at h, ?_⟩, ?_, ?_, ?_, ?_⟩
          · rintro ⟨p, hp, hpt⟩
            rw [List.mem_singleton.1 hp] at hpt
            omega
          · simp [rxStored_cons, h0, rxStored, hi2]
          · simp [rxStored_cons, h0, rxStored, storeFrom]
          · simp
          · intro p hp hp0
            simp only [List.getLast?_singleton, Option.some.injEq] at hp
            rw [← hp] at hp0
            exact absurd hp0 h0

/-- C20: for each of `GPIB_Receive`, `GPIB_Receive_till_eoi` and
`GPIB_Receive_till_lf`, whatever the pins do: the return value is 0 when the
counter of some pass went past `GPIB_MAX_RECEIVE_TIMEOUT` and 255 otherwise, the
count is the number of bytes stored, which are in the buffer from `buf[0]` on,
and when the last pass gave up waiting for `DAV` to fall the bytes stored are
those of the passes before it. -/
theorem receive_timeout_report (pins : Pins) (hw : Hw) (buf : List Nat) (n : Nat)
    (hn : n ≤ 255) :
    TimeoutReport (rxTrace pins false (fun i _ => i < n) (n + 1) hw 0) buf
      (GPIB_Receive pins hw buf n) ∧
    TimeoutReport (rxTrace pins true (fun i p => i < n ∧ p.eoiLow = false) (n + 1) hw 0) buf
      (GPIB_Receive_till_eoi pins hw buf n) ∧
    TimeoutReport (rxTrace pins false (fun i p => i < n ∧ p.c ≠ 10) (n + 1) hw 0) buf
      (GPIB_Receive_till_lf pins hw buf n) := by
  have r1 := rx_report pins false (fun i _ => i < n) n hn (fun _ _ h => h)
    (fun fuel hw buf index => GPIB_Receive_loop pins n fuel hw buf index)
    (fun fuel hw buf index => GPIB_Receive_loop_succ pins n fuel hw buf index)
    (n + 1) hw buf 0 (by omega) (by omega) (by omega)
  have r2 := rx_report pins true (fun i p => i < n ∧ p.eoiLow = false) n hn (fun _ _ h => h.1)
    (fun fuel hw buf index => GPIB_Receive_till_eoi_loop pins n fuel hw buf index 0)
    (fun fuel hw buf index => GPIB_Receive_till_eoi_loop_succ pins n fuel hw buf index)
    (n + 1) hw buf 0 (by omega) (by omega) (by omega)
  have r3 := rx_report pins false (fun i p => i < n ∧ p.c ≠ 10) n hn (fun _ _ h => h.1)
    (fun fuel hw buf index => GPIB_Receive_till_lf_loop pins n fuel hw buf index)
    (fun fuel hw buf index => GPIB_Receive_till_lf_loop_succ pins n fuel hw buf index)
    (n + 1) hw buf 0 (by omega) (by omega) (by omega)
  simp only [Nat.zero_add] at r1 r2 r3
  exact ⟨r1, r2, r3⟩

/-- Witness for C20: capacity 2 on a bus whose lines all read low. -/
theorem receive_timeout_report_witness :
    (2 ≤ 255) ∧
    (TimeoutReport (rxTrace idlePins false (fun i _ => i < 2) (2 + 1) (init false).hw 0)
      (List.replicate 2 0) (GPIB_Receive idlePins (init false).hw (List.replicate 2 0) 2) ∧
    TimeoutReport
      (rxTrace idlePins true (fun i p => i < 2 ∧ p.eoiLow = false) (2 + 1) (init false).hw 0)
      (List.replicate 2 0) (GPIB_Receive_till_eoi idlePins (init false).hw (List.replicate 2 0) 2) ∧
    TimeoutReport
      (rxTrace idlePins false (fun i p => i < 2 ∧ p.c ≠ 10) (2 + 1) (init false).hw 0)
      (List.replicate 2 0) (GPIB_Receive_till_lf idlePins (init false).hw (List.replicate 2 0) 2)) :=
  ⟨by decide, receive_timeout_report idlePins (init false).hw (List.replicate 2 0) 2 (by decide)⟩

/-! ## Data transmission in listen mode -/

set_option maxRecDepth 100000 in
/-- C23 fails on the code: after `C5` has put the converter (address 21) in
listen mode, the line `T0D41` is not refused.  The `T` handler has no test of
the listen-mode flag: it sends the byte `0x41` with `ATN` left false (the data
port is written with its complement 190) and answers `OK`, where the line
`DA` in the same state is answered `ERROR` with no register written. -/
theorem hex_data_sent_in_listen_mode :
    (run listenerLatePins (init false) (typed "C5\r")).listenMode = 1 ∧
    (run listenerLatePins (init false) (typed "C5\rT0D41\r")).listenMode = 1 ∧
    (run listenerLatePins (init false) (typed "C5\rT0D41\r")).out
      = (run listenerLatePins (init false) (typed "C5\r")).out ++ bytes "OK\r\n" ∧
    dataWrites ((run listenerLatePins (init false) (typed "C5\rT0D41\r")).hw.writes.drop
      (run listenerLatePins (init false) (typed "C5\r")).hw.writes.length) = [190] ∧
    (run listenerLatePins (init false) (typed "C5\rDA\r")).out
      = (run listenerLatePins (init false) (typed "C5\r")).out ++ bytes "ERROR\r\n" ∧
    (run listenerLatePins (init false) (typed "C5\rDA\r")).hw.writes
      = (run listenerLatePins (init false) (typed "C5\r")).hw.writes := by
  decide

/-! ## Control lines and bus role across the command loop -/

theorem ren_low_iff (p : Nat) : p &&& REN = 0 ↔ p.testBit 0 = false := by
  have h := and_two_pow_ne_zero p 0
  constructor
  · intro h0
    by_contra hb
    exact (h.2 (by simpa using hb)) h0
  · intro hb
    by_contra h0
    rw [h.1 h0] at hb
    exact absurd hb (by decide)

theorem sameCtl_refl (h : Hw) : SameCtl h h := ⟨rfl, rfl, Iff.rfl⟩

theorem sameCtl_trans {a b c : Hw} (h1 : SameCtl a b) (h2 : SameCtl b c) : SameCtl a c :=
  ⟨h2.1.trans h1.1, h2.2.1.trans h1.2.1, h2.2.2.trans h1.2.2⟩

/-- A state that differs in the read counter, the write trace, `PORTA` or
`PORTD` only. -/
theorem sameCtl_of_eq {h1 h2 : Hw} (e1 : h2.DDRA = h1.DDRA) (e2 : h2.DDRC = h1.DDRC)
    (e3 : h2.PORTC = h1.PORTC) : SameCtl h1 h2 := ⟨e1, e2, by rw [e3]⟩

/-- Driving a line other than `REN` leaves the directions and `REN` alone. -/
theorem sameCtl_setBitC (bit x : Nat) (h : Hw)
    (hb : bit = ATN ∨ bit = IFC ∨ bit = NDAC ∨ bit = NRFD ∨ bit = DAV ∨ bit = EOI) :
    SameCtl h (setBitC bit x h) := by
  refine ⟨rfl, rfl, ?_⟩
  rw [ren_low_iff, ren_low_iff]
  unfold setBitC setPORTC
  dsimp only
  rcases hb with e | e | e | e | e | e <;> subst e <;> split_ifs <;>
    simp [Nat.testBit_or, Nat.testBit_and, ATN, IFC, NDAC, NRFD, DAV, EOI]

theorem sameCtl_txPass (pins : Pins) (buf : List Nat) (off n eoi : Nat) (hw : Hw) (index : Nat) :
    SameCtl hw (txPass pins buf off n eoi hw index).hw := by
  unfold SameCtl
  rw [ren_low_iff, ren_low_iff]
  unfold txPass
  simp only [setBitC_high, setBitC_low, setPORTA, setPORTC, EOI, DAV, Nat.reduceSub]
  split_ifs <;> simp [Nat.testBit_or, Nat.testBit_and]

theorem sameCtl_rxPass (pins : Pins) (withEoi : Bool) (hw : Hw) :
    SameCtl hw (rxPass pins withEoi hw).hw := by
  unfold SameCtl
  rw [ren_low_iff, ren_low_iff]
  unfold rxPass
  simp only [setBitC_high, setBitC_low, setPORTC, NRFD, NDAC, Nat.reduceSub]
  cases withEoi <;> split_ifs <;> simp [Nat.testBit_or, Nat.testBit_and]

theorem sameCtl_GPIB_Transmit_loop (pins : Pins) (buf : List Nat) (off n eoi : Nat) :
    ∀ (fuel : Nat) (hw : Hw) (index : Nat),
      SameCtl hw (GPIB_Transmit_loop pins buf off n eoi fuel hw index).2 := by
  intro fuel
  induction fuel with
  | zero => intro hw index; exact sameCtl_refl hw
  | succ f ih =>
    intro hw index
    have hp := sameCtl_txPass pins buf off n eoi hw index
    rw [GPIB_Transmit_loop_succ]
    split_ifs
    · exact sameCtl_trans hp (ih _ _)
    · exact hp
    · exact hp

/-- `GPIB_Transmit` leaves the port directions and the `REN` line alone. -/
theorem sameCtl_GPIB_Transmit (pins : Pins) (hw : Hw) (buf : List Nat) (off n eoi : Nat) :
    SameCtl hw (GPIB_Transmit pins hw buf off n eoi).2 := by
  have key : ∀ r, SameCtl hw
      (GPIB_Transmit_loop pins buf off n eoi n { hw with reads := r } 0).2 := fun r =>
    sameCtl_trans (sameCtl_of_eq rfl rfl rfl) (sameCtl_GPIB_Transmit_loop pins buf off n eoi n _ 0)
  unfold GPIB_Transmit
  by_cases h0 : n = 0
  · rw [if_pos h0]; exact sameCtl_refl hw
  · rw [if_neg h0]
    by_cases h1 : pins.pinc hw.reads &&& NRFD ≠ 0
    · rw [if_pos h1]
      by_cases h2 : pins.pinc (hw.reads + 1) &&& NDAC ≠ 0
      · rw [if_pos h2]; exact sameCtl_of_eq rfl rfl rfl
      · rw [if_neg h2]; exact key _
    · rw [if_neg h1]; exact key _

theorem rx_sameCtl (pins : Pins) (withEoi : Bool) (again : Nat → RxPass → Prop)
    [∀ i p, Decidable (again i p)]
    (L : Nat → Hw → List Nat → Nat → RecvResult)
    (h0 : ∀ hw buf index, (L 0 hw buf index).hw = hw)
    (hs : ∀ fuel hw buf index, L (fuel + 1) hw buf index =
      if (rxPass pins withEoi hw).phase = 0 then
        ⟨0, buf, index, (rxPass pins withEoi hw).hw⟩
      else if (rxPass pins withEoi hw).phase = 1 then
        ⟨0, wr buf index (rxPass pins withEoi hw).c, (index + 1) % 256,
          (rxPass pins withEoi hw).hw⟩
      else if again ((index + 1) % 256) (rxPass pins withEoi hw) then
        L fuel (rxPass pins withEoi hw).hw (wr buf index (rxPass pins withEoi hw).c)
          ((index + 1) % 256)
      else
        ⟨255, wr buf index (rxPass pins withEoi hw).c, (index + 1) % 256,
          (rxPass pins withEoi hw).hw⟩) :
    ∀ (fuel : Nat) (hw : Hw) (buf : List Nat) (index : Nat),
      SameCtl hw (L fuel hw buf index).hw := by
  intro fuel
  induction fuel with
  | zero => intro hw buf index; rw [h0]; exact sameCtl_refl hw
  | succ f ih =>
    intro hw buf index
    have hp := sameCtl_rxPass pins withEoi hw
    rw [hs]
    split_ifs
    · exact hp
    · exact hp
    · exact sameCtl_trans hp (ih _ _ _)
    · exact hp

theorem sameCtl_GPIB_Receive (pins : Pins) (hw : Hw) (buf : List Nat) (n : Nat) :
    SameCtl hw (GPIB_Receive pins hw buf n).hw :=
  rx_sameCtl pins false (fun i _ => i < n)
    (fun fuel hw buf index => GPIB_Receive_loop pins n fuel hw buf index)
    (fun _ _ _ => rfl)
    (fun fuel hw buf index => GPIB_Receive_loop_succ pins n fuel hw buf index)
    (n + 1) hw buf 0

theorem sameCtl_GPIB_Receive_till_eoi (pins : Pins) (hw : Hw) (buf : List Nat) (n : Nat) :
    SameCtl hw (GPIB_Receive_till_eoi pins hw buf n).hw :=
  rx_sameCtl pins true (fun i p => i < n ∧ p.eoiLow = false)
    (fun fuel hw buf index => GPIB_Receive_till_eoi_loop pins n fuel hw buf index 0)
    (fun _ _ _ => rfl)
    (fun fuel hw buf index => GPIB_Receive_till_eoi_loop_succ pins n fuel hw buf index)
    (n + 1) hw buf 0

theorem renMirrors_of_keeps (s t : State) (h1 : t.remoteState = s.remoteState)
    (h3 : SameCtl s.hw t.hw) (h : RenMirrors s) : RenMirrors t := by
  unfold RenMirrors at *
  rw [h1, h3.2.2]
  exact h

theorem roleTracks_of_keeps (s t : State) (h2 : t.listenMode = s.listenMode)
    (ha : t.hw.DDRA = s.hw.DDRA) (hc : t.hw.DDRC = s.hw.DDRC) (h : RoleTracks s) :
    RoleTracks t := by
  unfold RoleTracks at *
  rw [h2, ha, hc]
  exact h

theorem ctlOk_of_keeps (s t : State) (h1 : t.remoteState = s.remoteState)
    (h2 : t.listenMode = s.listenMode) (h3 : SameCtl s.hw t.hw) (h : CtlOk s) : CtlOk t :=
  ⟨renMirrors_of_keeps s t h1 h3 h.1, roleTracks_of_keeps s t h2 h3.1 h3.2.1 h.2⟩

/-- Both role configurations set the `REN` bit from the flag they are given. -/
theorem reconfigure_ren (r : Nat) (h : Hw) :
    ((ReconfigureGPIO_GPIBNormalMode r h).PORTC &&& REN = 0 ↔ r ≠ 0) ∧
    ((ReconfigureGPIO_GPIBReceiveMode r h).PORTC &&& REN = 0 ↔ r ≠ 0) := by
  unfold ReconfigureGPIO_GPIBNormalMode ReconfigureGPIO_GPIBReceiveMode setPORTC setDDRC
    setPORTA setDDRA
  by_cases hr : r ≠ 0
  · simp only [if_pos hr]
    exact ⟨⟨fun _ => hr, fun _ => by decide⟩, ⟨fun _ => hr, fun _ => by decide⟩⟩
  · simp only [if_neg hr]
    exact ⟨⟨fun h0 => absurd h0 (by decide), fun h0 => absurd h0 hr⟩,
      ⟨fun h0 => absurd h0 (by decide), fun h0 => absurd h0 hr⟩⟩

theorem reconfigure_dir (r : Nat) (h : Hw) :
    ((ReconfigureGPIO_GPIBNormalMode r h).DDRA = 255 ∧
      (ReconfigureGPIO_GPIBNormalMode r h).DDRC = (IFC ||| ATN ||| REN ||| EOI ||| DAV)) ∧
    ((ReconfigureGPIO_GPIBReceiveMode r h).DDRA = 0 ∧
      (ReconfigureGPIO_GPIBReceiveMode r h).DDRC = (IFC ||| ATN ||| REN ||| NRFD ||| NDAC)) :=
  ⟨⟨rfl, rfl⟩, rfl, rfl⟩

/-- A state just switched to the Normal role with the listen-mode flag clear. -/
theorem ctlOk_normal (s : State) (h : Hw) (hl : s.listenMode = 0)
    (hh : s.hw = ReconfigureGPIO_GPIBNormalMode s.remoteState h) : CtlOk s := by
  unfold CtlOk RenMirrors RoleTracks
  rw [hh]
  exact ⟨(reconfigure_ren _ _).1, fun h0 => absurd hl h0, fun _ => (reconfigure_dir _ _).1⟩

/-- A state just switched to the Receive role with the listen-mode flag set. -/
theorem ctlOk_receive (s : State) (h : Hw) (hl : s.listenMode ≠ 0)
    (hh : s.hw = ReconfigureGPIO_GPIBReceiveMode s.remoteState h) : CtlOk s := by
  unfold CtlOk RenMirrors RoleTracks
  rw [hh]
  exact ⟨(reconfigure_ren _ _).2, fun _ => (reconfigure_dir _ _).2, fun h0 => absurd h0 hl⟩

theorem ctlOk_puts (s : State) (l : List Nat) (h : CtlOk s) : CtlOk (s.puts l) := h

theorem ctlOk_reportTransmit (s : State) (r : Nat) (h : CtlOk s) :
    CtlOk (reportTransmit s r) := by
  rw [reportTransmit_eq]; exact h

theorem ctlOk_handleData (pins : Pins) (s : State) (eoi : Nat) (h : CtlOk s) :
    CtlOk (handleData pins s eoi) := by
  unfold handleData
  split_ifs
  · simp only []
    obtain ⟨t1, _, t3, t4, _⟩ := trimEndSeq_hw (reportTransmit
      { appendEndSeq s with hw := (GPIB_Transmit pins (appendEndSeq s).hw (appendEndSeq s).buf 1
        (((appendEndSeq s).bufPos + 255) % 256) eoi).2 }
      (GPIB_Transmit pins (appendEndSeq s).hw (appendEndSeq s).buf 1
        (((appendEndSeq s).bufPos + 255) % 256) eoi).1)
    obtain ⟨a1, _, a3, a4, _⟩ := appendEndSeq_hw s
    refine ctlOk_of_keeps s _ ?_ ?_ ?_ h
    · rw [t4, reportTransmit_eq]; exact a4
    · rw [t3, reportTransmit_eq]; exact a3
    · rw [t1, reportTransmit_eq]
      have k := sameCtl_GPIB_Transmit pins (appendEndSeq s).hw (appendEndSeq s).buf 1
        (((appendEndSeq s).bufPos + 255) % 256) eoi
      rw [a1] at k
      rw [a1]
      exact k
  · exact h

theorem ctlOk_roleByListenMode (s : State) : CtlOk (roleByListenMode s) := by
  unfold roleByListenMode
  simp only []
  split_ifs with hl
  · exact ctlOk_receive _ s.hw hl rfl
  · exact ctlOk_normal _ s.hw (not_not.1 hl) rfl

theorem ctlOk_handleC (pins : Pins) (s : State) : CtlOk (handleC pins s) :=
  ctlOk_roleByListenMode _

theorem ctlOk_handleT (pins : Pins) (s : State) (h : CtlOk s) : CtlOk (handleT pins s) := by
  unfold handleT
  simp only []
  split_ifs
  · apply ctlOk_reportTransmit
    exact ctlOk_of_keeps s _ rfl rfl (sameCtl_GPIB_Transmit pins s.hw _ 0 _ _) h
  · exact ctlOk_roleByListenMode _
  · exact h

theorem ctlOk_handleR (s : State) (h : CtlOk s) : CtlOk (handleR s) := by
  refine ⟨?_, roleTracks_of_keeps s _ rfl rfl rfl h.2⟩
  unfold RenMirrors handleR State.print State.puts
  rw [setBitC_low, ren_low_iff]
  simp [setPORTC, Nat.testBit_and, REN]

theorem ctlOk_handleL (s : State) (h : CtlOk s) : CtlOk (handleL s) := by
  refine ⟨?_, roleTracks_of_keeps s _ rfl rfl rfl h.2⟩
  unfold RenMirrors handleL State.print State.puts
  rw [setBitC_high, ren_low_iff]
  simp [setPORTC, Nat.testBit_or, REN]

theorem ctlOk_handleI (s : State) (h : CtlOk s) : CtlOk (handleI s) := by
  unfold handleI
  simp only []
  split_ifs
  · exact ctlOk_normal _ _ rfl rfl
  · exact ctlOk_of_keeps s _ rfl rfl (sameCtl_trans (sameCtl_setBitC IFC 0 _ (by simp))
      (sameCtl_setBitC IFC 1 _ (by simp))) h

theorem ctlOk_handleS (pins : Pins) (s : State) (h : CtlOk s) : CtlOk (handleS pins s) :=
  ctlOk_of_keeps s _ rfl rfl (sameCtl_of_eq rfl rfl rfl) h

theorem renMirrors_plotterEnter (s : State) :
    RenMirrors (plotterEnter s) ∧ (plotterEnter s).listenMode = 0 ∧
    (plotterEnter s).mode = Mode.plotter :=
  ⟨(reconfigure_ren _ _).2, rfl, rfl⟩

theorem renMirrors_plotterPoll (pins : Pins) (s : State) (h : RenMirrors s) :
    RenMirrors (plotterPoll pins s) ∧ (plotterPoll pins s).listenMode = s.listenMode ∧
    (plotterPoll pins s).mode = s.mode := by
  have k := sameCtl_GPIB_Receive pins s.hw s.gpibBuf (GPIB_BUF_SIZE - 2)
  unfold plotterPoll
  simp only []
  split_ifs
  · exact ⟨renMirrors_of_keeps s _ rfl k h, rfl, rfl⟩
  · exact ⟨renMirrors_of_keeps s _ rfl k h, rfl, rfl⟩

theorem ctlOk_plotterExit (s : State) (hl : s.listenMode = 0) : CtlOk (plotterExit s) := by
  have k : CtlOk { s with hw := ReconfigureGPIO_GPIBNormalMode s.remoteState s.hw } :=
    ctlOk_normal _ s.hw hl rfl
  exact ctlOk_of_keeps _ _ rfl rfl (sameCtl_of_eq rfl rfl rfl) k

theorem ctlOk_receiveMessage (pins : Pins) (s : State) (h : RenMirrors s) :
    RenMirrors (receiveMessage pins s) ∧ (receiveMessage pins s).listenMode = s.listenMode ∧
    (s.listenMode ≠ 0 → RoleTracks s → RoleTracks (receiveMessage pins s)) := by
  unfold receiveMessage
  simp only []
  split_ifs with hl
  · refine ⟨?_, rfl, fun h0 => absurd hl h0⟩
    have k := sameCtl_GPIB_Receive_till_eoi pins
      (ReconfigureGPIO_GPIBReceiveMode s.remoteState s.hw) s.gpibBuf (GPIB_BUF_SIZE - 2)
    unfold RenMirrors
    dsimp only
    rw [k.2.2]
    exact (reconfigure_ren _ _).2
  · have k := sameCtl_GPIB_Receive_till_eoi pins s.hw s.gpibBuf (GPIB_BUF_SIZE - 2)
    exact ⟨renMirrors_of_keeps s _ rfl k h, rfl,
      fun _ hr => roleTracks_of_keeps s _ rfl k.1 k.2.1 hr⟩

theorem ctlOk_restoreNormal (s : State) (h : RenMirrors s)
    (hr : s.listenMode ≠ 0 → RoleTracks s) : CtlOk (restoreNormal s) := by
  unfold restoreNormal
  split_ifs with hl
  · exact ctlOk_normal _ s.hw hl rfl
  · exact ⟨h, hr hl⟩

theorem ctlOk_handleX (pins : Pins) (s : State) (h : CtlOk s) : CtlOk (handleX pins s) := by
  obtain ⟨r1, r2, r3⟩ := ctlOk_receiveMessage pins s h.1
  unfold handleX
  simp only []
  apply ctlOk_restoreNormal
  · split_ifs
    · exact r1
    · exact r1
  · split_ifs
    · intro hl
      exact roleTracks_of_keeps (receiveMessage pins s) _ rfl rfl rfl
        (r3 (by rw [← r2]; exact hl) h.2)
    · intro hl
      exact roleTracks_of_keeps (receiveMessage pins s) _ rfl rfl rfl
        (r3 (by rw [← r2]; exact hl) h.2)

theorem ctlOk_handleY (pins : Pins) (s : State) (h : CtlOk s) : CtlOk (handleY pins s) := by
  obtain ⟨r1, r2, r3⟩ := ctlOk_receiveMessage pins s h.1
  unfold handleY
  simp only []
  apply ctlOk_restoreNormal
  · exact r1
  · intro hl
    exact roleTracks_of_keeps (receiveMessage pins s) _ rfl rfl rfl
      (r3 (by rw [← r2]; exact hl) h.2)

theorem ctlOk_handleZ (pins : Pins) (s : State) (h : CtlOk s) : CtlOk (handleZ pins s) := by
  obtain ⟨r1, r2, r3⟩ := ctlOk_receiveMessage pins s h.1
  unfold handleZ
  simp only []
  apply ctlOk_restoreNormal
  · exact r1
  · intro hl
    exact roleTracks_of_keeps (receiveMessage pins s) _ rfl rfl rfl
      (r3 (by rw [← r2]; exact hl) h.2)

theorem ctlOk_of_frame (s t : State) (f : Frame s t) (h : CtlOk s) : CtlOk t :=
  ctlOk_of_keeps s t f.2.1 f.2.2.1 (by rw [f.1]; exact sameCtl_refl _) h

theorem ctlInv_of_frame (s t : State) (f : Frame s t) (h : CtlInv s) : CtlInv t := by
  obtain ⟨f1, f2, f3, f4⟩ := f
  obtain ⟨h1, h2, h3⟩ := h
  refine ⟨renMirrors_of_keeps s t f2 (by rw [f1]; exact sameCtl_refl _) h1, ?_, ?_⟩
  · intro hm; rw [f3]; exact h2 (by rw [← f4]; exact hm)
  · intro hm
    exact roleTracks_of_keeps s t f3 (by rw [f1]) (by rw [f1]) (h3 (by rw [← f4]; exact hm))

theorem frame_handleE (s : State) : Frame s (handleE s) := by
  unfold handleE
  split_ifs <;> exact ⟨rfl, rfl, rfl, rfl⟩

theorem frame_handleA (s : State) : Frame s (handleA s) := by
  unfold handleA
  simp only []
  split_ifs <;> exact ⟨rfl, rfl, rfl, rfl⟩

theorem frame_handleQ (s : State) : Frame s (handleQ s) := by
  unfold handleQ
  simp only []
  split_ifs <;> exact ⟨rfl, rfl, rfl, rfl⟩

theorem frame_saveHistory (s : State) : Frame s (saveHistory s) := by
  unfold saveHistory
  simp only []
  split_ifs <;> exact ⟨rfl, rfl, rfl, rfl⟩

theorem frame_prompt (s : State) : Frame s (prompt s) := by
  unfold prompt
  simp only []
  split_ifs <;> exact ⟨rfl, rfl, rfl, rfl⟩

theorem frame_backspace (s : State) : Frame s (backspace s) := by
  unfold backspace
  simp only []
  split_ifs <;> exact ⟨rfl, rfl, rfl, rfl⟩

theorem frame_insertChar (s : State) (c : Nat) : Frame s (insertChar s c) := by
  unfold insertChar
  simp only []
  split_ifs <;> exact ⟨rfl, rfl, rfl, rfl⟩

theorem frame_recallEntry (s : State) : Frame s (recallEntry s) := by
  unfold recallEntry
  simp only []
  split_ifs <;> exact ⟨rfl, rfl, rfl, rfl⟩

theorem frame_escapeKey (s : State) (k : Nat) : Frame s (escapeKey s k) := by
  unfold escapeKey
  simp only []
  split_ifs
  all_goals first
    | exact ⟨rfl, rfl, rfl, rfl⟩
    | exact frame_recallEntry _

/-- After a handler the loop is back at the prompt. -/
theorem ctlInv_finish (s : State) (h : CtlOk s) : CtlInv (finish s) := by
  have f1 := frame_saveHistory { s with mode := Mode.edit }
  have f2 := frame_prompt (resetLine (saveHistory { s with mode := Mode.edit }))
  have hm : (finish s).mode = Mode.edit := by
    unfold finish
    rw [f2.2.2.2]
    exact f1.2.2.2
  have hk : CtlOk (finish s) := by
    unfold finish
    refine ctlOk_of_frame _ _ f2 ?_
    exact ctlOk_of_keeps s _ f1.2.1 f1.2.2.1 (by
      show SameCtl s.hw (saveHistory { s with mode := Mode.edit }).hw
      rw [f1.1]; exact sameCtl_refl _) h
  exact ⟨hk.1, fun hp => by rw [hm] at hp; exact absurd hp (by decide), fun _ => hk.2⟩

theorem ctlInv_dispatch (pins : Pins) (s : State) (h : CtlOk s) :
    CtlInv (dispatch pins s) := by
  unfold dispatch
  by_cases c68 : s.command = 68
  · rw [if_pos c68]; exact ctlInv_finish _ (ctlOk_handleData pins s 1 h)
  rw [if_neg c68]
  by_cases c77 : s.command = 77
  · rw [if_pos c77]; exact ctlInv_finish _ (ctlOk_handleData pins s 0 h)
  rw [if_neg c77]
  by_cases c67 : s.command = 67
  · rw [if_pos c67]; exact ctlInv_finish _ (ctlOk_handleC pins s)
  rw [if_neg c67]
  by_cases c82 : s.command = 82
  · rw [if_pos c82]; exact ctlInv_finish _ (ctlOk_handleR s h)
  rw [if_neg c82]
  by_cases c76 : s.command = 76
  · rw [if_pos c76]; exact ctlInv_finish _ (ctlOk_handleL s h)
  rw [if_neg c76]
  by_cases c73 : s.command = 73
  · rw [if_pos c73]; exact ctlInv_finish _ (ctlOk_handleI s h)
  rw [if_neg c73]
  by_cases c83 : s.command = 83
  · rw [if_pos c83]; exact ctlInv_finish _ (ctlOk_handleS pins s h)
  rw [if_neg c83]
  by_cases c80 : s.command = 80
  · rw [if_pos c80]
    exact ⟨(renMirrors_plotterEnter s).1, fun _ => (renMirrors_plotterEnter s).2.1,
      fun hm => absurd (renMirrors_plotterEnter s).2.2 hm⟩
  rw [if_neg c80]
  by_cases c88 : s.command = 88
  · rw [if_pos c88]; exact ctlInv_finish _ (ctlOk_handleX pins s h)
  rw [if_neg c88]
  by_cases c89 : s.command = 89
  · rw [if_pos c89]; exact ctlInv_finish _ (ctlOk_handleY pins s h)
  rw [if_neg c89]
  by_cases c90 : s.command = 90
  · rw [if_pos c90]; exact ctlInv_finish _ (ctlOk_handleZ pins s h)
  rw [if_neg c90]
  by_cases c63 : s.command = 63
  · rw [if_pos c63]; exact ctlInv_finish _ (h)
  rw [if_neg c63]
  by_cases c69 : s.command = 69
  · rw [if_pos c69]; exact ctlInv_finish _ (ctlOk_of_frame s _ (frame_handleE s) h)
  rw [if_neg c69]
  by_cases c72 : s.command = 72
  · rw [if_pos c72]; exact ctlInv_finish _ (h)
  rw [if_neg c72]
  by_cases c65 : s.command = 65
  · rw [if_pos c65]; exact ctlInv_finish _ (ctlOk_of_frame s _ (frame_handleA s) h)
  rw [if_neg c65]
  by_cases c81 : s.command = 81
  · rw [if_pos c81]; exact ctlInv_finish _ (ctlOk_of_frame s _ (frame_handleQ s) h)
  rw [if_neg c81]
  by_cases c84 : s.command = 84
  · rw [if_pos c84]; exact ctlInv_finish _ (ctlOk_handleT pins s h)
  rw [if_neg c84]
  apply ctlInv_finish
  dsimp only
  split_ifs <;> exact h

theorem ctlInv_carriageReturn (pins : Pins) (s : State) (h : CtlInv s)
    (hm : s.mode ≠ Mode.plotter) : CtlInv (carriageReturn pins s) := by
  have hk : CtlOk s := ⟨h.1, h.2.2 hm⟩
  unfold carriageReturn
  simp only []
  split_ifs
  all_goals first
    | exact ctlInv_dispatch pins _ hk
    | exact ctlInv_of_frame s _ ⟨rfl, rfl, rfl, rfl⟩ h

theorem ctlInv_step (pins : Pins) (s : State) (ev : Event) (h : CtlInv s) :
    CtlInv (step pins s ev) := by
  unfold step
  cases ev with
  | idle =>
    dsimp only
    split
    · rename_i hm
      obtain ⟨p1, p2, p3⟩ := renMirrors_plotterPoll pins s h.1
      exact ⟨p1, fun _ => by rw [p2]; exact h.2.1 hm,
        fun hn => by rw [p3] at hn; exact absurd hm hn⟩
    · exact h
  | byte c =>
    dsimp only
    split
    · rename_i hm
      have hnp : s.mode ≠ Mode.plotter := by rw [hm]; decide
      split_ifs
      · exact ctlInv_of_frame s _ (frame_backspace s) h
      · exact h
      · exact ⟨h.1, fun hp => Mode.noConfusion hp, fun _ => h.2.2 hnp⟩
      · exact ctlInv_carriageReturn pins s h hnp
      · exact ctlInv_of_frame s _ (frame_insertChar s c) h
    · rename_i hm
      have hnp : s.mode ≠ Mode.plotter := by rw [hm]; decide
      split_ifs
      · exact ⟨h.1, fun hp => Mode.noConfusion hp, fun _ => h.2.2 hnp⟩
      · exact ⟨h.1, fun hp => Mode.noConfusion hp, fun _ => h.2.2 hnp⟩
    · rename_i hm
      have hnp : s.mode ≠ Mode.plotter := by rw [hm]; decide
      have h1 : CtlInv { s with mode := Mode.edit } :=
        ⟨h.1, fun hp => Mode.noConfusion hp, fun _ => h.2.2 hnp⟩
      exact ctlInv_of_frame _ _ (frame_escapeKey _ c) h1
    · rename_i hm
      obtain ⟨p1, p2, p3⟩ := renMirrors_plotterPoll pins s h.1
      split_ifs
      · exact ctlInv_finish _ (ctlOk_plotterExit _ (by rw [p2]; exact h.2.1 hm))
      · exact ⟨p1, fun _ => by rw [p2]; exact h.2.1 hm,
          fun hn => by rw [p3] at hn; exact absurd hm hn⟩

theorem ctlInv_init (echoPin : Bool) : CtlInv (init echoPin) := by
  have f := frame_prompt
    { mode := Mode.edit, ledBlinking := 0, listenAddress := 21, msgEndSeq := 0,
      remoteState := 0, commandsHistory := List.replicate (BUF_SIZE * MAX_COMMANDS) 0,
      savedCommands := 0, selectedCommand := 0, listenMode := 0, listenMode_prev := 0,
      buf := List.replicate (BUF_SIZE + 4) 0, msgBuf := List.replicate (BUF_SIZE + 4) 0,
      gpibBuf := List.replicate GPIB_BUF_SIZE 0, bufPos := 0, cursorPos := 0,
      localEcho := if echoPin then 1 else 0, gpibIndex := 0, command := 0, msgLen := 0,
      msgEOI := 1,
      hw := SetLed 1 (ReconfigureGPIO_GPIBNormalMode 0
        { DDRA := 0, PORTA := 0, DDRC := 0, PORTC := 0, PORTD := 4, reads := 0,
          writes := [(Reg.PORTD, 4)] }),
      out := [] }
  refine ctlInv_of_frame _ _ f ?_
  refine ⟨?_, fun hp => Mode.noConfusion hp, fun _ => ?_⟩
  · unfold RenMirrors
    exact ⟨fun h0 => absurd h0 (by decide : ¬ ((255 : Nat) &&& REN = 0)), fun h0 => absurd rfl h0⟩
  · exact ⟨fun h0 => absurd rfl h0, fun _ => ⟨rfl, rfl⟩⟩

/-- The control invariant holds in every state the command loop reaches. -/
theorem ctlInv_run (pins : Pins) (echoPin : Bool) (evs : List Event) :
    CtlInv (run pins (init echoPin) evs) := by
  have hrun : ∀ (l : List Event) (s : State), CtlInv s → CtlInv (run pins s l) := by
    intro l
    induction l with
    | nil => intro s h; exact h
    | cons ev rest ih => intro s h; exact ih _ (ctlInv_step pins s ev h)
  exact hrun evs _ (ctlInv_init echoPin)

set_option maxRecDepth 100000 in
/-- C21: in every state the command loop reaches, whatever was typed and
whatever the bus did, the `REN` bit of `PORTC` is low exactly when `remoteState`
is set; and each of the two role configurations, run under a flag that `REN`
mirrors, leaves the `REN` bit as it was.  The `R` command does set the flag and
lower the line. -/
theorem ren_mirrors_remote (pins : Pins) (echoPin : Bool) (evs : List Event) :
    ((run pins (init echoPin) evs).hw.PORTC &&& REN = 0 ↔
      (run pins (init echoPin) evs).remoteState ≠ 0) ∧
    (∀ (r : Nat) (h : Hw), (h.PORTC &&& REN = 0 ↔ r ≠ 0) →
      ((ReconfigureGPIO_GPIBReceiveMode r h).PORTC &&& REN = 0 ↔ h.PORTC &&& REN = 0) ∧
      ((ReconfigureGPIO_GPIBNormalMode r h).PORTC &&& REN = 0 ↔ h.PORTC &&& REN = 0)) ∧
    ((run highPins (init false) (typed "R\r")).remoteState = 1 ∧
      (run highPins (init false) (typed "R\r")).hw.PORTC &&& REN = 0 ∧
      (run highPins (init false) (typed "R\rL\r")).remoteState = 0 ∧
      (run highPins (init false) (typed "R\rL\r")).hw.PORTC &&& REN ≠ 0) := by
  refine ⟨(ctlInv_run pins echoPin evs).1, fun r h hr => ?_, by decide⟩
  exact ⟨(reconfigure_ren r h).2.trans hr.symm, (reconfigure_ren r h).1.trans hr.symm⟩

/-- C24: in every state the command loop reaches at the prompt (outside the
polling loop of the `P` handler), the ports are in the Receive direction
(`DDRA = 0`, `NRFD` and `NDAC` outputs) exactly when the listen-mode flag is
set, and in the Normal direction (`DDRA = 0xff`, `EOI` and `DAV` outputs)
exactly when it is clear. -/
theorem role_tracks_listen_mode (pins : Pins) (echoPin : Bool) (evs : List Event)
    (hm : (run pins (init echoPin) evs).mode ≠ Mode.plotter) :
    ((run pins (init echoPin) evs).listenMode ≠ 0 ↔
      ((run pins (init echoPin) evs).hw.DDRA = 0 ∧
        (run pins (init echoPin) evs).hw.DDRC = (IFC ||| ATN ||| REN ||| NRFD ||| NDAC))) ∧
    ((run pins (init echoPin) evs).listenMode = 0 ↔
      ((run pins (init echoPin) evs).hw.DDRA = 255 ∧
        (run pins (init echoPin) evs).hw.DDRC = (IFC ||| ATN ||| REN ||| EOI ||| DAV))) := by
  obtain ⟨h1, h2⟩ := (ctlInv_run pins echoPin evs).2.2 hm
  constructor
  · refine ⟨h1, fun hr hl => ?_⟩
    have := (h2 hl).1
    rw [hr.1] at this
    exact absurd this (by decide)
  · refine ⟨h2, fun hr => ?_⟩
    by_contra hl
    have := (h1 hl).1
    rw [hr.1] at this
    exact absurd this (by decide)

set_option maxRecDepth 100000 in
/-- Witness for C24: after the line `C5` at address 21 the converter is at the
prompt in listen mode, in the Receive direction. -/
theorem role_tracks_listen_mode_witness :
    ((run highPins (init false) (typed "C5\r")).mode ≠ Mode.plotter) ∧
    (((run highPins (init false) (typed "C5\r")).listenMode ≠ 0 ↔
      ((run highPins (init false) (typed "C5\r")).hw.DDRA = 0 ∧
        (run highPins (init false) (typed "C5\r")).hw.DDRC
          = (IFC ||| ATN ||| REN ||| NRFD ||| NDAC))) ∧
    ((run highPins (init false) (typed "C5\r")).listenMode = 0 ↔
      ((run highPins (init false) (typed "C5\r")).hw.DDRA = 255 ∧
        (run highPins (init false) (typed "C5\r")).hw.DDRC
          = (IFC ||| ATN ||| REN ||| EOI ||| DAV)))) :=
  ⟨by decide, role_tracks_listen_mode highPins false (typed "C5\r") (by decide)⟩

/-! ## Termination of the bus operations -/

/-- A wait loop never uses up its fuel: more fuel gives the same result. -/
theorem waitPin_fuel (pins : Pins) (mask : Nat) (want : Bool) (bound f1 f2 reads timeout : Nat)
    (ht : timeout ≤ bound) (h1 : bound - timeout < f1) (h2 : bound - timeout < f2) :
    waitPin pins mask want bound f1 reads timeout = waitPin pins mask want bound f2 reads timeout := by
  rcases waitPin_cases pins mask want bound f1 reads timeout ht h1 with
    ⟨a, a1, a2, a3, a4⟩ | ⟨b1, b2⟩
  · rw [a4, waitPin_found pins mask want bound f2 reads timeout a a1 h2 a2 a3]
  · rw [b2, waitPin_giveup pins mask want bound f2 reads timeout ht h2 b1]

/-- A wait loop polls at least once and at most until its counter passes the
bound: the reads it makes are its failing polls and at most one more. -/
theorem waitPin_reads (pins : Pins) (mask : Nat) (want : Bool) (bound fuel reads timeout : Nat)
    (ht : timeout ≤ bound) (hf : bound - timeout < fuel) :
    timeout ≤ (waitPin pins mask want bound fuel reads timeout).2.2 ∧
    (waitPin pins mask want bound fuel reads timeout).2.2 ≤ bound + 1 ∧
    (waitPin pins mask want bound fuel reads timeout).2.1 ≤
      reads + ((waitPin pins mask want bound fuel reads timeout).2.2 - timeout) + 1 ∧
    reads ≤ (waitPin pins mask want bound fuel reads timeout).2.1 := by
  rcases waitPin_cases pins mask want bound fuel reads timeout ht hf with
    ⟨a, a1, _, _, a4⟩ | ⟨_, b2⟩
  · rw [a4]
    dsimp only
    omega
  · rw [b2]
    dsimp only
    omega

/-- One pass of a receive loop: at most `GPIB_MAX_RECEIVE_TIMEOUT + 1` failing
polls over both waits, and at most four more pin reads. -/
theorem rxPass_reads (pins : Pins) (withEoi : Bool) (hw : Hw) :
    (rxPass pins withEoi hw).timeout ≤ GPIB_MAX_RECEIVE_TIMEOUT + 1 ∧
    hw.reads ≤ (rxPass pins withEoi hw).hw.reads ∧
    (rxPass pins withEoi hw).hw.reads ≤ hw.reads + (rxPass pins withEoi hw).timeout + 4 := by
  have W1 := waitPin_reads pins DAV false GPIB_MAX_RECEIVE_TIMEOUT
    (GPIB_MAX_RECEIVE_TIMEOUT + 1) hw.reads 0 (Nat.zero_le _) (by omega)
  have T1 := waitPin_timeout pins DAV false GPIB_MAX_RECEIVE_TIMEOUT
    (GPIB_MAX_RECEIVE_TIMEOUT + 1) hw.reads 0 (Nat.zero_le _) (by omega)
  have W2 := fun (h : (waitPin pins DAV false GPIB_MAX_RECEIVE_TIMEOUT
      (GPIB_MAX_RECEIVE_TIMEOUT + 1) hw.reads 0).1 = true) (r : Nat) =>
    waitPin_reads pins DAV true GPIB_MAX_RECEIVE_TIMEOUT (GPIB_MAX_RECEIVE_TIMEOUT + 1) r
      (waitPin pins DAV false GPIB_MAX_RECEIVE_TIMEOUT
        (GPIB_MAX_RECEIVE_TIMEOUT + 1) hw.reads 0).2.2
      (T1.1 h) (by have := T1.1 h; omega)
  cases withEoi
  · unfold rxPass
    simp only [setBitC_high, setBitC_low, setPORTC, Bool.false_eq_true, if_false]
    generalize waitPin pins DAV false GPIB_MAX_RECEIVE_TIMEOUT
      (GPIB_MAX_RECEIVE_TIMEOUT + 1) hw.reads 0 = w1 at *
    split_ifs with c1 c2
    · dsimp only
      omega
    · have k := W2 (Bool.eq_true_of_not_eq_false c1) (w1.2.1 + 1)
      dsimp only
      omega
    · have k := W2 (Bool.eq_true_of_not_eq_false c1) (w1.2.1 + 1)
      dsimp only
      omega
  · unfold rxPass
    simp only [setBitC_high, setBitC_low, setPORTC, if_true]
    generalize waitPin pins DAV false GPIB_MAX_RECEIVE_TIMEOUT
      (GPIB_MAX_RECEIVE_TIMEOUT + 1) hw.reads 0 = w1 at *
    split_ifs with c1 c2
    · dsimp only
      omega
    · have k := W2 (Bool.eq_true_of_not_eq_false c1) (w1.2.1 + 1 + 1)
      dsimp only
      omega
    · have k := W2 (Bool.eq_true_of_not_eq_false c1) (w1.2.1 + 1 + 1)
      dsimp only
      omega

/-- One pass of the transmit loop: at most `GPIB_MAX_TRANSMIT_TIMEOUT + 1`
failing polls over both waits, and at most two more pin reads. -/
theorem txPass_reads (pins : Pins) (buf : List Nat) (off n eoi : Nat) (hw : Hw) (index : Nat) :
    (txPass pins buf off n eoi hw index).timeout ≤ GPIB_MAX_TRANSMIT_TIMEOUT + 1 ∧
    hw.reads ≤ (txPass pins buf off n eoi hw index).hw.reads ∧
    (txPass pins buf off n eoi hw index).hw.reads
      ≤ hw.reads + (txPass pins buf off n eoi hw index).timeout + 2 := by
  have W1 := waitPin_reads pins NRFD true GPIB_MAX_TRANSMIT_TIMEOUT
    (GPIB_MAX_TRANSMIT_TIMEOUT + 1) hw.reads 0 (Nat.zero_le _) (by omega)
  have T1 := waitPin_timeout pins NRFD true GPIB_MAX_TRANSMIT_TIMEOUT
    (GPIB_MAX_TRANSMIT_TIMEOUT + 1) hw.reads 0 (Nat.zero_le _) (by omega)
  have W2 := fun (h : (waitPin pins NRFD true GPIB_MAX_TRANSMIT_TIMEOUT
      (GPIB_MAX_TRANSMIT_TIMEOUT + 1) hw.reads 0).1 = true) (r : Nat) =>
    waitPin_reads pins NDAC true GPIB_MAX_TRANSMIT_TIMEOUT (GPIB_MAX_TRANSMIT_TIMEOUT + 1) r
      (waitPin pins NRFD true GPIB_MAX_TRANSMIT_TIMEOUT
        (GPIB_MAX_TRANSMIT_TIMEOUT + 1) hw.reads 0).2.2
      (T1.1 h) (by have := T1.1 h; omega)
  unfold txPass
  by_cases hc : index + 1 = n ∧ eoi ≠ 0
  · simp only [if_pos hc, setBitC_high, setBitC_low, setPORTA, setPORTC]
    generalize waitPin pins NRFD true GPIB_MAX_TRANSMIT_TIMEOUT
      (GPIB_MAX_TRANSMIT_TIMEOUT + 1) hw.reads 0 = w1 at *
    split_ifs with c1 c2
    · dsimp only
      omega
    · have k := W2 (Bool.eq_true_of_not_eq_false c1) w1.2.1
      dsimp only
      omega
    · have k := W2 (Bool.eq_true_of_not_eq_false c1) w1.2.1
      dsimp only
      omega
  · simp only [if_neg hc, setBitC_high, setBitC_low, setPORTA, setPORTC]
    generalize waitPin pins NRFD true GPIB_MAX_TRANSMIT_TIMEOUT
      (GPIB_MAX_TRANSMIT_TIMEOUT + 1) hw.reads 0 = w1 at *
    split_ifs with c1 c2
    · dsimp only
      omega
    · have k := W2 (Bool.eq_true_of_not_eq_false c1) w1.2.1
      dsimp only
      omega
    · have k := W2 (Bool.eq_true_of_not_eq_false c1) w1.2.1
      dsimp only
      omega

theorem txTrace_succ (pins : Pins) (buf : List Nat) (off n eoi fuel : Nat) (hw : Hw)
    (index : Nat) :
    txTrace pins buf off n eoi (fuel + 1) hw index =
      if (txPass pins buf off n eoi hw index).phase = 2 ∧ (index + 1) % 256 < n then
        txPass pins buf off n eoi hw index ::
          txTrace pins buf off n eoi fuel (txPass pins buf off n eoi hw index).hw
            ((index + 1) % 256)
      else [txPass pins buf off n eoi hw index] := by
  rw [txTrace]

/-- The loop of `GPIB_Transmit` started on byte `index < n` makes at most
`n - index` passes, whatever the fuel beyond that, and reads pins accordingly. -/
theorem tx_terminates (pins : Pins) (buf : List Nat) (off n eoi : Nat) (hn : n ≤ 255) :
    ∀ (fuel : Nat) (hw : Hw) (index : Nat), index < n → n ≤ index + fuel →
      (∀ fuel2, n ≤ index + fuel2 →
        GPIB_Transmit_loop pins buf off n eoi fuel2 hw index
          = GPIB_Transmit_loop pins buf off n eoi fuel hw index) ∧
      (txTrace pins buf off n eoi fuel hw index).length ≤ n - index ∧
      (∀ p, p ∈ txTrace pins buf off n eoi fuel hw index →
        p.timeout ≤ GPIB_MAX_TRANSMIT_TIMEOUT + 1) ∧
      hw.reads ≤ (GPIB_Transmit_loop pins buf off n eoi fuel hw index).2.reads ∧
      (GPIB_Transmit_loop pins buf off n eoi fuel hw index).2.reads ≤ hw.reads +
        (txTrace pins buf off n eoi fuel hw index).length * (GPIB_MAX_TRANSMIT_TIMEOUT + 3) := by
  intro fuel
  induction fuel with
  | zero => intro _ index h1 h2; omega
  | succ f ih =>
    intro hw index hi hfu
    obtain ⟨t1, t2, t3⟩ := txPass_reads pins buf off n eoi hw index
    have hi2 : (index + 1) % 256 = index + 1 := by omega
    rw [GPIB_Transmit_loop_succ, txTrace_succ, hi2]
    by_cases hp : (txPass pins buf off n eoi hw index).phase = 2
    · by_cases hlt : index + 1 < n
      · obtain ⟨q1, q2, q3, q4, q5⟩ := ih (txPass pins buf off n eoi hw index).hw (index + 1)
          hlt (by omega)
        rw [if_pos hp, if_pos hlt, if_pos ⟨hp, hlt⟩]
        refine ⟨fun fuel2 h2 => ?_, ?_, ?_, by omega, ?_⟩
        · obtain ⟨g, rfl⟩ : ∃ g, fuel2 = g + 1 := ⟨fuel2 - 1, by omega⟩
          rw [GPIB_Transmit_loop_succ, hi2, if_pos hp, if_pos hlt]
          exact q1 g (by omega)
        · rw [List.length_cons]; omega
        · intro p hpm
          rcases List.mem_cons.1 hpm with h | h
          · rw [h]; exact t1
          · exact q3 p h
        · rw [List.length_cons, Nat.succ_mul]
          omega
      · rw [if_pos hp, if_neg hlt, if_neg (fun h => hlt h.2)]
        refine ⟨fun fuel2 h2 => ?_, ?_, ?_, t2, ?_⟩
        · obtain ⟨g, rfl⟩ : ∃ g, fuel2 = g + 1 := ⟨fuel2 - 1, by omega⟩
          rw [GPIB_Transmit_loop_succ, hi2, if_pos hp, if_neg hlt]
        · rw [List.length_singleton]; omega
        · intro p hpm
          rw [List.mem_singleton.1 hpm]; exact t1
        · rw [List.length_singleton]
          dsimp only
          omega
    · rw [if_neg hp, if_neg (fun h => hp h.1)]
      refine ⟨fun fuel2 h2 => ?_, ?_, ?_, t2, ?_⟩
      · obtain ⟨g, rfl⟩ : ∃ g, fuel2 = g + 1 := ⟨fuel2 - 1, by omega⟩
        rw [GPIB_Transmit_loop_succ, if_neg hp]
      · rw [List.length_singleton]; omega
      · intro p hpm
        rw [List.mem_singleton.1 hpm]; exact t1
      · rw [List.length_singleton]
        dsimp only
        omega

/-- A loop made of receive passes, started on byte `index`, makes at most
`max (n - index) 1` passes, whatever the fuel beyond that, and reads pins
accordingly. -/
theorem rx_terminates (pins : Pins) (withEoi : Bool) (again : Nat → RxPass → Prop)
    [∀ i p, Decidable (again i p)] (n : Nat) (hn : n ≤ 255)
    (hag : ∀ i p, again i p → i < n)
    (L : Nat → Hw → List Nat → Nat → RecvResult)
    (hs : ∀ fuel hw buf index, L (fuel + 1) hw buf index =
      if (rxPass pins withEoi hw).phase = 0 then
        ⟨0, buf, index, (rxPass pins withEoi hw).hw⟩
      else if (rxPass pins withEoi hw).phase = 1 then
        ⟨0, wr buf index (rxPass pins withEoi hw).c, (index + 1) % 256,
          (rxPass pins withEoi hw).hw⟩
      else if again ((index + 1) % 256) (rxPass pins withEoi hw) then
        L fuel (rxPass pins withEoi hw).hw (wr buf index (rxPass pins withEoi hw).c)
          ((index + 1) % 256)
      else
        ⟨255, wr buf index (rxPass pins withEoi hw).c, (index + 1) % 256,
          (rxPass pins withEoi hw).hw⟩) :
    ∀ (fuel : Nat) (hw : Hw) (buf : List Nat) (index : Nat),
      index < 255 → n ≤ index + fuel → 1 ≤ fuel →
      (∀ fuel2, n ≤ index + fuel2 → 1 ≤ fuel2 → L fuel2 hw buf index = L fuel hw buf index) ∧
      (rxTrace pins withEoi again fuel hw index).length ≤ max (n - index) 1 ∧
      (∀ p, p ∈ rxTrace pins withEoi again fuel hw index →
        p.timeout ≤ GPIB_MAX_RECEIVE_TIMEOUT + 1) ∧
      hw.reads ≤ (L fuel hw buf index).hw.reads ∧
      (L fuel hw buf index).hw.reads ≤ hw.reads +
        (rxTrace pins withEoi again fuel hw index).length * (GPIB_MAX_RECEIVE_TIMEOUT + 5) := by
  intro fuel
  induction fuel with
  | zero => intro _ _ _ _ _ h; omega
  | succ f ih =>
    intro hw buf index hi hfu _
    obtain ⟨t1, t2, t3⟩ := rxPass_reads pins withEoi hw
    obtain ⟨ph, _, _⟩ := rxPass_timeout pins withEoi hw
    have hi2 : (index + 1) % 256 = index + 1 := by omega
    have single : ∀ (R : RecvResult), R.hw = (rxPass pins withEoi hw).hw →
        ([rxPass pins withEoi hw].length ≤ max (n - index) 1 ∧
        (∀ p, p ∈ [rxPass pins withEoi hw] → p.timeout ≤ GPIB_MAX_RECEIVE_TIMEOUT + 1) ∧
        hw.reads ≤ R.hw.reads ∧
        R.hw.reads ≤ hw.reads +
          [rxPass pins withEoi hw].length * (GPIB_MAX_RECEIVE_TIMEOUT + 5)) := by
      intro R hR
      refine ⟨by rw [List.length_singleton]; omega, fun p hpm => ?_, by rw [hR]; exact t2, ?_⟩
      · rw [List.mem_singleton.1 hpm]; exact t1
      · rw [hR, List.length_singleton]
        omega
    rw [hs, rxTrace_succ, hi2]
    by_cases h0 : (rxPass pins withEoi hw).phase = 0
    · rw [if_pos h0, if_neg (fun h => by rw [h0] at h; exact absurd h.1 (by decide))]
      refine ⟨fun fuel2 _ h2 => ?_, single _ rfl⟩
      obtain ⟨g, rfl⟩ : ∃ g, fuel2 = g + 1 := ⟨fuel2 - 1, by omega⟩
      rw [hs, if_pos h0]
    · rw [if_neg h0]
      by_cases h1 : (rxPass pins withEoi hw).phase = 1
      · rw [if_pos h1, if_neg (fun h => by rw [h1] at h; exact absurd h.1 (by decide))]
        refine ⟨fun fuel2 _ h2 => ?_, single _ rfl⟩
        obtain ⟨g, rfl⟩ : ∃ g, fuel2 = g + 1 := ⟨fuel2 - 1, by omega⟩
        rw [hs, hi2, if_neg h0, if_pos h1]
      · rw [if_neg h1]
        have h2 : (rxPass pins withEoi hw).phase = 2 := by
          rcases ph with h | h | h
          · exact absurd h h0
          · exact absurd h h1
          · exact h
        by_cases hg : again (index + 1) (rxPass pins withEoi hw)
        · have hlt := hag _ _ hg
          obtain ⟨q1, q2, q3, q4, q5⟩ := ih (rxPass pins withEoi hw).hw
            (wr buf index (rxPass pins withEoi hw).c) (index + 1) (by omega) (by omega) (by omega)
          rw [if_pos hg, if_pos ⟨h2, hg⟩]
          refine ⟨fun fuel2 hf2 _ => ?_, ?_, ?_, by omega, ?_⟩
          · obtain ⟨g, rfl⟩ : ∃ g, fuel2 = g + 1 := ⟨fuel2 - 1, by omega⟩
            rw [hs, hi2, if_neg h0, if_neg h1, if_pos hg]
            exact q1 g (by omega) (by omega)
          · rw [List.length_cons]; omega
          · intro p hpm
            rcases List.mem_cons.1 hpm with h | h
            · rw [h]; exact t1
            · exact q3 p h
          · rw [List.length_cons, Nat.succ_mul]
            omega
        · rw [if_neg hg, if_neg (fun h => hg h.2)]
          refine ⟨fun fuel2 _ hf2 => ?_, single _ rfl⟩
          obtain ⟨g, rfl⟩ : ∃ g, fuel2 = g + 1 := ⟨fuel2 - 1, by omega⟩
          rw [hs, hi2, if_neg h0, if_neg h1, if_neg hg]

theorem pollBound_of (bound extra cap reads0 reads1 len : Nat) (timeouts : List Nat)
    (h0 : timeouts.length = len) (h1 : len ≤ cap) (h2 : ∀ t, t ∈ timeouts → t ≤ bound + 1)
    (h3 : reads0 ≤ reads1) (h4 : reads1 ≤ reads0 + len * (bound + extra)) :
    PollBound bound extra cap reads0 reads1 timeouts := by
  refine ⟨by omega, h2, h3, ?_⟩
  have := Nat.mul_le_mul_right (bound + extra) h1
  omega

/-- C22: every bus operation returns after a bounded number of pin polls,
whatever the pins do.  No wait loop and no transfer loop of the model runs out
of fuel (more fuel gives the same result); each pass of a transfer loop (one
byte) has at most 50001 failing polls over its two wait loops; the receive
functions make at most `max n 1` passes and `GPIB_Transmit` at most `n`, which
bounds the pin reads of a call. -/
theorem bus_operations_terminate (pins : Pins) (hw : Hw) (buf : List Nat) (off n eoi : Nat)
    (hn : n ≤ 255) :
    (∀ mask want bound reads timeout fuel, timeout ≤ bound → bound - timeout < fuel →
      waitPin pins mask want bound fuel reads timeout
        = waitPin pins mask want bound (bound + 1) reads timeout) ∧
    ((∀ fuel, n + 1 ≤ fuel → GPIB_Receive_loop pins n fuel hw buf 0 = GPIB_Receive pins hw buf n) ∧
      PollBound GPIB_MAX_RECEIVE_TIMEOUT 5 (max n 1) hw.reads (GPIB_Receive pins hw buf n).hw.reads
        ((rxTrace pins false (fun i _ => i < n) (n + 1) hw 0).map (fun p => p.timeout))) ∧
    ((∀ fuel, n + 1 ≤ fuel →
        GPIB_Receive_till_eoi_loop pins n fuel hw buf 0 0 = GPIB_Receive_till_eoi pins hw buf n) ∧
      PollBound GPIB_MAX_RECEIVE_TIMEOUT 5 (max n 1) hw.reads
        (GPIB_Receive_till_eoi pins hw buf n).hw.reads
        ((rxTrace pins true (fun i p => i < n ∧ p.eoiLow = false) (n + 1) hw 0).map
          (fun p => p.timeout))) ∧
    ((∀ fuel, n + 1 ≤ fuel →
        GPIB_Receive_till_lf_loop pins n fuel hw buf 0 = GPIB_Receive_till_lf pins hw buf n) ∧
      PollBound GPIB_MAX_RECEIVE_TIMEOUT 5 (max n 1) hw.reads
        (GPIB_Receive_till_lf pins hw buf n).hw.reads
        ((rxTrace pins false (fun i p => i < n ∧ p.c ≠ 10) (n + 1) hw 0).map
          (fun p => p.timeout))) ∧
    ((∀ fuel h0, 1 ≤ n → n ≤ fuel →
        GPIB_Transmit_loop pins buf off n eoi fuel h0 0
          = GPIB_Transmit_loop pins buf off n eoi n h0 0) ∧
      (∀ h0, 1 ≤ n →
        PollBound GPIB_MAX_TRANSMIT_TIMEOUT 3 n h0.reads
          (GPIB_Transmit_loop pins buf off n eoi n h0 0).2.reads
          ((txTrace pins buf off n eoi n h0 0).map (fun p => p.timeout))) ∧
      hw.reads ≤ (GPIB_Transmit pins hw buf off n eoi).2.reads ∧
      (GPIB_Transmit pins hw buf off n eoi).2.reads
        ≤ hw.reads + 2 + n * (GPIB_MAX_TRANSMIT_TIMEOUT + 3)) := by
  have r1 := rx_terminates pins false (fun i _ => i < n) n hn (fun _ _ h => h)
    (fun fuel hw buf index => GPIB_Receive_loop pins n fuel hw buf index)
    (fun fuel hw buf index => GPIB_Receive_loop_succ pins n fuel hw buf index)
    (n + 1) hw buf 0 (by omega) (by omega) (by omega)
  have r2 := rx_terminates pins true (fun i p => i < n ∧ p.eoiLow = false) n hn
    (fun _ _ h => h.1)
    (fun fuel hw buf index => GPIB_Receive_till_eoi_loop pins n fuel hw buf index 0)
    (fun fuel hw buf index => GPIB_Receive_till_eoi_loop_succ pins n fuel hw buf index)
    (n + 1) hw buf 0 (by omega) (by omega) (by omega)
  have r3 := rx_terminates pins false (fun i p => i < n ∧ p.c ≠ 10) n hn (fun _ _ h => h.1)
    (fun fuel hw buf index => GPIB_Receive_till_lf_loop pins n fuel hw buf index)
    (fun fuel hw buf index => GPIB_Receive_till_lf_loop_succ pins n fuel hw buf index)
    (n + 1) hw buf 0 (by omega) (by omega) (by omega)
  have tmap : ∀ (T : List RxPass), (∀ p, p ∈ T → p.timeout ≤ GPIB_MAX_RECEIVE_TIMEOUT + 1) →
      ∀ t, t ∈ T.map (fun p => p.timeout) → t ≤ GPIB_MAX_RECEIVE_TIMEOUT + 1 := by
    intro T hT t ht
    obtain ⟨p, hp, rfl⟩ := List.mem_map.1 ht
    exact hT p hp
  have tmap2 : ∀ (T : List TxPass), (∀ p, p ∈ T → p.timeout ≤ GPIB_MAX_TRANSMIT_TIMEOUT + 1) →
      ∀ t, t ∈ T.map (fun p => p.timeout) → t ≤ GPIB_MAX_TRANSMIT_TIMEOUT + 1 := by
    intro T hT t ht
    obtain ⟨p, hp, rfl⟩ := List.mem_map.1 ht
    exact hT p hp
  have tx : ∀ h0, 1 ≤ n →
      PollBound GPIB_MAX_TRANSMIT_TIMEOUT 3 n h0.reads
        (GPIB_Transmit_loop pins buf off n eoi n h0 0).2.reads
        ((txTrace pins buf off n eoi n h0 0).map (fun p => p.timeout)) := by
    intro h0 h1
    obtain ⟨_, q2, q3, q4, q5⟩ := tx_terminates pins buf off n eoi hn n h0 0 (by omega) (by omega)
    exact pollBound_of _ _ _ _ _ _ _ (List.length_map _ _) (by omega) (tmap2 _ q3) q4 q5
  refine ⟨fun mask want bound reads timeout fuel ht hf =>
      waitPin_fuel pins mask want bound fuel (bound + 1) reads timeout ht hf (by omega),
    ⟨fun fuel hf => r1.1 fuel (by omega) (by omega), ?_⟩,
    ⟨fun fuel hf => r2.1 fuel (by omega) (by omega), ?_⟩,
    ⟨fun fuel hf => r3.1 fuel (by omega) (by omega), ?_⟩,
    fun fuel h0 h1 hf => (tx_terminates pins buf off n eoi hn n h0 0 (by omega) (by omega)).1
      fuel (by omega), tx, ?_⟩
  · obtain ⟨_, q2, q3, q4, q5⟩ := r1
    rw [Nat.sub_zero] at q2
    exact pollBound_of _ _ _ _ _ _ _ (List.length_map _ _) q2 (tmap _ q3) q4 q5
  · obtain ⟨_, q2, q3, q4, q5⟩ := r2
    rw [Nat.sub_zero] at q2
    exact pollBound_of _ _ _ _ _ _ _ (List.length_map _ _) q2 (tmap _ q3) q4 q5
  · obtain ⟨_, q2, q3, q4, q5⟩ := r3
    rw [Nat.sub_zero] at q2
    exact pollBound_of _ _ _ _ _ _ _ (List.length_map _ _) q2 (tmap _ q3) q4 q5
  · unfold GPIB_Transmit
    by_cases h0 : n = 0
    · rw [if_pos h0]
      exact ⟨Nat.le_refl _, by dsimp only; omega⟩
    · rw [if_neg h0]
      have t1 := tx { hw with reads := hw.reads + 1 } (by omega)
      have t2 := tx { hw with reads := hw.reads + 2 } (by omega)
      obtain ⟨_, _, a3, a4⟩ := t1
      obtain ⟨_, _, b3, b4⟩ := t2
      dsimp only at a3 a4 b3 b4
      split_ifs
      · dsimp only
        omega
      · omega
      · omega

/-- Witness for C22: capacity 2 on a bus whose lines all read low. -/
theorem bus_operations_terminate_witness :
    (2 ≤ 255) ∧
    ((∀ mask want bound reads timeout fuel, timeout ≤ bound → bound - timeout < fuel →
      waitPin idlePins mask want bound fuel reads timeout
        = waitPin idlePins mask want bound (bound + 1) reads timeout) ∧
    ((∀ fuel, 2 + 1 ≤ fuel → GPIB_Receive_loop idlePins 2 fuel (init false).hw (bytes "AB") 0
        = GPIB_Receive idlePins (init false).hw (bytes "AB") 2) ∧
      PollBound GPIB_MAX_RECEIVE_TIMEOUT 5 (max 2 1) (init false).hw.reads
        (GPIB_Receive idlePins (init false).hw (bytes "AB") 2).hw.reads
        ((rxTrace idlePins false (fun i _ => i < 2) (2 + 1) (init false).hw 0).map
          (fun p => p.timeout))) ∧
    ((∀ fuel, 2 + 1 ≤ fuel →
        GPIB_Receive_till_eoi_loop idlePins 2 fuel (init false).hw (bytes "AB") 0 0
          = GPIB_Receive_till_eoi idlePins (init false).hw (bytes "AB") 2) ∧
      PollBound GPIB_MAX_RECEIVE_TIMEOUT 5 (max 2 1) (init false).hw.reads
        (GPIB_Receive_till_eoi idlePins (init false).hw (bytes "AB") 2).hw.reads
        ((rxTrace idlePins true (fun i p => i < 2 ∧ p.eoiLow = false) (2 + 1) (init false).hw 0).map
          (fun p => p.timeout))) ∧
    ((∀ fuel, 2 + 1 ≤ fuel →
        GPIB_Receive_till_lf_loop idlePins 2 fuel (init false).hw (bytes "AB") 0
          = GPIB_Receive_till_lf idlePins (init false).hw (bytes "AB") 2) ∧
      PollBound GPIB_MAX_RECEIVE_TIMEOUT 5 (max 2 1) (init false).hw.reads
        (GPIB_Receive_till_lf idlePins (init false).hw (bytes "AB") 2).hw.reads
        ((rxTrace idlePins false (fun i p => i < 2 ∧ p.c ≠ 10) (2 + 1) (init false).hw 0).map
          (fun p => p.timeout))) ∧
    ((∀ fuel h0, 1 ≤ 2 → 2 ≤ fuel →
        GPIB_Transmit_loop idlePins (bytes "AB") 0 2 1 fuel h0 0
          = GPIB_Transmit_loop idlePins (bytes "AB") 0 2 1 2 h0 0) ∧
      (∀ h0, 1 ≤ 2 →
        PollBound GPIB_MAX_TRANSMIT_TIMEOUT 3 2 h0.reads
          (GPIB_Transmit_loop idlePins (bytes "AB") 0 2 1 2 h0 0).2.reads
          ((txTrace idlePins (bytes "AB") 0 2 1 2 h0 0).map (fun p => p.timeout))) ∧
      (init false).hw.reads ≤ (GPIB_Transmit idlePins (init false).hw (bytes "AB") 0 2 1).2.reads ∧
      (GPIB_Transmit idlePins (init false).hw (bytes "AB") 0 2 1).2.reads
        ≤ (init false).hw.reads + 2 + 2 * (GPIB_MAX_TRANSMIT_TIMEOUT + 3))) :=
  ⟨by decide, bus_operations_terminate idlePins (init false).hw (bytes "AB") 0 2 1 (by decide)⟩

/-! ## Array accesses stay in bounds -/

theorem allIn_nil : AllIn [] := fun _ h => absurd h (List.not_mem_nil _)

theorem allIn_append {l1 l2 : List (Arr × Int)} (h1 : AllIn l1) (h2 : AllIn l2) :
    AllIn (l1 ++ l2) := by
  intro x hx
  rcases List.mem_append.1 hx with h | h
  · exact h1 x h
  · exact h2 x h

theorem allIn_cons {x : Arr × Int} {l : List (Arr × Int)} (hx : InBounds x) (hl : AllIn l) :
    AllIn (x :: l) := by
  intro y hy
  rcases List.mem_cons.1 hy with h | h
  · rw [h]; exact hx
  · exact hl y h

theorem inBounds_cell (a : Arr) (i : Nat) (h : i < a.size) : InBounds (cell a i) := by
  unfold InBounds cell
  dsimp only
  omega

theorem inBounds_buf (i : Int) (h0 : 0 ≤ i) (h : i < 68) : InBounds (Arr.buf, i) := by
  unfold InBounds
  simp only [Arr.size, BUF_SIZE]
  omega

theorem allIn_span (a : Arr) (lo n : Nat) (h : lo + n ≤ a.size) : AllIn (span a lo n) := by
  intro x hx
  unfold span at hx
  obtain ⟨j, hj, rfl⟩ := List.mem_map.1 hx
  exact inBounds_cell a _ (by have := List.mem_range.1 hj; omega)

theorem allIn_flatMap {α : Type} (l : List α) (f : α → List (Arr × Int))
    (h : ∀ i, i ∈ l → AllIn (f i)) : AllIn (l.flatMap f) := by
  intro x hx
  obtain ⟨i, hi, hxi⟩ := List.mem_flatMap.1 hx
  exact h i hi x hxi

theorem size_buf : Arr.buf.size = 68 := rfl
theorem size_msgBuf : Arr.msgBuf.size = 68 := rfl
theorem size_gpibBuf : Arr.gpibBuf.size = 128 := rfl
theorem size_commandsHistory : Arr.commandsHistory.size = 960 := rfl

/-- A NUL at `l[start + j]` keeps a string scan from `start` inside the array
when `start + j` is an index of it. -/
theorem allIn_strAcc (a : Arr) (l : List Nat) (start j : Nat) (hz : rd l (start + j) = 0)
    (h : start + j < a.size) : AllIn (strAcc a l start) := by
  have := strlen_le_of_rd_zero l j start hz
  exact allIn_span a _ _ (by omega)

theorem allIn_memmoveAcc (dst : Arr) (d : Nat) (src : Arr) (s n : Nat)
    (hd : d + n ≤ dst.size) (hs : s + n ≤ src.size) : AllIn (memmoveAcc dst d src s n) :=
  allIn_append (allIn_span _ _ _ hs) (allIn_span _ _ _ hd)

theorem strcmpReads_nil_right (l : List Nat) : strcmpReads l [] = 1 := by
  cases l <;> rfl

/-- A NUL at `lb[k + j]` ends the comparison after at most `j + 1` pairs. -/
theorem strcmpReads_le (la lb : List Nat) :
    ∀ (j i k : Nat), rd lb (k + j) = 0 → strcmpReads (la.drop i) (lb.drop k) ≤ j + 1 := by
  intro j
  induction j with
  | zero =>
    intro i k h
    by_cases hk : k < lb.length
    · by_cases hi : i < la.length
      · rw [List.drop_eq_getElem_cons hi, List.drop_eq_getElem_cons hk]
        have e : lb[k] = 0 := by
          unfold rd at h
          rw [Nat.add_zero, List.getD_eq_getElem?_getD, List.getElem?_eq_getElem hk] at h
          simpa using h
        unfold strcmpReads
        rw [if_neg]
        rw [e]
        intro hc
        exact hc.2 hc.1
      · rw [List.drop_eq_nil_of_le (Nat.le_of_not_lt hi)]
        unfold strcmpReads
        exact le_refl _
    · rw [List.drop_eq_nil_of_le (Nat.le_of_not_lt hk), strcmpReads_nil_right]
  | succ m ih =>
    intro i k h
    by_cases hk : k < lb.length
    · by_cases hi : i < la.length
      · rw [List.drop_eq_getElem_cons hi, List.drop_eq_getElem_cons hk]
        unfold strcmpReads
        split
        · have := ih (i + 1) (k + 1) (by rw [← h]; congr 1; omega)
          omega
        · omega
      · rw [List.drop_eq_nil_of_le (Nat.le_of_not_lt hi)]
        unfold strcmpReads
        omega
    · rw [List.drop_eq_nil_of_le (Nat.le_of_not_lt hk), strcmpReads_nil_right]
      omega

theorem allIn_strcmpAcc (a : Arr) (la : List Nat) (i : Nat) (b : Arr) (lb : List Nat)
    (k j : Nat) (hz : rd lb (k + j) = 0) (ha : i + j < a.size) (hb : k + j < b.size) :
    AllIn (strcmpAcc a la i b lb k) := by
  have := strcmpReads_le la lb j i k hz
  exact allIn_append (allIn_span _ _ _ (by omega)) (allIn_span _ _ _ (by omega))

/-- A NUL at `l[start + j]` ends the digits from `start` on after at most `j`. -/
theorem digitRun_le (l : List Nat) :
    ∀ (j start : Nat), rd l (start + j) = 0 → digitRun (l.drop start) ≤ j := by
  intro j
  induction j with
  | zero =>
    intro start h
    by_cases hs : start < l.length
    · rw [List.drop_eq_getElem_cons hs]
      have e : l[start] = 0 := by
        unfold rd at h
        rw [Nat.add_zero, List.getD_eq_getElem?_getD, List.getElem?_eq_getElem hs] at h
        simpa using h
      unfold digitRun
      rw [e, if_neg (by decide)]
    · rw [List.drop_eq_nil_of_le (Nat.le_of_not_lt hs)]
      unfold digitRun
      exact le_refl _
  | succ m ih =>
    intro start h
    by_cases hs : start < l.length
    · rw [List.drop_eq_getElem_cons hs]
      unfold digitRun
      split
      · have := ih (start + 1) (by rw [← h]; congr 1; omega)
        omega
      · omega
    · rw [List.drop_eq_nil_of_le (Nat.le_of_not_lt hs)]
      unfold digitRun
      omega

/-- The scan of `atoi` from a digit on: the digits and the byte after them. -/
theorem atoiReads_of_digit (l : List Nat) (start : Nat) (hs : start < l.length)
    (hd : isdigit (rd l start) = true) :
    atoiReads (l.drop start) = digitRun (l.drop start) + 1 := by
  have e : rd l start = l[start] := by
    unfold rd
    rw [List.getD_eq_getElem?_getD, List.getElem?_eq_getElem hs]
    rfl
  rw [e] at hd
  rw [List.drop_eq_getElem_cons hs]
  unfold isdigit at hd
  simp only [Bool.and_eq_true, decide_eq_true_eq] at hd
  unfold atoiReads
  rw [if_neg (by omega), if_neg (by omega)]

theorem allIn_GPIB_TransmitAcc (pins : Pins) (hw : Hw) (a : Arr) (buf : List Nat)
    (off n eoi : Nat) (hn : n ≤ 255) (h : off + n ≤ a.size) :
    AllIn (GPIB_TransmitAcc pins hw a buf off n eoi) := by
  unfold GPIB_TransmitAcc
  by_cases n0 : n = 0
  · rw [if_pos n0]; exact allIn_nil
  rw [if_neg n0]
  have key : ∀ hw2 : Hw, AllIn (span a off (txTrace pins buf off n eoi n hw2 0).length) := by
    intro hw2
    have := (tx_terminates pins buf off n eoi hn n hw2 0 (by omega) (by omega)).2.1
    exact allIn_span _ _ _ (by omega)
  split
  · split
    · exact allIn_nil
    · exact key _
  · exact key _

/-- A loop made of receive passes stores at most `m` bytes when it starts below
`m` and runs while the index is below `bufLength ≤ m`; the buffer keeps its
length. -/
theorem rx_bounds (pins : Pins) (withEoi : Bool) (again : Nat → RxPass → Prop)
    [∀ i p, Decidable (again i p)] (n m : Nat) (hnm : n ≤ m) (hm : m ≤ 255)
    (hag : ∀ i p, again i p → i < n)
    (L : Nat → Hw → List Nat → Nat → RecvResult)
    (hs : ∀ fuel hw buf index, L (fuel + 1) hw buf index =
      if (rxPass pins withEoi hw).phase = 0 then
        ⟨0, buf, index, (rxPass pins withEoi hw).hw⟩
      else if (rxPass pins withEoi hw).phase = 1 then
        ⟨0, wr buf index (rxPass pins withEoi hw).c, (index + 1) % 256,
          (rxPass pins withEoi hw).hw⟩
      else if again ((index + 1) % 256) (rxPass pins withEoi hw) then
        L fuel (rxPass pins withEoi hw).hw (wr buf index (rxPass pins withEoi hw).c)
          ((index + 1) % 256)
      else
        ⟨255, wr buf index (rxPass pins withEoi hw).c, (index + 1) % 256,
          (rxPass pins withEoi hw).hw⟩) :
    ∀ (fuel : Nat) (hw : Hw) (buf : List Nat) (index : Nat),
      index < m → n ≤ index + fuel → 1 ≤ fuel →
      (L fuel hw buf index).receivedLength ≤ m ∧
      (L fuel hw buf index).buf.length = buf.length := by
  intro fuel
  induction fuel with
  | zero => intro _ _ _ _ _ h; omega
  | succ f ih =>
    intro hw buf index hi hfu _
    have hi2 : (index + 1) % 256 = index + 1 := Nat.mod_eq_of_lt (by omega)
    rw [hs]
    by_cases p0 : (rxPass pins withEoi hw).phase = 0
    · rw [if_pos p0]; exact ⟨by dsimp only; omega, rfl⟩
    rw [if_neg p0]
    by_cases p1 : (rxPass pins withEoi hw).phase = 1
    · rw [if_pos p1]; exact ⟨by dsimp only; omega, length_wr _ _ _⟩
    rw [if_neg p1]
    by_cases ag : again ((index + 1) % 256) (rxPass pins withEoi hw)
    · rw [if_pos ag]
      have hlt := hag _ _ ag
      rw [hi2] at hlt ⊢
      have := ih (rxPass pins withEoi hw).hw (wr buf index (rxPass pins withEoi hw).c)
        (index + 1) (by omega) (by omega) (by omega)
      rw [length_wr] at this
      exact this
    · rw [if_neg ag]; exact ⟨by dsimp only; omega, length_wr _ _ _⟩

theorem GPIB_Receive_bounds (pins : Pins) (hw : Hw) (buf : List Nat) :
    (GPIB_Receive pins hw buf (GPIB_BUF_SIZE - 2)).receivedLength ≤ 126 ∧
    (GPIB_Receive pins hw buf (GPIB_BUF_SIZE - 2)).buf.length = buf.length := by
  unfold GPIB_Receive
  simp only [GPIB_BUF_SIZE, Nat.reduceSub, Nat.reduceAdd]
  exact rx_bounds pins false (fun i _ => i < 126) 126 126 (le_refl _) (by omega)
    (fun _ _ h => h) (GPIB_Receive_loop pins 126)
    (fun fuel hw buf index => GPIB_Receive_loop_succ pins 126 fuel hw buf index)
    127 hw buf 0 (by omega) (by omega) (by omega)

theorem GPIB_Receive_till_eoi_bounds (pins : Pins) (hw : Hw) (buf : List Nat) :
    (GPIB_Receive_till_eoi pins hw buf (GPIB_BUF_SIZE - 2)).receivedLength ≤ 126 ∧
    (GPIB_Receive_till_eoi pins hw buf (GPIB_BUF_SIZE - 2)).buf.length = buf.length := by
  unfold GPIB_Receive_till_eoi
  simp only [GPIB_BUF_SIZE, Nat.reduceSub, Nat.reduceAdd]
  exact rx_bounds pins true (fun i p => i < 126 ∧ p.eoiLow = false) 126 126 (le_refl _)
    (by omega) (fun _ _ h => h.1) (fun fuel hw buf index =>
      GPIB_Receive_till_eoi_loop pins 126 fuel hw buf index 0)
    (fun fuel hw buf index => GPIB_Receive_till_eoi_loop_succ pins 126 fuel hw buf index)
    127 hw buf 0 (by omega) (by omega) (by omega)

theorem allIn_backspaceAcc (s : State) (h : Inv s) : AllIn (backspaceAcc s) := by
  obtain ⟨h1, h2, h3, _⟩ := h
  unfold backspaceAcc
  by_cases c1 : s.bufPos > 0 ∧ s.cursorPos = s.bufPos
  · rw [if_pos c1]; exact allIn_nil
  rw [if_neg c1]
  by_cases c2 : s.bufPos > 0 ∧ s.cursorPos > 0
  · rw [if_pos c2]
    dsimp only
    have e1 : (s.bufPos + 255) % 256 = s.bufPos - 1 := by omega
    have e2 : (s.cursorPos + 255) % 256 = s.cursorPos - 1 := by omega
    rw [e1, e2]
    have hm : AllIn (memmoveAcc Arr.buf (s.cursorPos - 1) Arr.buf (s.cursorPos - 1 + 1)
        (s.bufPos - 1 - (s.cursorPos - 1))) :=
      allIn_memmoveAcc _ _ _ _ _ (by rw [size_buf]; omega) (by rw [size_buf]; omega)
    split
    · refine allIn_append hm (allIn_cons (inBounds_cell _ _ (by rw [size_buf]; omega)) ?_)
      refine allIn_strAcc _ _ _ (s.bufPos - 1 - (s.cursorPos - 1)) ?_ (by rw [size_buf]; omega)
      have e3 : s.cursorPos - 1 + (s.bufPos - 1 - (s.cursorPos - 1)) = s.bufPos - 1 := by omega
      rw [e3, rd_wr, if_pos ⟨rfl, by rw [length_memmove, h3]; omega⟩]
    · exact hm
  · rw [if_neg c2]; exact allIn_nil

theorem allIn_insertCharAcc (s : State) (c : Nat) (h : Inv s) : AllIn (insertCharAcc s c) := by
  obtain ⟨h1, h2, h3, _⟩ := h
  unfold insertCharAcc
  simp only [BUF_SIZE, Nat.reduceSub]
  by_cases c1 : s.bufPos < 63
  · rw [if_pos c1]
    by_cases c2 : s.cursorPos = s.bufPos
    · rw [if_pos c2]
      exact allIn_cons (inBounds_cell _ _ (by rw [size_buf]; omega)) allIn_nil
    · rw [if_neg c2]
      have e1 : (s.bufPos + 1) % 256 = s.bufPos + 1 := by omega
      have e2 : (s.cursorPos + 1) % 256 = s.cursorPos + 1 := by omega
      rw [e1, e2]
      have hm : AllIn (memmoveAcc Arr.buf (s.cursorPos + 1) Arr.buf s.cursorPos
          (s.bufPos - s.cursorPos) ++ [cell Arr.buf s.cursorPos, cell Arr.buf (s.bufPos + 1)]) :=
        allIn_append
          (allIn_memmoveAcc _ _ _ _ _ (by rw [size_buf]; omega) (by rw [size_buf]; omega))
          (allIn_cons (inBounds_cell _ _ (by rw [size_buf]; omega))
            (allIn_cons (inBounds_cell _ _ (by rw [size_buf]; omega)) allIn_nil))
      split
      · refine allIn_append hm ?_
        refine allIn_strAcc _ _ _ (s.bufPos - s.cursorPos) ?_ (by rw [size_buf]; omega)
        have e3 : s.cursorPos + 1 + (s.bufPos - s.cursorPos) = s.bufPos + 1 := by omega
        rw [e3, rd_wr, if_pos ⟨rfl, by rw [length_wr, length_memmove, h3]; omega⟩]
      · exact hm
  · rw [if_neg c1]; exact allIn_nil

theorem allIn_recallEntryAcc (s : State) (h3 : s.buf.length = 68) (h6b : s.selectedCommand < 15)
    (h7 : HistNul s.commandsHistory) : AllIn (recallEntryAcc s) := by
  obtain ⟨j, hj, hz⟩ := h7 s.selectedCommand h6b
  have hstr : AllIn (strAcc Arr.buf
      (memmove s.buf 0 s.commandsHistory (s.selectedCommand * BUF_SIZE) BUF_SIZE) 0) := by
    refine allIn_strAcc _ _ 0 j ?_ (by rw [size_buf]; omega)
    rw [rd_memmove _ _ _ _ _ _ (by omega), if_pos (by simp only [BUF_SIZE]; omega)]
    simp only [BUF_SIZE]
    have e : s.selectedCommand * 64 + (0 + j - 0) = s.selectedCommand * 64 + j := by omega
    rw [e]; exact hz
  unfold recallEntryAcc
  dsimp only
  refine allIn_append (allIn_append ?_ ?_) hstr
  · exact allIn_memmoveAcc _ _ _ _ _ (by rw [size_buf]; simp only [BUF_SIZE]; omega)
      (by rw [size_commandsHistory]; simp only [BUF_SIZE]; omega)
  · split
    · exact hstr
    · exact allIn_nil

theorem allIn_escapeKeyAcc (s : State) (k : Nat) (h : Inv s) : AllIn (escapeKeyAcc s k) := by
  obtain ⟨h1, h2, h3, h4, h5, h6, h7⟩ := h
  unfold escapeKeyAcc
  by_cases k1 : k = 0x41
  · rw [if_pos k1]
    exact allIn_recallEntryAcc _ h3 (by dsimp only; split <;> omega) h7
  rw [if_neg k1]
  by_cases k2 : k = 0x42
  · rw [if_pos k2]
    by_cases c1 : s.selectedCommand + 1 = s.savedCommands
    · rw [if_pos c1]; exact allIn_nil
    · rw [if_neg c1]
      by_cases c2 : s.selectedCommand + 1 < s.savedCommands
      · rw [if_pos c2]
        exact allIn_recallEntryAcc _ h3 (by dsimp only; omega) h7
      · rw [if_neg c2]; exact allIn_nil
  · rw [if_neg k2]; exact allIn_nil

theorem allIn_appendEndSeqAcc (s : State) (h : s.bufPos ≤ 63) : AllIn (appendEndSeqAcc s) := by
  unfold appendEndSeqAcc
  have e1 : (s.bufPos + 1) % 256 = s.bufPos + 1 := by omega
  rw [e1]
  have a1 : InBounds (cell Arr.buf s.bufPos) := inBounds_cell _ _ (by rw [size_buf]; omega)
  have a2 : InBounds (cell Arr.buf (s.bufPos + 1)) :=
    inBounds_cell _ _ (by rw [size_buf]; omega)
  split_ifs
  · exact allIn_cons a1 allIn_nil
  · exact allIn_cons a1 allIn_nil
  · exact allIn_cons a1 (allIn_cons a2 allIn_nil)
  · exact allIn_nil

theorem allIn_handleDataAcc (pins : Pins) (s : State) (eoi : Nat) (h0 : 1 ≤ s.bufPos)
    (h : s.bufPos ≤ 63) :
    AllIn (handleDataAcc pins s eoi) := by
  unfold handleDataAcc
  split
  · refine allIn_append (allIn_appendEndSeqAcc s h) ?_
    have f := (appendEndSeq_fields s h).1
    have := endSeqLen_le s
    exact allIn_GPIB_TransmitAcc _ _ _ _ _ _ _ (by omega) (by rw [size_buf]; omega)
  · exact allIn_nil

theorem foldl_keeps {α : Type} (p : State → α) (f : State → Nat → State)
    (hf : ∀ s i, p (f s i) = p s) : ∀ (l : List Nat) (s : State), p (l.foldl f s) = p s := by
  intro l
  induction l with
  | nil => intro s; rfl
  | cons a l ih => intro s; exact (ih (f s a)).trans (hf s a)

theorem scanToken_msgLen (s : State) (a b : Nat) : (scanToken s a b).msgLen = s.msgLen := by
  unfold scanToken
  split_ifs <;> rfl

theorem allIn_handleCAcc (pins : Pins) (s : State) (h0 : 1 ≤ s.bufPos) (h : s.bufPos ≤ 63) :
    AllIn (handleCAcc pins s) := by
  unfold handleCAcc
  dsimp only
  have h1 := sameLine_foldl (fun s i => scanToken s (rd s.buf i) (rd s.buf i))
    (fun s i => sameLine_scanToken s _ _) (List.range' 1 (s.bufPos - 1)) s
  generalize (List.foldl (fun s i => scanToken s (rd s.buf i) (rd s.buf i)) s
    (List.range' 1 (s.bufPos - 1))) = s1 at *
  have hb : s1.bufPos = s.bufPos := h1.2.1
  refine allIn_append (allIn_append ?_ (allIn_appendEndSeqAcc s1 (by omega))) ?_
  · intro x hx
    obtain ⟨i, hi, rfl⟩ := List.mem_map.1 hx
    have := List.mem_range'_1.1 hi
    exact inBounds_cell _ _ (by rw [size_buf]; omega)
  · have f := (appendEndSeq_fields s1 (by omega)).1
    have := endSeqLen_le s1
    exact allIn_GPIB_TransmitAcc _ _ _ _ _ _ _ (by omega) (by rw [size_buf]; omega)

theorem hexDigitsAcc_mem (buf : Int → Nat) (len : Nat) (hlen : len ≤ 255) :
    ∀ (fuel i : Nat) (e : Int), e ∈ hexDigitsAcc buf len fuel i → (i : Int) ≤ e ∧ e < len := by
  intro fuel
  induction fuel with
  | zero => intro i e he; exact absurd he (List.not_mem_nil _)
  | succ f ih =>
    intro i e he
    unfold hexDigitsAcc at he
    by_cases c : i < len
    · rw [if_pos c] at he
      rcases List.mem_cons.1 he with h | h
      · rw [h]; omega
      · by_cases d : ishexdigit (toupper (buf i)) = true
        · rw [if_pos d] at h
          have e1 : (i + 1) % 256 = i + 1 := by omega
          rw [e1] at h
          have := ih (i + 1) e h
          omega
        · rw [if_neg d] at h
          exact absurd h (List.not_mem_nil _)
    · rw [if_neg c] at he
      exact absurd he (List.not_mem_nil _)

theorem allIn_hexDecodeAcc (len : Nat) (hlen : len ≤ 62) :
    ∀ (fuel i k : Nat), k ≤ i →
      AllIn (hexDecodeAcc Arr.buf 1 Arr.msgBuf len fuel i k) := by
  intro fuel
  induction fuel with
  | zero => intro i k _; exact allIn_nil
  | succ f ih =>
    intro i k hk
    unfold hexDecodeAcc
    by_cases c : i < len
    · rw [if_pos c]
      have e1 : (i + 2) % 256 = i + 2 := by omega
      rw [e1]
      exact allIn_cons (inBounds_buf _ (by omega) (by omega))
        (allIn_cons (inBounds_buf _ (by omega) (by omega))
          (allIn_cons (inBounds_cell _ _ (by rw [size_msgBuf]; omega))
            (ih (i + 2) (k + 1) (by omega))))
    · rw [if_neg c]; exact allIn_nil

theorem allIn_CheckHexMsgAcc (buf : Int → Nat) (len : Nat) (hlen : len ≤ 62) :
    AllIn (CheckHexMsgAcc Arr.buf 1 Arr.msgBuf buf len) := by
  have hL : hexEffLen buf len = len ∨ hexEffLen buf len = (len + 255) % 256 := by
    unfold hexEffLen
    split
    · exact Or.inr rfl
    · exact Or.inl rfl
  have hr0 : AllIn ((Arr.buf, (1 : Int) + 1) ::
      (if toupper (buf 1) = 68 then [(Arr.buf, (1 : Int) + ((len : Int) - 1))] else [])) := by
    refine allIn_cons (inBounds_buf _ (by omega) (by omega)) ?_
    split
    · exact allIn_cons (inBounds_buf _ (by omega) (by omega)) allIn_nil
    · exact allIn_nil
  have hr1 : AllIn ((Arr.buf, (1 : Int) + 0) ::
      (if buf 0 = 48 then [(Arr.buf, (1 : Int) + 1)] else [])) := by
    refine allIn_cons (inBounds_buf _ (by omega) (by omega)) ?_
    split
    · exact allIn_cons (inBounds_buf _ (by omega) (by omega)) allIn_nil
    · exact allIn_nil
  unfold CheckHexMsgAcc
  dsimp only
  generalize hexEffLen buf len = L at *
  by_cases c1 : L % 2 = 1 ∨ L < 4
  · rw [if_pos c1]; exact hr0
  rw [if_neg c1]
  have hL2 : L ≤ 62 := by omega
  by_cases c2 : buf 0 ≠ 48 ∨ (toupper (buf 1) ≠ 67 ∧ toupper (buf 1) ≠ 68)
  · rw [if_pos c2]; exact allIn_append hr0 hr1
  rw [if_neg c2]
  have hr2 : AllIn ((hexDigitsAcc buf L L 2).map (fun i => (Arr.buf, (1 : Int) + i))) := by
    intro x hx
    obtain ⟨e, he, rfl⟩ := List.mem_map.1 hx
    have := hexDigitsAcc_mem buf L (by omega) L 2 e he
    exact inBounds_buf _ (by omega) (by omega)
  split
  · exact allIn_append (allIn_append hr0 hr1) hr2
  · exact allIn_append (allIn_append (allIn_append hr0 hr1) hr2)
      (allIn_hexDecodeAcc L hL2 L 2 0 (by omega))

/-- A message accepted from a line of at most 62 bytes after the command letter
has at most 30 bytes. -/
theorem CheckHexMsg_outputLen_le (buf : Int → Nat) (len : Nat) (hlen : len ≤ 62)
    (hr : (CheckHexMsg buf len).ret ≠ 0) : (CheckHexMsg buf len).outputLen ≤ 30 := by
  have hL : hexEffLen buf len = len ∨ hexEffLen buf len = (len + 255) % 256 := by
    unfold hexEffLen
    split
    · exact Or.inr rfl
    · exact Or.inl rfl
  rcases CheckHexMsg_cases buf len (by omega) with ⟨_, h0⟩ | ⟨⟨a1, a2, _⟩, _, _, h3⟩
  · exact absurd h0 hr
  · rw [h3]; omega

theorem allIn_handleTAcc (pins : Pins) (s : State) (h0 : 1 ≤ s.bufPos) (h : s.bufPos ≤ 63) :
    AllIn (handleTAcc pins s) := by
  have hlen : (s.bufPos + 255) % 256 ≤ 62 := by omega
  have hchk := allIn_CheckHexMsgAcc (fun i => rd s.buf (1 + i).toNat) _ hlen
  have hb2 : InBounds (cell Arr.buf 2) := inBounds_cell _ _ (by rw [size_buf]; omega)
  unfold handleTAcc
  dsimp only
  by_cases c1 : (CheckHexMsg (fun i => rd s.buf (1 + i).toNat) ((s.bufPos + 255) % 256)).ret ≠ 0
  · rw [if_pos c1]
    have hout := CheckHexMsg_outputLen_le _ _ hlen c1
    generalize CheckHexMsg (fun i => rd s.buf (1 + i).toNat) ((s.bufPos + 255) % 256) = r at *
    split
    · exact allIn_append hchk (allIn_cons hb2
        (allIn_GPIB_TransmitAcc _ _ _ _ _ _ _ (by omega) (by rw [size_msgBuf]; omega)))
    · refine allIn_append (allIn_append hchk (allIn_cons hb2 ?_)) ?_
      · refine allIn_flatMap _ _ ?_
        intro i hi
        have := List.mem_range.1 hi
        have a1 : InBounds (cell Arr.msgBuf i) :=
          inBounds_cell _ _ (by rw [size_msgBuf]; omega)
        have a2 : InBounds (cell Arr.buf i) := inBounds_cell _ _ (by rw [size_buf]; omega)
        unfold scanTokenTAcc
        split
        · exact allIn_cons a1 allIn_nil
        · exact allIn_cons a1 (allIn_cons a2 allIn_nil)
      · have e := foldl_keeps State.msgLen
          (fun s i => scanToken s (rd s.msgBuf i) (rd s.buf i))
          (fun s i => scanToken_msgLen s _ _) (List.range r.outputLen)
          { s with msgEOI := r.eoi,
                   msgBuf := memmove s.msgBuf 0 r.outputMsg 0 r.outputMsg.length,
                   msgLen := r.outputLen }
        refine allIn_GPIB_TransmitAcc _ _ _ _ _ _ _ ?_ ?_
        · rw [e]; dsimp only; omega
        · rw [e, size_msgBuf]; dsimp only; omega
  · rw [if_neg c1]; exact hchk

theorem allIn_plotterPollAcc (pins : Pins) (s : State) : AllIn (plotterPollAcc pins s) := by
  unfold plotterPollAcc
  dsimp only
  have hb := (GPIB_Receive_bounds pins s.hw s.gpibBuf).1
  have hsp : AllIn (span Arr.gpibBuf 0
      (GPIB_Receive pins s.hw s.gpibBuf (GPIB_BUF_SIZE - 2)).receivedLength) :=
    allIn_span _ _ _ (by rw [size_gpibBuf]; omega)
  refine allIn_append hsp ?_
  split
  · exact hsp
  · exact allIn_nil

theorem receiveMessage_bounds (pins : Pins) (s : State) :
    (receiveMessage pins s).gpibIndex ≤ 126 ∧
    (receiveMessage pins s).gpibBuf.length = s.gpibBuf.length := by
  unfold receiveMessage
  dsimp only
  split
  · exact GPIB_Receive_till_eoi_bounds pins _ _
  · exact GPIB_Receive_till_eoi_bounds pins _ _

theorem allIn_receiveMessageAcc (pins : Pins) (s : State) :
    AllIn (receiveMessageAcc pins s) := by
  have := (receiveMessage_bounds pins s).1
  exact allIn_span _ _ _ (by rw [size_gpibBuf]; omega)

theorem allIn_handleXAcc (pins : Pins) (s : State) (hg : s.gpibBuf.length = 128) :
    AllIn (handleXAcc pins s) := by
  unfold handleXAcc
  dsimp only
  obtain ⟨b1, b2⟩ := receiveMessage_bounds pins s
  refine allIn_append (allIn_receiveMessageAcc pins s) ?_
  split
  · refine allIn_cons (inBounds_cell _ _ (by rw [size_gpibBuf]; omega)) ?_
    refine allIn_strAcc _ _ 0 (receiveMessage pins s).gpibIndex ?_
      (by rw [size_gpibBuf]; omega)
    rw [Nat.zero_add, rd_wr, if_pos ⟨rfl, by rw [b2, hg]; omega⟩]
  · exact allIn_nil

theorem allIn_handleYZAcc (pins : Pins) (s : State) : AllIn (handleYZAcc pins s) :=
  allIn_append (allIn_receiveMessageAcc pins s) (allIn_receiveMessageAcc pins s)

theorem allIn_handleEQAcc (s : State) : AllIn (handleEQAcc s) := by
  unfold handleEQAcc
  split
  · exact allIn_cons (inBounds_cell _ _ (by rw [size_buf]; omega)) allIn_nil
  · exact allIn_nil

theorem allIn_handleHAcc (s : State) (h5 : s.savedCommands ≤ 15)
    (h7 : HistNul s.commandsHistory) : AllIn (handleHAcc s) := by
  unfold handleHAcc
  refine allIn_flatMap _ _ ?_
  intro i hi
  have hi2 := List.mem_range.1 hi
  obtain ⟨j, hj, hz⟩ := h7 i (by omega)
  exact allIn_strAcc _ _ _ j (by simp only [BUF_SIZE]; exact hz)
    (by rw [size_commandsHistory]; simp only [BUF_SIZE]; omega)

theorem allIn_handleAAcc (s : State) (h3 : s.buf.length = 68) (ht : rd s.buf 65 = 0) :
    AllIn (handleAAcc s) := by
  unfold handleAAcc
  split
  · refine allIn_cons (inBounds_cell _ _ (by rw [size_buf]; omega)) ?_
    by_cases d1 : isdigit (rd s.buf 1) = true
    · rw [if_pos d1]
      refine allIn_cons (inBounds_cell _ _ (by rw [size_buf]; omega)) ?_
      split
      · unfold atoiAcc
        rw [atoiReads_of_digit s.buf 1 (by omega) d1]
        have := digitRun_le s.buf 64 1 ht
        exact allIn_span _ _ _ (by rw [size_buf]; omega)
      · exact allIn_nil
    · rw [if_neg d1]; exact allIn_nil
  · exact allIn_nil

theorem allIn_saveHistoryAcc (s : State) (h2 : s.bufPos ≤ 63) (h3 : s.buf.length = 68)
    (h5 : s.savedCommands ≤ 15) : AllIn (saveHistoryAcc s) := by
  unfold saveHistoryAcc
  simp only [BUF_SIZE, MAX_COMMANDS]
  have hw : InBounds (cell Arr.buf s.bufPos) := inBounds_cell _ _ (by rw [size_buf]; omega)
  have hz : rd (wr s.buf s.bufPos 0) (0 + s.bufPos) = 0 := by
    rw [Nat.zero_add, rd_wr, if_pos ⟨rfl, by omega⟩]
  have hcmp : AllIn (if s.savedCommands > 0 then
      strcmpAcc Arr.commandsHistory s.commandsHistory ((s.savedCommands - 1) * 64)
        Arr.buf (wr s.buf s.bufPos 0) 0 else []) := by
    split
    · exact allIn_strcmpAcc _ _ _ _ _ 0 s.bufPos hz
        (by rw [size_commandsHistory]; omega) (by rw [size_buf]; omega)
    · exact allIn_nil
  split
  · split
    · exact allIn_cons hw hcmp
    · split
      · exact allIn_cons hw (allIn_append hcmp
          (allIn_memmoveAcc _ _ _ _ _ (by rw [size_commandsHistory]; omega)
            (by rw [size_buf]; omega)))
      · exact allIn_cons hw (allIn_append (allIn_append hcmp
          (allIn_memmoveAcc _ _ _ _ _ (by rw [size_commandsHistory]; omega)
            (by rw [size_commandsHistory]; omega)))
          (allIn_memmoveAcc _ _ _ _ _ (by rw [size_commandsHistory]; omega)
            (by rw [size_buf]; omega)))
  · exact allIn_nil

theorem allIn_finishAcc (s : State) (h : Inv s) : AllIn (finishAcc s) := by
  obtain ⟨_, h2, h3, _, h5, _⟩ := h
  unfold finishAcc
  exact allIn_append (allIn_saveHistoryAcc _ h2 h3 h5)
    (allIn_cons (inBounds_cell _ _ (by rw [size_buf]; omega)) allIn_nil)

theorem sameBufs_refl (s : State) : SameBufs s s := ⟨rfl, rfl⟩

theorem sameBufs_trans {s t u : State} (h1 : SameBufs s t) (h2 : SameBufs t u) :
    SameBufs s u := ⟨h2.1.trans h1.1, h2.2.trans h1.2⟩

theorem tail_of_sameBufs {s t : State} (h : Tail s) (hst : SameBufs s t) : Tail t := by
  unfold Tail at *
  rw [hst.1, hst.2]
  exact h

theorem sameBufs_puts (s : State) (l : List Nat) : SameBufs s (s.puts l) := ⟨rfl, rfl⟩

theorem sameBufs_put (s : State) (c : Nat) : SameBufs s (s.put c) := ⟨rfl, rfl⟩

theorem sameBufs_print (s : State) (l : String) : SameBufs s (s.print l) := ⟨rfl, rfl⟩

theorem sameBufs_reportTransmit (s : State) (r : Nat) : SameBufs s (reportTransmit s r) := by
  unfold reportTransmit
  split <;> exact ⟨rfl, rfl⟩

theorem sameBufs_scanToken (s : State) (a b : Nat) : SameBufs s (scanToken s a b) := by
  unfold scanToken
  split_ifs <;> exact ⟨rfl, rfl⟩

theorem sameBufs_foldl (f : State → Nat → State) (hf : ∀ s i, SameBufs s (f s i)) :
    ∀ (l : List Nat) (s : State), SameBufs s (l.foldl f s) := by
  intro l
  induction l with
  | nil => intro s; exact sameBufs_refl s
  | cons a l ih => intro s; exact sameBufs_trans (hf s a) (ih (f s a))

theorem sameBufs_transmitCommand (pins : Pins) (s : State) (b : List Nat) (off len : Nat) :
    SameBufs s (transmitCommand pins s b off len) := by
  refine ⟨?_, ?_⟩ <;> simp only [transmitCommand, reportTransmit_eq]

theorem sameBufs_roleByListenMode (s : State) : SameBufs s (roleByListenMode s) := by
  unfold roleByListenMode
  dsimp only
  split <;> exact ⟨rfl, rfl⟩

theorem sameBufs_trimEndSeq (s : State) : SameBufs s (trimEndSeq s) := by
  unfold trimEndSeq
  split_ifs <;> exact ⟨rfl, rfl⟩

theorem sameBufs_handleR (s : State) : SameBufs s (handleR s) := ⟨rfl, rfl⟩

theorem sameBufs_handleL (s : State) : SameBufs s (handleL s) := ⟨rfl, rfl⟩

theorem sameBufs_handleI (s : State) : SameBufs s (handleI s) := by
  unfold handleI
  dsimp only
  split <;> exact ⟨rfl, rfl⟩

theorem sameBufs_handleS (pins : Pins) (s : State) : SameBufs s (handleS pins s) :=
  ⟨rfl, rfl⟩

theorem sameBufs_plotterEnter (s : State) : SameBufs s (plotterEnter s) := ⟨rfl, rfl⟩

theorem sameBufs_plotterExit (s : State) : SameBufs s (plotterExit s) := ⟨rfl, rfl⟩

theorem sameBufs_restoreNormal (s : State) : SameBufs s (restoreNormal s) := by
  unfold restoreNormal
  split <;> exact ⟨rfl, rfl⟩

theorem sameBufs_ShowHelp (s : State) : SameBufs s (ShowHelp s) := ⟨rfl, rfl⟩

theorem sameBufs_handleE (s : State) : SameBufs s (handleE s) := by
  unfold handleE
  split_ifs <;> exact ⟨rfl, rfl⟩

theorem sameBufs_handleH (s : State) : SameBufs s (handleH s) := ⟨rfl, rfl⟩

theorem sameBufs_handleA (s : State) : SameBufs s (handleA s) := by
  unfold handleA
  dsimp only
  split_ifs <;> exact ⟨rfl, rfl⟩

theorem sameBufs_handleQ (s : State) : SameBufs s (handleQ s) := by
  unfold handleQ
  dsimp only
  split_ifs <;> exact ⟨rfl, rfl⟩

theorem sameBufs_handleT (pins : Pins) (s : State) : SameBufs s (handleT pins s) := by
  unfold handleT
  dsimp only
  split_ifs
  · exact sameBufs_trans ⟨rfl, rfl⟩ (sameBufs_reportTransmit _ _)
  · refine sameBufs_trans ?_ (sameBufs_roleByListenMode _)
    refine sameBufs_trans ?_ (sameBufs_transmitCommand _ _ _ _ _)
    refine sameBufs_trans ?_ (sameBufs_foldl _ (fun s i => sameBufs_scanToken _ _ _) _ _)
    exact ⟨rfl, rfl⟩
  · exact ⟨rfl, rfl⟩

theorem sameBufs_prompt (s : State) : SameBufs s (prompt s) := by
  unfold prompt
  dsimp only
  split <;> exact ⟨rfl, rfl⟩

theorem rd_wr_ne (a : List Nat) (i v j : Nat) (h : i ≠ j) : rd (wr a i v) j = rd a j := by
  rw [rd_wr, if_neg (fun c => h c.1)]

theorem rd_memmove_out (dst : List Nat) (d : Nat) (src : List Nat) (s n j : Nat)
    (hj : j < dst.length) (h : d + n ≤ j) : rd (memmove dst d src s n) j = rd dst j := by
  rw [rd_memmove _ _ _ _ _ _ hj, if_neg (by omega)]

theorem tail_appendEndSeq (s : State) (h : s.bufPos ≤ 63) (ht : Tail s) :
    Tail (appendEndSeq s) := by
  obtain ⟨t1, t2⟩ := ht
  unfold appendEndSeq Tail
  split_ifs <;> refine ⟨?_, t2⟩ <;> dsimp only
  · rw [rd_wr_ne _ _ _ _ (by omega)]; exact t1
  · rw [rd_wr_ne _ _ _ _ (by omega)]; exact t1
  · rw [rd_wr_ne _ _ _ _ (by omega), rd_wr_ne _ _ _ _ (by omega)]; exact t1
  · exact t1

theorem tail_handleData (pins : Pins) (s : State) (eoi : Nat) (h : s.bufPos ≤ 63)
    (ht : Tail s) : Tail (handleData pins s eoi) := by
  unfold handleData
  split
  · dsimp only
    refine tail_of_sameBufs (tail_appendEndSeq s h ht) ?_
    refine sameBufs_trans ?_ (sameBufs_trimEndSeq _)
    rw [reportTransmit_eq]
    exact ⟨rfl, rfl⟩
  · exact ht

theorem tail_handleC (pins : Pins) (s : State) (h : s.bufPos ≤ 63) (ht : Tail s) :
    Tail (handleC pins s) := by
  unfold handleC
  dsimp only
  have h1 := sameLine_foldl (fun s i => scanToken s (rd s.buf i) (rd s.buf i))
    (fun s i => sameLine_scanToken s _ _) (List.range' 1 (s.bufPos - 1)) s
  have h2 := sameBufs_foldl (fun s i => scanToken s (rd s.buf i) (rd s.buf i))
    (fun s i => sameBufs_scanToken s _ _) (List.range' 1 (s.bufPos - 1)) s
  generalize (List.foldl (fun s i => scanToken s (rd s.buf i) (rd s.buf i)) s
    (List.range' 1 (s.bufPos - 1))) = s1 at *
  have hb : s1.bufPos = s.bufPos := h1.2.1
  refine tail_of_sameBufs (tail_appendEndSeq s1 (by omega) (tail_of_sameBufs ht h2)) ?_
  exact sameBufs_trans (sameBufs_trans (sameBufs_transmitCommand _ _ _ _ _)
    (sameBufs_trimEndSeq _)) (sameBufs_roleByListenMode _)

theorem tail_plotterPoll (pins : Pins) (s : State) (ht : Tail s) :
    Tail (plotterPoll pins s) := by
  obtain ⟨t1, t2⟩ := ht
  have hb := (GPIB_Receive_bounds pins s.hw s.gpibBuf).2
  unfold plotterPoll State.puts Tail
  dsimp only
  split <;> exact ⟨t1, by dsimp only; rw [hb, t2]⟩

theorem tail_receiveMessage (pins : Pins) (s : State) (ht : Tail s) :
    Tail (receiveMessage pins s) := by
  obtain ⟨t1, t2⟩ := ht
  have hb := (receiveMessage_bounds pins s).2
  refine ⟨?_, by rw [hb, t2]⟩
  unfold receiveMessage
  dsimp only
  split <;> exact t1

theorem tail_handleX (pins : Pins) (s : State) (ht : Tail s) : Tail (handleX pins s) := by
  unfold handleX
  dsimp only
  refine tail_of_sameBufs ?_ (sameBufs_restoreNormal _)
  obtain ⟨t1, t2⟩ := tail_receiveMessage pins s ht
  split
  · exact ⟨t1, by unfold State.puts; dsimp only; rw [length_wr, t2]⟩
  · exact ⟨t1, t2⟩

theorem tail_handleY (pins : Pins) (s : State) (ht : Tail s) : Tail (handleY pins s) := by
  unfold handleY
  dsimp only
  exact tail_of_sameBufs (tail_receiveMessage pins s ht)
    (sameBufs_trans ⟨rfl, rfl⟩ (sameBufs_restoreNormal _))

theorem tail_handleZ (pins : Pins) (s : State) (ht : Tail s) : Tail (handleZ pins s) := by
  unfold handleZ
  dsimp only
  exact tail_of_sameBufs (tail_receiveMessage pins s ht)
    (sameBufs_trans ⟨rfl, rfl⟩ (sameBufs_restoreNormal _))

theorem tail_saveHistory (s : State) (h : s.bufPos ≤ 63) (ht : Tail s) :
    Tail (saveHistory s) := by
  obtain ⟨t1, t2⟩ := ht
  have hz : rd (wr s.buf s.bufPos 0) 65 = 0 := by
    rw [rd_wr_ne _ _ _ _ (by omega)]; exact t1
  unfold saveHistory Tail
  dsimp only
  split_ifs <;> first | exact ⟨hz, t2⟩ | exact ⟨t1, t2⟩

theorem tail_finish (s : State) (h : Inv s) (ht : Tail s) : Tail (finish s) := by
  unfold finish
  refine tail_of_sameBufs ?_ (sameBufs_prompt _)
  obtain ⟨t1, t2⟩ := tail_saveHistory { s with mode := Mode.edit } h.2.1 ht
  unfold resetLine Tail
  dsimp only
  exact ⟨by rw [rd_wr_ne _ _ _ _ (by omega)]; exact t1, t2⟩

theorem tail_backspace (s : State) (h : Inv s) (ht : Tail s) : Tail (backspace s) := by
  obtain ⟨h1, h2, h3, _⟩ := h
  obtain ⟨t1, t2⟩ := ht
  have hm : rd (memmove s.buf ((s.cursorPos + 255) % 256) s.buf ((s.cursorPos + 255) % 256 + 1)
      ((s.bufPos + 255) % 256 - (s.cursorPos + 255) % 256)) 65 = 0 := by
    rw [rd_memmove _ _ _ _ _ _ (by omega)]
    split
    · omega
    · exact t1
  unfold backspace State.puts State.put Tail
  dsimp only
  split_ifs <;> refine ⟨?_, t2⟩ <;> (try dsimp only) <;> try exact t1
  · rw [rd_wr_ne _ _ _ _ (by omega)]; exact hm
  · exact hm

theorem tail_insertChar (s : State) (c : Nat) (h : Inv s) (ht : Tail s) :
    Tail (insertChar s c) := by
  obtain ⟨h1, h2, h3, _⟩ := h
  obtain ⟨t1, t2⟩ := ht
  unfold insertChar State.puts State.put Tail
  simp only [BUF_SIZE, Nat.reduceSub]
  by_cases c1 : s.bufPos < 63
  · rw [if_pos c1]
    have hm : rd (memmove s.buf (s.cursorPos + 1) s.buf s.cursorPos
        (s.bufPos - s.cursorPos)) 65 = 0 := by
      rw [rd_memmove_out _ _ _ _ _ _ (by omega) (by omega)]; exact t1
    split_ifs <;> refine ⟨?_, t2⟩ <;> (try dsimp only) <;>
      first
      | (rw [rd_wr_ne _ _ _ _ (by omega), rd_wr_ne _ _ _ _ (by omega)]; exact hm)
      | (rw [rd_wr_ne _ _ _ _ (by omega)]; exact t1)
  · rw [if_neg c1]; exact ⟨t1, t2⟩

theorem tail_recallEntry (s : State) (h3 : s.buf.length = 68) (ht : Tail s) :
    Tail (recallEntry s) := by
  obtain ⟨t1, t2⟩ := ht
  have hm : rd (memmove s.buf 0 s.commandsHistory (s.selectedCommand * BUF_SIZE) BUF_SIZE) 65
      = 0 := by
    rw [rd_memmove_out _ _ _ _ _ _ (by omega) (by simp only [BUF_SIZE]; omega)]; exact t1
  unfold recallEntry eraseLineEcho State.puts Tail
  dsimp only
  split_ifs <;> exact ⟨hm, t2⟩

theorem tail_escapeKey (s : State) (k : Nat) (h : Inv s) (ht : Tail s) :
    Tail (escapeKey s k) := by
  have h3 := h.2.2.1
  unfold escapeKey
  by_cases k1 : k = 0x41
  · rw [if_pos k1]; exact tail_recallEntry _ h3 ht
  rw [if_neg k1]
  by_cases k2 : k = 0x42
  · rw [if_pos k2]
    by_cases c1 : s.selectedCommand + 1 = s.savedCommands
    · rw [if_pos c1]
      unfold eraseLineEcho State.puts Tail
      dsimp only
      split <;> exact ht
    · rw [if_neg c1]
      by_cases c2 : s.selectedCommand + 1 < s.savedCommands
      · rw [if_pos c2]; exact tail_recallEntry _ h3 ht
      · rw [if_neg c2]; exact ht
  rw [if_neg k2]
  unfold State.puts Tail
  dsimp only
  split_ifs <;> exact ht

theorem wrongCommand_same (s : State) :
    SameLine s { (if s.bufPos ≠ 0 then s.print "WRONG COMMAND\r\n" else s) with command := 0 } ∧
    SameBufs s { (if s.bufPos ≠ 0 then s.print "WRONG COMMAND\r\n" else s) with command := 0 } := by
  unfold SameLine SameBufs State.print State.puts
  dsimp only
  split <;> exact ⟨⟨rfl, rfl, rfl, rfl, rfl, rfl⟩, rfl, rfl⟩

theorem tail_dispatch (pins : Pins) (s : State) (h : Inv s) (ht : Tail s) :
    Tail (dispatch pins s) := by
  unfold dispatch
  by_cases c68 : s.command = 68
  · rw [if_pos c68]; exact tail_finish _ (Inv_of_sameLine h (sameLine_handleData pins s 1 h.2.1)) (tail_handleData pins s 1 h.2.1 ht)
  rw [if_neg c68]
  by_cases c77 : s.command = 77
  · rw [if_pos c77]; exact tail_finish _ (Inv_of_sameLine h (sameLine_handleData pins s 0 h.2.1)) (tail_handleData pins s 0 h.2.1 ht)
  rw [if_neg c77]
  by_cases c67 : s.command = 67
  · rw [if_pos c67]; exact tail_finish _ (Inv_of_sameLine h (sameLine_handleC pins s h.2.1)) (tail_handleC pins s h.2.1 ht)
  rw [if_neg c67]
  by_cases c82 : s.command = 82
  · rw [if_pos c82]; exact tail_finish _ (Inv_of_sameLine h (sameLine_handleR s)) (tail_of_sameBufs ht (sameBufs_handleR s))
  rw [if_neg c82]
  by_cases c76 : s.command = 76
  · rw [if_pos c76]; exact tail_finish _ (Inv_of_sameLine h (sameLine_handleL s)) (tail_of_sameBufs ht (sameBufs_handleL s))
  rw [if_neg c76]
  by_cases c73 : s.command = 73
  · rw [if_pos c73]; exact tail_finish _ (Inv_of_sameLine h (sameLine_handleI s)) (tail_of_sameBufs ht (sameBufs_handleI s))
  rw [if_neg c73]
  by_cases c83 : s.command = 83
  · rw [if_pos c83]; exact tail_finish _ (Inv_of_sameLine h (sameLine_handleS pins s)) (tail_of_sameBufs ht (sameBufs_handleS pins s))
  rw [if_neg c83]
  by_cases c80 : s.command = 80
  · rw [if_pos c80]; exact tail_of_sameBufs ht (sameBufs_plotterEnter s)
  rw [if_neg c80]
  by_cases c88 : s.command = 88
  · rw [if_pos c88]; exact tail_finish _ (Inv_of_sameLine h (sameLine_handleX pins s)) (tail_handleX pins s ht)
  rw [if_neg c88]
  by_cases c89 : s.command = 89
  · rw [if_pos c89]; exact tail_finish _ (Inv_of_sameLine h (sameLine_handleY pins s)) (tail_handleY pins s ht)
  rw [if_neg c89]
  by_cases c90 : s.command = 90
  · rw [if_pos c90]; exact tail_finish _ (Inv_of_sameLine h (sameLine_handleZ pins s)) (tail_handleZ pins s ht)
  rw [if_neg c90]
  by_cases c63 : s.command = 63
  · rw [if_pos c63]; exact tail_finish _ (Inv_of_sameLine h (sameLine_ShowHelp s)) (tail_of_sameBufs ht (sameBufs_ShowHelp s))
  rw [if_neg c63]
  by_cases c69 : s.command = 69
  · rw [if_pos c69]; exact tail_finish _ (Inv_of_sameLine h (sameLine_handleE s)) (tail_of_sameBufs ht (sameBufs_handleE s))
  rw [if_neg c69]
  by_cases c72 : s.command = 72
  · rw [if_pos c72]; exact tail_finish _ (Inv_of_sameLine h (sameLine_handleH s)) (tail_of_sameBufs ht (sameBufs_handleH s))
  rw [if_neg c72]
  by_cases c65 : s.command = 65
  · rw [if_pos c65]; exact tail_finish _ (Inv_of_sameLine h (sameLine_handleA s)) (tail_of_sameBufs ht (sameBufs_handleA s))
  rw [if_neg c65]
  by_cases c81 : s.command = 81
  · rw [if_pos c81]; exact tail_finish _ (Inv_of_sameLine h (sameLine_handleQ s)) (tail_of_sameBufs ht (sameBufs_handleQ s))
  rw [if_neg c81]
  by_cases c84 : s.command = 84
  · rw [if_pos c84]; exact tail_finish _ (Inv_of_sameLine h (sameLine_handleT pins s)) (tail_of_sameBufs ht (sameBufs_handleT pins s))
  rw [if_neg c84]
  have hw := wrongCommand_same s
  exact tail_finish _ (Inv_of_sameLine h hw.1) (tail_of_sameBufs ht hw.2)

theorem allIn_dispatchAcc (pins : Pins) (s : State) (h : Inv s) (ht : Tail s)
    (hc : s.bufPos = 0 → s.command = 1) : AllIn (dispatchAcc pins s) := by
  have hp : ∀ {k : Nat}, s.command = k → k ≠ 1 → 1 ≤ s.bufPos := by
    intro k hk hk1
    by_cases h0 : s.bufPos = 0
    · exact absurd ((hc h0).symm.trans hk).symm hk1
    · omega
  unfold dispatchAcc
  by_cases c68 : s.command = 68
  · rw [if_pos c68]
    exact allIn_append (allIn_handleDataAcc pins s 1 (hp c68 (by decide)) h.2.1) (allIn_finishAcc _ (Inv_of_sameLine h (sameLine_handleData pins s 1 h.2.1)))
  rw [if_neg c68]
  by_cases c77 : s.command = 77
  · rw [if_pos c77]
    exact allIn_append (allIn_handleDataAcc pins s 0 (hp c77 (by decide)) h.2.1) (allIn_finishAcc _ (Inv_of_sameLine h (sameLine_handleData pins s 0 h.2.1)))
  rw [if_neg c77]
  by_cases c67 : s.command = 67
  · rw [if_pos c67]
    exact allIn_append (allIn_handleCAcc pins s (hp c67 (by decide)) h.2.1) (allIn_finishAcc _ (Inv_of_sameLine h (sameLine_handleC pins s h.2.1)))
  rw [if_neg c67]
  by_cases c82 : s.command = 82
  · rw [if_pos c82]; exact allIn_finishAcc _ (Inv_of_sameLine h (sameLine_handleR s))
  rw [if_neg c82]
  by_cases c76 : s.command = 76
  · rw [if_pos c76]; exact allIn_finishAcc _ (Inv_of_sameLine h (sameLine_handleL s))
  rw [if_neg c76]
  by_cases c73 : s.command = 73
  · rw [if_pos c73]; exact allIn_finishAcc _ (Inv_of_sameLine h (sameLine_handleI s))
  rw [if_neg c73]
  by_cases c83 : s.command = 83
  · rw [if_pos c83]; exact allIn_finishAcc _ (Inv_of_sameLine h (sameLine_handleS pins s))
  rw [if_neg c83]
  by_cases c80 : s.command = 80
  · rw [if_pos c80]; exact allIn_nil
  rw [if_neg c80]
  by_cases c88 : s.command = 88
  · rw [if_pos c88]
    exact allIn_append (allIn_handleXAcc pins s ht.2) (allIn_finishAcc _ (Inv_of_sameLine h (sameLine_handleX pins s)))
  rw [if_neg c88]
  by_cases c89 : s.command = 89
  · rw [if_pos c89]
    exact allIn_append (allIn_handleYZAcc pins s) (allIn_finishAcc _ (Inv_of_sameLine h (sameLine_handleY pins s)))
  rw [if_neg c89]
  by_cases c90 : s.command = 90
  · rw [if_pos c90]
    exact allIn_append (allIn_handleYZAcc pins s) (allIn_finishAcc _ (Inv_of_sameLine h (sameLine_handleZ pins s)))
  rw [if_neg c90]
  by_cases c63 : s.command = 63
  · rw [if_pos c63]; exact allIn_finishAcc _ (Inv_of_sameLine h (sameLine_ShowHelp s))
  rw [if_neg c63]
  by_cases c69 : s.command = 69
  · rw [if_pos c69]
    exact allIn_append (allIn_handleEQAcc s) (allIn_finishAcc _ (Inv_of_sameLine h (sameLine_handleE s)))
  rw [if_neg c69]
  by_cases c72 : s.command = 72
  · rw [if_pos c72]
    exact allIn_append (allIn_handleHAcc s h.2.2.2.2.1 h.2.2.2.2.2.2) (allIn_finishAcc _ (Inv_of_sameLine h (sameLine_handleH s)))
  rw [if_neg c72]
  by_cases c65 : s.command = 65
  · rw [if_pos c65]
    exact allIn_append (allIn_handleAAcc s h.2.2.1 ht.1) (allIn_finishAcc _ (Inv_of_sameLine h (sameLine_handleA s)))
  rw [if_neg c65]
  by_cases c81 : s.command = 81
  · rw [if_pos c81]
    exact allIn_append (allIn_handleEQAcc s) (allIn_finishAcc _ (Inv_of_sameLine h (sameLine_handleQ s)))
  rw [if_neg c81]
  by_cases c84 : s.command = 84
  · rw [if_pos c84]
    exact allIn_append (allIn_handleTAcc pins s (hp c84 (by decide)) h.2.1) (allIn_finishAcc _ (Inv_of_sameLine h (sameLine_handleT pins s)))
  rw [if_neg c84]
  exact allIn_finishAcc _ (Inv_of_sameLine h (wrongCommand_same s).1)

theorem tail_carriageReturn (pins : Pins) (s : State) (h : Inv s) (ht : Tail s) :
    Tail (carriageReturn pins s) := by
  unfold carriageReturn
  have hsl : SameLine s (if s.localEcho ≠ 0 then s.puts [13, 10] else s) := by
    split
    · exact sameLine_puts _ _
    · exact sameLine_refl s
  have hsb : SameBufs s (if s.localEcho ≠ 0 then s.puts [13, 10] else s) := by
    split
    · exact sameBufs_puts _ _
    · exact sameBufs_refl s
  generalize (if s.localEcho ≠ 0 then s.puts [13, 10] else s) = s1 at *
  dsimp only
  generalize (if s1.bufPos ≠ 0 then toupper (rd s1.buf 0) else EMPTY_LINE) = cmd
  have h2 : Inv { s1 with command := cmd } :=
    Inv_of_sameLine (Inv_of_sameLine h hsl) (by simp [SameLine])
  have t2 : Tail { s1 with command := cmd } := tail_of_sameBufs ht hsb
  split
  · exact tail_dispatch pins _ h2 t2
  · exact t2

theorem allIn_carriageReturnAcc (pins : Pins) (s : State) (h : Inv s) (ht : Tail s) :
    AllIn (carriageReturnAcc pins s) := by
  unfold carriageReturnAcc
  have hsl : SameLine s (if s.localEcho ≠ 0 then s.puts [13, 10] else s) := by
    split
    · exact sameLine_puts _ _
    · exact sameLine_refl s
  have hsb : SameBufs s (if s.localEcho ≠ 0 then s.puts [13, 10] else s) := by
    split
    · exact sameBufs_puts _ _
    · exact sameBufs_refl s
  generalize (if s.localEcho ≠ 0 then s.puts [13, 10] else s) = s1 at *
  dsimp only
  have hhd : AllIn (if s1.bufPos ≠ 0 then [cell Arr.buf 0] else []) := by
    split
    · exact allIn_cons (inBounds_cell _ _ (by rw [size_buf]; omega)) allIn_nil
    · exact allIn_nil
  have hcmd : s1.bufPos = 0 →
      (if s1.bufPos ≠ 0 then toupper (rd s1.buf 0) else EMPTY_LINE) = 1 := by
    intro h0
    rw [if_neg (by omega)]
    rfl
  generalize (if s1.bufPos ≠ 0 then toupper (rd s1.buf 0) else EMPTY_LINE) = cmd at *
  have h2 : Inv { s1 with command := cmd } :=
    Inv_of_sameLine (Inv_of_sameLine h hsl) (by simp [SameLine])
  have t2 : Tail { s1 with command := cmd } := tail_of_sameBufs ht hsb
  split
  · exact allIn_append hhd (allIn_dispatchAcc pins _ h2 t2 hcmd)
  · exact hhd

theorem tail_step (pins : Pins) (s : State) (ev : Event) (h : Inv s) (ht : Tail s) :
    Tail (step pins s ev) := by
  have hm : ∀ m, Inv { s with mode := m } := fun m =>
    Inv_of_sameLine h (by simp [SameLine])
  have tm : ∀ m, Tail { s with mode := m } := fun m => ht
  unfold step
  cases ev with
  | idle =>
    dsimp only
    split
    · exact tail_plotterPoll pins s ht
    · exact ht
  | byte c =>
    dsimp only
    split
    · split_ifs
      · exact tail_backspace s h ht
      · exact ht
      · exact tm _
      · exact tail_carriageReturn pins s h ht
      · exact tail_insertChar s c h ht
    · split_ifs
      · exact tm _
      · exact tm _
    · exact tail_escapeKey _ c (hm _) (tm _)
    · split_ifs
      · exact tail_finish _ (Inv_of_sameLine h
          (sameLine_trans (sameLine_plotterPoll pins s) (sameLine_plotterExit _)))
          (tail_of_sameBufs (tail_plotterPoll pins s ht) (sameBufs_plotterExit _))
      · exact tail_plotterPoll pins s ht

theorem tail_run (pins : Pins) (evs : List Event) :
    ∀ s : State, Inv s → Tail s → Tail (run pins s evs) := by
  induction evs with
  | nil => intro s _ h; exact h
  | cons ev evs ih =>
    intro s h ht
    exact ih _ (Inv_step pins s ev h) (tail_step pins s ev h ht)

theorem tail_init (echoPin : Bool) : Tail (init echoPin) := by
  unfold init
  refine tail_of_sameBufs ?_ (sameBufs_prompt _)
  exact ⟨rd_replicate_zero _ _, by simp only [List.length_replicate, GPIB_BUF_SIZE]⟩

theorem allIn_stepAcc (pins : Pins) (s : State) (ev : Event) (h : Inv s) (ht : Tail s) :
    AllIn (stepAcc pins s ev) := by
  have hm : ∀ m, Inv { s with mode := m } := fun m =>
    Inv_of_sameLine h (by simp [SameLine])
  unfold stepAcc
  cases ev with
  | idle =>
    dsimp only
    split
    · exact allIn_plotterPollAcc pins s
    · exact allIn_nil
  | byte c =>
    dsimp only
    split
    · split_ifs
      · exact allIn_backspaceAcc s h
      · exact allIn_nil
      · exact allIn_nil
      · exact allIn_carriageReturnAcc pins s h ht
      · exact allIn_insertCharAcc s c h
    · exact allIn_nil
    · exact allIn_escapeKeyAcc _ c (hm _)
    · refine allIn_append (allIn_plotterPollAcc pins s) ?_
      split
      · exact allIn_finishAcc _ (Inv_of_sameLine h
          (sameLine_trans (sameLine_plotterPoll pins s) (sameLine_plotterExit _)))
      · exact allIn_nil

/-- C25: buffer indices stay in bounds.  For every bus behaviour `pins`, every
echo setting and every event sequence `evs` of the serial link, each array
access `a[i]` that `main` makes while it handles the next event `ev` has
`0 ≤ i`, and `i < 68` on `buf`, `i < 68` on `msgBuf`, `i < 128` on `gpibBuf`,
`i < 960` on `commandsHistory`.  The accesses are those of `stepAcc`: the line
editor, the end-of-message append, the hex decoder, the transfers, the NUL of
the `X` handler, `atoi`, `strcmp`, the `"%s"` conversions and the history
copies; the end-of-message policy is whatever the `Q` commands in `evs` set. -/
theorem buffer_indices_in_bounds (pins : Pins) (echoPin : Bool) (evs : List Event)
    (ev : Event) (a : Arr) (i : Int)
    (h : (a, i) ∈ stepAcc pins (run pins (init echoPin) evs) ev) :
    0 ≤ i ∧ (a = Arr.buf → i < 68) ∧ (a = Arr.msgBuf → i < 68) ∧
      (a = Arr.gpibBuf → i < 128) ∧ (a = Arr.commandsHistory → i < 960) := by
  have hb := allIn_stepAcc pins (run pins (init echoPin) evs) ev
    (Inv_run pins evs _ (Inv_init echoPin))
    (tail_run pins evs _ (Inv_init echoPin) (tail_init echoPin)) (a, i) h
  unfold InBounds at hb
  dsimp only at hb
  refine ⟨hb.1, ?_, ?_, ?_, ?_⟩ <;> intro e <;> rw [e] at hb <;>
    simp only [Arr.size, BUF_SIZE, GPIB_BUF_SIZE, MAX_COMMANDS] at hb <;> omega

set_option maxRecDepth 1000000 in
/-- Witnesses for C25, the two accesses the claim singles out.  With the CR LF
policy set by `Q3`, the carriage return after a full line of 63 bytes that
starts with `D` writes `buf[64]`; with a talker that sends five bytes and marks
the last one with `EOI`, the carriage return after `X` writes the NUL at
`gpibBuf[5]`.  Both are in bounds. -/
theorem buffer_indices_in_bounds_witness :
    ((Arr.buf, (64 : Int)) ∈ stepAcc highPins (run highPins (init false) sampleFullLine)
        (Event.byte 13) ∧
      (0 ≤ (64 : Int) ∧ (Arr.buf = Arr.buf → (64 : Int) < 68) ∧
        (Arr.buf = Arr.msgBuf → (64 : Int) < 68) ∧ (Arr.buf = Arr.gpibBuf → (64 : Int) < 128) ∧
        (Arr.buf = Arr.commandsHistory → (64 : Int) < 960))) ∧
    ((Arr.gpibBuf, (5 : Int)) ∈ stepAcc streamPins (run streamPins (init false) (typed "X"))
        (Event.byte 13) ∧
      (0 ≤ (5 : Int) ∧ (Arr.gpibBuf = Arr.buf → (5 : Int) < 68) ∧
        (Arr.gpibBuf = Arr.msgBuf → (5 : Int) < 68) ∧
        (Arr.gpibBuf = Arr.gpibBuf → (5 : Int) < 128) ∧
        (Arr.gpibBuf = Arr.commandsHistory → (5 : Int) < 960))) :=
  ⟨⟨by decide, buffer_indices_in_bounds highPins false sampleFullLine (Event.byte 13) Arr.buf 64
      (by decide)⟩,
    ⟨by decide, buffer_indices_in_bounds streamPins false (typed "X") (Event.byte 13) Arr.gpibBuf 5
      (by decide)⟩⟩

end Gpib
